import Mathlib

/-!
# Qbs rule application engine

A shallow embedding of `src/lib/corelib/buildgraph/rulesapplicator.cpp` and of the parts of
`src/lib/corelib/language/language.cpp` it relies on.

* Heap objects (`Artifact`, `Transformer`) live in stores indexed by their address; a pointer is
  an index into the store.
* Every function that can throw returns its result together with the state reached at the point
  of the throw, because a C++ exception leaves the mutations made so far in place.
* The script engine, the hash function and the graph-removal helper are collaborators that are
  not part of these sources; they are fields of `ScriptHost`.
-/

namespace Qbs

/-! ## Sets (`Set<T>`): duplicate-free lists, compared extensionally -/

/-- The call `Set::insert` (also `operator+=` and `operator<<` with one element). -/
def setInsert {α : Type} [DecidableEq α] (s : List α) (x : α) : List α :=
  if x ∈ s then s else s ++ [x]

/-- The call `Set::unite` (also `operator+=` with a set). -/
def setUnite {α : Type} [DecidableEq α] (a b : List α) : List α :=
  b.foldl setInsert a

/-- The difference `operator-` of two sets. -/
def setMinus {α : Type} [DecidableEq α] (a b : List α) : List α :=
  a.filter (fun x => decide (x ∉ b))

/-- The test `Set::intersects`. -/
def setIntersects {α : Type} [DecidableEq α] (a b : List α) : Bool :=
  a.any (fun x => decide (x ∈ b))

/-- Equality of two sets (`operator==`): the same members. -/
def setEq {α : Type} [DecidableEq α] (a b : List α) : Bool :=
  a.all (fun x => decide (x ∈ b)) && b.all (fun x => decide (x ∈ a))

/-- The conversion `Set::fromList`. -/
def setFromList {α : Type} [DecidableEq α] (l : List α) : List α :=
  l.foldl setInsert []

abbrev FileTag := String
abbrev FileTags := List FileTag
abbrev ArtifactPtr := Nat
abbrev TransformerPtr := Nat
abbrev ArtifactSet := List ArtifactPtr

/-! ## Strings and paths -/

/-- The call `QStringList::join`. -/
def joinStrings (sep : String) : List String → String
  | [] => ""
  | [x] => x
  | x :: y :: rest => x ++ sep ++ joinStrings sep (y :: rest)

/-- The call `outputPath.replace(StringConstants::dotDot(), QStringLiteral("dotdot"))` on the
characters of the path: every occurrence of two consecutive dots, scanning from the left and
continuing after each replacement, becomes `dotdot`. -/
def replaceDotDotChars : List Char → List Char
  | [] => []
  | [c] => [c]
  | c :: d :: rest =>
    if c = '.' ∧ d = '.' then
      'd' :: 'o' :: 't' :: 'd' :: 'o' :: 't' :: replaceDotDotChars rest
    else c :: replaceDotDotChars (d :: rest)

/-- See `replaceDotDotChars`. -/
def replaceDotDot (path : String) : String :=
  String.mk (replaceDotDotChars path.data)

/-- Whether two consecutive dots occur in the characters. -/
def hasDotDot : List Char → Bool
  | [] => false
  | [_] => false
  | c :: d :: rest => (decide (c = '.') && decide (d = '.')) || hasDotDot (d :: rest)

/-- The pieces of a path between its `/` separators (empty pieces included). -/
def splitSlash : List Char → List (List Char)
  | [] => [[]]
  | c :: cs =>
    if c = '/' then [] :: splitSlash cs
    else
      match splitSlash cs with
      | [] => [[c]]
      | h :: t => (c :: h) :: t

/-- The pieces joined again with `/`. -/
def joinSlash : List (List Char) → List Char
  | [] => []
  | [x] => x
  | x :: y :: rest => x ++ '/' :: joinSlash (y :: rest)

/-- The named components of a path: its non-empty pieces. -/
def pathComponents (path : String) : List (List Char) :=
  (splitSlash path.data).filter (fun c => decide (c ≠ []))

/-- Whether the path is absolute (`FileInfo::isAbsolute` on a Unix host). -/
def isAbsolute (path : String) : Bool :=
  path.data.head? = some '/'

/-- Modelled from the spec: `FileInfo::resolvePath(base, rel)` (tools/fileinfo.cpp is not among
the sources). The spec names it `resolve_path(base, rel)` and says artifact paths are always
absolute; `createOutputArtifact` resolves an already resolved path a second time, so an absolute
`rel` is its own resolution, and a relative one is appended to `base`. -/
def resolvePath (base rel : String) : String :=
  if isAbsolute rel then rel else String.mk (base.data ++ '/' :: rel.data)

/-- One step of `cleanPath`: `.` and empty pieces vanish, `..` removes the component before it
(where there is none, it vanishes in an absolute path and stays in a relative one). -/
def cleanStep (absolute : Bool) (stack : List (List Char)) (piece : List Char) :
    List (List Char) :=
  if piece = [] ∨ piece = ['.'] then stack
  else if piece = ['.', '.'] then
    match stack.getLast? with
    | none => if absolute then stack else stack ++ [piece]
    | some top => if top = ['.', '.'] then stack ++ [piece] else stack.dropLast
  else stack ++ [piece]

/-- Modelled from the spec: `QDir::cleanPath` (the spec's `clean_path`, "canonicalize"), as
the Qt library documents it: redundant separators and `.` removed, `..` resolved as far as
possible, no trailing separator. -/
def cleanPathChars (path : List Char) : List Char :=
  let absolute : Bool := path.head? = some '/'
  let kept := (splitSlash path).foldl (cleanStep absolute) []
  if absolute then '/' :: joinSlash kept
  else if kept = [] then (if path = [] then [] else ['.'])
  else joinSlash kept

/-- See `cleanPathChars`. -/
def cleanPath (path : String) : String :=
  String.mk (cleanPathChars path.data)

/-- The call `Artifact::fileName()`: what follows the last `/` of the file path. -/
def fileName (filePath : String) : String :=
  String.mk ((splitSlash filePath.data).getLastD [])

/-- Whether `path` is `dir` itself or lies below it. -/
def isInsideDirectory (dir path : String) : Prop :=
  pathComponents dir <+: pathComponents path

/-- Character-wise "less or equal" of two strings (the order `QStringList::sort` uses). -/
def charsLe : List Char → List Char → Bool
  | [], _ => true
  | _ :: _, [] => false
  | a :: as, b :: bs => if a.val < b.val then true else if b.val < a.val then false else charsLe as bs

/-- Insertion of a string into a sorted list. -/
def insertSorted (x : String) : List String → List String
  | [] => [x]
  | y :: ys => if charsLe x.data y.data then x :: y :: ys else y :: insertSorted x ys

/-- The call `QStringList::sort`. -/
def sortStrings (l : List String) : List String :=
  l.foldr insertSorted []

/-! ## Values -/

/-- A `QVariant`, as far as the engine looks at one. -/
inductive QVariant where
  | invalid
  | bool (b : Bool)
  | int (n : Int)
  | string (s : String)
  | list (items : List QVariant)
  | map (entries : List (String × QVariant))

abbrev QVariantMap := List (String × QVariant)

/-- The conversion `QVariant::toBool`. -/
def QVariant.toBool : QVariant → Bool
  | .bool b => b
  | .int n => n ≠ 0
  | .string s => !(s = "" ∨ s = "0" ∨ s = "false")
  | _ => false

/-- The conversion `QVariant::toString`. -/
def QVariant.toQString : QVariant → String
  | .bool b => if b then "true" else "false"
  | .int n => toString n
  | .string s => s
  | _ => ""

/-- The conversion `QVariant::toStringList`. -/
def QVariant.toStringList : QVariant → List String
  | .string s => [s]
  | .list items => items.map QVariant.toQString
  | _ => []

/-- The conversion `QVariant::toMap`. -/
def QVariant.toMap : QVariant → QVariantMap
  | .map entries => entries
  | _ => []

/-- The lookup `QVariantMap::value(key)`: an invalid variant when the key is absent. -/
def mapValue (m : QVariantMap) (key : String) : QVariant :=
  match m.find? (fun e => e.1 = key) with
  | some e => e.2
  | none => .invalid

/-- The call `QVariantMap::insert(key, value)`: replaces the value of an existing key. -/
def mapInsert (m : QVariantMap) (key : String) (v : QVariant) : QVariantMap :=
  if m.any (fun e => e.1 = key) then m.map (fun e => if e.1 = key then (key, v) else e)
  else m ++ [(key, v)]

/-- Modelled from the spec: `setConfigProperty(cfg, name, value)` (tools/scripttools is not among
the sources): the value is assigned "under the binding's dotted name", one nested map per
name part. -/
def setConfigProperty (cfg : QVariantMap) : List String → QVariant → QVariantMap
  | [], _ => cfg
  | [name], v => mapInsert cfg name v
  | name :: more :: rest, v =>
    mapInsert cfg name (.map (setConfigProperty (mapValue cfg name).toMap (more :: rest) v))

/-- A `PropertyMapInternal`: the value it wraps. -/
structure PropertyMap where
  value : QVariantMap

/-- Modelled from the spec: `PropertyMapInternal::qbsPropertyValue(key)` (propertymapinternal.cpp
is not among the sources), the "convenience lookup" of property `key` of module `qbs`. -/
def PropertyMap.qbsPropertyValue (m : PropertyMap) (key : String) : QVariant :=
  mapValue (mapValue m.value "qbs").toMap key

/-- A `QScriptValue`, as far as the engine looks at one. -/
inductive ScriptValue where
  | invalid
  | undefined
  | bool (b : Bool)
  | number (n : Int)
  | string (s : String)
  | array (items : List ScriptValue)
  | object (props : List (String × ScriptValue))
  | error (message : String)
  | regExp (pattern : String)

/-- The test `QScriptValue::isObject`. -/
def ScriptValue.isObject : ScriptValue → Bool
  | .array _ | .object _ | .error _ | .regExp _ => true
  | _ => false

/-- The test `QScriptValue::isArray`. -/
def ScriptValue.isArray : ScriptValue → Bool
  | .array _ => true
  | _ => false

/-- The test `value.isObject() && !value.isArray() && !value.isError() && !value.isRegExp()`. -/
def ScriptValue.isPlainObject : ScriptValue → Bool
  | .object _ => true
  | _ => false

/-- The call `QScriptValue::property(name)`: an invalid value when there is no such property
(the properties looked up by name here are those of plain objects). -/
def ScriptValue.property (v : ScriptValue) (name : String) : ScriptValue :=
  match v with
  | .object props =>
    match props.find? (fun e => e.1 = name) with
    | some e => e.2
    | none => .invalid
  | _ => .invalid

mutual
/-- The conversion `QScriptValue::toVariant`. -/
def ScriptValue.toVariant : ScriptValue → QVariant
  | .invalid => .invalid
  | .undefined => .invalid
  | .bool b => .bool b
  | .number n => .int n
  | .string s => .string s
  | .array items => .list (toVariantList items)
  | .object props => .map (toVariantMap props)
  | .error message => .string message
  | .regExp pattern => .string pattern
/-- The elements of an array, converted. -/
def toVariantList : List ScriptValue → List QVariant
  | [] => []
  | v :: rest => v.toVariant :: toVariantList rest
/-- The properties of an object, converted. -/
def toVariantMap : List (String × ScriptValue) → QVariantMap
  | [] => []
  | (name, v) :: rest => (name, v.toVariant) :: toVariantMap rest
end

/-! ## Resolved model (language.cpp) -/

structure CodeLocation where
  filePath : String
  line : Int
  column : Int
deriving DecidableEq

/-- Modelled from the spec: a `ResolvedFileContext` (its class is not among the sources). A
script function points to one, and `operator==` compares the contexts of two script functions
through `equals`. -/
structure ResolvedFileContext where
  filePath : String
deriving DecidableEq

/-- A `ScriptFunction`. `fileContext = none` is a null pointer. -/
structure ScriptFunction where
  sourceCode : String
  argumentNames : List String
  location : CodeLocation
  fileContext : Option ResolvedFileContext
deriving DecidableEq

/-- The test `ScriptFunction::isValid`. -/
def ScriptFunction.isValid (f : ScriptFunction) : Bool :=
  f.location.line ≠ -1

/-- A `RuleArtifact::Binding`. -/
structure Binding where
  name : List String
  code : String
  location : CodeLocation
deriving DecidableEq

/-- A `RuleArtifact`: the template of one output of a static rule. -/
structure RuleArtifact where
  filePath : String
  fileTags : FileTags
  alwaysUpdated : Bool
  location : CodeLocation
  filePathLocation : CodeLocation
  bindings : List Binding
deriving DecidableEq

/-- A `ResolvedModule`. `name = none` is the null string, and a script that is `none` is a null
pointer. -/
structure ResolvedModule where
  name : Option String
  moduleDependencies : List String
  setupBuildEnvironmentScript : Option ScriptFunction
  setupRunEnvironmentScript : Option ScriptFunction
deriving DecidableEq

/-- A `Rule`. The field `excludedInputs` is what rulesapplicator.cpp reads; language.cpp calls it
`excludedAuxiliaryInputs`. -/
structure Rule where
  name : String
  prepareScript : ScriptFunction
  outputArtifactsScript : ScriptFunction
  module : ResolvedModule
  inputs : FileTags
  outputFileTags : FileTags
  auxiliaryInputs : FileTags
  excludedInputs : FileTags
  inputsFromDependencies : FileTags
  explicitlyDependsOn : FileTags
  explicitlyDependsOnFromDependencies : FileTags
  multiplex : Bool
  alwaysRun : Bool
  requiresInputs : Bool
  artifacts : List RuleArtifact
deriving DecidableEq

/-- The method `Rule::staticOutputFileTags`. -/
def Rule.staticOutputFileTags (r : Rule) : FileTags :=
  r.artifacts.foldl (fun result artifact => setUnite result artifact.fileTags) []

/-- The method `Rule::collectedOutputFileTags`. -/
def Rule.collectedOutputFileTags (r : Rule) : FileTags :=
  if r.outputFileTags.isEmpty then r.staticOutputFileTags else r.outputFileTags

/-- The method `Rule::toString`. -/
def Rule.toString (r : Rule) : String :=
  let outputTagsSorted := sortStrings r.collectedOutputFileTags
  let inputTagsSorted := sortStrings (setUnite r.inputs r.inputsFromDependencies)
  "[" ++ joinStrings "," outputTagsSorted ++ "][" ++ joinStrings "," inputTagsSorted ++ "]"

/-- The method `Rule::isDynamic`. -/
def Rule.isDynamic (r : Rule) : Bool :=
  r.outputArtifactsScript.isValid

/-- Modelled from the spec: `Rule::declaresInputs()`, which rulesapplicator.cpp calls and
language.cpp does not define: `declares_inputs ⇔ inputs ≠ ∅ ∨ inputs_from_dependencies ≠ ∅`.
language.cpp has this very test under the older name `Rule::requiresInputs()`. -/
def Rule.declaresInputs (r : Rule) : Bool :=
  !r.inputs.isEmpty || !r.inputsFromDependencies.isEmpty

/-- A `RuleConstPtr`: shared rules are compared by address. -/
structure RuleConstPtr where
  address : Nat
  rule : Rule
deriving DecidableEq

/-- A `FileTagger`. -/
structure FileTagger where
  patterns : List String
  fileTags : FileTags

/-- An `ArtifactProperties` entry of a product. -/
structure ArtifactProperties where
  fileTagsFilter : FileTags
  extraFileTags : FileTags
  propertyMap : PropertyMap

/-- A `SourceArtifactInternal`. -/
structure SourceArtifactInternal where
  absoluteFilePath : String
  fileTags : FileTags
  overrideFileTags : Bool
  properties : PropertyMap

/-- The class `SourceWildCards`. The member `prefix` is spelled `prefix_` here, and a time stamp
is a number. -/
structure SourceWildCards where
  prefix_ : String
  patterns : List String
  excludePatterns : List String
  dirTimeStamps : List (String × Nat)
  files : List SourceArtifactInternal

/-- A `ResolvedGroup`. `wildcards = none` is the null pointer of a group without wildcards. -/
structure ResolvedGroup where
  name : String
  enabled : Bool
  location : CodeLocation
  prefix_ : String
  files : List SourceArtifactInternal
  wildcards : Option SourceWildCards
  properties : PropertyMap
  fileTags : FileTags
  overrideTags : Bool

/-- A `ResolvedScanner`. -/
structure ResolvedScanner where
  module : ResolvedModule
  inputs : FileTags
  recursive : Bool
  searchPathsScript : Option ScriptFunction
  scanScript : Option ScriptFunction

/-- A `Probe`. -/
structure Probe where
  m_globalId : String
  m_location : CodeLocation
  m_condition : Bool
  m_configureScript : String
  m_properties : QVariantMap
  m_initialProperties : QVariantMap

/-- A `QProcessEnvironment`: variables and their values. -/
abbrev ProcessEnvironment := List (String × String)

/-- A product this product depends on: its file tags and the root artifacts of its build data. -/
structure DependencyProduct where
  fileTags : FileTags
  rootArtifacts : ArtifactSet

/-- Modelled from the spec: the `ProductBuildData` of a product (the class is not among the
sources), of which `ResolvedProject::load` reads the set `nodes`, "that product's nodes". The
node objects themselves are in the build graph. -/
structure ProductBuildData where
  nodes : List ArtifactPtr
deriving DecidableEq

/-- A `ResolvedProduct`. `address` is the address of the object, `buildDirectory` is the product
property of that name, `topLevelBuildDirectory` is `topLevelProject()->buildDirectory`, and
`dependencies` gives of each product depended on what the rule applicator reads of it. The
members after `dependencies` are those the applicator does not read: `enabled` is true in a
product as constructed, the others are empty; `buildData` is the pointer of that name, null in
a product as constructed. -/
structure ResolvedProduct where
  address : Nat
  name : String
  fileTags : FileTags
  buildDirectory : String
  topLevelBuildDirectory : String
  fileTaggers : List FileTagger
  artifactProperties : List ArtifactProperties
  moduleProperties : PropertyMap
  dependencies : List DependencyProduct
  enabled : Bool := true
  profile : String := ""
  targetName : String := ""
  sourceDirectory : String := ""
  destinationDirectory : String := ""
  missingSourceFiles : List String := []
  location : CodeLocation := ⟨"", -1, -1⟩
  productProperties : QVariantMap := []
  rules : List Rule := []
  modules : List ResolvedModule := []
  scanners : List ResolvedScanner := []
  groups : List ResolvedGroup := []
  probes : List Probe := []
  buildEnvironment : ProcessEnvironment := []
  runEnvironment : ProcessEnvironment := []
  buildData : Option ProductBuildData := none

/-! ## Build graph -/

inductive ArtifactType where
  | Unknown
  | SourceFile
  | Generated
deriving DecidableEq

/-- An `Artifact`, a node of the build graph. `timestamp = none` is a cleared timestamp. -/
structure Artifact where
  filePath : String
  fileTags : FileTags
  properties : PropertyMap
  artifactType : ArtifactType
  alwaysUpdated : Bool
  transformer : Option TransformerPtr
  parents : ArtifactSet
  children : ArtifactSet
  timestamp : Option Nat
  product : Nat
  targetOfModule : Bool

/-- A `Transformer`. `changeTrackingData` stands for the data `rescueChangeTrackingData`
carries over. -/
structure Transformer where
  rule : RuleConstPtr
  inputs : ArtifactSet
  outputs : ArtifactSet
  explicitlyDependsOn : ArtifactSet
  commands : List String
  alwaysRun : Bool
  commandsNeedChangeTracking : Bool
  changeTrackingData : Nat

/-- The build data of the top-level project: the artifact objects (a freed one is `none`), the
transformer objects, and the dirty flag. -/
structure BuildGraph where
  artifacts : List (Option Artifact)
  transformers : List Transformer
  dirty : Bool

/-- The members of a `RulesApplicator` together with the build graph it works on. -/
structure State where
  graph : BuildGraph
  m_createdArtifacts : ArtifactSet
  m_invalidatedArtifacts : ArtifactSet
  m_rule : Option RuleConstPtr
  m_completeInputSet : ArtifactSet
  m_transformer : Option TransformerPtr
  m_oldTransformer : Option TransformerPtr
  m_mocScanner : Bool

/-! ## Errors -/

structure ErrorItem where
  description : String
  codeLocation : Option CodeLocation
deriving DecidableEq

/-- An `ErrorInfo`: a list of items. -/
structure ErrorInfo where
  items : List ErrorItem
deriving DecidableEq

/-- The constructor `ErrorInfo(description, location)`. -/
def ErrorInfo.mk1 (description : String) (location : Option CodeLocation) : ErrorInfo :=
  ⟨[⟨description, location⟩]⟩

/-- The call `ErrorInfo::append`. -/
def ErrorInfo.append (e : ErrorInfo) (description : String) (location : Option CodeLocation) :
    ErrorInfo :=
  ⟨e.items ++ [⟨description, location⟩]⟩

/-- The call `ErrorInfo::prepend`. -/
def ErrorInfo.prepend (e : ErrorInfo) (description : String) (location : Option CodeLocation) :
    ErrorInfo :=
  ⟨⟨description, location⟩ :: e.items⟩

/-- What a function of the applicator can throw. -/
inductive Exception where
  | error (info : ErrorInfo)
  | ruleOutputArtifacts (info : ErrorInfo)
  | assertion (condition : String)
  | cancel
deriving DecidableEq

/-- What calling the `outputArtifacts` script of a dynamic rule gives. -/
inductive ScriptCall where
  | notAFunction
  | threw (info : ErrorInfo)
  | returned (value : ScriptValue)

/-- The collaborators that are not part of these sources. Each script evaluation is a function of
the state it runs in. -/
structure ScriptHost where
  cancelRequested : State → Bool
  evaluateFilePath : RuleArtifact → ArtifactSet → State → Except ErrorInfo String
  callOutputArtifacts : Rule → ArtifactSet → State → ScriptCall
  evaluateBinding : Binding → ArtifactPtr → State → Except (String × CodeLocation) QVariant
  createCommands : TransformerPtr → State → Except ErrorInfo (List String)
  commandsNeedRerun : TransformerPtr → State → Bool
  removeArtifactAndExclusiveDependents : ArtifactPtr → ArtifactSet → BuildGraph →
    ArtifactSet × BuildGraph
  sha1Hex : String → String
  globMatches : String → String → Bool
  artifactItemPropertyNames : List String

/-! ## Graph primitives

`lookupArtifact`, `insertArtifact` and `connect` are declared in buildgraph.h; the spec gives
their effect ("look up `product.artifact_at(path)`", "insert into the product's artifact table",
"connect every input as a child of the output"). -/

/-- The object at an address, if it is live. -/
def heapGet : List (Option Artifact) → Nat → Option Artifact
  | [], _ => none
  | a :: _, 0 => a
  | _ :: rest, n + 1 => heapGet rest n

/-- The object at an address, changed in place. -/
def heapModify : List (Option Artifact) → Nat → (Artifact → Artifact) → List (Option Artifact)
  | [], _, _ => []
  | a :: rest, 0, f => a.map f :: rest
  | a :: rest, n + 1, f => a :: heapModify rest n f

/-- The object at an address, freed (`delete artifact`). -/
def heapFree : List (Option Artifact) → Nat → List (Option Artifact)
  | [], _ => []
  | _ :: rest, 0 => none :: rest
  | a :: rest, n + 1 => a :: heapFree rest n

/-- The transformer at an address, changed in place. -/
def storeModify : List Transformer → Nat → (Transformer → Transformer) → List Transformer
  | [], _, _ => []
  | t :: rest, 0, f => f t :: rest
  | t :: rest, n + 1, f => t :: storeModify rest n f

/-- Dereferences an `Artifact *`. -/
def BuildGraph.artifact (g : BuildGraph) (p : ArtifactPtr) : Option Artifact :=
  heapGet g.artifacts p

/-- Dereferences a `TransformerPtr`. -/
def BuildGraph.transformer (g : BuildGraph) (p : TransformerPtr) : Option Transformer :=
  g.transformers[p]?

/-- Writes through an `Artifact *`. -/
def BuildGraph.modifyArtifact (g : BuildGraph) (p : ArtifactPtr) (f : Artifact → Artifact) :
    BuildGraph :=
  { g with artifacts := heapModify g.artifacts p f }

/-- Writes through a `TransformerPtr`. -/
def BuildGraph.modifyTransformer (g : BuildGraph) (p : TransformerPtr)
    (f : Transformer → Transformer) : BuildGraph :=
  { g with transformers := storeModify g.transformers p f }

/-- The search behind `lookupArtifact`: the first live artifact of the product with the file
path, counting addresses from `base`. -/
def findArtifact (productAddress : Nat) (filePath : String) :
    List (Option Artifact) → Nat → Option (ArtifactPtr × Artifact)
  | [], _ => none
  | none :: rest, base => findArtifact productAddress filePath rest (base + 1)
  | some a :: rest, base =>
    if a.product = productAddress ∧ a.filePath = filePath then some (base, a)
    else findArtifact productAddress filePath rest (base + 1)

/-- Modelled from the spec: `lookupArtifact(product, filePath)`, the artifact of the product at
that path, if any. -/
def lookupArtifact (product : ResolvedProduct) (filePath : String) (g : BuildGraph) :
    Option (ArtifactPtr × Artifact) :=
  findArtifact product.address filePath g.artifacts 0

/-- Modelled from the spec: `insertArtifact(product, artifact)`: the new object joins the
product's artifact table. Its address is the next free one. -/
def insertArtifact (product : ResolvedProduct) (a : Artifact) (g : BuildGraph) :
    ArtifactPtr × BuildGraph :=
  (g.artifacts.length, { g with artifacts := g.artifacts ++ [some { a with product := product.address }] })

/-- Modelled from the spec: `connect(p, c)`, the edge "p depends on c": `c` becomes a child of
`p` and `p` a parent of `c`. -/
def connect (p c : ArtifactPtr) (g : BuildGraph) : BuildGraph :=
  (g.modifyArtifact p (fun a => { a with children := setInsert a.children c })).modifyArtifact c
    (fun a => { a with parents := setInsert a.parents p })

/-- The state of a fresh `new Artifact` after `artifactType = Generated` and
`setFilePath(outputPath)`. -/
def newGeneratedArtifact (outputPath : String) : Artifact :=
  { filePath := outputPath, fileTags := [], properties := ⟨[]⟩, artifactType := .Generated,
    alwaysUpdated := true, transformer := none, parents := [], children := [],
    timestamp := none, product := 0, targetOfModule := false }

/-- The method `ResolvedProduct::lookupArtifactsByFileTag`: `buildData->artifactsByFileTag`
holds, for a tag, the artifacts of the product that carry it. -/
def lookupArtifactsByFileTag (product : ResolvedProduct) (tag : FileTag) (g : BuildGraph) :
    ArtifactSet :=
  (List.range g.artifacts.length).filter (fun p =>
    match g.artifact p with
    | some a => decide (a.product = product.address) && decide (tag ∈ a.fileTags)
    | none => false)

/-- The method `ResolvedProduct::targetArtifacts`, for a dependency. -/
def DependencyProduct.targetArtifacts (d : DependencyProduct) (g : BuildGraph) : ArtifactSet :=
  d.rootArtifacts.foldl (fun taSet a =>
    match g.artifact a with
    | some art => if setIntersects art.fileTags d.fileTags then setInsert taSet a else taSet
    | none => taSet) []

/-- The method `ResolvedProduct::fileTagsForFileName`. -/
def ResolvedProduct.fileTagsForFileName (host : ScriptHost) (product : ResolvedProduct)
    (name : String) : FileTags :=
  product.fileTaggers.foldl (fun result tagger =>
    if tagger.patterns.any (fun pattern => host.globMatches pattern name)
    then setUnite result tagger.fileTags else result) []

/-! ## The rule applicator (rulesapplicator.cpp) -/

/-- The flags `CurrentProduct` and `Dependencies`. -/
structure InputsSources where
  currentProduct : Bool
  dependencies : Bool

/-- The inner loop of `collectAdditionalInputs` over `product->lookupArtifactsByFileTag`. -/
def collectFromProduct (rule : Rule) (inputsSources : InputsSources) (g : BuildGraph)
    (artifacts : ArtifactSet) (candidates : ArtifactSet) : ArtifactSet :=
  candidates.foldl (fun artifacts dependency =>
    match g.artifact dependency with
    | none => artifacts
    | some d =>
      if setIntersects d.fileTags rule.excludedInputs then artifacts
      else if (inputsSources.currentProduct && !d.targetOfModule)
          || (inputsSources.dependencies && d.targetOfModule) then setInsert artifacts dependency
      else artifacts) artifacts

/-- The inner loop of `collectAdditionalInputs` over the target artifacts of one dependency. -/
def collectFromDependency (rule : Rule) (fileTag : FileTag) (g : BuildGraph)
    (artifacts : ArtifactSet) (depProduct : DependencyProduct) : ArtifactSet :=
  (depProduct.targetArtifacts g).foldl (fun artifacts ta =>
    match g.artifact ta with
    | none => artifacts
    | some t =>
      if decide (fileTag ∈ t.fileTags) && !setIntersects t.fileTags rule.excludedInputs
      then setInsert artifacts ta else artifacts) artifacts

/-- The function `RulesApplicator::collectAdditionalInputs`. -/
def collectAdditionalInputs (tags : FileTags) (rule : Rule) (product : ResolvedProduct)
    (inputsSources : InputsSources) (g : BuildGraph) : ArtifactSet :=
  tags.foldl (fun artifacts fileTag =>
    let artifacts := collectFromProduct rule inputsSources g artifacts
      (lookupArtifactsByFileTag product fileTag g)
    if inputsSources.dependencies then
      product.dependencies.foldl (collectFromDependency rule fileTag g) artifacts
    else artifacts) []

/-- The function `RulesApplicator::collectAuxiliaryInputs`. -/
def collectAuxiliaryInputs (rule : Rule) (product : ResolvedProduct) (g : BuildGraph) :
    ArtifactSet :=
  collectAdditionalInputs rule.auxiliaryInputs rule product ⟨true, true⟩ g

/-- The function `RulesApplicator::collectExplicitlyDependsOn`. -/
def collectExplicitlyDependsOn (rule : Rule) (product : ResolvedProduct) (g : BuildGraph) :
    ArtifactSet :=
  let first := collectAdditionalInputs rule.explicitlyDependsOn rule product ⟨true, false⟩ g
  let second := collectAdditionalInputs rule.explicitlyDependsOnFromDependencies rule product
    ⟨false, true⟩ g
  setUnite first second

/-- The loop over `a->parentArtifacts()` in `collectOldOutputArtifacts`. -/
def collectOldOutputsOf (rule : RuleConstPtr) (g : BuildGraph) (a : ArtifactPtr) :
    List ArtifactPtr → ArtifactSet → Except Exception ArtifactSet
  | [], result => .ok result
  | p :: rest, result =>
    match (g.artifact p).bind (fun art => art.transformer.bind g.transformer) with
    | none => .error (.assertion "p->transformer")
    | some t =>
      if t.rule.address = rule.address ∧ a ∈ t.inputs
      then collectOldOutputsOf rule g a rest (setInsert result p)
      else collectOldOutputsOf rule g a rest result

/-- The function `RulesApplicator::collectOldOutputArtifacts`. -/
def collectOldOutputArtifacts (rule : RuleConstPtr) (g : BuildGraph) :
    List ArtifactPtr → ArtifactSet → Except Exception ArtifactSet
  | [], result => .ok result
  | a :: rest, result =>
    match collectOldOutputsOf rule g a (((g.artifact a).map (·.parents)).getD []) result with
    | .error e => .error e
    | .ok result => collectOldOutputArtifacts rule g rest result

/-- The second loop of `handleRemovedRuleOutputs`: each removed artifact is checked against the
inputs and freed. -/
def deleteRemovedArtifacts (inputArtifacts : ArtifactSet) :
    List ArtifactPtr → BuildGraph → Except Exception Unit × BuildGraph
  | [], g => (.ok (), g)
  | artifact :: rest, g =>
    if artifact ∈ inputArtifacts then
      (.error (.assertion "!inputArtifacts.contains(artifact)"), g)
    else deleteRemovedArtifacts inputArtifacts rest { g with artifacts := heapFree g.artifacts artifact }

/-- The function `RulesApplicator::handleRemovedRuleOutputs`. The removal of directories left
empty on disk has no counterpart here. -/
def handleRemovedRuleOutputs (host : ScriptHost) (inputArtifacts : ArtifactSet)
    (outputArtifactsToRemove : ArtifactSet) (g : BuildGraph) : Except Exception Unit × BuildGraph :=
  let r := outputArtifactsToRemove.foldl (fun (acc : ArtifactSet × BuildGraph) removedArtifact =>
    host.removeArtifactAndExclusiveDependents removedArtifact acc.1 acc.2) ([], g)
  deleteRemovedArtifacts inputArtifacts r.1 r.2

/-- The text `file:line:column` of a location. -/
def locationText (l : CodeLocation) : String :=
  l.filePath ++ ":" ++ toString l.line ++ ":" ++ toString l.column

/-- The error of `createOutputArtifact` for an artifact that another rule already produces. -/
def conflictingRulesError (rule other : RuleConstPtr) (outputArtifact : Artifact) : ErrorInfo :=
  let tags := joinStrings ", " outputArtifact.fileTags
  let str := "[" ++ joinStrings ", " rule.rule.inputs ++ "] -> [" ++ tags ++ "]"
  ErrorInfo.mk1
    ("Conflicting rules for producing " ++ outputArtifact.filePath ++ " [" ++ tags ++ "] \n"
      ++ "  while trying to apply:   " ++ locationText rule.rule.prepareScript.location
      ++ "  " ++ str ++ "\n"
      ++ "  was already defined in:  " ++ locationText other.rule.prepareScript.location
      ++ "  " ++ str ++ "\n")
    none

/-- The file path of an artifact, for a message. -/
def filePathOf (g : BuildGraph) (p : ArtifactPtr) : String :=
  ((g.artifact p).map (·.filePath)).getD ""

/-- The error of `createOutputArtifact` for a non-multiplex rule that reaches one output from
two inputs. -/
def conflictingInstancesError (rule : RuleConstPtr) (outputArtifact : Artifact)
    (oldInput newInput : String) : ErrorInfo :=
  (ErrorInfo.mk1 ("Conflicting instances of rule '" ++ rule.rule.toString ++ "':")
    (some rule.rule.prepareScript.location)).append
    ("Output artifact '" ++ outputArtifact.filePath ++ "' is to be produced from input "
      ++ "artifacts '" ++ oldInput ++ "' and '" ++ newInput
      ++ "', but the rule is not a multiplex rule.")
    none

/-- Modelled from the spec: `Transformer::rescueChangeTrackingData(other)` (transformer.cpp is
not among the sources): "rescue change-tracking data from the prior transformer onto the new
one"; nothing happens for a null `other`. -/
def rescueChangeTrackingData (t : Transformer) (other : Option Transformer) : Transformer :=
  match other with
  | none => t
  | some o => { t with changeTrackingData := o.changeTrackingData,
                       commandsNeedChangeTracking := o.commandsNeedChangeTracking }

/-- The function `RulesApplicator::resolveOutPath`. -/
def resolveOutPath (product : ResolvedProduct) (path : String) : String :=
  cleanPath (resolvePath product.topLevelBuildDirectory path)

/-- The normalized path `createOutputArtifact` looks up: lines 386 to 389. -/
def normalizedOutputPath (product : ResolvedProduct) (filePath : String) : String :=
  resolveOutPath product (replaceDotDot filePath)

/-- Lines 444 and 445 of `createOutputArtifact`: the declared tags, or those of the file
taggers when none are declared. -/
def effectiveFileTags (host : ScriptHost) (product : ResolvedProduct) (fileTags : FileTags)
    (outputArtifact : Artifact) : FileTags :=
  if fileTags.isEmpty then product.fileTagsForFileName host (fileName outputArtifact.filePath)
  else fileTags

/-- The loop of lines 446 to 452, left at the first entry whose filter intersects the tags. -/
def matchingArtifactProperties (product : ResolvedProduct) (tags : FileTags) :
    Option ArtifactProperties :=
  product.artifactProperties.find? (fun props => setIntersects tags props.fileTagsFilter)

/-- Lines 441 to 457 of `createOutputArtifact`, on the output artifact. -/
def setOutputProperties (host : ScriptHost) (product : ResolvedProduct) (fileTags : FileTags)
    (alwaysUpdated : Bool) (outputArtifact : Artifact) : Artifact :=
  let outputArtifactFileTags := effectiveFileTags host product fileTags outputArtifact
  let a : Artifact :=
    match matchingArtifactProperties product outputArtifactFileTags with
    | some props =>
      { outputArtifact with
        alwaysUpdated := alwaysUpdated, properties := props.propertyMap,
        fileTags := setUnite outputArtifactFileTags props.extraFileTags }
    | none =>
      { outputArtifact with
        alwaysUpdated := alwaysUpdated, properties := product.moduleProperties,
        fileTags := outputArtifactFileTags }
  if (a.properties.qbsPropertyValue "install").toBool
  then { a with fileTags := setInsert a.fileTags "installable" } else a

/-- The loop of lines 459 to 462: every input becomes a child of the output. -/
def connectInputs (outputArtifact : ArtifactPtr) :
    List ArtifactPtr → BuildGraph → Except Exception Unit × BuildGraph
  | [], g => (.ok (), g)
  | inputArtifact :: rest, g =>
    if outputArtifact = inputArtifact then
      (.error (.assertion "outputArtifact != inputArtifact"), g)
    else connectInputs outputArtifact rest (connect outputArtifact inputArtifact g)

/-- Lines 391 to 439 of `createOutputArtifact`: the artifact at the output path is found (and
checked against the rule being applied) or created. -/
def lookupOrCreateOutput (product : ResolvedProduct) (rule : RuleConstPtr)
    (m_transformer : TransformerPtr) (outputPath : String) (inputArtifacts : ArtifactSet)
    (s : State) : Except Exception ArtifactPtr × State :=
  match lookupArtifact product outputPath s.graph with
  | some (outputArtifact, art) =>
    match art.transformer.bind s.graph.transformer with
    | some transformer =>
      if transformer.rule.address ≠ rule.address then
        (.error (.error (conflictingRulesError rule transformer.rule art)), s)
      else if !rule.rule.multiplex && !setEq transformer.inputs inputArtifacts then
        if inputArtifacts.length ≠ 1 then
          (.error (.assertion "inputArtifacts.size() == 1"), s)
        else if transformer.inputs.length ≠ 1 then
          (.error (.assertion "transformer->inputs.size() == 1"), s)
        else
          (.error (.error (conflictingInstancesError rule art
            (filePathOf s.graph (transformer.inputs.headD 0))
            (filePathOf s.graph (inputArtifacts.headD 0)))), s)
      else
        (.ok outputArtifact,
          { s with
            graph := s.graph.modifyTransformer m_transformer
              (fun t => rescueChangeTrackingData t (some transformer)),
            m_oldTransformer := art.transformer })
    | none => (.ok outputArtifact, { s with m_oldTransformer := art.transformer })
  | none =>
    let r := insertArtifact product (newGeneratedArtifact outputPath) s.graph
    (.ok r.1, { s with graph := r.2, m_createdArtifacts := setInsert s.m_createdArtifacts r.1 })

/-- The function `RulesApplicator::createOutputArtifact`. `rule` is `m_rule` and
`m_transformer` the transformer `doApply` has created. -/
def createOutputArtifact (host : ScriptHost) (product : ResolvedProduct) (rule : RuleConstPtr)
    (m_transformer : TransformerPtr) (filePath : String) (fileTags : FileTags)
    (alwaysUpdated : Bool) (inputArtifacts : ArtifactSet) (s : State) :
    Except Exception ArtifactPtr × State :=
  let outputPath := normalizedOutputPath product filePath
  match lookupOrCreateOutput product rule m_transformer outputPath inputArtifacts s with
  | (.error e, s) => (.error e, s)
  | (.ok outputArtifact, s) =>
    let g := s.graph.modifyArtifact outputArtifact
      (setOutputProperties host product fileTags alwaysUpdated)
    match connectInputs outputArtifact inputArtifacts g with
    | (.error e, g) => (.error e, { s with graph := g })
    | (.ok _, g) =>
      let g := g.modifyArtifact outputArtifact (fun a => { a with transformer := some m_transformer })
      let g := g.modifyTransformer m_transformer
        (fun t => { t with outputs := setInsert t.outputs outputArtifact })
      if rule.rule.multiplex
          || (((g.transformer m_transformer).map (·.inputs.length)).getD 0 == 1) then
        (.ok outputArtifact, { s with graph := g })
      else
        (.error (.assertion "m_rule->multiplex || m_transformer->inputs.size() == 1"),
          { s with graph := g })

/-- The path of the synthetic output of a rule without template artifacts. -/
def dummyOutputPath (host : ScriptHost) (rule : RuleConstPtr) (inputArtifacts : ArtifactSet)
    (g : BuildGraph) : String :=
  let hashInput := inputArtifacts.foldl (fun acc input => acc ++ filePathOf g input)
    rule.rule.toString
  "__dummyoutput__" ++ String.mk ((host.sha1Hex hashInput).data.take 16)

/-- The function `RulesApplicator::createOutputArtifactFromRuleArtifact`. It returns the
artifact and the grown set `outputFilePaths`. -/
def createOutputArtifactFromRuleArtifact (host : ScriptHost) (product : ResolvedProduct)
    (rule : RuleConstPtr) (m_transformer : TransformerPtr) (ruleArtifact : Option RuleArtifact)
    (inputArtifacts : ArtifactSet) (outputFilePaths : List String) (s : State) :
    Except Exception (ArtifactPtr × List String) × State :=
  let evaluated : Except ErrorInfo (String × FileTags × Bool) :=
    match ruleArtifact with
    | some ra =>
      match host.evaluateFilePath ra inputArtifacts s with
      | .error e => .error e
      | .ok outputPath => .ok (outputPath, ra.fileTags, ra.alwaysUpdated)
    | none => .ok (dummyOutputPath host rule inputArtifacts s.graph, rule.rule.outputFileTags, false)
  match evaluated with
  | .error e => (.error (.error e), s)
  | .ok (outputPath, fileTags, alwaysUpdated) =>
    let outputPath := resolvePath product.buildDirectory outputPath
    if outputPath ∈ outputFilePaths then
      (.error (.error (ErrorInfo.mk1
        ("Rule " ++ rule.rule.toString ++ " already created '" ++ outputPath ++ "'.") none)), s)
    else
      match createOutputArtifact host product rule m_transformer outputPath fileTags alwaysUpdated
          inputArtifacts s with
      | (.error e, s) => (.error e, s)
      | (.ok a, s) => (.ok (a, outputFilePaths ++ [outputPath]), s)

/-- An entry of `ArtifactBindingsExtractor::m_propertyValues`. -/
structure Entry where
  module : String
  name : String
  value : QVariant

mutual
/-- The body of the loop of `ArtifactBindingsExtractor::extractPropertyValues` for one property
that is not skipped. -/
def extractPropertyValue (artifactItemPropertyNames : List String) (moduleName name : String) :
    ScriptValue → List Entry
  | .object props =>
    extractPropertyValues artifactItemPropertyNames
      (if moduleName = "" then name else moduleName ++ "." ++ name) props
  | .invalid => [⟨moduleName, name, .invalid⟩]
  | .undefined => [⟨moduleName, name, .invalid⟩]
  | .bool b => [⟨moduleName, name, .bool b⟩]
  | .number n => [⟨moduleName, name, .int n⟩]
  | .string s => [⟨moduleName, name, .string s⟩]
  | .array items => [⟨moduleName, name, .list (toVariantList items)⟩]
  | .error message => [⟨moduleName, name, .string message⟩]
  | .regExp pattern => [⟨moduleName, name, .string pattern⟩]
/-- The method `ArtifactBindingsExtractor::extractPropertyValues` on the properties of an
object; `artifactItemPropertyNames` are the names skipped while the module name is empty. -/
def extractPropertyValues (artifactItemPropertyNames : List String) (moduleName : String) :
    List (String × ScriptValue) → List Entry
  | [] => []
  | (name, value) :: rest =>
    (if moduleName = "" ∧ name ∈ artifactItemPropertyNames then []
     else extractPropertyValue artifactItemPropertyNames moduleName name value)
      ++ extractPropertyValues artifactItemPropertyNames moduleName rest
end

/-- The function `ArtifactBindingsExtractor::getArtifactItemPropertyNames`: the properties the
built-in declarations give the Artifact item, and `explicitlyDependsOn`. -/
def getArtifactItemPropertyNames (host : ScriptHost) : List String :=
  setInsert host.artifactItemPropertyNames "explicitlyDependsOn"

/-- The properties a script value is iterated over: those of a plain object. -/
def ScriptValue.properties : ScriptValue → List (String × ScriptValue)
  | .object props => props
  | _ => []

/-- The method `ArtifactBindingsExtractor::apply`, on the output artifact. -/
def applyArtifactBindings (host : ScriptHost) (obj : ScriptValue) (outputArtifact : Artifact) :
    Artifact :=
  let propertyValues := extractPropertyValues (getArtifactItemPropertyNames host) "" obj.properties
  if propertyValues.isEmpty then outputArtifact
  else
    { outputArtifact with
      properties := ⟨propertyValues.foldl
        (fun artifactCfg e => setConfigProperty artifactCfg [e.module, e.name] e.value)
        outputArtifact.properties.value⟩ }

/-- The test `QVariant::isValid`. -/
def QVariant.isValid : QVariant → Bool
  | .invalid => false
  | _ => true

/-- The error of `createOutputArtifactFromScriptValue` for an output that ends up untagged. -/
def fileTagsMissingError (unresolvedFilePath : String) : ErrorInfo :=
  ErrorInfo.mk1
    ("Property fileTags for artifact '" ++ unresolvedFilePath
      ++ "' must be a non-empty string list. "
      ++ "Alternatively, a FileTagger can be provided.") none

/-- The function `RulesApplicator::createOutputArtifactFromScriptValue`. -/
def createOutputArtifactFromScriptValue (host : ScriptHost) (product : ResolvedProduct)
    (rule : RuleConstPtr) (m_transformer : TransformerPtr) (obj : ScriptValue)
    (inputArtifacts : ArtifactSet) (s : State) : Except Exception ArtifactPtr × State :=
  if !obj.isObject then
    (.error (.error (ErrorInfo.mk1
      "Elements of the Rule.outputArtifacts array must be of Object type."
      (some rule.rule.outputArtifactsScript.location))), s)
  else
    let unresolvedFilePath := (obj.property "filePath").toVariant.toQString
    if unresolvedFilePath = "" then
      (.error (.ruleOutputArtifacts
        (ErrorInfo.mk1 "Property filePath must be a non-empty string." none)), s)
    else
      let filePath := resolvePath product.buildDirectory unresolvedFilePath
      let fileTags : FileTags := setFromList (obj.property "fileTags").toVariant.toStringList
      let alwaysUpdatedVar := (obj.property "alwaysUpdated").toVariant
      let alwaysUpdated := if alwaysUpdatedVar.isValid then alwaysUpdatedVar.toBool else true
      match createOutputArtifact host product rule m_transformer filePath fileTags alwaysUpdated
          inputArtifacts s with
      | (.error e, s) => (.error e, s)
      | (.ok output, s) =>
        if (((s.graph.artifact output).map (·.fileTags)).getD []).isEmpty then
          (.error (.ruleOutputArtifacts (fileTagsMissingError unresolvedFilePath)), s)
        else
          let explicitlyDependsOn : FileTags :=
            setFromList (obj.property "explicitlyDependsOn").toVariant.toStringList
          let g := explicitlyDependsOn.foldl (fun g tag =>
            (lookupArtifactsByFileTag product tag g).foldl
              (fun g dependency => connect output dependency g) g) s.graph
          let g := g.modifyArtifact output (applyArtifactBindings host obj)
          (.ok output, { s with graph := g })

/-- The loop of `runOutputArtifactsScript` over the elements of the returned array. -/
def createOutputArtifactsFromScriptValues (host : ScriptHost) (product : ResolvedProduct)
    (rule : RuleConstPtr) (m_transformer : TransformerPtr) (inputArtifacts : ArtifactSet) :
    List ScriptValue → Nat → List ArtifactPtr → State →
      Except Exception (List ArtifactPtr) × State
  | [], _, lst, s => (.ok lst, s)
  | obj :: rest, i, lst, s =>
    match createOutputArtifactFromScriptValue host product rule m_transformer obj
        inputArtifacts s with
    | (.ok a, s) =>
      createOutputArtifactsFromScriptValues host product rule m_transformer inputArtifacts rest
        (i + 1) (lst ++ [a]) s
    | (.error (.ruleOutputArtifacts roae), s) =>
      (.error (.error (roae.prepend ("Error in Rule.outputArtifacts[" ++ toString i ++ "]")
        (some rule.rule.outputArtifactsScript.location))), s)
    | (.error e, s) => (.error e, s)

/-- The function `RulesApplicator::runOutputArtifactsScript`. -/
def runOutputArtifactsScript (host : ScriptHost) (product : ResolvedProduct)
    (rule : RuleConstPtr) (m_transformer : TransformerPtr) (inputArtifacts : ArtifactSet)
    (s : State) : Except Exception (List ArtifactPtr) × State :=
  match host.callOutputArtifacts rule.rule inputArtifacts s with
  | .notAFunction =>
    (.error (.error (ErrorInfo.mk1 "Function expected."
      (some rule.rule.outputArtifactsScript.location))), s)
  | .threw e => (.error (.error e), s)
  | .returned (.array items) =>
    createOutputArtifactsFromScriptValues host product rule m_transformer inputArtifacts items 0 []
      s
  | .returned _ =>
    (.error (.error (ErrorInfo.mk1 "Rule.outputArtifacts must return an array of objects."
      (some rule.rule.outputArtifactsScript.location))), s)

/-- The loop of `doApply` over `m_rule->artifacts`: the outputs of a static rule, with the pairs
of template and artifact. -/
def createOutputArtifactsFromRuleArtifacts (host : ScriptHost) (product : ResolvedProduct)
    (rule : RuleConstPtr) (m_transformer : TransformerPtr) (inputArtifacts : ArtifactSet) :
    List RuleArtifact → List String → List (RuleArtifact × ArtifactPtr) → State →
      Except Exception (List (RuleArtifact × ArtifactPtr)) × State
  | [], _, ruleArtifactArtifactMap, s => (.ok ruleArtifactArtifactMap, s)
  | ruleArtifact :: rest, outputFilePaths, ruleArtifactArtifactMap, s =>
    match createOutputArtifactFromRuleArtifact host product rule m_transformer (some ruleArtifact)
        inputArtifacts outputFilePaths s with
    | (.error e, s) => (.error e, s)
    | (.ok (outputArtifact, outputFilePaths), s) =>
      createOutputArtifactsFromRuleArtifacts host product rule m_transformer inputArtifacts rest
        outputFilePaths (ruleArtifactArtifactMap ++ [(ruleArtifact, outputArtifact)]) s

/-- The output derivation of `doApply` (lines 200 to 218): the output list and the pairs of
template and artifact. -/
def createOutputs (host : ScriptHost) (product : ResolvedProduct) (rule : RuleConstPtr)
    (m_transformer : TransformerPtr) (inputArtifacts : ArtifactSet) (s : State) :
    Except Exception (List ArtifactPtr × List (RuleArtifact × ArtifactPtr)) × State :=
  if rule.rule.isDynamic then
    match runOutputArtifactsScript host product rule m_transformer inputArtifacts s with
    | (.error e, s) => (.error e, s)
    | (.ok outputArtifacts, s) => (.ok (outputArtifacts, []), s)
  else
    match createOutputArtifactsFromRuleArtifacts host product rule m_transformer inputArtifacts
        rule.rule.artifacts [] [] s with
    | (.error e, s) => (.error e, s)
    | (.ok ruleArtifactArtifactMap, s) =>
      if rule.rule.artifacts.isEmpty then
        match createOutputArtifactFromRuleArtifact host product rule m_transformer none
            inputArtifacts [] s with
        | (.error e, s) => (.error e, s)
        | (.ok (outputArtifact, _), s) => (.ok ([outputArtifact], ruleArtifactArtifactMap), s)
      else (.ok (ruleArtifactArtifactMap.map (·.2), ruleArtifactArtifactMap), s)

/-- The loop over the bindings of one template artifact (lines 255 to 264). -/
def evaluateBindings (host : ScriptHost) (outputArtifact : ArtifactPtr) (s : State) :
    List Binding → QVariantMap → Except Exception QVariantMap
  | [], artifactModulesCfg => .ok artifactModulesCfg
  | binding :: rest, artifactModulesCfg =>
    match host.evaluateBinding binding outputArtifact s with
    | .error (message, location) =>
      .error (.error (ErrorInfo.mk1
        ("evaluating rule binding '" ++ joinStrings "." binding.name ++ "': " ++ message)
        (some location)))
    | .ok value =>
      evaluateBindings host outputArtifact s rest
        (setConfigProperty artifactModulesCfg binding.name value)

/-- The loop of lines 239 to 266, over the pairs in the order given (`doApply` gives them
reversed). -/
def evaluateArtifactBindings (host : ScriptHost) :
    List (RuleArtifact × ArtifactPtr) → State → Except Exception Unit × State
  | [], s => (.ok (), s)
  | (ra, outputArtifact) :: rest, s =>
    if ra.bindings.isEmpty then evaluateArtifactBindings host rest s
    else
      match evaluateBindings host outputArtifact s ra.bindings
          (((s.graph.artifact outputArtifact).map (·.properties.value)).getD []) with
      | .error e => (.error e, s)
      | .ok artifactModulesCfg =>
        evaluateArtifactBindings host rest
          { s with
            graph := s.graph.modifyArtifact outputArtifact
              (fun a => { a with properties := ⟨artifactModulesCfg⟩ }) }

/-- The test of lines 276 to 281: whether the outputs are to be invalidated. -/
def outputsNeedInvalidation (host : ScriptHost) (m_transformer : TransformerPtr) (s : State) :
    Bool :=
  match s.m_oldTransformer.bind s.graph.transformer, s.graph.transformer m_transformer with
  | some old, some t =>
    !setEq old.outputs t.outputs || !setEq old.inputs t.inputs
      || !setEq old.explicitlyDependsOn t.explicitlyDependsOn
      || decide (old.commands ≠ t.commands)
      || host.commandsNeedRerun m_transformer s
  | _, _ => true

/-- The loop of lines 282 to 285: every output loses its timestamp and is recorded as
invalidated. -/
def invalidateOutputs (outputArtifacts : List ArtifactPtr) (s : State) : State :=
  outputArtifacts.foldl (fun s output =>
    { s with
      graph := s.graph.modifyArtifact output (fun a => { a with timestamp := none }),
      m_invalidatedArtifacts := setInsert s.m_invalidatedArtifacts output }) s

/-- Lines 183 to 188 of `doApply`: the transformer of the rule instance is created, at the next
free address, and becomes `m_transformer`. -/
def createTransformer (product : ResolvedProduct) (rule : RuleConstPtr)
    (inputArtifacts : ArtifactSet) (s : State) : State :=
  { s with
    graph :=
      { s.graph with
        transformers := s.graph.transformers ++
          [{ rule := rule, inputs := inputArtifacts, outputs := [],
             explicitlyDependsOn := collectExplicitlyDependsOn rule.rule product s.graph,
             commands := [], alwaysRun := rule.rule.alwaysRun,
             commandsNeedChangeTracking := false, changeTrackingData := 0 }] },
    m_transformer := some s.graph.transformers.length, m_oldTransformer := none }

/-- The function `RulesApplicator::doApply`. `rule` is `m_rule`. What the function does to the
script engine alone (the variables it exposes, the global object it swaps, `setupInputs`,
`setupOutputs`) has no counterpart here: the evaluations are functions of the state. -/
def doApply (host : ScriptHost) (product : ResolvedProduct) (rule : RuleConstPtr)
    (inputArtifacts : ArtifactSet) (s : State) : Except Exception Unit × State :=
  if host.cancelRequested s then (.error .cancel, s)
  else
    let m_transformer : TransformerPtr := s.graph.transformers.length
    let s : State := createTransformer product rule inputArtifacts s
    match createOutputs host product rule m_transformer inputArtifacts s with
    | (.error e, s) => (.error e, s)
    | (.ok (outputArtifacts, ruleArtifactArtifactMap), s) =>
      let newOutputs := setFromList outputArtifacts
      match collectOldOutputArtifacts rule s.graph inputArtifacts [] with
      | .error e => (.error e, s)
      | .ok oldOutputs =>
        match handleRemovedRuleOutputs host s.m_completeInputSet (setMinus oldOutputs newOutputs)
            s.graph with
        | (.error e, g) => (.error e, { s with graph := g })
        | (.ok _, g) =>
          let s : State := { s with graph := g }
          if outputArtifacts.isEmpty then (.ok (), s)
          else
            let explicitlyDependsOn :=
              ((s.graph.transformer m_transformer).map (·.explicitlyDependsOn)).getD []
            let s : State :=
              { s with
                graph := outputArtifacts.foldl (fun g outputArtifact =>
                  explicitlyDependsOn.foldl (fun g dependency =>
                    connect outputArtifact dependency g) g) s.graph }
            match evaluateArtifactBindings host ruleArtifactArtifactMap.reverse s with
            | (.error e, s) => (.error e, s)
            | (.ok _, s) =>
              match host.createCommands m_transformer s with
              | .error e => (.error (.error e), s)
              | .ok commands =>
                let s : State :=
                  { s with
                    graph := s.graph.modifyTransformer m_transformer
                      (fun t => { t with commands := commands }) }
                if commands.isEmpty then
                  (.error (.error (ErrorInfo.mk1
                    ("There is a rule without commands: " ++ rule.rule.toString ++ ".")
                    (some rule.rule.prepareScript.location))), s)
                else
                  let s : State :=
                    if outputsNeedInvalidation host m_transformer s
                    then invalidateOutputs outputArtifacts s else s
                  (.ok (),
                    { s with
                      graph := s.graph.modifyTransformer m_transformer
                        (fun t => { t with commandsNeedChangeTracking := false }) })

/-- The loop of `applyRule` for a rule that is not a multiplex rule: one `doApply` per input. -/
def applyToEachInput (host : ScriptHost) (product : ResolvedProduct) (rule : RuleConstPtr) :
    List ArtifactPtr → State → Except Exception Unit × State
  | [], s => (.ok (), s)
  | inputArtifact :: rest, s =>
    match doApply host product rule (setInsert [] inputArtifact) s with
    | (.error e, s) => (.error e, s)
    | (.ok _, s) => applyToEachInput host product rule rest s

/-- Lines 101 to 107 of `applyRule`: the build data is marked dirty, the scratch sets are reset,
and the rule and the complete input set are recorded. -/
def beginApplyRule (rule : RuleConstPtr) (inputArtifacts : ArtifactSet) (s : State) : State :=
  { s with
    graph := { s.graph with dirty := true },
    m_createdArtifacts := [], m_invalidatedArtifacts := [],
    m_rule := some rule, m_completeInputSet := inputArtifacts,
    m_mocScanner := if rule.rule.name = "QtCoreMocRule" then true else s.m_mocScanner }

/-- The function `RulesApplicator::applyRule`. -/
def applyRule (host : ScriptHost) (product : ResolvedProduct) (rule : RuleConstPtr)
    (inputArtifacts : ArtifactSet) (s : State) : Except Exception Unit × State :=
  if inputArtifacts.isEmpty && rule.rule.declaresInputs && rule.rule.requiresInputs then
    (.ok (), s)
  else
    let s : State := beginApplyRule rule inputArtifacts s
    if rule.rule.multiplex then doApply host product rule inputArtifacts s
    else applyToEachInput host product rule inputArtifacts s


/-! ## Comparison of resolved entities (language.cpp) -/

/-- The template `equals(v1, v2)` on two pointers, `none` being the null pointer: two null
pointers, or two pointers to values that `operator==` finds equal. (Two equal pointers point to
one value.) -/
def equals {α : Type} (operatorEq : α → α → Bool) : Option α → Option α → Bool
  | none, none => true
  | some a, some b => operatorEq a b
  | _, _ => false

mutual
/-- The comparison `operator==` of two `QVariant`s of the same kind. -/
def QVariant.operatorEq : QVariant → QVariant → Bool
  | .invalid, .invalid => true
  | .bool a, .bool b => a == b
  | .int a, .int b => a == b
  | .string a, .string b => a == b
  | .list a, .list b => variantListEq a b
  | .map a, .map b => variantMapEq a b
  | _, _ => false
/-- The comparison of two variant lists. -/
def variantListEq : List QVariant → List QVariant → Bool
  | [], [] => true
  | a :: as, b :: bs => a.operatorEq b && variantListEq as bs
  | _, _ => false
/-- The comparison of two variant maps. -/
def variantMapEq : List (String × QVariant) → List (String × QVariant) → Bool
  | [], [] => true
  | (k, a) :: as, (l, b) :: bs => k == l && a.operatorEq b && variantMapEq as bs
  | _, _ => false
end

/-- The comparison `operator==` of two property maps: that of their values. -/
def PropertyMap.operatorEq (a b : PropertyMap) : Bool :=
  variantMapEq a.value b.value

/-- The comparison `operator==(const ScriptFunction &, const ScriptFunction &)`. -/
def ScriptFunction.operatorEq (a b : ScriptFunction) : Bool :=
  a.sourceCode == b.sourceCode
    && a.location == b.location
    && a.argumentNames == b.argumentNames
    && equals (fun c d => c == d) a.fileContext b.fileContext

/-- The text of a module name: the null string compares as the empty one. -/
def ResolvedModule.nameText (m : ResolvedModule) : String :=
  m.name.getD ""

/-- The comparison `operator==(const ResolvedModule &, const ResolvedModule &)`. -/
def ResolvedModule.operatorEq (m1 m2 : ResolvedModule) : Bool :=
  m1.nameText == m2.nameText
    && setEq m1.moduleDependencies m2.moduleDependencies
    && equals ScriptFunction.operatorEq m1.setupBuildEnvironmentScript
        m2.setupBuildEnvironmentScript
    && equals ScriptFunction.operatorEq m1.setupRunEnvironmentScript m2.setupRunEnvironmentScript

/-- The comparison `operator==(const RuleArtifact::Binding &, const RuleArtifact::Binding &)`. -/
def Binding.operatorEq (b1 b2 : Binding) : Bool :=
  b1.code == b2.code && b1.name == b2.name

/-- The comparison of `Set<RuleArtifact::Binding>::fromStdVector(a1.bindings)` with the set of
`a2.bindings`: every binding of one list has an equal in the other. -/
def bindingSetsEq (l1 l2 : List Binding) : Bool :=
  l1.all (fun b1 => l2.any (fun b2 => b1.operatorEq b2))
    && l2.all (fun b2 => l1.any (fun b1 => b2.operatorEq b1))

/-- The comparison `operator==(const RuleArtifact &, const RuleArtifact &)`. -/
def RuleArtifact.operatorEq (a1 a2 : RuleArtifact) : Bool :=
  a1.filePath == a2.filePath
    && setEq a1.fileTags a2.fileTags
    && a1.alwaysUpdated == a2.alwaysUpdated
    && bindingSetsEq a1.bindings a2.bindings

/-- The loop of `operator==(const Rule &, const Rule &)` over two artifact lists of one length:
whether no position holds two artifacts that differ. -/
def ruleArtifactsEq : List RuleArtifact → List RuleArtifact → Bool
  | a1 :: rest1, a2 :: rest2 =>
    if !equals RuleArtifact.operatorEq (some a1) (some a2) then false
    else ruleArtifactsEq rest1 rest2
  | _, _ => true

/-- The comparison `operator==(const Rule &, const Rule &)`. -/
def Rule.operatorEq (r1 r2 : Rule) : Bool :=
  if r1.artifacts.length ≠ r2.artifacts.length then false
  else if !ruleArtifactsEq r1.artifacts r2.artifacts then false
  else
    r1.module.nameText == r2.module.nameText
      && equals ScriptFunction.operatorEq (some r1.prepareScript) (some r2.prepareScript)
      && equals ScriptFunction.operatorEq (some r1.outputArtifactsScript)
          (some r2.outputArtifactsScript)
      && setEq r1.inputs r2.inputs
      && setEq r1.outputFileTags r2.outputFileTags
      && setEq r1.auxiliaryInputs r2.auxiliaryInputs
      && setEq r1.excludedInputs r2.excludedInputs
      && setEq r1.inputsFromDependencies r2.inputsFromDependencies
      && setEq r1.explicitlyDependsOn r2.explicitlyDependsOn
      && r1.multiplex == r2.multiplex
      && r1.alwaysRun == r2.alwaysRun

/-- The comparison `operator==(const SourceArtifactInternal &, const SourceArtifactInternal &)`. -/
def SourceArtifactInternal.operatorEq (sa1 sa2 : SourceArtifactInternal) : Bool :=
  sa1.absoluteFilePath == sa2.absoluteFilePath
    && setEq sa1.fileTags sa2.fileTags
    && sa1.overrideFileTags == sa2.overrideFileTags
    && sa1.properties.operatorEq sa2.properties

/-! ## Environment assembly (language.cpp) -/

/-- A `const ResolvedModule *` into the list of modules of a product: the position of the
module in that list. -/
abbrev ModulePtr := Nat

/-- The member `m->name` of the module a pointer points to (`none`: the null string). A pointer
to no module of the list reads as a module with the null name. -/
def moduleName (allModules : List ResolvedModule) (m : ModulePtr) : Option String :=
  match allModules[m]? with
  | some module => module.name
  | none => none

/-- The loop of `topSortModules` over `modules`, the call of `topSortModules` on the children of
a module being `recurse`. A result `none` is a recursion that did not return. -/
def topSortModulesLoop
    (recurse : List ModulePtr → List String → Option (List ModulePtr × List String))
    (moduleChildren : ModulePtr → List ModulePtr) (allModules : List ResolvedModule) :
    List ModulePtr → List String → Option (List ModulePtr × List String)
  | [], seenModuleNames => some ([], seenModuleNames)
  | m :: rest, seenModuleNames =>
    match moduleName allModules m with
    | none => topSortModulesLoop recurse moduleChildren allModules rest seenModuleNames
    | some name =>
      match recurse (moduleChildren m) seenModuleNames with
      | none => none
      | some (sorted, seenModuleNames) =>
        let own := if name ∈ seenModuleNames then [] else [m]
        match topSortModulesLoop recurse moduleChildren allModules rest
            (setInsert seenModuleNames name) with
        | none => none
        | some (more, seenModuleNames) => some (sorted ++ own ++ more, seenModuleNames)

/-- The function `topSortModules(moduleChildren, modules, seenModuleNames)`: the sorted modules
and the names seen afterwards. `fuel` bounds the depth of the recursion; `none` means that the
recursion went deeper. -/
def topSortModules (moduleChildren : ModulePtr → List ModulePtr)
    (allModules : List ResolvedModule) :
    Nat → List ModulePtr → List String → Option (List ModulePtr × List String)
  | 0, _, _ => none
  | fuel + 1, modules, seenModuleNames =>
    topSortModulesLoop (topSortModules moduleChildren allModules fuel) moduleChildren allModules
      modules seenModuleNames

inductive EnvType where
  | BuildEnv
  | RunEnv
deriving DecidableEq

/-- The lookup `moduleMap.value(moduleName)` in the map `getProcessEnvironment` fills with
`moduleMap.insert(module->name, module.data())` for the modules from position `first` on:
`QMap::insert` replaces, so it is the last module of that name; `none` is the null pointer
that an absent name gives. -/
def moduleMapValue : List ResolvedModule → ModulePtr → String → Option ModulePtr
  | [], _, _ => none
  | module :: rest, first, name =>
    match moduleMapValue rest (first + 1) name with
    | some depmod => some depmod
    | none => if module.nameText = name then some first else none

/-- The inner loop of `getProcessEnvironment` over the dependencies of one module: the modules
it appends to `moduleChildren[module]`, or `none` when `QBS_ASSERT(depmod, return env)`
fails. -/
def dependencyPointers (allModules : List ResolvedModule) :
    List String → Option (List ModulePtr)
  | [] => some []
  | name :: rest =>
    match moduleMapValue allModules 0 name with
    | none => none
    | some depmod =>
      match dependencyPointers allModules rest with
      | none => none
      | some more => some (depmod :: more)

/-- The outer loop of `getProcessEnvironment` that fills `moduleChildren`: the list of children
of every module, in the order of the modules, or `none` when an assertion fails. -/
def moduleChildrenOf (allModules : List ResolvedModule) :
    List ResolvedModule → Option (List (List ModulePtr))
  | [] => some []
  | module :: rest =>
    match dependencyPointers allModules module.moduleDependencies with
    | none => none
    | some children =>
      match moduleChildrenOf allModules rest with
      | none => none
      | some more => some (children :: more)

/-- The lookup `moduleChildren.value(m)`: no children for an absent key. -/
def childrenValue (moduleChildren : List (List ModulePtr)) (m : ModulePtr) : List ModulePtr :=
  moduleChildren[m]?.getD []

/-- The list `rootModules` of `getProcessEnvironment`: the modules with no entry in
`moduleParents`, which are those that are the child of no module. -/
def rootModulesOf (moduleChildren : List (List ModulePtr)) : List ModulePtr :=
  (List.range moduleChildren.length).filter
    (fun m => moduleChildren.all (fun children => decide (m ∉ children)))

/-- The test of `getProcessEnvironment` that makes the loop over the sorted modules `continue`;
`none` when evaluating it dereferences a null script pointer. -/
def skipsModule (envType : EnvType) (module : ResolvedModule) : Option Bool :=
  match envType with
  | .BuildEnv =>
    match module.setupBuildEnvironmentScript with
    | none => none
    | some build => some build.sourceCode.isEmpty
  | .RunEnv =>
    match module.setupBuildEnvironmentScript with
    | none => none
    | some build =>
      if build.sourceCode.isEmpty then
        match module.setupRunEnvironmentScript with
        | none => none
        | some run => some run.sourceCode.isEmpty
      else some false

/-- The pointer `setupScript` that `getProcessEnvironment` selects for a module. -/
def selectSetupScript (envType : EnvType) (module : ResolvedModule) : Option ScriptFunction :=
  match envType with
  | .BuildEnv => module.setupBuildEnvironmentScript
  | .RunEnv =>
    match module.setupRunEnvironmentScript with
    | none => module.setupBuildEnvironmentScript
    | some run => some run

/-- What `getProcessEnvironment` asks of the script engine. -/
structure EnvironmentEngine where
  /-- The call `engine->evaluate(code)` in the scope set up for `setupScript` and `module`, the
  children of the module and the product configuration being exposed, with `procenv` as the
  process environment the script changes: the environment afterwards, or the error string and
  the error location of the engine. -/
  evaluate : (code : String) → (setupScript : ScriptFunction) → (module : ResolvedModule) →
    (children : List ModulePtr) → (productConfiguration : PropertyMap) →
    (procenv : ProcessEnvironment) → Except (String × CodeLocation) ProcessEnvironment

/-- How a call of `getProcessEnvironment` ends. -/
inductive EnvironmentResult where
  | returned (env : ProcessEnvironment)
  | thrown (error : ErrorInfo)
  | nullPointerDereferenced
deriving DecidableEq

/-- The loop of `getProcessEnvironment` over the sorted modules. -/
def runSetupScripts (engine : EnvironmentEngine) (envType : EnvType)
    (allModules : List ResolvedModule) (moduleChildren : List (List ModulePtr))
    (productConfiguration : PropertyMap) :
    List ModulePtr → ProcessEnvironment → EnvironmentResult
  | [], procenv => .returned procenv
  | m :: rest, procenv =>
    match allModules[m]? with
    | none => .nullPointerDereferenced
    | some module =>
      match skipsModule envType module with
      | none => .nullPointerDereferenced
      | some true =>
        runSetupScripts engine envType allModules moduleChildren productConfiguration rest procenv
      | some false =>
        match selectSetupScript envType module with
        | none => .nullPointerDereferenced
        | some setupScript =>
          match engine.evaluate (setupScript.sourceCode ++ "()") setupScript module
              (childrenValue moduleChildren m) productConfiguration procenv with
          | .error (message, location) =>
            let envTypeStr := if envType = .BuildEnv then "build" else "run"
            .thrown (ErrorInfo.mk1
              ("Error while setting up " ++ envTypeStr ++ " environment: " ++ message)
              (some location))
          | .ok procenv =>
            runSetupScripts engine envType allModules moduleChildren productConfiguration rest
              procenv

/-- The function `getProcessEnvironment`. `fuel` is the bound for `topSortModules`, and `none`
means that the sort did not return within it. -/
def getProcessEnvironment (engine : EnvironmentEngine) (fuel : Nat) (envType : EnvType)
    (modules : List ResolvedModule) (productConfiguration : PropertyMap)
    (env : ProcessEnvironment) : Option EnvironmentResult :=
  match moduleChildrenOf modules modules with
  | none => some (.returned env)
  | some moduleChildren =>
    let rootModules := rootModulesOf moduleChildren
    match topSortModules (childrenValue moduleChildren) modules fuel rootModules [] with
    | none => none
    | some (topSortedModules, _) =>
      some (runSetupScripts engine envType modules moduleChildren productConfiguration
        topSortedModules env)

/-! ## Persistence (language.cpp) -/

/-- Modelled from the spec: what one `pool.store(...)` call, or one `store(pool)` call of a
member, writes to a `PersistentPool` (the pool is not among the sources), "the persistent pool
modelled as the sequence of values written". A pointer is written as `null` or as the `object`
that its pointee writes, a list of pointers as the `list` of what its elements write; a value
whose class is not among the sources is written whole. -/
inductive PoolValue where
  | bool (b : Bool)
  | string (s : Option String)
  | stringList (l : List String)
  | location (l : CodeLocation)
  | variantMap (m : QVariantMap)
  | fileContext (c : Option ResolvedFileContext)
  | timeStamps (l : List (String × Nat))
  | dependencies (l : List DependencyProduct)
  | artifactProperties (l : List ArtifactProperties)
  | buildData (data : Option ProductBuildData)
  | null
  | object (fields : List PoolValue)
  | list (items : List PoolValue)

/-- Modelled from the spec: `pool.store(pointer)` for a pointer to an entity with a `store`
method. -/
def storePointer {α : Type} (store : α → List PoolValue) : Option α → PoolValue
  | none => .null
  | some x => .object (store x)

/-- Modelled from the spec: `pool.load(pointer)` for a pointer to an entity with a `load`
method, which has to read all that was written for the entity. `none`: the value is of
another kind. -/
def loadPointer {α : Type} (load : List PoolValue → Option (α × List PoolValue)) :
    PoolValue → Option (Option α)
  | .null => some none
  | .object fields =>
    match load fields with
    | some (x, []) => some (some x)
    | _ => none
  | _ => none

/-- Modelled from the spec: `pool.load(pointer)` where the entity has to exist. -/
def loadObject {α : Type} (load : List PoolValue → Option (α × List PoolValue)) :
    PoolValue → Option α
  | .object fields =>
    match load fields with
    | some (x, []) => some x
    | _ => none
  | _ => none

/-- Modelled from the spec: `pool.store(list)` for a list of pointers to entities. -/
def storeList {α : Type} (store : α → List PoolValue) (l : List α) : PoolValue :=
  .list (l.map (fun x => .object (store x)))

/-- The entities of the items of a stored list. -/
def loadItems {α : Type} (load : List PoolValue → Option (α × List PoolValue)) :
    List PoolValue → Option (List α)
  | [] => some []
  | item :: rest =>
    match loadObject load item with
    | none => none
    | some x =>
      match loadItems load rest with
      | none => none
      | some more => some (x :: more)

/-- Modelled from the spec: `pool.load(list)` for a list of pointers to entities. -/
def loadList {α : Type} (load : List PoolValue → Option (α × List PoolValue)) :
    PoolValue → Option (List α)
  | .list items => loadItems load items
  | _ => none

/-- The method `ScriptFunction::store`. -/
def ScriptFunction.store (f : ScriptFunction) : List PoolValue :=
  [.string (some f.sourceCode), .stringList f.argumentNames, .location f.location,
    .fileContext f.fileContext]

/-- The method `ScriptFunction::load` on a fresh object: the script function and the values not
read yet; `none` when the values are not of the kinds it reads. -/
def ScriptFunction.load : List PoolValue → Option (ScriptFunction × List PoolValue)
  | .string sourceCode :: .stringList argumentNames :: .location location
      :: .fileContext fileContext :: rest =>
    some (⟨sourceCode.getD "", argumentNames, location, fileContext⟩, rest)
  | _ => none

/-- The method `ResolvedModule::store`. -/
def ResolvedModule.store (m : ResolvedModule) : List PoolValue :=
  [.string m.name, .stringList m.moduleDependencies,
    storePointer ScriptFunction.store m.setupBuildEnvironmentScript,
    storePointer ScriptFunction.store m.setupRunEnvironmentScript]

/-- The method `ResolvedModule::load` on a fresh object. -/
def ResolvedModule.load : List PoolValue → Option (ResolvedModule × List PoolValue)
  | .string name :: .stringList moduleDependencies :: build :: run :: rest =>
    match loadPointer ScriptFunction.load build, loadPointer ScriptFunction.load run with
    | some setupBuildEnvironmentScript, some setupRunEnvironmentScript =>
      some (⟨name, moduleDependencies, setupBuildEnvironmentScript, setupRunEnvironmentScript⟩,
        rest)
    | _, _ => none
  | _ => none

/-- The method `RuleArtifact::Binding::store`. -/
def Binding.store (b : Binding) : List PoolValue :=
  [.stringList b.name, .string (some b.code), .location b.location]

/-- The method `RuleArtifact::Binding::load` on a fresh object. -/
def Binding.load : List PoolValue → Option (Binding × List PoolValue)
  | .stringList name :: .string code :: .location location :: rest =>
    some (⟨name, code.getD "", location⟩, rest)
  | _ => none

/-- The method `RuleArtifact::store`. -/
def RuleArtifact.store (a : RuleArtifact) : List PoolValue :=
  [.string (some a.filePath), .stringList a.fileTags, .bool a.alwaysUpdated,
    .location a.location, .location a.filePathLocation, storeList Binding.store a.bindings]

/-- The method `RuleArtifact::load` on a fresh object. -/
def RuleArtifact.load : List PoolValue → Option (RuleArtifact × List PoolValue)
  | .string filePath :: .stringList fileTags :: .bool alwaysUpdated :: .location location
      :: .location filePathLocation :: bindings :: rest =>
    match loadList Binding.load bindings with
    | some bindings =>
      some (⟨filePath.getD "", fileTags, alwaysUpdated, location, filePathLocation, bindings⟩,
        rest)
    | none => none
  | _ => none

/-- The method `Rule::store`. -/
def Rule.store (r : Rule) : List PoolValue :=
  [.string (some r.name),
    storePointer ScriptFunction.store (some r.prepareScript),
    storePointer ScriptFunction.store (some r.outputArtifactsScript),
    storePointer ResolvedModule.store (some r.module),
    .stringList r.inputs,
    .stringList r.outputFileTags,
    .stringList r.auxiliaryInputs,
    .stringList r.excludedInputs,
    .stringList r.inputsFromDependencies,
    .stringList r.explicitlyDependsOn,
    .bool r.multiplex,
    .bool r.alwaysRun,
    storeList RuleArtifact.store r.artifacts]

/-- The method `Rule::load` on the object `self`, which keeps the members that `load` does not
read. The scripts and the module of a rule are not null here, so a null pointer is not
read. -/
def Rule.load (self : Rule) : List PoolValue → Option (Rule × List PoolValue)
  | .string name :: prepareScript :: outputArtifactsScript :: module :: .stringList inputs
      :: .stringList outputFileTags :: .stringList auxiliaryInputs
      :: .stringList excludedAuxiliaryInputs :: .stringList inputsFromDependencies
      :: .stringList explicitlyDependsOn :: .bool multiplex :: .bool alwaysRun :: artifacts
      :: rest =>
    match loadObject ScriptFunction.load prepareScript,
      loadObject ScriptFunction.load outputArtifactsScript,
      loadObject ResolvedModule.load module,
      loadList RuleArtifact.load artifacts with
    | some prepareScript, some outputArtifactsScript, some module, some artifacts =>
      some ({ self with
          name := name.getD "", prepareScript := prepareScript,
          outputArtifactsScript := outputArtifactsScript, module := module, inputs := inputs,
          outputFileTags := outputFileTags, auxiliaryInputs := auxiliaryInputs,
          excludedInputs := excludedAuxiliaryInputs,
          inputsFromDependencies := inputsFromDependencies,
          explicitlyDependsOn := explicitlyDependsOn, multiplex := multiplex,
          alwaysRun := alwaysRun, artifacts := artifacts }, rest)
    | _, _, _, _ => none
  | _ => none

/-- The method `SourceArtifactInternal::store`. -/
def SourceArtifactInternal.store (sa : SourceArtifactInternal) : List PoolValue :=
  [.string (some sa.absoluteFilePath), .stringList sa.fileTags, .bool sa.overrideFileTags,
    .variantMap sa.properties.value]

/-- The method `SourceArtifactInternal::load` on a fresh object. -/
def SourceArtifactInternal.load :
    List PoolValue → Option (SourceArtifactInternal × List PoolValue)
  | .string absoluteFilePath :: .stringList fileTags :: .bool overrideFileTags
      :: .variantMap properties :: rest =>
    some (⟨absoluteFilePath.getD "", fileTags, overrideFileTags, ⟨properties⟩⟩, rest)
  | _ => none

/-- The method `SourceWildCards::store`. -/
def SourceWildCards.store (w : SourceWildCards) : List PoolValue :=
  [.string (some w.prefix_), .stringList w.patterns, .stringList w.excludePatterns,
    .timeStamps w.dirTimeStamps, storeList SourceArtifactInternal.store w.files]

/-- The method `SourceWildCards::load` on a fresh object. -/
def SourceWildCards.load : List PoolValue → Option (SourceWildCards × List PoolValue)
  | .string prefix_ :: .stringList patterns :: .stringList excludePatterns
      :: .timeStamps dirTimeStamps :: files :: rest =>
    match loadList SourceArtifactInternal.load files with
    | some files => some (⟨prefix_.getD "", patterns, excludePatterns, dirTimeStamps, files⟩, rest)
    | none => none
  | _ => none

/-- The method `ResolvedGroup::store`. -/
def ResolvedGroup.store (g : ResolvedGroup) : List PoolValue :=
  [.string (some g.name), .bool g.enabled, .location g.location, .string (some g.prefix_),
    storeList SourceArtifactInternal.store g.files,
    storePointer SourceWildCards.store g.wildcards, .variantMap g.properties.value,
    .stringList g.fileTags, .bool g.overrideTags]

/-- The method `ResolvedGroup::load` on a fresh object. -/
def ResolvedGroup.load : List PoolValue → Option (ResolvedGroup × List PoolValue)
  | .string name :: .bool enabled :: .location location :: .string prefix_ :: files
      :: wildcards :: .variantMap properties :: .stringList fileTags :: .bool overrideTags
      :: rest =>
    match loadList SourceArtifactInternal.load files,
      loadPointer SourceWildCards.load wildcards with
    | some files, some wildcards =>
      some (⟨name.getD "", enabled, location, prefix_.getD "", files, wildcards, ⟨properties⟩,
        fileTags, overrideTags⟩, rest)
    | _, _ => none
  | _ => none

/-- The method `FileTagger::setPatterns`: the patterns it sets, `none` when the check
`QBS_CHECK(!pattern.isEmpty())` fails. -/
def FileTagger.setPatterns : List String → Option (List String)
  | [] => some []
  | pattern :: rest =>
    if pattern.isEmpty then none
    else
      match FileTagger.setPatterns rest with
      | none => none
      | some more => some (pattern :: more)

/-- The method `FileTagger::store`. -/
def FileTagger.store (t : FileTagger) : List PoolValue :=
  [.stringList t.patterns, .stringList t.fileTags]

/-- The method `FileTagger::load` on a fresh object. -/
def FileTagger.load : List PoolValue → Option (FileTagger × List PoolValue)
  | .stringList patterns :: .stringList fileTags :: rest =>
    match FileTagger.setPatterns patterns with
    | some patterns => some (⟨patterns, fileTags⟩, rest)
    | none => none
  | _ => none

/-- The method `ResolvedScanner::store`. -/
def ResolvedScanner.store (s : ResolvedScanner) : List PoolValue :=
  [storePointer ResolvedModule.store (some s.module), .stringList s.inputs, .bool s.recursive,
    storePointer ScriptFunction.store s.searchPathsScript,
    storePointer ScriptFunction.store s.scanScript]

/-- The method `ResolvedScanner::load` on a fresh object. -/
def ResolvedScanner.load : List PoolValue → Option (ResolvedScanner × List PoolValue)
  | module :: .stringList inputs :: .bool recursive :: searchPathsScript :: scanScript :: rest =>
    match loadObject ResolvedModule.load module,
      loadPointer ScriptFunction.load searchPathsScript,
      loadPointer ScriptFunction.load scanScript with
    | some module, some searchPathsScript, some scanScript =>
      some (⟨module, inputs, recursive, searchPathsScript, scanScript⟩, rest)
    | _, _, _ => none
  | _ => none

/-- The method `Probe::store`. -/
def Probe.store (p : Probe) : List PoolValue :=
  [.string (some p.m_globalId), .location p.m_location, .bool p.m_condition,
    .string (some p.m_configureScript), .variantMap p.m_properties,
    .variantMap p.m_initialProperties]

/-- The method `Probe::load` on a fresh object. -/
def Probe.load : List PoolValue → Option (Probe × List PoolValue)
  | .string globalId :: .location location :: .bool condition :: .string configureScript
      :: .variantMap properties :: .variantMap initialProperties :: rest =>
    some (⟨globalId.getD "", location, condition, configureScript.getD "", properties,
      initialProperties⟩, rest)
  | _ => none

/-- The method `ResolvedProduct::store`. -/
def ResolvedProduct.store (p : ResolvedProduct) : List PoolValue :=
  [.bool p.enabled,
    .stringList p.fileTags,
    .string (some p.name),
    .string (some p.profile),
    .string (some p.targetName),
    .string (some p.sourceDirectory),
    .string (some p.destinationDirectory),
    .stringList p.missingSourceFiles,
    .location p.location,
    .variantMap p.productProperties,
    .variantMap p.moduleProperties.value,
    storeList Rule.store p.rules,
    .dependencies p.dependencies,
    storeList FileTagger.store p.fileTaggers,
    storeList ResolvedModule.store p.modules,
    storeList ResolvedScanner.store p.scanners,
    storeList ResolvedGroup.store p.groups,
    .artifactProperties p.artifactProperties,
    storeList Probe.store p.probes,
    .buildData p.buildData]

/-- The method `ResolvedProduct::load` on the object `self`, which keeps what `load` does not
read; every rule is loaded into a copy of `freshRule`. The build data is read last; its node
objects are in the build graph. -/
def ResolvedProduct.load (self : ResolvedProduct) (freshRule : Rule) :
    List PoolValue → Option (ResolvedProduct × List PoolValue)
  | .bool enabled :: .stringList fileTags :: .string name :: .string profile
      :: .string targetName :: .string sourceDirectory :: .string destinationDirectory
      :: .stringList missingSourceFiles :: .location location :: .variantMap productProperties
      :: .variantMap moduleProperties :: rules :: .dependencies dependencies :: fileTaggers
      :: modules :: scanners :: groups :: .artifactProperties artifactProperties :: probes
      :: .buildData buildData :: rest =>
    match loadList (Rule.load freshRule) rules, loadList FileTagger.load fileTaggers,
      loadList ResolvedModule.load modules, loadList ResolvedScanner.load scanners,
      loadList ResolvedGroup.load groups, loadList Probe.load probes with
    | some rules, some fileTaggers, some modules, some scanners, some groups, some probes =>
      some ({ self with
          enabled := enabled, fileTags := fileTags, name := name.getD "",
          profile := profile.getD "", targetName := targetName.getD "",
          sourceDirectory := sourceDirectory.getD "",
          destinationDirectory := destinationDirectory.getD "",
          missingSourceFiles := missingSourceFiles, location := location,
          productProperties := productProperties, moduleProperties := ⟨moduleProperties⟩,
          rules := rules, dependencies := dependencies, fileTaggers := fileTaggers,
          modules := modules, scanners := scanners, groups := groups,
          artifactProperties := artifactProperties, probes := probes,
          buildData := buildData }, rest)
    | _, _, _, _, _, _ => none
  | _ => none


/-- An artifact without its edges: what `connect` leaves alone. -/
def Artifact.withoutEdges (a : Artifact) : Artifact :=
  { a with parents := [], children := [] }

/-- The product and the path of an artifact: what `lookupArtifact` goes by. -/
def Artifact.ident (a : Artifact) : Nat × String :=
  (a.product, a.filePath)

/-- The product, the path and the transformer of an artifact. -/
def Artifact.key (a : Artifact) : Nat × String × Option TransformerPtr :=
  (a.product, a.filePath, a.transformer)

/-- The rule and the inputs of a transformer: what identifies the rule instance. -/
def Transformer.key (t : Transformer) : RuleConstPtr × ArtifactSet :=
  (t.rule, t.inputs)

/-- The pieces `cleanPath` keeps when no piece is `..`. -/
def keptPieces (pieces : List (List Char)) : List (List Char) :=
  pieces.filter (fun c => decide (¬(c = [] ∨ c = ['.'])))

/-- The rule instances of a state: rule and inputs of every transformer, in order of creation. -/
def ruleInstances (s : State) : List (RuleConstPtr × ArtifactSet) :=
  s.graph.transformers.map Transformer.key

/-- A location in the example project file. -/
def demoLocation (line : Int) : CodeLocation := ⟨"rules.qbs", line, 5⟩

/-- A script at a line of the example project file (line -1: no script). -/
def demoScript (line : Int) : ScriptFunction := ⟨"", [], demoLocation line, none⟩

/-- A host for the examples: a template path evaluates to its own text, the `outputArtifacts`
script returns `scriptResult`, every prepare script gives one command, nothing is cancelled,
and removing an artifact records it without touching the graph. -/
def demoHost (scriptResult : List ScriptValue) : ScriptHost where
  cancelRequested := fun _ => false
  evaluateFilePath := fun ra _ _ => .ok ra.filePath
  callOutputArtifacts := fun _ _ _ => .returned (.array scriptResult)
  evaluateBinding := fun _ _ _ => .ok .invalid
  createCommands := fun _ _ => .ok ["command"]
  commandsNeedRerun := fun _ _ => false
  removeArtifactAndExclusiveDependents := fun a removed g => (setInsert removed a, g)
  sha1Hex := fun _ => "da39a3ee5e6b4b0d3255bfef95601890afd80709"
  globMatches := fun pattern name => pattern = name
  artifactItemPropertyNames := ["alwaysUpdated", "fileName", "filePath", "fileTags"]

/-- The example product, built in `/build/app.1234abcd`; `install` is its `qbs.install`. -/
def demoProduct (install : Bool) (fileTaggers : List FileTagger)
    (artifactProperties : List ArtifactProperties) : ResolvedProduct where
  address := 1
  name := "app"
  fileTags := ["application"]
  buildDirectory := "/build/app.1234abcd"
  topLevelBuildDirectory := "/build"
  fileTaggers := fileTaggers
  artifactProperties := artifactProperties
  moduleProperties := ⟨[("qbs", .map [("install", .bool install)])]⟩
  dependencies := []

/-- A source artifact of the example product. -/
def demoSource (filePath : String) (tag : FileTag) : Artifact :=
  { filePath := filePath, fileTags := [tag], properties := ⟨[]⟩, artifactType := .SourceFile,
    alwaysUpdated := true, transformer := none, parents := [], children := [],
    timestamp := some 1, product := 1, targetOfModule := false }

/-- The example rule: from `cpp` to the given template artifacts, or dynamic. -/
def demoRule (address : Nat) (multiplex dynamic : Bool) (artifacts : List RuleArtifact) :
    RuleConstPtr :=
  ⟨address,
    { name := "compiler", prepareScript := demoScript (10 * address),
      outputArtifactsScript := demoScript (if dynamic then 20 else -1),
      module := ⟨some "cpp", [], none, none⟩,
      inputs := ["cpp"], outputFileTags := [], auxiliaryInputs := [], excludedInputs := [],
      inputsFromDependencies := [], explicitlyDependsOn := [],
      explicitlyDependsOnFromDependencies := [], multiplex := multiplex, alwaysRun := false,
      requiresInputs := true, artifacts := artifacts }⟩

/-- A template artifact with a literal path and the tag `obj`. -/
def demoRuleArtifact (filePath : String) : RuleArtifact :=
  ⟨filePath, ["obj"], true, demoLocation 3, demoLocation 4, []⟩

/-- The example state before any rule is applied: the sources `a.cpp` and `b.cpp`. -/
def demoState : State where
  graph := ⟨[some (demoSource "/src/a.cpp" "cpp"), some (demoSource "/src/b.cpp" "cpp")], [],
    false⟩
  m_createdArtifacts := []
  m_invalidatedArtifacts := []
  m_rule := none
  m_completeInputSet := []
  m_transformer := none
  m_oldTransformer := none
  m_mocScanner := false

/-- The example state inside `doApply`, where `applyRule` has begun and the transformer of the
rule instance has been created (at address 0) and no output yet. -/
def demoStateApplying (rule : RuleConstPtr) (inputArtifacts : ArtifactSet) : State :=
  createTransformer (demoProduct false [] []) rule inputArtifacts
    (beginApplyRule rule inputArtifacts demoState)

/-- The example product with a file tagger for `parser.y` and an `ArtifactProperties` entry for
the tag it gives. -/
def demoYaccProduct : ResolvedProduct :=
  demoProduct false [⟨["parser.y"], ["yacc"]⟩] [⟨["yacc"], ["grammar"], ⟨[]⟩⟩]

/-- The example product with two `ArtifactProperties` entries that both match the tag `obj`. -/
def demoTwoEntriesProduct : ResolvedProduct :=
  demoProduct false []
    [⟨["obj"], ["first"], ⟨[("cpp", .map [("debug", .bool true)])]⟩⟩,
     ⟨["obj", "o"], ["second"], ⟨[]⟩⟩]

/-- The example state in which the rule at address 8 has produced `foo.moc` from `a.cpp`, and
the rule at address 7 is being applied to `b.cpp` (its transformer is at address 1). -/
def demoStateSecondRule : State :=
  createTransformer (demoProduct false [] []) (demoRule 7 false false [demoRuleArtifact "foo.moc"])
    [1]
    (beginApplyRule (demoRule 7 false false [demoRuleArtifact "foo.moc"]) [1]
      (applyRule (demoHost []) (demoProduct false [] [])
        (demoRule 8 false false [demoRuleArtifact "foo.moc"]) [0] demoState).2)

/-- What the `outputArtifacts` script of the example dynamic rule returns when it names the
path `x.h` twice. -/
def demoDuplicateObjects : List ScriptValue :=
  [.object [("filePath", .string "x.h"), ("fileTags", .array [.string "hpp"])],
   .object [("filePath", .string "x.h"), ("fileTags", .array [.string "hpp"])]]


/-! ## The equality of the data model, for comparison with `operator==` -/

/-- The equality of two bindings in the words of the data model: all fields are equal. -/
def Binding.equalInAllFields (b1 b2 : Binding) : Bool :=
  b1.name == b2.name && b1.code == b2.code && b1.location == b2.location

/-- The equality of two template artifacts in the words of the data model: all fields are equal,
with the bindings compared as sets. -/
def RuleArtifact.equalInAllFields (a1 a2 : RuleArtifact) : Bool :=
  a1.filePath == a2.filePath && setEq a1.fileTags a2.fileTags
    && a1.alwaysUpdated == a2.alwaysUpdated && a1.location == a2.location
    && a1.filePathLocation == a2.filePathLocation
    && a1.bindings.all (fun b1 => a2.bindings.any (fun b2 => b1.equalInAllFields b2))
    && a2.bindings.all (fun b2 => a1.bindings.any (fun b1 => b2.equalInAllFields b1))

/-- Whether two lists of template artifacts are equal element by element. -/
def ruleArtifactListsEqual : List RuleArtifact → List RuleArtifact → Bool
  | [], [] => true
  | a1 :: rest1, a2 :: rest2 => a1.equalInAllFields a2 && ruleArtifactListsEqual rest1 rest2
  | _, _ => false

/-- The equality of two rules in the words of the data model: all fields of `Rule` are equal
and the template artifact lists are equal element by element. -/
def Rule.equalInAllFields (r1 r2 : Rule) : Bool :=
  r1.name == r2.name
    && r1.prepareScript.operatorEq r2.prepareScript
    && r1.outputArtifactsScript.operatorEq r2.outputArtifactsScript
    && r1.module.operatorEq r2.module
    && setEq r1.inputs r2.inputs
    && setEq r1.outputFileTags r2.outputFileTags
    && setEq r1.auxiliaryInputs r2.auxiliaryInputs
    && setEq r1.excludedInputs r2.excludedInputs
    && setEq r1.inputsFromDependencies r2.inputsFromDependencies
    && setEq r1.explicitlyDependsOn r2.explicitlyDependsOn
    && setEq r1.explicitlyDependsOnFromDependencies r2.explicitlyDependsOnFromDependencies
    && r1.multiplex == r2.multiplex
    && r1.alwaysRun == r2.alwaysRun
    && r1.requiresInputs == r2.requiresInputs
    && ruleArtifactListsEqual r1.artifacts r2.artifacts

/-! ## The steps of `doApply` after the outputs are there -/

/-- Lines 227 to 230 of `doApply`: every output is connected to every artifact in
`m_transformer->explicitlyDependsOn`. -/
def connectExplicitlyDependsOn (m_transformer : TransformerPtr)
    (outputArtifacts : List ArtifactPtr) (s : State) : State :=
  { s with
    graph := outputArtifacts.foldl (fun g outputArtifact =>
      (((s.graph.transformer m_transformer).map (·.explicitlyDependsOn)).getD []).foldl
        (fun g dependency => connect outputArtifact dependency g) g) s.graph }

/-- The commands that `createCommands` made, in the transformer. -/
def setCommands (m_transformer : TransformerPtr) (commands : List String) (s : State) : State :=
  { s with
    graph := s.graph.modifyTransformer m_transformer (fun t => { t with commands := commands }) }

/-- Lines 276 to 287 of `doApply`, the change tracking: the outputs are invalidated if the
test says so, and the transformer needs no change tracking of its commands any more. -/
def trackChanges (host : ScriptHost) (m_transformer : TransformerPtr)
    (outputArtifacts : List ArtifactPtr) (s : State) : State :=
  { (if outputsNeedInvalidation host m_transformer s
      then invalidateOutputs outputArtifacts s else s) with
    graph := (if outputsNeedInvalidation host m_transformer s
        then invalidateOutputs outputArtifacts s else s).graph.modifyTransformer m_transformer
      (fun t => { t with commandsNeedChangeTracking := false }) }

/-- From graph `g` to graph `g2`, no artifact is lost, no artifact loses a child or leaves the
transformer `tp`, and the transformer `tp` loses no output, keeps its inputs and explicit
dependencies, and is in `g` if it is in `g2`. -/
def GraphGrows (tp : TransformerPtr) (g g2 : BuildGraph) : Prop :=
  (∀ x art, g.artifact x = some art →
    ∃ art2, g2.artifact x = some art2 ∧ (∀ c ∈ art.children, c ∈ art2.children)
      ∧ (art.transformer = some tp → art2.transformer = some tp))
  ∧ (∀ t, g.transformer tp = some t →
      ∃ t2, g2.transformer tp = some t2 ∧ (∀ o ∈ t.outputs, o ∈ t2.outputs)
        ∧ t2.inputs = t.inputs ∧ t2.explicitlyDependsOn = t.explicitlyDependsOn)
  ∧ (∀ t2, g2.transformer tp = some t2 → ∃ t, g.transformer tp = some t)

/-- In graph `g`, the artifact `o` is an output of the transformer `tp` that has the artifacts
of `inputs` among its children. -/
def OutputWired (tp : TransformerPtr) (inputs : ArtifactSet) (o : ArtifactPtr) (g : BuildGraph) :
    Prop :=
  ∃ art, g.artifact o = some art ∧ art.transformer = some tp
    ∧ (∀ i ∈ inputs, i ∈ art.children)
    ∧ ∀ t, g.transformer tp = some t → o ∈ t.outputs

/-- In graph `g`, the transformer `tp` has exactly the artifacts of `inputs` as inputs and
`deps` as explicit dependencies, and every artifact of `outputs` is one of its outputs, points
to it, and has the artifacts of `inputs` among its children. -/
def OutputsWired (tp : TransformerPtr) (inputs deps : ArtifactSet) (outputs : List ArtifactPtr)
    (g : BuildGraph) : Prop :=
  (∃ t, g.transformer tp = some t ∧ (∀ i ∈ t.inputs, i ∈ inputs) ∧ (∀ i ∈ inputs, i ∈ t.inputs)
    ∧ t.explicitlyDependsOn = deps ∧ ∀ o ∈ outputs, o ∈ t.outputs)
  ∧ ∀ o ∈ outputs, ∃ art, g.artifact o = some art ∧ art.transformer = some tp
      ∧ ∀ i ∈ inputs, i ∈ art.children

/-- The assumption on the removal helper (projectbuilddata.cpp is not among the sources) under
which the outputs of a rule instance can be followed through a removal; the helper "removes
each such artifact plus its exclusively-dependent descendants". It keeps what was removed
before; besides the artifact it is given it removes only artifacts all of whose children are
removed or whose transformer has all its inputs removed; of a transformer it keeps the outputs
that are not removed and the explicit dependencies, and takes removed artifacts and nothing else
out of the inputs; and an artifact that is not removed keeps its transformer and all its
children that are not removed. -/
def RemovalSparesOthers (host : ScriptHost) : Prop :=
  ∀ a removed g,
    (∀ x ∈ removed, x ∈ (host.removeArtifactAndExclusiveDependents a removed g).1)
    ∧ (∀ x ∈ (host.removeArtifactAndExclusiveDependents a removed g).1,
        x ∈ removed ∨ x = a ∨ ∃ art, g.artifact x = some art
          ∧ ((∀ c ∈ art.children,
                c ∈ (host.removeArtifactAndExclusiveDependents a removed g).1)
            ∨ ∃ tp t, art.transformer = some tp ∧ g.transformer tp = some t
                ∧ ∀ i ∈ t.inputs,
                    i ∈ (host.removeArtifactAndExclusiveDependents a removed g).1))
    ∧ (∀ tp t, g.transformer tp = some t →
        ∃ t2, (host.removeArtifactAndExclusiveDependents a removed g).2.transformer tp = some t2
          ∧ (∀ o ∈ t.outputs,
              o ∉ (host.removeArtifactAndExclusiveDependents a removed g).1 → o ∈ t2.outputs)
          ∧ (∀ i ∈ t2.inputs, i ∈ t.inputs)
          ∧ (∀ i ∈ t.inputs,
              i ∉ (host.removeArtifactAndExclusiveDependents a removed g).1 → i ∈ t2.inputs)
          ∧ t2.explicitlyDependsOn = t.explicitlyDependsOn)
    ∧ (∀ x art, g.artifact x = some art →
        x ∉ (host.removeArtifactAndExclusiveDependents a removed g).1 →
        ∃ art2, (host.removeArtifactAndExclusiveDependents a removed g).2.artifact x = some art2
          ∧ art2.transformer = art.transformer
          ∧ ∀ c ∈ art.children,
              c ∉ (host.removeArtifactAndExclusiveDependents a removed g).1 → c ∈ art2.children)

/-- The condition of the change tracking in the words of the data model: in state `s`, no
prior transformer was found, or the outputs, the inputs, the explicit dependencies or the
commands of the prior transformer differ from those of the new transformer `m_transformer`, or
`commandsNeedRerun` returns true. -/
def ChangeDetected (host : ScriptHost) (m_transformer : TransformerPtr) (s : State) : Prop :=
  s.m_oldTransformer.bind s.graph.transformer = none
    ∨ (∃ old t, s.m_oldTransformer.bind s.graph.transformer = some old
        ∧ s.graph.transformer m_transformer = some t
        ∧ (¬ (∀ x, x ∈ old.outputs ↔ x ∈ t.outputs)
          ∨ ¬ (∀ x, x ∈ old.inputs ↔ x ∈ t.inputs)
          ∨ ¬ (∀ x, x ∈ old.explicitlyDependsOn ↔ x ∈ t.explicitlyDependsOn)
          ∨ old.commands ≠ t.commands))
    ∨ host.commandsNeedRerun m_transformer s = true

/-- The example state after `applyRule` has begun for the example rule with the template
artifact `a.o` and the input `a.cpp`. -/
def demoStateBegun : State :=
  beginApplyRule (demoRule 1 true false [demoRuleArtifact "a.o"]) [0] demoState

/-- The result of `doApply` for the example rule with the template artifact `a.o` on the input
`a.cpp`. -/
def demoApplied : Except Exception Unit × State :=
  doApply (demoHost []) (demoProduct false [] [])
    (demoRule 1 true false [demoRuleArtifact "a.o"]) [0] demoStateBegun

/-- A host for the examples whose bindings evaluate to the number of artifacts that have the
property `order` by then. -/
def demoCountingHost : ScriptHost :=
  { demoHost [] with
    evaluateBinding := fun _ _ s =>
      .ok (.int ((s.graph.artifacts.filter (fun a =>
        match a with
        | some art => art.properties.value.any (fun e => e.1 = "order")
        | none => false)).length)) }

/-- A template artifact with a literal path and a binding for the property `order`. -/
def demoBoundArtifact (filePath : String) : RuleArtifact :=
  { demoRuleArtifact filePath with bindings := [⟨["order"], "count()", demoLocation 5⟩] }

/-- The value of the property `order` of an artifact after the example rule with the template
artifacts `a.o` and `b.o`, each with a binding for `order`, is applied to `a.cpp`. -/
def demoOrderAfterApply (artifact : ArtifactPtr) : String :=
  (mapValue
    ((((doApply demoCountingHost (demoProduct false [] [])
        (demoRule 1 true false [demoBoundArtifact "a.o", demoBoundArtifact "b.o"]) [0]
        (beginApplyRule (demoRule 1 true false [demoBoundArtifact "a.o", demoBoundArtifact "b.o"])
          [0] demoState)).2.graph.artifact artifact).map (·.properties.value)).getD [])
    "order").toQString

/-- The order of `QStringList::sort` as a relation on strings. -/
def tagLe (a b : String) : Prop :=
  charsLe a.data b.data = true

instance : DecidableRel tagLe := fun a b => inferInstanceAs (Decidable (charsLe a.data b.data = true))

/-- The example rule with other inputs and template artifacts. -/
def demoRuleWith (inputs inputsFromDependencies : FileTags) (artifacts : List RuleArtifact) :
    Rule :=
  { (demoRule 1 false false artifacts).rule with
    inputs := inputs, inputsFromDependencies := inputsFromDependencies }

/-- A template artifact with a literal path and one tag. -/
def demoTaggedArtifact (filePath : String) (tag : FileTag) : RuleArtifact :=
  { demoRuleArtifact filePath with fileTags := [tag] }

/-- A setup script of the example with the given source code. -/
def demoSetupScript (sourceCode : String) : ScriptFunction :=
  ⟨sourceCode, [], demoLocation 7, none⟩

/-- A module of the example: its name, the names it depends on, and the source code of its
build-environment script and of its run-environment script (`none`: no such script). -/
def demoModule (name : String) (moduleDependencies : List String)
    (build run : Option String) : ResolvedModule :=
  ⟨some name, moduleDependencies, build.map demoSetupScript, run.map demoSetupScript⟩

/-- The modules of the example product: `app` depends on `cpp` and `qbs`, `cpp` on `qbs`. -/
def demoModules : List ResolvedModule :=
  [demoModule "app" ["cpp", "qbs"] (some "(function() {})") none,
   demoModule "cpp" ["qbs"] (some "(function() {})") none,
   demoModule "qbs" [] (some "(function() {})") none]

/-- An engine for the examples: evaluating a script records its code in the variable `ran`. -/
def demoEngine : EnvironmentEngine where
  evaluate := fun code _ _ _ _ procenv => .ok (procenv ++ [("ran", code)])

/-- The values `Rule::store` would write if it wrote the fields in the order in which the data
model lists them: name, prepare_script, output_artifacts_script, module, inputs,
output_file_tags, auxiliary_inputs, excluded_auxiliary_inputs, inputs_from_dependencies,
explicitly_depends_on, explicitly_depends_on_from_dependencies, multiplex, always_run,
artifacts, requires_inputs. -/
def Rule.storeAsListed (r : Rule) : List PoolValue :=
  [.string (some r.name),
    storePointer ScriptFunction.store (some r.prepareScript),
    storePointer ScriptFunction.store (some r.outputArtifactsScript),
    storePointer ResolvedModule.store (some r.module),
    .stringList r.inputs,
    .stringList r.outputFileTags,
    .stringList r.auxiliaryInputs,
    .stringList r.excludedInputs,
    .stringList r.inputsFromDependencies,
    .stringList r.explicitlyDependsOn,
    .stringList r.explicitlyDependsOnFromDependencies,
    .bool r.multiplex,
    .bool r.alwaysRun,
    storeList RuleArtifact.store r.artifacts,
    .bool r.requiresInputs]

/-- The first values `ResolvedProduct::store` would write if it began in the order in which the
data model lists the fields: name, profile, enabled, file_tags, dependencies, groups, rules,
modules. -/
def ResolvedProduct.storeBeginningAsListed (p : ResolvedProduct) : List PoolValue :=
  [.string (some p.name),
    .string (some p.profile),
    .bool p.enabled,
    .stringList p.fileTags,
    .dependencies p.dependencies,
    storeList ResolvedGroup.store p.groups,
    storeList Rule.store p.rules,
    storeList ResolvedModule.store p.modules]

/-- Module `m` of the list depends on module `d` of the list: the name of `d` is among the
`moduleDependencies` of `m`. -/
def dependsOn (modules : List ResolvedModule) (m d : ModulePtr) : Prop :=
  ∃ module dep, modules[m]? = some module ∧ modules[d]? = some dep
    ∧ dep.nameText ∈ module.moduleDependencies

/-- The name of module `i` of the list as a text (the empty text for a pointer to no module of
the list). -/
def nameTextOf (modules : List ResolvedModule) (i : ModulePtr) : String :=
  match modules[i]? with
  | some m => m.nameText
  | none => ""

/-- The names in `seen` are closed under `children`: with a module, its children are seen. -/
def ClosedNames (children : ModulePtr → List ModulePtr) (nameOf : ModulePtr → String) (n : Nat)
    (seen : List String) : Prop :=
  ∀ m < n, nameOf m ∈ seen → ∀ c ∈ children m, nameOf c ∈ seen

/-- The modules of `sorted` come one after the other to the names `seen`, each new at its
turn and each after all its children. -/
def EmittedInOrder (children : ModulePtr → List ModulePtr) (nameOf : ModulePtr → String) :
    List String → List ModulePtr → Prop
  | _, [] => True
  | seen, m :: rest =>
    nameOf m ∉ seen ∧ (∀ c ∈ children m, nameOf c ∈ seen)
      ∧ EmittedInOrder children nameOf (seen ++ [nameOf m]) rest

/-- What a call of `topSortModules` on `modules` with the names `seen` has done when it returns
`sorted` and `seenAfter`. -/
def SortedFrom (children : ModulePtr → List ModulePtr) (nameOf : ModulePtr → String) (n : Nat)
    (seen : List String) (modules sorted : List ModulePtr) (seenAfter : List String) : Prop :=
  (∀ s, s ∈ seenAfter ↔ (s ∈ seen ∨ s ∈ sorted.map nameOf))
    ∧ EmittedInOrder children nameOf seen sorted
    ∧ (∀ i ∈ sorted, i < n)
    ∧ (∀ m ∈ modules, nameOf m ∈ seenAfter)
    ∧ ClosedNames children nameOf n seenAfter

/-- The example rule under another name. -/
def demoRenamedRule : Rule :=
  { (demoRule 1 false false [demoRuleArtifact "a.o"]).rule with name := "linker" }


/-! ## Product identity and environment caching (language.cpp) -/

/-- The function `ResolvedProduct::uniqueName(name, profile)`. -/
def uniqueName (name profile : String) : Except Exception String :=
  if profile.isEmpty then .error (.assertion "!profile.isEmpty()")
  else .ok (name ++ "." ++ profile)

/-- The method `ResolvedProduct::uniqueName()`. -/
def ResolvedProduct.uniqueName (p : ResolvedProduct) : Except Exception String :=
  Qbs.uniqueName p.name p.profile

/-- The function `ResolvedProduct::deriveBuildDirectoryName`. The function
`HostOsInfo::rfc1034Identifier` is not among the sources and is a parameter; the hash is that
of the host. -/
def deriveBuildDirectoryName (host : ScriptHost) (rfc1034Identifier : String → String)
    (name profile : String) : Except Exception String :=
  match uniqueName name profile with
  | .error e => .error e
  | .ok dirName =>
    .ok (rfc1034Identifier dirName ++ "." ++ String.mk ((host.sha1Hex dirName).data.take 8))

/-- How a call of `setupBuildEnvironment` or `setupRunEnvironment` ends: it returns, with the
product as it is then, or `getProcessEnvironment` ends otherwise. -/
inductive SetupResult where
  | returned (product : ResolvedProduct)
  | thrown (error : ErrorInfo)
  | nullPointerDereferenced

/-- The method `ResolvedProduct::setupBuildEnvironment`. `fuel` is the bound for
`topSortModules`, and `none` means that the sort did not return within it. -/
def ResolvedProduct.setupBuildEnvironment (p : ResolvedProduct) (engine : EnvironmentEngine)
    (fuel : Nat) (env : ProcessEnvironment) : Option SetupResult :=
  if !p.buildEnvironment.isEmpty then some (.returned p)
  else
    match getProcessEnvironment engine fuel .BuildEnv p.modules p.moduleProperties env with
    | none => none
    | some (.returned procenv) => some (.returned { p with buildEnvironment := procenv })
    | some (.thrown error) => some (.thrown error)
    | some .nullPointerDereferenced => some .nullPointerDereferenced

/-- The method `ResolvedProduct::setupRunEnvironment`. -/
def ResolvedProduct.setupRunEnvironment (p : ResolvedProduct) (engine : EnvironmentEngine)
    (fuel : Nat) (env : ProcessEnvironment) : Option SetupResult :=
  if !p.runEnvironment.isEmpty then some (.returned p)
  else
    match getProcessEnvironment engine fuel .RunEnv p.modules p.moduleProperties env with
    | none => none
    | some (.returned procenv) => some (.returned { p with runEnvironment := procenv })
    | some (.thrown error) => some (.thrown error)
    | some .nullPointerDereferenced => some .nullPointerDereferenced

/-- An engine for the examples whose setup scripts append `:/opt/bin` to every variable that is
set. -/
def demoPathEngine : EnvironmentEngine where
  evaluate := fun _ _ _ _ _ procenv => .ok (procenv.map (fun e => (e.1, e.2 ++ ":/opt/bin")))

/-- The example product with one module, `cpp`, that has a setup script for the build
environment and one for the run environment. -/
def demoProductWithModule : ResolvedProduct :=
  { demoProduct false [] [] with
    profile := "gcc"
    modules := [⟨some "cpp", [], some ⟨"setup", [], demoLocation 30, none⟩,
      some ⟨"setupRun", [], demoLocation 31, none⟩⟩] }

/-- The environment a call of a setup method leaves in the product, read by `member`; `none`
when the call does not return. -/
def environmentAfter (member : ResolvedProduct → ProcessEnvironment) :
    Option SetupResult → Option ProcessEnvironment
  | some (.returned product) => some (member product)
  | _ => none

/-- The product a call of a setup method leaves; the product `p` when the call does not
return. -/
def productAfter (p : ResolvedProduct) : Option SetupResult → ResolvedProduct
  | some (.returned product) => product
  | _ => p

/-! ## Keyed list comparison (language.cpp) -/

/-- The call `QMap::insert(key, value)` on a map of elements: the value of an existing key is
replaced. -/
def elemMapInsert {T : Type} (map : List (String × T)) (key : String) (value : T) :
    List (String × T) :=
  if map.any (fun e => e.1 = key) then map.map (fun e => if e.1 = key then (key, value) else e)
  else map ++ [(key, value)]

/-- The call `QMap::value(key)` on a map of pointers: `none` is the null pointer that the
default-constructed value of an absent key is. -/
def elemMapValue {T : Type} (map : List (String × T)) (key : String) : Option T :=
  (map.find? (fun e => e.1 = key)).map (·.2)

/-- The template `listToMap`. The elements are the values the (non-null) pointers of the list
point to. -/
def listToMap {T : Type} (keyFromElem : T → String) (list : List T) : List (String × T) :=
  list.foldl (fun map elem => elemMapInsert map (keyFromElem elem) elem) []

/-- The template `listsAreEqual`; `operatorEq` is the `operator==` of the element class. The
loop over the keys of `map1` returns false at the first key that fails, so the order of the keys
does not matter for the result. -/
def listsAreEqual {T : Type} (keyFromElem : T → String) (operatorEq : T → T → Bool)
    (l1 l2 : List T) : Bool :=
  if l1.length ≠ l2.length then false
  else
    let map1 := listToMap keyFromElem l1
    let map2 := listToMap keyFromElem l2
    (map1.map (·.1)).all (fun key =>
      match elemMapValue map2 key with
      | none => false
      | some value2 => equals operatorEq (elemMapValue map1 key) (some value2))

/-- The function `keyFromElem(const SourceArtifactPtr &)`. -/
def SourceArtifactInternal.keyFromElem (sa : SourceArtifactInternal) : String :=
  sa.absoluteFilePath

/-- The function `keyFromElem(const RulePtr &)`; the script pointers of a rule are not null
here. -/
def Rule.keyFromElem (r : Rule) : String :=
  r.artifacts.foldl (fun key a => key ++ a.filePath)
    (r.toString ++ r.prepareScript.sourceCode ++ r.outputArtifactsScript.sourceCode)

/-- The function `keyFromElem(const ArtifactPropertiesPtr &)`. -/
def ArtifactProperties.keyFromElem (ap : ArtifactProperties) : String :=
  joinStrings "," (sortStrings ap.fileTagsFilter)

/-- The function `sourceArtifactSetsAreEqual`. -/
def sourceArtifactSetsAreEqual (l1 l2 : List SourceArtifactInternal) : Bool :=
  listsAreEqual SourceArtifactInternal.keyFromElem SourceArtifactInternal.operatorEq l1 l2

/-- The function `ruleListsAreEqual`. -/
def ruleListsAreEqual (l1 l2 : List Rule) : Bool :=
  listsAreEqual Rule.keyFromElem Rule.operatorEq l1 l2

/-- A source artifact of the examples with the tag `cpp`. -/
def demoSourceArtifact (absoluteFilePath : String) : SourceArtifactInternal :=
  ⟨absoluteFilePath, ["cpp"], false, ⟨[]⟩⟩

/-! ## Artifact bindings, as the specification words them -/

mutual
/-- In the words of the specification: the entries of one property that is not skipped, under
the keys `enclosing` of the objects around it: a plain object is entered, anything else gives
one entry whose module is the enclosing keys joined by a dot. -/
def entriesOfProperty (artifactItemPropertyNames : List String) (enclosing : List String)
    (name : String) : ScriptValue → List Entry
  | .object props =>
    entriesOfProperties artifactItemPropertyNames (enclosing ++ [name]) props
  | .invalid => [⟨joinStrings "." enclosing, name, ScriptValue.invalid.toVariant⟩]
  | .undefined => [⟨joinStrings "." enclosing, name, ScriptValue.undefined.toVariant⟩]
  | .bool b => [⟨joinStrings "." enclosing, name, (ScriptValue.bool b).toVariant⟩]
  | .number n => [⟨joinStrings "." enclosing, name, (ScriptValue.number n).toVariant⟩]
  | .string s => [⟨joinStrings "." enclosing, name, (ScriptValue.string s).toVariant⟩]
  | .array items => [⟨joinStrings "." enclosing, name, (ScriptValue.array items).toVariant⟩]
  | .error message => [⟨joinStrings "." enclosing, name, (ScriptValue.error message).toVariant⟩]
  | .regExp pattern =>
    [⟨joinStrings "." enclosing, name, (ScriptValue.regExp pattern).toVariant⟩]
/-- In the words of the specification: the entries of the properties of an object under the
keys `enclosing`; at top level (no enclosing key) the properties named in
`artifactItemPropertyNames` are skipped with all they hold. -/
def entriesOfProperties (artifactItemPropertyNames : List String) (enclosing : List String) :
    List (String × ScriptValue) → List Entry
  | [] => []
  | (name, value) :: rest =>
    (if enclosing = [] ∧ name ∈ artifactItemPropertyNames then []
     else entriesOfProperty artifactItemPropertyNames enclosing name value)
      ++ entriesOfProperties artifactItemPropertyNames enclosing rest
end

/-- The module and the name of an entry. -/
def Entry.key (e : Entry) : String × String := (e.module, e.name)

/-- An object of the examples whose only top-level property has the empty name and holds an
object with a `filePath` and a module `cpp`. -/
def demoEmptyNameObject : List (String × ScriptValue) :=
  [("", .object [("filePath", .string "x"), ("cpp", .object [("defines", .string "A")])])]

/-! ## The old outputs of a rule application -/

/-- In graph `g`, the artifact `x` has a transformer whose rule is `rule` (the same rule object:
the same address). -/
def ProducedByRule (rule : RuleConstPtr) (g : BuildGraph) (x : ArtifactPtr) : Prop :=
  ∃ art tp t, g.artifact x = some art ∧ art.transformer = some tp ∧ g.transformer tp = some t
    ∧ t.rule.address = rule.address

/-- In graph `g`, the artifact `x` has a transformer whose rule is `rule` and whose inputs hold
the artifact `a`: the test of `collectOldOutputArtifacts`. -/
def ProducedByRuleFrom (rule : RuleConstPtr) (g : BuildGraph) (a x : ArtifactPtr) : Prop :=
  ∃ art tp t, g.artifact x = some art ∧ art.transformer = some tp ∧ g.transformer tp = some t
    ∧ t.rule.address = rule.address ∧ a ∈ t.inputs

/-- What `doApply` does with the result of `handleRemovedRuleOutputs`: lines 224 to 288. -/
def doApplyAfterRemoval (host : ScriptHost) (rule : RuleConstPtr) (m_transformer : TransformerPtr)
    (outputArtifacts : List ArtifactPtr)
    (ruleArtifactArtifactMap : List (RuleArtifact × ArtifactPtr)) (s : State) :
    Except Exception Unit × BuildGraph → Except Exception Unit × State
  | (.error e, g) => (.error e, { s with graph := g })
  | (.ok _, g) =>
    let s : State := { s with graph := g }
    if outputArtifacts.isEmpty then (.ok (), s)
    else
      match evaluateArtifactBindings host ruleArtifactArtifactMap.reverse
          (connectExplicitlyDependsOn m_transformer outputArtifacts s) with
      | (.error e, s) => (.error e, s)
      | (.ok _, s) =>
        match host.createCommands m_transformer s with
        | .error e => (.error (.error e), s)
        | .ok commands =>
          if commands.isEmpty then
            (.error (.error (ErrorInfo.mk1
              ("There is a rule without commands: " ++ rule.rule.toString ++ ".")
              (some rule.rule.prepareScript.location))), setCommands m_transformer commands s)
          else
            (.ok (), trackChanges host m_transformer outputArtifacts
              (setCommands m_transformer commands s))

/-- The example state in which the example rule (at address 1), with the template `old.o`, has
been applied to `a.cpp`, the output `old.o` (at address 2) has then been made to depend on
`b.cpp` as well, and the rule, now with the template `a.o`, is about to be applied to
`b.cpp`. -/
def demoStateOldOutput : State :=
  beginApplyRule (demoRule 1 false false [demoRuleArtifact "a.o"]) [1]
    { (applyRule (demoHost []) (demoProduct false [] [])
        (demoRule 1 false false [demoRuleArtifact "old.o"]) [0] demoState).2 with
      graph := connect 2 1 (applyRule (demoHost []) (demoProduct false [] [])
        (demoRule 1 false false [demoRuleArtifact "old.o"]) [0] demoState).2.graph }

/-- The outputs and the state after `createOutputs` in the `doApply` of the example rule with
the template `a.o` on `b.cpp`, from `demoStateOldOutput`. -/
def demoOldOutputCreated :
    Except Exception (List ArtifactPtr × List (RuleArtifact × ArtifactPtr)) × State :=
  createOutputs (demoHost []) (demoProduct false [] [])
    (demoRule 1 false false [demoRuleArtifact "a.o"]) demoStateOldOutput.graph.transformers.length
    [1]
    (createTransformer (demoProduct false [] [])
      (demoRule 1 false false [demoRuleArtifact "a.o"]) [1] demoStateOldOutput)


/-! ## Loading a project (language.cpp) -/

/-- A `ResolvedProject`: its name, location, `enabled`, products, sub-projects and
`m_projectProperties`. -/
inductive ResolvedProject where
  | mk (name : String) (location : CodeLocation) (enabled : Bool)
      (products : List ResolvedProduct) (subProjects : List ResolvedProject)
      (m_projectProperties : QVariantMap)

/-- The member `products`. -/
def ResolvedProject.products : ResolvedProject → List ResolvedProduct
  | .mk _ _ _ products _ _ => products

/-- The member `subProjects`. -/
def ResolvedProject.subProjects : ResolvedProject → List ResolvedProject
  | .mk _ _ _ _ subProjects _ => subProjects

mutual
/-- The method `ResolvedProject::allProducts`. -/
def ResolvedProject.allProducts : ResolvedProject → List ResolvedProduct
  | .mk _ _ _ products subProjects _ => products ++ allProductsOf subProjects
/-- The loop of `allProducts` over the sub-projects. -/
def allProductsOf : List ResolvedProject → List ResolvedProduct
  | [] => []
  | subProject :: rest => subProject.allProducts ++ allProductsOf rest
end

/-- The statement `child->parents.insert(node)`. -/
def insertParent (node child : ArtifactPtr) (g : BuildGraph) : BuildGraph :=
  g.modifyArtifact child (fun c => { c with parents := setInsert c.parents node })

/-- The body of the loop of `ResolvedProject::load` over the nodes of a product: the node gets
the product, and every child of the node gets the node as a parent. The nodes are the artifact
objects of the build graph (a rule node has the same three members). -/
def restoreParentLinksOfNode (product : Nat) (node : ArtifactPtr) (g : BuildGraph) :
    BuildGraph :=
  (((g.artifact node).map (·.children)).getD []).foldl (fun g child => insertParent node child g)
    (g.modifyArtifact node (fun n => { n with product := product }))

/-- The function that `ResolvedProject::load` applies to every product: nothing for a product
without build data, else the loop over `p->buildData->nodes`. -/
def restoreParentLinks (p : ResolvedProduct) (g : BuildGraph) : BuildGraph :=
  match p.buildData with
  | none => g
  | some buildData =>
    buildData.nodes.foldl (fun g node => restoreParentLinksOfNode p.address node g) g

/-- Modelled from the spec: `pool.load(products)`, each product being loaded into a new object;
the objects get the addresses from `next` on, and what `load` does not read is as in
`freshProduct`. The result holds the next free address. -/
def loadProducts (freshProduct : ResolvedProduct) (freshRule : Rule) :
    List PoolValue → Nat → Option (List ResolvedProduct × Nat)
  | [], next => some ([], next)
  | item :: rest, next =>
    match loadObject (ResolvedProduct.load { freshProduct with address := next } freshRule)
        item with
    | none => none
    | some product =>
      match loadProducts freshProduct freshRule rest (next + 1) with
      | none => none
      | some (products, next) => some (product :: products, next)

mutual
/-- The method `ResolvedProject::load`, on the values of the pool, the next free address and
the build graph with the node objects as the pool holds them (their children loaded, their
parents to be restored): the project, the next free address, the build graph afterwards and the
values not read; `none` when the values are not of the kinds it reads. -/
def ResolvedProject.load (freshProduct : ResolvedProduct) (freshRule : Rule) :
    List PoolValue → Nat → BuildGraph →
      Option (ResolvedProject × Nat × BuildGraph × List PoolValue)
  | .string name :: .location location :: .bool enabled :: .list products
      :: subProjects :: .variantMap m_projectProperties :: rest, next, g =>
    match loadProducts freshProduct freshRule products next with
    | none => none
    | some (products, next) =>
      match loadSubProjects freshProduct freshRule subProjects next
          (products.foldl (fun g p => restoreParentLinks p g) g) with
      | none => none
      | some (subProjects, next, g) =>
        some (.mk (name.getD "") location enabled products subProjects m_projectProperties,
          next, g, rest)
  | _, _, _ => none
termination_by structural values => values
/-- Modelled from the spec: `pool.load(subProjects)`, on the value written for the list. -/
def loadSubProjects (freshProduct : ResolvedProduct) (freshRule : Rule) :
    PoolValue → Nat → BuildGraph → Option (List ResolvedProject × Nat × BuildGraph)
  | .list items, next, g => loadSubProjectItems freshProduct freshRule items next g
  | _, _, _ => none
termination_by structural value => value
/-- Modelled from the spec: the loop of `pool.load(subProjects)` over the items of the list. -/
def loadSubProjectItems (freshProduct : ResolvedProduct) (freshRule : Rule) :
    List PoolValue → Nat → BuildGraph → Option (List ResolvedProject × Nat × BuildGraph)
  | [], next, g => some ([], next, g)
  | item :: more, next, g =>
    match loadSubProject freshProduct freshRule item next g with
    | none => none
    | some (project, next, g) =>
      match loadSubProjectItems freshProduct freshRule more next g with
      | none => none
      | some (projects, next, g) => some (project :: projects, next, g)
termination_by structural items => items
/-- Modelled from the spec: the load of one sub-project by `ResolvedProject::load`, which has to
read all that was written for it. -/
def loadSubProject (freshProduct : ResolvedProduct) (freshRule : Rule) :
    PoolValue → Nat → BuildGraph → Option (ResolvedProject × Nat × BuildGraph)
  | .object fields, next, g =>
    match ResolvedProject.load freshProduct freshRule fields next g with
    | some (project, next, g, []) => some (project, next, g)
    | _ => none
  | _, _, _ => none
termination_by structural value => value
end

mutual
/-- The method `ResolvedProject::store`. -/
def ResolvedProject.store : ResolvedProject → List PoolValue
  | .mk name location enabled products subProjects m_projectProperties =>
    [.string (some name), .location location, .bool enabled,
      storeList ResolvedProduct.store products, .list (storeSubProjects subProjects),
      .variantMap m_projectProperties]
/-- Modelled from the spec: the items of `pool.store(subProjects)`, each sub-project being
written by `ResolvedProject::store`. -/
def storeSubProjects : List ResolvedProject → List PoolValue
  | [] => []
  | subProject :: rest => .object subProject.store :: storeSubProjects rest
end

/-- The example build graph as the pool holds it when a project is loaded: `a.cpp` (at address
0), `b.cpp` (at address 1) and `a.o` (at address 2), which has the two sources as children; no
node has its parents or its product yet. -/
def demoLoadedGraph : BuildGraph :=
  ⟨[some { demoSource "/src/a.cpp" "cpp" with product := 0 },
    some { demoSource "/src/b.cpp" "cpp" with product := 0 },
    some { newGeneratedArtifact "/build/a.o" with children := [0, 1] }], [], false⟩

/-- The example project as stored: the project `top` with the example product, whose build data
has the three nodes, and no sub-project. -/
def demoStoredProject : List PoolValue :=
  (ResolvedProject.mk "top" (demoLocation 1) true
    [{ demoProduct false [] [] with buildData := some ⟨[0, 1, 2]⟩ }] [] []).store

/-- From graph `g` to graph `g2`, the node objects stay the same objects with the same
children, no node loses a parent, and every parent that a node has in `g2` was its parent in
`g` or has the node as a child. -/
def LinksGrow (g g2 : BuildGraph) : Prop :=
  (∀ x xn, g.artifact x = some xn →
    ∃ xn2, g2.artifact x = some xn2 ∧ xn2.children = xn.children
      ∧ ∀ y ∈ xn.parents, y ∈ xn2.parents)
  ∧ (∀ x xn2, g2.artifact x = some xn2 → ∃ xn, g.artifact x = some xn)
  ∧ (∀ c cn2, g2.artifact c = some cn2 → ∀ x ∈ cn2.parents,
      (∃ cn, g.artifact c = some cn ∧ x ∈ cn.parents)
        ∨ ∃ xn, g.artifact x = some xn ∧ c ∈ xn.children)

/-- The product of the example project as loaded into the object at address 7. -/
def demoLoadedProduct : ResolvedProduct :=
  { demoProduct false [] [] with address := 7, buildData := some ⟨[0, 1, 2]⟩ }

/-- The example build graph after the load: the sources have the parent `a.o`, and every node
has the product at address 7. -/
def demoRestoredGraph : BuildGraph :=
  ⟨[some { demoSource "/src/a.cpp" "cpp" with product := 7, parents := [2] },
    some { demoSource "/src/b.cpp" "cpp" with product := 7, parents := [2] },
    some { newGeneratedArtifact "/build/a.o" with children := [0, 1], product := 7 }], [], false⟩


/-! ## Created artifacts and their timestamps -/

/-- From graph `g` to graph `g2`, no artifact gains a timestamp (an artifact that has one in
`g2` is in `g` and has one there), and no address is given up. -/
def NoTimestampGained (g g2 : BuildGraph) : Prop :=
  (∀ x art2, g2.artifact x = some art2 → art2.timestamp ≠ none →
    ∃ art, g.artifact x = some art ∧ art.timestamp ≠ none)
  ∧ g.artifacts.length ≤ g2.artifacts.length

/-- From state `s` to state `s2`, no artifact gains a timestamp, and what is recorded as created
in `s2` was recorded in `s` or has an address that was free in `s`. -/
def CreatedKept (s s2 : State) : Prop :=
  NoTimestampGained s.graph s2.graph
    ∧ ∀ a ∈ s2.m_createdArtifacts, a ∈ s.m_createdArtifacts ∨ s.graph.artifacts.length ≤ a

/-- In state `s`, no artifact recorded as created has a timestamp. -/
def CreatedFresh (s : State) : Prop :=
  ∀ a ∈ s.m_createdArtifacts, ∀ art, s.graph.artifact a = some art → art.timestamp = none

/-- What is assumed of `removeArtifactAndExclusiveDependents`, which is not part of these
sources, where timestamps matter: it gives no artifact a timestamp (it clears timestamps and
removes artifacts). -/
def RemovalSetsNoTimestamp (host : ScriptHost) : Prop :=
  ∀ a removed g, NoTimestampGained g (host.removeArtifactAndExclusiveDependents a removed g).2

/-- The test of `applyRule` for a rule that needs inputs and has none. -/
def returnsAtOnce (rule : RuleConstPtr) (inputArtifacts : ArtifactSet) : Bool :=
  inputArtifacts.isEmpty && rule.rule.declaresInputs && rule.rule.requiresInputs

/-- The result of `applyRule` for the example dynamic rule, whose script names the path `x.h`
twice, on `a.cpp`. -/
def demoAppliedTwice : Except Exception Unit × State :=
  applyRule (demoHost demoDuplicateObjects) (demoProduct false [] []) (demoRule 1 false true [])
    [0] demoState

/-- The result of `applyRule` for the example rule with the template `a.o` on `a.cpp`. -/
def demoAppliedOnce : Except Exception Unit × State :=
  applyRule (demoHost []) (demoProduct false [] [])
    (demoRule 1 true false [demoRuleArtifact "a.o"]) [0] demoState


/-! ## Wildcard expansion (language.cpp) -/

/-- The test `s.startsWith(t)` of `QString`. -/
def startsWith (s t : String) : Bool :=
  t.data.isPrefixOf s.data

/-- Modelled from the spec: `FileInfo::isPattern` (tools/fileinfo.cpp is not among the sources).
The spec speaks of a segment that is "non-pattern"; a pattern is a string with one of the
wildcard characters of the glob syntax. -/
def isPattern (str : String) : Bool :=
  str.data.any (fun ch => ch == '*' || ch == '?' || ch == '[' || ch == ']')

/-- Modelled from the spec: `FileInfo::isAbsolute` on the host (tools/fileinfo.cpp is not among
the sources): a path that starts with `/`, and on a Windows host also one that starts with a
drive (`C:/`). -/
def isAbsoluteOnHost (isWindowsHost : Bool) (path : String) : Bool :=
  isAbsolute path
    || (isWindowsHost &&
      match path.data with
      | drive :: ':' :: '/' :: _ => drive.isAlpha
      | _ => false)

/-- The filters `QDir::Filters` that `expandPatterns` gives to the directory iterator. -/
structure DirFilters where
  dirs : Bool
  files : Bool
  system : Bool
  hidden : Bool
  noDotAndDotDot : Bool
deriving DecidableEq

/-- An entry that a `QDirIterator` reports: `filePath` is what `it.next()` returns, and of
`it.fileInfo()` there are `dir().path()`, `isDir()` and `isSymLink()`. -/
structure DirEntry where
  filePath : String
  dirPath : String
  isDir : Bool
  isSymLink : Bool
deriving DecidableEq

/-- The file system and the host, which `expandPatterns` reaches through Qt and `FileInfo`:
the home directory, the kind of host, the modification time of a directory, and the entries that
a `QDirIterator` over `baseDir` with one name filter, the filters and the flag `Subdirectories`
(`recursive`) reports, in its order. -/
structure FileSystem where
  homePath : String
  isWindowsHost : Bool
  lastModified : String → Nat
  iterate : (baseDir : String) → (filePattern : String) → (itFilters : DirFilters) →
    (recursive : Bool) → List DirEntry

/-- What the recursive `expandPatterns` works on: the set `result` and the member
`dirTimeStamps`. -/
structure Expansion where
  result : List String
  dirTimeStamps : List (String × Nat)
deriving DecidableEq

/-- The filters of lines 1116 to 1124, for the pattern of a directory (`isDir`) or of a file. -/
def iteratorFilters (isDir : Bool) (filePattern : String) : DirFilters :=
  { dirs := true, files := !isDir, system := !isDir,
    hidden := isDir && !isPattern filePattern,
    noDotAndDotDot := decide (filePattern ≠ "..") && decide (filePattern ≠ ".") }

/-- The loop of lines 1127 to 1137 over the entries of the iterator. `descend filePath` is the
recursive call `expandPatterns(result, group, changed_parts, filePath, buildDir)`; `none` is a
call that took the first element of an empty list. -/
def expandEntries (buildDir : String) (isDir : Bool)
    (descend : String → Expansion → Option Expansion) :
    List DirEntry → Expansion → Option Expansion
  | [], st => some st
  | entry :: rest, st =>
    if startsWith entry.dirPath buildDir then expandEntries buildDir isDir descend rest st
    else if !isDir && entry.isDir && !entry.isSymLink then
      expandEntries buildDir isDir descend rest st
    else if isDir then
      match descend entry.filePath st with
      | none => none
      | some st => expandEntries buildDir isDir descend rest st
    else
      expandEntries buildDir isDir descend rest
        { st with result := setInsert st.result (cleanPath entry.filePath) }

/-- Lines 1095 to 1137 of the recursive `expandPatterns`, from `changed_parts.takeFirst()` on,
by recursion on the parts not yet taken: `part :: changed_parts` is the list whose first element
the function takes next, and `recursive` is the flag so far. A part `**` sets the flag and is
followed by the next part (the `while` loop), or stands for `*` when it is the last one. The
recursive call for an entry begins with lines 1090 to 1093: it returns at once for a directory
whose path starts with `buildDir`, and records the time stamp of the directory otherwise.
`none` is `takeFirst()` on an empty list. -/
def expandPatternsParts (fs : FileSystem) (buildDir : String) :
    List String → Bool → String → Expansion → Option Expansion
  | [], _, _, _ => none
  | part :: changed_parts, recursive, baseDir, st =>
    if part = "**" then
      if changed_parts.isEmpty then
        expandEntries buildDir false (fun _ st => some st)
          (fs.iterate baseDir "*" (iteratorFilters false "*") true) st
      else expandPatternsParts fs buildDir changed_parts true baseDir st
    else
      expandEntries buildDir (!changed_parts.isEmpty)
        (fun filePath st =>
          if startsWith filePath buildDir then some st
          else
            expandPatternsParts fs buildDir changed_parts false filePath
              { st with
                dirTimeStamps := st.dirTimeStamps ++ [(filePath, fs.lastModified filePath)] })
        (fs.iterate baseDir part (iteratorFilters (!changed_parts.isEmpty) part) recursive) st

/-- The function `SourceWildCards::expandPatterns(result, group, parts, baseDir, buildDir)`
(lines 1083 to 1138). The group is not looked at. -/
def expandPatternsInto (fs : FileSystem) (parts : List String) (baseDir buildDir : String)
    (st : Expansion) : Option Expansion :=
  if startsWith baseDir buildDir then some st
  else
    expandPatternsParts fs buildDir parts false baseDir
      { st with dirTimeStamps := st.dirTimeStamps ++ [(baseDir, fs.lastModified baseDir)] }

/-- The call `pattern.split('/', QString::SkipEmptyParts)`. -/
def splitSkipEmptyParts (pattern : String) : List String :=
  (pathComponents pattern).map String.mk

/-- The prefix of the group with a leading `~` replaced by the home directory (lines 1058 to
1060). -/
def SourceWildCards.expandedPrefix_ (w : SourceWildCards) (fs : FileSystem) : String :=
  if startsWith w.prefix_ "~/" then String.mk (fs.homePath.data ++ w.prefix_.data.drop 1)
  else w.prefix_

/-- The body of the loop of lines 1061 to 1078 for one pattern. -/
def expandPattern (fs : FileSystem) (expandedPrefix_ : String) (baseDir buildDir : String)
    (pattern : String) (st : Expansion) : Option Expansion :=
  let pattern := String.mk ((expandedPrefix_.data ++ pattern.data).map
    (fun ch => if ch = '\\' then '/' else ch))
  let parts := splitSkipEmptyParts pattern
  if isAbsoluteOnHost fs.isWindowsHost pattern then
    if fs.isWindowsHost && pattern.data.head? != some '/' then
      match parts with
      | [] => none
      | rootDir :: parts =>
        expandPatternsInto fs parts
          (if rootDir.data.getLast? = some '/' then rootDir else String.mk (rootDir.data ++ ['/']))
          buildDir st
    else expandPatternsInto fs parts "/" buildDir st
  else expandPatternsInto fs parts baseDir buildDir st

/-- The loop of lines 1061 to 1078 over the patterns. -/
def expandPatternsLoop (fs : FileSystem) (expandedPrefix_ : String) (baseDir buildDir : String) :
    List String → Expansion → Option Expansion
  | [], st => some st
  | pattern :: rest, st =>
    match expandPattern fs expandedPrefix_ baseDir buildDir pattern st with
    | none => none
    | some st => expandPatternsLoop fs expandedPrefix_ baseDir buildDir rest st

/-- The function `SourceWildCards::expandPatterns(group, patterns, baseDir, buildDir)` (lines
1054 to 1081): the files, and the object with its grown `dirTimeStamps`. -/
def SourceWildCards.expandPatternList (w : SourceWildCards) (fs : FileSystem)
    (patterns : List String) (baseDir buildDir : String) :
    Option (List String × SourceWildCards) :=
  match expandPatternsLoop fs (w.expandedPrefix_ fs) baseDir buildDir patterns
      ⟨[], w.dirTimeStamps⟩ with
  | none => none
  | some st => some (st.result, { w with dirTimeStamps := st.dirTimeStamps })

/-- The function `SourceWildCards::expandPatterns(group, baseDir, buildDir)` (lines 1046 to
1052). -/
def SourceWildCards.expandPatterns (w : SourceWildCards) (fs : FileSystem)
    (baseDir buildDir : String) : Option (List String × SourceWildCards) :=
  match w.expandPatternList fs w.patterns baseDir buildDir with
  | none => none
  | some (files, w) =>
    match w.expandPatternList fs w.excludePatterns baseDir buildDir with
    | none => none
    | some (excluded, w) => some (setMinus files excluded, w)

/-- A path of the result comes from an entry that the iterator reported for a directory whose
path does not start with `buildDir`, and the path of the directory of the entry does not start
with `buildDir` either; the path is the clean path of the entry. -/
def ReportedOutside (fs : FileSystem) (buildDir : String) (path : String) : Prop :=
  ∃ baseDir filePattern itFilters recursive entry,
    entry ∈ fs.iterate baseDir filePattern itFilters recursive
      ∧ startsWith baseDir buildDir = false
      ∧ startsWith entry.dirPath buildDir = false
      ∧ (entry.isDir = true → entry.isSymLink = true)
      ∧ path = cleanPath entry.filePath

/-- The path of the entry is clean, and it is the path of its directory followed by a name
without `/`, with or without a `/` between them (without one for an entry of the root). -/
def DirEntry.isPlain (entry : DirEntry) : Prop :=
  cleanPath entry.filePath = entry.filePath
    ∧ ∃ name : List Char, '/' ∉ name
      ∧ (entry.filePath.data = entry.dirPath.data ++ '/' :: name
        ∨ entry.filePath.data = entry.dirPath.data ++ name)

/-- The example tree: the project directory `/p` with `src/a.cpp`, and the build directory
`/p/build` with the generated file `x.cpp`. The iterator composes the path of an entry from the
path it was given, `/` and the name. -/
def demoFileSystem : FileSystem where
  homePath := "/home/user"
  isWindowsHost := false
  lastModified := fun _ => 7
  iterate := fun baseDir filePattern itFilters recursive =>
    if recursive then
      if baseDir = "/p" ∧ filePattern = "*.cpp" then
        [⟨"/p/src/a.cpp", "/p/src", false, false⟩, ⟨"/p/build/x.cpp", "/p/build", false, false⟩]
      else []
    else if baseDir = "/p" ∧ filePattern = "src" then [⟨"/p/src", "/p", true, false⟩]
    else if baseDir = "/p" ∧ filePattern = "build" then [⟨"/p/build", "/p", true, false⟩]
    else if baseDir = "/p/src" ∧ filePattern = "*.cpp" then
      [⟨"/p/src/a.cpp", "/p/src", false, false⟩]
    else if baseDir = "/p" ∧ filePattern = "." ∧ itFilters.noDotAndDotDot = false then
      [⟨"/p/.", "/p", true, false⟩]
    else if baseDir = "/p/src" ∧ filePattern = ".." ∧ itFilters.noDotAndDotDot = false then
      [⟨"/p/src/..", "/p/src", true, false⟩]
    else if baseDir = "/p/." ∧ filePattern = "build" then
      [⟨"/p/./build", "/p/.", true, false⟩]
    else if baseDir = "/p/src/.." ∧ filePattern = "build" then
      [⟨"/p/src/../build", "/p/src/..", true, false⟩]
    else if baseDir = "/p/./build" ∧ filePattern = "x.cpp" then
      [⟨"/p/./build/x.cpp", "/p/./build", false, false⟩]
    else if baseDir = "/p/src/../build" ∧ filePattern = "x.cpp" then
      [⟨"/p/src/../build/x.cpp", "/p/src/../build", false, false⟩]
    else []

/-- A group's wildcards with the given patterns and no prefix. -/
def demoWildCards (patterns excludePatterns : List String) : SourceWildCards :=
  { prefix_ := "", patterns := patterns, excludePatterns := excludePatterns, dirTimeStamps := [],
    files := [] }


/-! ## The new transformer through the removal of old outputs -/

/-- The assumption on the removal helper (projectbuilddata.cpp is not among the sources) under
which the new transformer can be followed to the change tracking: the helper destroys no
transformer (the applicator holds `m_transformer`), so the store of transformers does not
shrink. -/
def RemovalKeepsTransformers (host : ScriptHost) : Prop :=
  ∀ a removed g,
    g.transformers.length
      ≤ (host.removeArtifactAndExclusiveDependents a removed g).2.transformers.length

/-- The example rule applied to `a.cpp` a second time, after `demoApplied`: the prior transformer
of `a.o` is found and is like the new one. -/
def demoReapplied : Except Exception Unit × State :=
  doApply (demoHost []) (demoProduct false [] [])
    (demoRule 1 true false [demoRuleArtifact "a.o"]) [0]
    (beginApplyRule (demoRule 1 true false [demoRuleArtifact "a.o"]) [0] demoApplied.2)


/-! ## Store lemmas -/

theorem heapGet_heapModify (l : List (Option Artifact)) (p q : Nat) (f : Artifact → Artifact) :
    heapGet (heapModify l p f) q = if q = p then (heapGet l p).map f else heapGet l q := by
  induction l generalizing p q with
  | nil => cases p <;> cases q <;> simp [heapModify, heapGet]
  | cons a rest ih =>
    cases p with
    | zero =>
      cases q with
      | zero => simp [heapModify, heapGet]
      | succ q => simp [heapModify, heapGet]
    | succ p =>
      cases q with
      | zero => simp [heapModify, heapGet]
      | succ q => simp [heapModify, heapGet, ih]

theorem heapGet_append_length (l : List (Option Artifact)) (a : Option Artifact) :
    heapGet (l ++ [a]) l.length = a := by
  induction l with
  | nil => simp [heapGet]
  | cons x rest ih => simpa [heapGet] using ih

theorem heapGet_append_of_lt (l : List (Option Artifact)) (a : Option Artifact) (q : Nat)
    (h : q < l.length) : heapGet (l ++ [a]) q = heapGet l q := by
  induction l generalizing q with
  | nil => simp at h
  | cons x rest ih =>
    cases q with
    | zero => simp [heapGet]
    | succ q =>
      simp only [List.cons_append, heapGet]
      exact ih q (by simpa using h)

theorem heapGet_lt_length (l : List (Option Artifact)) (q : Nat) (a : Artifact)
    (h : heapGet l q = some a) : q < l.length := by
  induction l generalizing q with
  | nil => simp [heapGet] at h
  | cons x rest ih =>
    cases q with
    | zero => simp
    | succ q =>
      simp only [heapGet] at h
      have := ih q h
      simp
      omega

theorem findArtifact_some (productAddress : Nat) (filePath : String)
    (l : List (Option Artifact)) (base p : Nat) (a : Artifact)
    (h : findArtifact productAddress filePath l base = some (p, a)) :
    base ≤ p ∧ heapGet l (p - base) = some a ∧ a.product = productAddress
      ∧ a.filePath = filePath := by
  induction l generalizing base with
  | nil => simp [findArtifact] at h
  | cons x rest ih =>
    cases x with
    | none =>
      simp only [findArtifact] at h
      obtain ⟨h1, h2, h3⟩ := ih (base + 1) h
      refine ⟨by omega, ?_, h3⟩
      have : p - base = (p - (base + 1)) + 1 := by omega
      rw [this]
      simpa [heapGet] using h2
    | some b =>
      simp only [findArtifact] at h
      split at h
      · rename_i hb
        simp only [Option.some.injEq, Prod.mk.injEq] at h
        obtain ⟨rfl, rfl⟩ := h
        simp [heapGet, hb.1, hb.2]
      · obtain ⟨h1, h2, h3⟩ := ih (base + 1) h
        refine ⟨by omega, ?_, h3⟩
        have : p - base = (p - (base + 1)) + 1 := by omega
        rw [this]
        simpa [heapGet] using h2

theorem lookupArtifact_some (product : ResolvedProduct) (filePath : String) (g : BuildGraph)
    (p : Nat) (a : Artifact) (h : lookupArtifact product filePath g = some (p, a)) :
    g.artifact p = some a ∧ a.product = product.address ∧ a.filePath = filePath := by
  have := findArtifact_some product.address filePath g.artifacts 0 p a h
  simpa [BuildGraph.artifact] using this.2

/-- C1: with an empty input set, a rule that declares inputs and requires them is not applied:
`applyRule` returns normally and the state it returns is the state it was given. -/
theorem applyRule_empty_inputs_required (host : ScriptHost) (product : ResolvedProduct)
    (rule : RuleConstPtr) (s : State)
    (hdeclares : rule.rule.inputs ≠ [] ∨ rule.rule.inputsFromDependencies ≠ [])
    (hrequires : rule.rule.requiresInputs = true) :
    applyRule host product rule [] s = (Except.ok (), s) := by
  have hd : rule.rule.declaresInputs = true := by
    unfold Rule.declaresInputs
    rcases hdeclares with h | h
    · cases hi : rule.rule.inputs with
      | nil => exact absurd hi h
      | cons x xs => simp
    · cases hi : rule.rule.inputsFromDependencies with
      | nil => exact absurd hi h
      | cons x xs => simp
  simp [applyRule, hd, hrequires]

/-- C1, witness: the example rule, which declares the input tag `cpp`, with no input. -/
theorem applyRule_empty_inputs_required_witness :
    ((demoRule 7 false false [demoRuleArtifact "a.o"]).rule.inputs ≠ []
      ∨ (demoRule 7 false false [demoRuleArtifact "a.o"]).rule.inputsFromDependencies ≠ [])
    ∧ (demoRule 7 false false [demoRuleArtifact "a.o"]).rule.requiresInputs = true
    ∧ applyRule (demoHost []) (demoProduct false [] [])
        (demoRule 7 false false [demoRuleArtifact "a.o"]) [] demoState
          = (Except.ok (), demoState) :=
  ⟨Or.inl (by decide), rfl,
    applyRule_empty_inputs_required (demoHost []) (demoProduct false [] [])
      (demoRule 7 false false [demoRuleArtifact "a.o"]) demoState (Or.inl (by decide)) rfl⟩



theorem heapGet_heapModify_map {β : Type} (π : Artifact → β) (f : Artifact → Artifact)
    (hf : ∀ a, π (f a) = π a) (l : List (Option Artifact)) (p q : Nat) :
    (heapGet (heapModify l p f) q).map π = (heapGet l q).map π := by
  rw [heapGet_heapModify]
  split
  · rename_i h
    subst h
    cases heapGet l q <;> simp [hf]
  · rfl

theorem connect_artifact (p c q : Nat) (g : BuildGraph) :
    ((connect p c g).artifact q).map Artifact.withoutEdges
      = (g.artifact q).map Artifact.withoutEdges := by
  simp only [connect, BuildGraph.modifyArtifact, BuildGraph.artifact]
  rw [heapGet_heapModify_map _ _ (fun a => by simp [Artifact.withoutEdges]),
    heapGet_heapModify_map _ _ (fun a => by simp [Artifact.withoutEdges])]

theorem connect_transformers (p c : Nat) (g : BuildGraph) :
    (connect p c g).transformers = g.transformers := rfl

theorem connectInputs_frame (out : Nat) (inputs : List Nat) (g g' : BuildGraph)
    (r : Except Exception Unit) (h : connectInputs out inputs g = (r, g')) :
    g'.transformers = g.transformers ∧
    ∀ q, (g'.artifact q).map Artifact.withoutEdges = (g.artifact q).map Artifact.withoutEdges := by
  induction inputs generalizing g with
  | nil =>
    simp only [connectInputs, Prod.mk.injEq] at h
    obtain ⟨_, rfl⟩ := h
    exact ⟨rfl, fun _ => rfl⟩
  | cons i rest ih =>
    simp only [connectInputs] at h
    split at h
    · simp only [Prod.mk.injEq] at h
      obtain ⟨_, rfl⟩ := h
      exact ⟨rfl, fun _ => rfl⟩
    · obtain ⟨h1, h2⟩ := ih _ h
      exact ⟨h1, fun q => by rw [h2 q, connect_artifact]⟩

theorem lookupOrCreateOutput_ok (product : ResolvedProduct) (rule : RuleConstPtr) (tp : Nat)
    (outputPath : String) (inputs : ArtifactSet) (s s1 : State) (a : Nat)
    (h : lookupOrCreateOutput product rule tp outputPath inputs s = (Except.ok a, s1)) :
    ∃ art1, s1.graph.artifact a = some art1 ∧ art1.filePath = outputPath
      ∧ art1.product = product.address := by
  unfold lookupOrCreateOutput at h
  split at h
  · rename_i p art hl
    obtain ⟨hg, hp, hf⟩ := lookupArtifact_some _ _ _ _ _ hl
    split at h
    · split at h
      · simp at h
      · split at h
        · split at h
          · simp at h
          · split at h <;> simp at h
        · simp only [Prod.mk.injEq, Except.ok.injEq] at h
          obtain ⟨rfl, rfl⟩ := h
          exact ⟨art, by simpa [BuildGraph.artifact, BuildGraph.modifyTransformer] using hg, hf, hp⟩
    · simp only [Prod.mk.injEq, Except.ok.injEq] at h
      obtain ⟨rfl, rfl⟩ := h
      exact ⟨art, hg, hf, hp⟩
  · simp only [Prod.mk.injEq, Except.ok.injEq] at h
    obtain ⟨rfl, rfl⟩ := h
    refine ⟨{ newGeneratedArtifact outputPath with product := product.address }, ?_, rfl, rfl⟩
    simp [insertArtifact, BuildGraph.artifact, heapGet_append_length]

/-- What `createOutputArtifact` leaves at the address it returns. -/
theorem createOutputArtifact_ok (host : ScriptHost) (product : ResolvedProduct)
    (rule : RuleConstPtr) (tp : Nat) (filePath : String) (fileTags : FileTags) (au : Bool)
    (inputs : ArtifactSet) (s s' : State) (a : Nat)
    (h : createOutputArtifact host product rule tp filePath fileTags au inputs s
      = (Except.ok a, s')) :
    ∃ art1 art', art1.filePath = normalizedOutputPath product filePath
      ∧ art1.product = product.address
      ∧ s'.graph.artifact a = some art'
      ∧ art'.withoutEdges
        = ({ setOutputProperties host product fileTags au art1 with
             transformer := some tp } : Artifact).withoutEdges := by
  unfold createOutputArtifact at h
  simp only at h
  split at h
  · simp at h
  · rename_i out s1 hl
    obtain ⟨art1, hg1, hf1, hp1⟩ := lookupOrCreateOutput_ok _ _ _ _ _ _ _ _ hl
    split at h
    · simp at h
    · rename_i u g2 hc
      obtain ⟨-, hfr⟩ := connectInputs_frame _ _ _ _ _ hc
      have hq := hfr out
      simp only [BuildGraph.modifyArtifact, BuildGraph.artifact, heapGet_heapModify, if_true] at hq
      simp only [BuildGraph.artifact] at hg1
      rw [hg1] at hq
      simp only [Option.map_some'] at hq
      cases hg2 : heapGet g2.artifacts out with
      | none => rw [hg2] at hq; simp at hq
      | some art2 =>
        rw [hg2] at hq
        simp only [Option.map_some', Option.some.injEq] at hq
        split at h
        · simp only [Prod.mk.injEq, Except.ok.injEq] at h
          obtain ⟨rfl, rfl⟩ := h
          refine ⟨art1, { art2 with transformer := some tp }, hf1, hp1, ?_, ?_⟩
          · simp [BuildGraph.modifyArtifact, BuildGraph.modifyTransformer, BuildGraph.artifact,
              heapGet_heapModify, hg2]
          · simp only [Artifact.withoutEdges] at hq ⊢
            cases art2
            simp_all
        · simp at h


theorem mem_setInsert {α : Type} [DecidableEq α] (s : List α) (x y : α) :
    y ∈ setInsert s x ↔ y ∈ s ∨ y = x := by
  unfold setInsert
  split
  · constructor
    · exact Or.inl
    · rintro (h | rfl)
      · exact h
      · assumption
  · simp

theorem mem_setUnite {α : Type} [DecidableEq α] (a b : List α) (y : α) :
    y ∈ setUnite a b ↔ y ∈ a ∨ y ∈ b := by
  unfold setUnite
  induction b generalizing a with
  | nil => simp
  | cons x rest ih =>
    simp only [List.foldl_cons, ih, mem_setInsert, List.mem_cons]
    tauto

theorem setIntersects_nil {α : Type} [DecidableEq α] (b : List α) :
    setIntersects ([] : List α) b = false := rfl

theorem setFromList_nil {α : Type} [DecidableEq α] : setFromList ([] : List α) = [] := rfl

/-- The tags `setOutputProperties` gives an artifact. -/
theorem mem_setOutputProperties_fileTags (host : ScriptHost) (product : ResolvedProduct)
    (fileTags : FileTags) (au : Bool) (art : Artifact) (t : FileTag) :
    t ∈ (setOutputProperties host product fileTags au art).fileTags ↔
      (t ∈ effectiveFileTags host product fileTags art
        ∨ (∃ e, matchingArtifactProperties product (effectiveFileTags host product fileTags art)
              = some e ∧ t ∈ e.extraFileTags)
        ∨ (t = "installable"
            ∧ ((setOutputProperties host product fileTags au art).properties.qbsPropertyValue
                "install").toBool = true)) := by
  unfold setOutputProperties
  simp only
  cases hm : matchingArtifactProperties product (effectiveFileTags host product fileTags art) with
  | none =>
    simp only
    split
    · rename_i hi
      simp [mem_setInsert, hi]
    · rename_i hi
      simp [hi]
  | some e =>
    simp only
    split
    · rename_i hi
      simp [mem_setInsert, mem_setUnite, hi, or_assoc]
    · rename_i hi
      simp [mem_setUnite, hi]

theorem setOutputProperties_filePath (host : ScriptHost) (product : ResolvedProduct)
    (fileTags : FileTags) (au : Bool) (art : Artifact) :
    (setOutputProperties host product fileTags au art).filePath = art.filePath := by
  unfold setOutputProperties
  simp only
  split <;> split <;> rfl

theorem setOutputProperties_properties (host : ScriptHost) (product : ResolvedProduct)
    (fileTags : FileTags) (au : Bool) (art : Artifact) :
    (setOutputProperties host product fileTags au art).properties =
      match matchingArtifactProperties product (effectiveFileTags host product fileTags art) with
      | some e => e.propertyMap
      | none => product.moduleProperties := by
  unfold setOutputProperties
  simp only
  split <;> split <;> simp_all

/-- The output of `createOutputArtifact`, seen through its path, tags and properties. -/
theorem createOutputArtifact_result (host : ScriptHost) (product : ResolvedProduct)
    (rule : RuleConstPtr) (tp : Nat) (filePath : String) (fileTags : FileTags) (au : Bool)
    (inputs : ArtifactSet) (s s' : State) (a : Nat)
    (h : createOutputArtifact host product rule tp filePath fileTags au inputs s
      = (Except.ok a, s')) :
    ∃ art1 art', s'.graph.artifact a = some art'
      ∧ art1.filePath = normalizedOutputPath product filePath
      ∧ art'.filePath = normalizedOutputPath product filePath
      ∧ art'.fileTags = (setOutputProperties host product fileTags au art1).fileTags
      ∧ art'.properties = (setOutputProperties host product fileTags au art1).properties
      ∧ art'.transformer = some tp ∧ art'.product = product.address := by
  obtain ⟨art1, art', h1, h2, h3, h4⟩ := createOutputArtifact_ok _ _ _ _ _ _ _ _ _ _ _ h
  refine ⟨art1, art', h3, h1, ?_, ?_, ?_, ?_, ?_⟩
  · have := congrArg Artifact.filePath h4
    simpa [Artifact.withoutEdges, setOutputProperties_filePath, h1] using this
  · have := congrArg Artifact.fileTags h4
    simpa [Artifact.withoutEdges] using this
  · have := congrArg Artifact.properties h4
    simpa [Artifact.withoutEdges] using this
  · have := congrArg Artifact.transformer h4
    simpa [Artifact.withoutEdges] using this
  · have := congrArg Artifact.product h4
    have hp : (setOutputProperties host product fileTags au art1).product = art1.product := by
      unfold setOutputProperties
      simp only
      split <;> split <;> rfl
    simpa [Artifact.withoutEdges, hp, h2] using this


/-- C8 (as amended): an output created with no declared tags carries exactly the tags the file
taggers give its file name, the extra tags of the first matching `ArtifactProperties` entry, and
the tag `installable` when its `qbs.install` property is true. -/
theorem createOutputArtifact_derived_tags (host : ScriptHost) (product : ResolvedProduct)
    (rule : RuleConstPtr) (m_transformer : TransformerPtr) (filePath : String)
    (alwaysUpdated : Bool) (inputArtifacts : ArtifactSet) (s s' : State) (a : ArtifactPtr)
    (h : createOutputArtifact host product rule m_transformer filePath [] alwaysUpdated
      inputArtifacts s = (Except.ok a, s')) :
    ∃ art, s'.graph.artifact a = some art ∧
      ∀ t, t ∈ art.fileTags ↔
        (t ∈ product.fileTagsForFileName host (fileName art.filePath)
          ∨ (∃ e, matchingArtifactProperties product
                (product.fileTagsForFileName host (fileName art.filePath)) = some e
              ∧ t ∈ e.extraFileTags)
          ∨ (t = "installable" ∧ (art.properties.qbsPropertyValue "install").toBool = true)) := by
  obtain ⟨art1, art', hg, hp1, hp, ht, hpr, -, -⟩ :=
    createOutputArtifact_result _ _ _ _ _ _ _ _ _ _ _ h
  refine ⟨art', hg, fun t => ?_⟩
  have he : effectiveFileTags host product [] art1
      = product.fileTagsForFileName host (fileName art'.filePath) := by
    simp [effectiveFileTags, hp1, hp]
  rw [ht, hpr, mem_setOutputProperties_fileTags, he]

/-- C8, witness: `parser.y` is tagged `yacc` by a file tagger and gets the extra tag `grammar`. -/
theorem createOutputArtifact_derived_tags_witness :
    ∃ art, (createOutputArtifact (demoHost []) demoYaccProduct (demoRule 7 false false []) 0
        "parser.y" [] true [0] (demoStateApplying (demoRule 7 false false []) [0])).2.graph.artifact
          2 = some art ∧
      ∀ t, t ∈ art.fileTags ↔
        (t ∈ demoYaccProduct.fileTagsForFileName (demoHost []) (fileName art.filePath)
          ∨ (∃ e, matchingArtifactProperties demoYaccProduct
                (demoYaccProduct.fileTagsForFileName (demoHost []) (fileName art.filePath)) = some e
              ∧ t ∈ e.extraFileTags)
          ∨ (t = "installable" ∧ (art.properties.qbsPropertyValue "install").toBool = true)) :=
  createOutputArtifact_derived_tags (demoHost []) demoYaccProduct (demoRule 7 false false []) 0
    "parser.y" true [0] (demoStateApplying (demoRule 7 false false []) [0]) _ 2 rfl

/-- C8, counterexample: with `qbs.install` true, no file tagger and no `ArtifactProperties`
entry, the output created with no declared tags carries the tag `installable`. -/
theorem createOutputArtifact_derived_tags_counterexample :
    ∃ s' art, createOutputArtifact (demoHost []) (demoProduct true [] [])
        (demoRule 7 false false []) 0 "readme.txt" [] true [0]
        (demoStateApplying (demoRule 7 false false []) [0]) = (Except.ok 2, s')
      ∧ s'.graph.artifact 2 = some art
      ∧ art.fileTags = ["installable"]
      ∧ (demoProduct true [] []).fileTagsForFileName (demoHost []) (fileName art.filePath) = []
      ∧ matchingArtifactProperties (demoProduct true [] [])
          ((demoProduct true [] []).fileTagsForFileName (demoHost []) (fileName art.filePath))
          = none :=
  ⟨_, _, rfl, rfl, rfl, rfl, rfl⟩


theorem matchingArtifactProperties_first (product : ResolvedProduct) (tags : FileTags)
    (pre post : List ArtifactProperties) (e : ArtifactProperties)
    (hl : product.artifactProperties = pre ++ e :: post)
    (hpre : ∀ x ∈ pre, setIntersects tags x.fileTagsFilter = false)
    (he : setIntersects tags e.fileTagsFilter = true) :
    matchingArtifactProperties product tags = some e := by
  unfold matchingArtifactProperties
  rw [hl]
  clear hl
  induction pre with
  | nil => simp [List.find?, he]
  | cons x rest ih =>
    have hx := hpre x (List.mem_cons_self _ _)
    simp only [List.cons_append, List.find?, hx]
    exact ih (fun y hy => hpre y (List.mem_cons_of_mem _ hy))

theorem matchingArtifactProperties_none (product : ResolvedProduct) (tags : FileTags)
    (h : ∀ x ∈ product.artifactProperties, setIntersects tags x.fileTagsFilter = false) :
    matchingArtifactProperties product tags = none := by
  unfold matchingArtifactProperties
  rw [List.find?_eq_none]
  intro x hx
  simp [h x hx]

/-- C9: the properties of an output are the property map of the first `ArtifactProperties` entry,
in list order, whose filter intersects the artifact's tags (the declared tags, or those of the
file taggers when none are declared), and the product's module properties when there is no such
entry; of all entries only that first one contributes its extra file tags. The tag set is given
in full: the tags, those extra tags, and `installable` when the chosen properties have
`qbs.install` true. -/
theorem createOutputArtifact_first_matching_properties (host : ScriptHost)
    (product : ResolvedProduct) (rule : RuleConstPtr) (m_transformer : TransformerPtr)
    (filePath : String) (fileTags : FileTags) (alwaysUpdated : Bool)
    (inputArtifacts : ArtifactSet) (s s' : State) (a : ArtifactPtr)
    (h : createOutputArtifact host product rule m_transformer filePath fileTags alwaysUpdated
      inputArtifacts s = (Except.ok a, s')) :
    ∃ art tags, s'.graph.artifact a = some art ∧
      tags = (if fileTags = [] then product.fileTagsForFileName host (fileName art.filePath)
              else fileTags) ∧
      (∀ pre e post, product.artifactProperties = pre ++ e :: post →
        (∀ x ∈ pre, setIntersects tags x.fileTagsFilter = false) →
        setIntersects tags e.fileTagsFilter = true →
        art.properties = e.propertyMap ∧
        ∀ t, t ∈ art.fileTags ↔
          (t ∈ tags ∨ t ∈ e.extraFileTags
            ∨ (t = "installable" ∧ (e.propertyMap.qbsPropertyValue "install").toBool = true))) ∧
      ((∀ x ∈ product.artifactProperties, setIntersects tags x.fileTagsFilter = false) →
        art.properties = product.moduleProperties ∧
        ∀ t, t ∈ art.fileTags ↔
          (t ∈ tags
            ∨ (t = "installable"
                ∧ (product.moduleProperties.qbsPropertyValue "install").toBool = true))) := by
  obtain ⟨art1, art', hg, hp1, hp, ht, hpr, -, -⟩ :=
    createOutputArtifact_result _ _ _ _ _ _ _ _ _ _ _ h
  have he : effectiveFileTags host product fileTags art1
      = (if fileTags = [] then product.fileTagsForFileName host (fileName art'.filePath)
         else fileTags) := by
    unfold effectiveFileTags
    rw [hp1, hp]
    cases fileTags <;> simp
  refine ⟨art', _, hg, rfl, ?_, ?_⟩
  · intro pre e post hl hpre hint
    have hm := matchingArtifactProperties_first product _ pre post e hl hpre hint
    rw [← he] at hm
    have hprops : art'.properties = e.propertyMap := by
      rw [hpr, setOutputProperties_properties, hm]
    refine ⟨hprops, fun t => ?_⟩
    rw [ht, mem_setOutputProperties_fileTags, hm, ← hpr, hprops, he]
    simp
  · intro hnone
    have hm := matchingArtifactProperties_none product _ hnone
    rw [← he] at hm
    have hprops : art'.properties = product.moduleProperties := by
      rw [hpr, setOutputProperties_properties, hm]
    refine ⟨hprops, fun t => ?_⟩
    rw [ht, mem_setOutputProperties_fileTags, hm, ← hpr, hprops, he]
    simp

/-- C9, witness: of two entries that both match the tag `obj`, the first gives the properties. -/
theorem createOutputArtifact_first_matching_properties_witness :
    ∃ art, (createOutputArtifact (demoHost []) demoTwoEntriesProduct (demoRule 7 false false [])
        0 "a.o" ["obj"] true [0]
        (demoStateApplying (demoRule 7 false false []) [0])).2.graph.artifact 2 = some art
      ∧ art.properties = ⟨[("cpp", .map [("debug", .bool true)])]⟩
      ∧ ∀ t, t ∈ art.fileTags ↔
          (t ∈ ["obj"] ∨ t ∈ ["first"]
            ∨ (t = "installable"
                ∧ (PropertyMap.qbsPropertyValue ⟨[("cpp", .map [("debug", .bool true)])]⟩
                    "install").toBool = true)) := by
  obtain ⟨art, tags, hg, htags, hfirst, -⟩ :=
    createOutputArtifact_first_matching_properties (demoHost []) demoTwoEntriesProduct
      (demoRule 7 false false []) 0 "a.o" ["obj"] true [0]
      (demoStateApplying (demoRule 7 false false []) [0]) _ 2 rfl
  have htags' : tags = ["obj"] := by simpa using htags
  subst htags'
  exact ⟨art, hg, hfirst [] ⟨["obj"], ["first"], ⟨[("cpp", .map [("debug", .bool true)])]⟩⟩
    [⟨["obj", "o"], ["second"], ⟨[]⟩⟩] rfl (by simp) rfl⟩

/-- C10 (as amended): an object of a dynamic rule with a non-empty `filePath`, no file tags and
a file name that no file tagger matches, in a product whose `qbs.install` is not true: when
`createOutputArtifact` raises no error of its own, `createOutputArtifactFromScriptValue` fails
with the error that asks for file tags or a file tagger. -/
theorem createOutputArtifactFromScriptValue_untagged (host : ScriptHost)
    (product : ResolvedProduct) (rule : RuleConstPtr) (m_transformer : TransformerPtr)
    (obj : ScriptValue) (inputArtifacts : ArtifactSet) (s : State)
    (hobj : obj.isObject = true)
    (hpath : (obj.property "filePath").toVariant.toQString ≠ "")
    (htags : (obj.property "fileTags").toVariant.toStringList = [])
    (htagger : product.fileTagsForFileName host
      (fileName (normalizedOutputPath product (resolvePath product.buildDirectory
        (obj.property "filePath").toVariant.toQString))) = [])
    (hinstall : (product.moduleProperties.qbsPropertyValue "install").toBool = false) :
    ∃ e s', createOutputArtifactFromScriptValue host product rule m_transformer obj
        inputArtifacts s = (Except.error e, s') ∧
      ∀ output s1, createOutputArtifact host product rule m_transformer
          (resolvePath product.buildDirectory (obj.property "filePath").toVariant.toQString) []
          (if (obj.property "alwaysUpdated").toVariant.isValid
            then (obj.property "alwaysUpdated").toVariant.toBool else true)
          inputArtifacts s = (Except.ok output, s1) →
        e = Exception.ruleOutputArtifacts
              (fileTagsMissingError (obj.property "filePath").toVariant.toQString)
          ∧ s' = s1 := by
  unfold createOutputArtifactFromScriptValue
  simp only [hobj, Bool.not_true, Bool.false_eq_true, if_false, hpath, htags, setFromList_nil]
  cases hc : createOutputArtifact host product rule m_transformer
      (resolvePath product.buildDirectory (obj.property "filePath").toVariant.toQString) []
      (if (obj.property "alwaysUpdated").toVariant.isValid
        then (obj.property "alwaysUpdated").toVariant.toBool else true) inputArtifacts s with
  | mk r s1 =>
    cases r with
    | error e => exact ⟨e, s1, rfl, fun _ _ h => by simp at h⟩
    | ok output =>
      obtain ⟨art1, art', hg, hp1, -, ht, hpr, -, -⟩ :=
        createOutputArtifact_result _ _ _ _ _ _ _ _ _ _ _ hc
      have heff : effectiveFileTags host product [] art1 = [] := by
        simp [effectiveFileTags, hp1, htagger]
      have hm : matchingArtifactProperties product [] = none :=
        matchingArtifactProperties_none product [] (fun _ _ => rfl)
      have hempty : art'.fileTags = [] := by
        rw [List.eq_nil_iff_forall_not_mem]
        intro t
        rw [ht, mem_setOutputProperties_fileTags, heff, hm, setOutputProperties_properties,
          heff, hm]
        simp [hinstall]
      simp only [hg, Option.map_some', Option.getD_some, hempty, List.isEmpty_nil, if_true]
      exact ⟨_, _, rfl, fun _ _ h => by
        simp only [Prod.mk.injEq, Except.ok.injEq] at h
        exact ⟨rfl, h.2⟩⟩

/-- C10, witness: the object `{filePath: "notes"}` in a product without file taggers. -/
theorem createOutputArtifactFromScriptValue_untagged_witness :
    ∃ e s', createOutputArtifactFromScriptValue (demoHost []) (demoProduct false [] [])
        (demoRule 7 true true []) 0 (.object [("filePath", .string "notes")]) [0]
        (demoStateApplying (demoRule 7 true true []) [0]) = (Except.error e, s') ∧
      e = Exception.ruleOutputArtifacts (fileTagsMissingError "notes") := by
  obtain ⟨e, s', h, hs⟩ := createOutputArtifactFromScriptValue_untagged (demoHost [])
    (demoProduct false [] []) (demoRule 7 true true []) 0
    (.object [("filePath", .string "notes")]) [0]
    (demoStateApplying (demoRule 7 true true []) [0]) rfl (by decide) rfl rfl rfl
  exact ⟨e, s', h, (hs 2 _ rfl).1⟩

/-- C10, counterexample: with `qbs.install` true the untagged object `{filePath: "notes"}` is
accepted: the output gets the tag `installable` and no error is raised. -/
theorem createOutputArtifactFromScriptValue_untagged_counterexample :
    ∃ s', createOutputArtifactFromScriptValue (demoHost []) (demoProduct true [] [])
        (demoRule 7 true true []) 0 (.object [("filePath", .string "notes")]) [0]
        (demoStateApplying (demoRule 7 true true []) [0]) = (Except.ok 2, s')
      ∧ (ScriptValue.object [("filePath", .string "notes")]).isObject = true
      ∧ ((ScriptValue.object [("filePath", .string "notes")]).property
          "fileTags").toVariant.toStringList = []
      ∧ (demoProduct true [] []).fileTagsForFileName (demoHost []) "notes" = []
      ∧ (s'.graph.artifact 2).map (·.fileTags) = some ["installable"] :=
  ⟨_, rfl, rfl, rfl, rfl, rfl⟩


/-! ## What `createOutputArtifact` leaves alone -/

theorem storeModify_map_key (f : Transformer → Transformer)
    (hf : ∀ t, (f t).key = t.key) (l : List Transformer) (p : Nat) :
    (storeModify l p f).map Transformer.key = l.map Transformer.key := by
  induction l generalizing p with
  | nil => cases p <;> rfl
  | cons t rest ih =>
    cases p with
    | zero => simp [storeModify, hf]
    | succ p => simp [storeModify, ih]

theorem transformer_of_map_key (l l' : List Transformer)
    (h : l'.map Transformer.key = l.map Transformer.key) (k : Nat) (t : Transformer)
    (ht : l[k]? = some t) : ∃ t', l'[k]? = some t' ∧ t'.key = t.key := by
  have h1 : (l'.map Transformer.key)[k]? = (l.map Transformer.key)[k]? := by rw [h]
  simp only [List.getElem?_map, ht, Option.map_some'] at h1
  cases h2 : l'[k]? with
  | none => simp [h2] at h1
  | some t' =>
    simp only [h2, Option.map_some', Option.some.injEq] at h1
    exact ⟨t', rfl, h1⟩

theorem rescueChangeTrackingData_key (t : Transformer) (other : Option Transformer) :
    (rescueChangeTrackingData t other).key = t.key := by
  cases other <;> rfl

/-- The outcomes of `lookupOrCreateOutput`. -/
theorem lookupOrCreateOutput_cases (product : ResolvedProduct) (rule : RuleConstPtr) (tp : Nat)
    (outputPath : String) (inputs : ArtifactSet) (s s1 : State) (r : Except Exception Nat)
    (h : lookupOrCreateOutput product rule tp outputPath inputs s = (r, s1)) :
    (s1 = s ∧ ∃ e, r = Except.error e) ∨
    (∃ out, r = Except.ok out
      ∧ s1.graph.transformers.map Transformer.key = s.graph.transformers.map Transformer.key
      ∧ ((∃ art, lookupArtifact product outputPath s.graph = some (out, art)
            ∧ s1.graph.artifacts = s.graph.artifacts
            ∧ ∀ t, art.transformer.bind s.graph.transformer = some t →
                t.rule.address = rule.address)
          ∨ (lookupArtifact product outputPath s.graph = none
            ∧ out = s.graph.artifacts.length
            ∧ s1.graph.artifacts = s.graph.artifacts
                ++ [some { newGeneratedArtifact outputPath with product := product.address }]))) := by
  unfold lookupOrCreateOutput at h
  split at h
  · rename_i p art hl
    split at h
    · rename_i t hb
      split at h
      · simp only [Prod.mk.injEq] at h
        exact Or.inl ⟨h.2.symm, _, h.1.symm⟩
      · rename_i hr
        split at h
        · split at h
          · simp only [Prod.mk.injEq] at h
            exact Or.inl ⟨h.2.symm, _, h.1.symm⟩
          · split at h <;>
            · simp only [Prod.mk.injEq] at h
              exact Or.inl ⟨h.2.symm, _, h.1.symm⟩
        · simp only [Prod.mk.injEq] at h
          obtain ⟨rfl, rfl⟩ := h
          refine Or.inr ⟨p, rfl, ?_, Or.inl ⟨art, hl, rfl, ?_⟩⟩
          · exact storeModify_map_key _ (fun t => rescueChangeTrackingData_key t _) _ _
          · intro t' ht'
            rw [hb] at ht'
            cases ht'
            simpa using hr
    · rename_i hb
      simp only [Prod.mk.injEq] at h
      obtain ⟨rfl, rfl⟩ := h
      exact Or.inr ⟨p, rfl, rfl, Or.inl ⟨art, hl, rfl, fun t ht => by simp [hb] at ht⟩⟩
  · rename_i hl
    simp only [Prod.mk.injEq] at h
    obtain ⟨rfl, rfl⟩ := h
    exact Or.inr ⟨_, rfl, rfl, Or.inr ⟨hl, rfl, rfl⟩⟩

/-- In every outcome of `createOutputArtifact`, the transformers keep their rule and inputs,
and every artifact stays where it is, with its path and product, and with its transformer unless
it is the artifact found at the output path, which then belongs to the rule being applied. -/
theorem createOutputArtifact_frame (host : ScriptHost) (product : ResolvedProduct)
    (rule : RuleConstPtr) (tp : Nat) (filePath : String) (fileTags : FileTags) (au : Bool)
    (inputs : ArtifactSet) (s s2 : State) (r : Except Exception Nat)
    (h : createOutputArtifact host product rule tp filePath fileTags au inputs s = (r, s2)) :
    s2.graph.transformers.map Transformer.key = s.graph.transformers.map Transformer.key ∧
    ∀ q art, s.graph.artifact q = some art →
      ∃ art', s2.graph.artifact q = some art' ∧ art'.filePath = art.filePath
        ∧ art'.product = art.product
        ∧ (art'.transformer = art.transformer
          ∨ (art'.transformer = some tp
            ∧ lookupArtifact product (normalizedOutputPath product filePath) s.graph
                = some (q, art)
            ∧ ∀ t, art.transformer.bind s.graph.transformer = some t →
                t.rule.address = rule.address)) := by
  unfold createOutputArtifact at h
  simp only at h
  cases hl : lookupOrCreateOutput product rule tp (normalizedOutputPath product filePath) inputs s
    with
  | mk r1 s1 =>
  rw [hl] at h
  rcases lookupOrCreateOutput_cases _ _ _ _ _ _ _ _ hl with ⟨rfl, e, rfl⟩ | ⟨out, rfl, hT, hcase⟩
  · simp only [Prod.mk.injEq] at h
    obtain ⟨-, rfl⟩ := h
    exact ⟨rfl, fun q art hq => ⟨art, hq, rfl, rfl, Or.inl rfl⟩⟩
  · -- the artifacts of `s` within `s1`
    have hs1 : ∀ q art, s.graph.artifact q = some art → s1.graph.artifact q = some art := by
      intro q art hq
      rcases hcase with ⟨_, _, ha, _⟩ | ⟨_, _, ha⟩
      · simpa [BuildGraph.artifact, ha] using hq
      · simp only [BuildGraph.artifact, ha]
        rw [heapGet_append_of_lt _ _ _ (heapGet_lt_length _ _ _ hq)]
        exact hq
    -- the found artifact
    have hfound : ∀ q art, s.graph.artifact q = some art → q = out →
        lookupArtifact product (normalizedOutputPath product filePath) s.graph = some (q, art)
        ∧ ∀ t, art.transformer.bind s.graph.transformer = some t →
            t.rule.address = rule.address := by
      intro q art hq hqo
      subst hqo
      rcases hcase with ⟨art0, hlk, _, hr⟩ | ⟨_, ho, _⟩
      · have := (lookupArtifact_some _ _ _ _ _ hlk).1
        rw [hq] at this
        cases this
        exact ⟨hlk, hr⟩
      · have := heapGet_lt_length _ _ _ hq
        omega
    simp only at h
    cases hc : connectInputs out inputs
        (s1.graph.modifyArtifact out (setOutputProperties host product fileTags au)) with
    | mk rc g2 =>
    rw [hc] at h
    obtain ⟨hT2, hA2⟩ := connectInputs_frame _ _ _ _ _ hc
    -- the artifacts of `s` within `g2`
    have hg2 : ∀ q art, s.graph.artifact q = some art →
        ∃ art', g2.artifact q = some art' ∧ art'.filePath = art.filePath
          ∧ art'.product = art.product ∧ art'.transformer = art.transformer := by
      intro q art hq
      have h1 := hs1 q art hq
      have h2 := hA2 q
      simp only [BuildGraph.modifyArtifact, BuildGraph.artifact, heapGet_heapModify] at h2
      simp only [BuildGraph.artifact] at h1
      cases hg : heapGet g2.artifacts q with
      | none =>
        rw [hg] at h2
        split at h2 <;> simp_all
      | some art' =>
        rw [hg] at h2
        refine ⟨art', hg, ?_⟩
        split at h2
        · rename_i hqo
          subst hqo
          rw [h1] at h2
          simp only [Option.map_some', Option.some.injEq] at h2
          have hf := congrArg Artifact.filePath h2
          have hp := congrArg Artifact.product h2
          have ht := congrArg Artifact.transformer h2
          have e1 : (setOutputProperties host product fileTags au art).product = art.product := by
            unfold setOutputProperties; simp only; split <;> split <;> rfl
          have e2 : (setOutputProperties host product fileTags au art).transformer
              = art.transformer := by
            unfold setOutputProperties; simp only; split <;> split <;> rfl
          simp only [Artifact.withoutEdges, setOutputProperties_filePath, e1, e2] at hf hp ht
          exact ⟨hf, hp, ht⟩
        · rw [h1] at h2
          simp only [Option.map_some', Option.some.injEq] at h2
          have hf := congrArg Artifact.filePath h2
          have hp := congrArg Artifact.product h2
          have ht := congrArg Artifact.transformer h2
          simp only [Artifact.withoutEdges] at hf hp ht
          exact ⟨hf, hp, ht⟩
    cases rc with
    | error e =>
      simp only [Prod.mk.injEq] at h
      obtain ⟨-, rfl⟩ := h
      refine ⟨by simpa [BuildGraph.modifyArtifact, hT2] using hT, fun q art hq => ?_⟩
      obtain ⟨art', h1, h2, h3, h4⟩ := hg2 q art hq
      exact ⟨art', h1, h2, h3, Or.inl h4⟩
    | ok u =>
      simp only at h
      have hfinal : s2.graph = (g2.modifyArtifact out
          (fun a => { a with transformer := some tp })).modifyTransformer tp
          (fun t => { t with outputs := setInsert t.outputs out }) := by
        split at h <;>
          (simp only [Prod.mk.injEq] at h
           obtain ⟨-, rfl⟩ := h
           rfl)
      rw [hfinal]
      refine ⟨?_, fun q art hq => ?_⟩
      · simp only [BuildGraph.modifyTransformer, BuildGraph.modifyArtifact]
        rw [storeModify_map_key (fun t => { t with outputs := setInsert t.outputs out })
          (fun t => rfl), hT2]
        simpa [BuildGraph.modifyArtifact] using hT
      · obtain ⟨art', h1, h2, h3, h4⟩ := hg2 q art hq
        simp only [BuildGraph.modifyTransformer, BuildGraph.modifyArtifact, BuildGraph.artifact,
          heapGet_heapModify]
        simp only [BuildGraph.artifact] at h1
        by_cases hqo : q = out
        · refine ⟨{ art' with transformer := some tp }, ?_, h2, h3, Or.inr ?_⟩
          · subst hqo
            simp [h1]
          · exact ⟨rfl, hfound q art hq hqo⟩
        · exact ⟨art', by simp [hqo, h1], h2, h3, Or.inl h4⟩


/-- C3: when the artifact at the normalized output path has a transformer of another rule,
`createOutputArtifact` fails with the "Conflicting rules for producing" error built from the
prepare-script locations of both rules, and the state is the one it was called in. In every
outcome of `createOutputArtifact` (the transformer `m_transformer` being one of the rule
applied), each artifact that had a transformer still has one of the same rule. -/
theorem createOutputArtifact_conflicting_rules (host : ScriptHost) (product : ResolvedProduct)
    (rule : RuleConstPtr) (m_transformer : TransformerPtr) (filePath : String)
    (fileTags : FileTags) (alwaysUpdated : Bool) (inputArtifacts : ArtifactSet) (s : State) :
    (∀ p art t,
      lookupArtifact product (normalizedOutputPath product filePath) s.graph = some (p, art) →
      art.transformer.bind s.graph.transformer = some t →
      t.rule.address ≠ rule.address →
      createOutputArtifact host product rule m_transformer filePath fileTags alwaysUpdated
          inputArtifacts s
        = (Except.error (Exception.error (conflictingRulesError rule t.rule art)), s)) ∧
    ((s.graph.transformer m_transformer).map (·.rule.address) = some rule.address →
      ∀ q art t, s.graph.artifact q = some art →
        art.transformer.bind s.graph.transformer = some t →
        ∃ art' t',
          (createOutputArtifact host product rule m_transformer filePath fileTags alwaysUpdated
            inputArtifacts s).2.graph.artifact q = some art'
          ∧ art'.transformer.bind
              (createOutputArtifact host product rule m_transformer filePath fileTags
                alwaysUpdated inputArtifacts s).2.graph.transformer = some t'
          ∧ t'.rule.address = t.rule.address) := by
  constructor
  · intro p art t hl hb hne
    simp [createOutputArtifact, lookupOrCreateOutput, hl, hb, hne]
  · intro hm q art t hq hb
    cases hc : createOutputArtifact host product rule m_transformer filePath fileTags
      alwaysUpdated inputArtifacts s with
    | mk r s2 =>
    obtain ⟨hT, hA⟩ := createOutputArtifact_frame _ _ _ _ _ _ _ _ _ _ _ hc
    obtain ⟨art', h1, -, -, h4⟩ := hA q art hq
    cases hk : art.transformer with
    | none => simp [hk] at hb
    | some k =>
      rw [hk] at hb
      simp only [Option.some_bind, BuildGraph.transformer] at hb
      rcases h4 with h4 | ⟨h4, -, hr⟩
      · obtain ⟨t', ht', hkey⟩ := transformer_of_map_key _ _ hT k t hb
        refine ⟨art', t', h1, ?_, ?_⟩
        · simp [h4, hk, BuildGraph.transformer, ht']
        · have := congrArg (fun x => x.1.address) hkey
          simpa [Transformer.key] using this
      · cases hm0 : s.graph.transformers[m_transformer]? with
        | none => simp [BuildGraph.transformer, hm0] at hm
        | some tm =>
          simp only [BuildGraph.transformer, hm0, Option.map_some', Option.some.injEq] at hm
          obtain ⟨t', ht', hkey⟩ := transformer_of_map_key _ _ hT m_transformer tm hm0
          refine ⟨art', t', h1, ?_, ?_⟩
          · simp [h4, BuildGraph.transformer, ht']
          · have h5 := congrArg (fun x => x.1.address) hkey
            simp only [Transformer.key] at h5
            rw [h5, hm]
            exact (hr t (by simp [hk, BuildGraph.transformer, hb])).symm

/-- C3, witness: `foo.moc` is produced by the rule at address 8; applying the rule at address 7
to the same path fails and names lines 80 and 70 of the project file. -/
theorem createOutputArtifact_conflicting_rules_witness :
    createOutputArtifact (demoHost []) (demoProduct false [] [])
        (demoRule 7 false false [demoRuleArtifact "foo.moc"]) 1 "/build/app.1234abcd/foo.moc"
        ["obj"] true [1] demoStateSecondRule
      = (Except.error (Exception.error (ErrorInfo.mk1
          ("Conflicting rules for producing /build/app.1234abcd/foo.moc [obj] \n"
            ++ "  while trying to apply:   rules.qbs:70:5  [cpp] -> [obj]\n"
            ++ "  was already defined in:  rules.qbs:80:5  [cpp] -> [obj]\n") none)),
          demoStateSecondRule)
    ∧ ∃ art' t',
        (createOutputArtifact (demoHost []) (demoProduct false [] [])
          (demoRule 7 false false [demoRuleArtifact "foo.moc"]) 1 "/build/app.1234abcd/foo.moc"
          ["obj"] true [1] demoStateSecondRule).2.graph.artifact 2 = some art'
        ∧ art'.transformer.bind
            (createOutputArtifact (demoHost []) (demoProduct false [] [])
              (demoRule 7 false false [demoRuleArtifact "foo.moc"]) 1
              "/build/app.1234abcd/foo.moc" ["obj"] true [1]
              demoStateSecondRule).2.graph.transformer = some t'
        ∧ t'.rule.address = 8 := by
  have h := createOutputArtifact_conflicting_rules (demoHost []) (demoProduct false [] [])
    (demoRule 7 false false [demoRuleArtifact "foo.moc"]) 1 "/build/app.1234abcd/foo.moc"
    ["obj"] true [1] demoStateSecondRule
  have h1 := h.1 2 _ _ rfl rfl (by decide)
  have h2 := h.2 rfl 2 _ _ rfl rfl
  exact ⟨h1, h2⟩


/-! ## Paths -/

theorem hasDotDot_cons_of_ne (c : Char) (l : List Char) (hc : c ≠ '.') :
    hasDotDot (c :: l) = hasDotDot l := by
  cases l with
  | nil => rfl
  | cons d rest => simp [hasDotDot, hc]

theorem replaceDotDotChars_head_of_ne (c : Char) (l : List Char) (hc : c ≠ '.') :
    ∃ rest, replaceDotDotChars (c :: l) = c :: rest ∧ rest = replaceDotDotChars l := by
  cases l with
  | nil => exact ⟨[], rfl, rfl⟩
  | cons d rest => exact ⟨_, by simp [replaceDotDotChars, hc], rfl⟩

/-- After the substitution no two consecutive dots are left. -/
theorem hasDotDot_replaceDotDotChars : ∀ l : List Char, hasDotDot (replaceDotDotChars l) = false
  | [] => rfl
  | [_] => rfl
  | c :: d :: rest => by
    have ih1 := hasDotDot_replaceDotDotChars rest
    have ih2 := hasDotDot_replaceDotDotChars (d :: rest)
    unfold replaceDotDotChars
    split
    · simp [hasDotDot]
      cases h : replaceDotDotChars rest with
      | nil => simp [hasDotDot]
      | cons x xs =>
        rw [h] at ih1
        simp [hasDotDot, ih1]
    · rename_i hcd
      by_cases hc : c = '.'
      · have hd : d ≠ '.' := fun hd => hcd ⟨hc, hd⟩
        obtain ⟨r, hr, -⟩ := replaceDotDotChars_head_of_ne d rest hd
        rw [hr] at ih2 ⊢
        simp [hasDotDot, hd]
        simpa [hasDotDot_cons_of_ne d r hd] using ih2
      · rw [hasDotDot_cons_of_ne c _ hc]
        exact ih2

theorem hasDotDot_iff_contains (l : List Char) : hasDotDot l = true ↔ ['.', '.'] <:+: l := by
  induction l with
  | nil => simp [hasDotDot]
  | cons c rest ih =>
    cases rest with
    | nil =>
      simp only [hasDotDot, Bool.false_eq_true, false_iff]
      intro h
      have := h.length_le
      simp at this
    | cons d rest =>
      have hpre : ['.', '.'] <+: c :: d :: rest ↔ c = '.' ∧ d = '.' := by
        constructor
        · rintro ⟨t, ht⟩
          simp only [List.cons_append, List.cons.injEq, List.nil_append] at ht
          exact ⟨ht.1.symm, ht.2.1.symm⟩
        · rintro ⟨rfl, rfl⟩
          exact ⟨rest, rfl⟩
      rw [List.infix_cons_iff, hpre, ← ih]
      simp [hasDotDot]

theorem splitSlash_ne_nil (l : List Char) : splitSlash l ≠ [] := by
  cases l with
  | nil => simp [splitSlash]
  | cons c cs =>
    unfold splitSlash
    split
    · simp
    · split <;> simp

theorem splitSlash_append (a b : List Char) :
    splitSlash (a ++ '/' :: b) = splitSlash a ++ splitSlash b := by
  induction a with
  | nil => simp [splitSlash]
  | cons c cs ih =>
    by_cases hc : c = '/'
    · simp [splitSlash, hc, ih]
    · simp only [List.cons_append, splitSlash, hc, if_false]
      have ih' : splitSlash (cs.append ('/' :: b)) = splitSlash cs ++ splitSlash b := ih
      rw [ih']
      cases h : splitSlash cs with
      | nil => exact absurd h (splitSlash_ne_nil cs)
      | cons x xs => simp

theorem splitSlash_piece_within (l : List Char) : ∀ c ∈ splitSlash l, c <:+: l := by
  induction l with
  | nil => simp [splitSlash]
  | cons x cs ih =>
    intro c hc
    unfold splitSlash at hc
    split at hc
    · rcases List.mem_cons.mp hc with rfl | h
      · exact List.nil_infix
      · exact (ih c h).trans (List.infix_cons (List.infix_refl _))
    · cases hs : splitSlash cs with
      | nil => exact absurd hs (splitSlash_ne_nil cs)
      | cons h t =>
        rw [hs] at hc ih
        simp only [List.mem_cons] at hc
        rcases hc with rfl | hc
        · -- the first piece is a prefix
          have hp : h <+: cs := by
            clear ih
            suffices ∀ (l : List Char) h t, splitSlash l = h :: t → h <+: l from this cs h t hs
            intro l
            induction l with
            | nil => intro h t e; simp [splitSlash] at e; simp [e.1]
            | cons y ys ihy =>
              intro h t e
              unfold splitSlash at e
              split at e
              · simp only [List.cons.injEq] at e
                rw [← e.1]; exact List.nil_prefix
              · cases hs2 : splitSlash ys with
                | nil => exact absurd hs2 (splitSlash_ne_nil ys)
                | cons h2 t2 =>
                  rw [hs2] at e
                  simp only [List.cons.injEq] at e
                  rw [← e.1]
                  exact (List.prefix_cons_inj y).mpr (ihy h2 t2 hs2)
          exact ((List.prefix_cons_inj x).mpr hp).isInfix
        · exact (ih c (List.mem_cons_of_mem _ hc)).trans (List.infix_cons (List.infix_refl _))

theorem splitSlash_no_slash (l : List Char) : ∀ c ∈ splitSlash l, '/' ∉ c := by
  induction l with
  | nil => simp [splitSlash]
  | cons x cs ih =>
    intro c hc
    unfold splitSlash at hc
    split at hc
    · rcases List.mem_cons.mp hc with rfl | h
      · simp
      · exact ih c h
    · rename_i hx
      cases hs : splitSlash cs with
      | nil => exact absurd hs (splitSlash_ne_nil cs)
      | cons h t =>
        rw [hs] at hc ih
        simp only [List.mem_cons] at hc
        rcases hc with rfl | hc
        · have := ih h (List.mem_cons_self _ _)
          simp only [List.mem_cons, not_or]
          exact ⟨fun e => hx e.symm, this⟩
        · exact ih c (List.mem_cons_of_mem _ hc)

theorem splitSlash_of_no_slash (c : List Char) (h : '/' ∉ c) : splitSlash c = [c] := by
  induction c with
  | nil => rfl
  | cons x xs ih =>
    simp only [List.mem_cons, not_or] at h
    have hx : x ≠ '/' := fun e => h.1 e.symm
    simp [splitSlash, hx, ih h.2]

theorem splitSlash_joinSlash (L : List (List Char)) (hne : L ≠ []) (h : ∀ c ∈ L, '/' ∉ c) :
    splitSlash (joinSlash L) = L := by
  induction L with
  | nil => exact absurd rfl hne
  | cons x rest ih =>
    cases rest with
    | nil => simpa [joinSlash] using splitSlash_of_no_slash x (h x (List.mem_cons_self _ _))
    | cons y ys =>
      simp only [joinSlash]
      rw [splitSlash_append, splitSlash_of_no_slash x (h x (List.mem_cons_self _ _)),
        ih (by simp) (fun c hc => h c (List.mem_cons_of_mem _ hc))]
      rfl

theorem no_dotdot_piece_of_hasDotDot (l : List Char) (h : hasDotDot l = false) :
    ['.', '.'] ∉ splitSlash l := by
  intro hm
  have := (hasDotDot_iff_contains l).mpr (splitSlash_piece_within l _ hm)
  rw [h] at this
  cases this

theorem mem_cleanStep (absolute : Bool) (stack : List (List Char)) (piece x : List Char)
    (hx : x ∈ cleanStep absolute stack piece) : x ∈ stack ∨ x = piece := by
  unfold cleanStep at hx
  split at hx
  · exact Or.inl hx
  · split at hx
    · split at hx
      · split at hx
        · exact Or.inl hx
        · simpa using hx
      · split at hx
        · simpa using hx
        · exact Or.inl (List.mem_of_mem_dropLast hx)
    · simpa using hx

theorem mem_foldl_cleanStep (absolute : Bool) (pieces stack : List (List Char)) (x : List Char)
    (hx : x ∈ pieces.foldl (cleanStep absolute) stack) : x ∈ stack ∨ x ∈ pieces := by
  induction pieces generalizing stack with
  | nil => exact Or.inl hx
  | cons p rest ih =>
    rcases ih _ hx with h | h
    · rcases mem_cleanStep _ _ _ _ h with h | rfl
      · exact Or.inl h
      · exact Or.inr (List.mem_cons_self _ _)
    · exact Or.inr (List.mem_cons_of_mem _ h)

/-- Cleaning a path brings in no `..` component. -/
theorem no_dotdot_piece_cleanPathChars (chars : List Char)
    (h : ['.', '.'] ∉ splitSlash chars) : ['.', '.'] ∉ splitSlash (cleanPathChars chars) := by
  have hK : ∀ x ∈ (splitSlash chars).foldl (cleanStep (chars.head? = some '/')) [],
      x ∈ splitSlash chars := by
    intro x hx
    rcases mem_foldl_cleanStep _ _ _ _ hx with h' | h'
    · simp at h'
    · exact h'
  unfold cleanPathChars
  simp only
  generalize (splitSlash chars).foldl (cleanStep (chars.head? = some '/')) [] = K at hK
  have hjoin : K ≠ [] → splitSlash (joinSlash K) = K := fun hne =>
    splitSlash_joinSlash K hne (fun c hc => splitSlash_no_slash chars c (hK c hc))
  have hKn : ['.', '.'] ∉ K := fun hm => h (hK _ hm)
  split
  · by_cases hne : K = []
    · subst hne
      simp [splitSlash, joinSlash]
    · simp only [splitSlash, if_true, hjoin hne, List.mem_cons, not_or]
      exact ⟨by simp, hKn⟩
  · split
    · split <;> simp [splitSlash]
    · rename_i hne
      rw [hjoin hne]
      exact hKn


theorem resolvePath_data (base rel : String) :
    (resolvePath base rel).data
      = if isAbsolute rel = true then rel.data else base.data ++ '/' :: rel.data := by
  unfold resolvePath
  split <;> rfl

/-- The path `createOutputArtifact` looks up has no `..` component. -/
theorem no_dotdot_piece_normalizedOutputPath (product : ResolvedProduct) (filePath : String)
    (hbuild : ['.', '.'] ∉ splitSlash product.topLevelBuildDirectory.data) :
    ['.', '.'] ∉ splitSlash (normalizedOutputPath product filePath).data := by
  have hw : hasDotDot (replaceDotDot filePath).data = false :=
    hasDotDot_replaceDotDotChars filePath.data
  show ['.', '.'] ∉ splitSlash (cleanPathChars
    (resolvePath product.topLevelBuildDirectory (replaceDotDot filePath)).data)
  apply no_dotdot_piece_cleanPathChars
  rw [resolvePath_data]
  split
  · exact no_dotdot_piece_of_hasDotDot _ hw
  · rw [splitSlash_append, List.mem_append, not_or]
    exact ⟨hbuild, no_dotdot_piece_of_hasDotDot _ hw⟩

/-- C7: for a top-level build directory without a `..` component, the substitution leaves no two
consecutive dots in the path, the path resolved and cleaned after it has no `..` component, and
this is the file path of the artifact `createOutputArtifact` returns. -/
theorem createOutputArtifact_no_dotdot_component (host : ScriptHost) (product : ResolvedProduct)
    (rule : RuleConstPtr) (m_transformer : TransformerPtr) (filePath : String)
    (fileTags : FileTags) (alwaysUpdated : Bool) (inputArtifacts : ArtifactSet) (s : State)
    (hbuild : ['.', '.'] ∉ splitSlash product.topLevelBuildDirectory.data) :
    hasDotDot (replaceDotDot filePath).data = false ∧
    ['.', '.'] ∉ splitSlash
      (resolveOutPath product (replaceDotDot filePath)).data ∧
    ∀ a s', createOutputArtifact host product rule m_transformer filePath fileTags alwaysUpdated
        inputArtifacts s = (Except.ok a, s') →
      ∃ art, s'.graph.artifact a = some art
        ∧ art.filePath = resolveOutPath product (replaceDotDot filePath)
        ∧ ['.', '.'] ∉ splitSlash art.filePath.data := by
  refine ⟨hasDotDot_replaceDotDotChars filePath.data,
    no_dotdot_piece_normalizedOutputPath product filePath hbuild, fun a s' h => ?_⟩
  obtain ⟨-, art', hg, -, hp, -⟩ := createOutputArtifact_result _ _ _ _ _ _ _ _ _ _ _ h
  refine ⟨art', hg, hp, ?_⟩
  rw [hp]
  exact no_dotdot_piece_normalizedOutputPath product filePath hbuild

/-- C7, witness: the path `../../etc/x..y/...o` under `/build`. -/
theorem createOutputArtifact_no_dotdot_component_witness :
    hasDotDot (replaceDotDot "../../etc/x..y/...o").data = false ∧
    ['.', '.'] ∉ splitSlash
      (resolveOutPath (demoProduct false [] []) (replaceDotDot "../../etc/x..y/...o")).data ∧
    ∀ a s', createOutputArtifact (demoHost []) (demoProduct false [] [])
        (demoRule 7 false false []) 0 "../../etc/x..y/...o" ["obj"] true [0]
        (demoStateApplying (demoRule 7 false false []) [0]) = (Except.ok a, s') →
      ∃ art, s'.graph.artifact a = some art
        ∧ art.filePath
            = resolveOutPath (demoProduct false [] []) (replaceDotDot "../../etc/x..y/...o")
        ∧ ['.', '.'] ∉ splitSlash art.filePath.data :=
  createOutputArtifact_no_dotdot_component (demoHost []) (demoProduct false [] [])
    (demoRule 7 false false []) 0 "../../etc/x..y/...o" ["obj"] true [0]
    (demoStateApplying (demoRule 7 false false []) [0]) (by decide)

/-! ### Inside the build directory -/

theorem replaceDotDotChars_append_slash :
    ∀ (bd v : List Char), hasDotDot bd = false →
      replaceDotDotChars (bd ++ '/' :: v) = bd ++ '/' :: replaceDotDotChars v
  | [], v, _ => by
    obtain ⟨r, h1, h2⟩ := replaceDotDotChars_head_of_ne '/' v (by decide)
    simp [h1, h2]
  | [c], v, _ => by
    have : ¬(c = '.' ∧ '/' = '.') := fun h => absurd h.2 (by decide)
    obtain ⟨r, h1, h2⟩ := replaceDotDotChars_head_of_ne '/' v (by decide)
    simp [replaceDotDotChars, h1, h2]
  | c :: d :: rest, v, h => by
    simp only [hasDotDot, Bool.or_eq_false_iff, Bool.and_eq_false_imp, decide_eq_true_eq,
      decide_eq_false_iff_not] at h
    have ih := replaceDotDotChars_append_slash (d :: rest) v h.2
    have hcd : ¬(c = '.' ∧ d = '.') := fun hh => h.1 hh.1 hh.2
    simp only [List.cons_append] at ih ⊢
    rw [replaceDotDotChars]
    simp only [hcd, if_false, ih]

theorem foldl_cleanStep_of_no_dotdot (absolute : Bool) (pieces stack : List (List Char))
    (h : ['.', '.'] ∉ pieces) :
    pieces.foldl (cleanStep absolute) stack = stack ++ keptPieces pieces := by
  induction pieces generalizing stack with
  | nil => simp [keptPieces]
  | cons p rest ih =>
    simp only [List.mem_cons, not_or] at h
    have hp : p ≠ ['.', '.'] := fun e => h.1 e.symm
    simp only [List.foldl_cons]
    rw [ih _ h.2]
    by_cases hk : p = [] ∨ p = ['.']
    · rcases hk with rfl | rfl <;> simp [cleanStep, keptPieces, List.filter_cons]
    · have hk' := not_or.mp hk
      simp [cleanStep, keptPieces, List.filter_cons, hk, hp, hk'.1, hk'.2]

theorem mem_keptPieces (pieces : List (List Char)) (c : List Char) (h : c ∈ keptPieces pieces) :
    c ∈ pieces ∧ c ≠ [] := by
  simp only [keptPieces, List.mem_filter, decide_eq_true_eq, not_or] at h
  exact ⟨h.1, h.2.1⟩

theorem nonempty_pieces_slash_joinSlash (L : List (List Char))
    (hslash : ∀ c ∈ L, '/' ∉ c) (hne : ∀ c ∈ L, c ≠ []) :
    (splitSlash ('/' :: joinSlash L)).filter (fun c => decide (c ≠ [])) = L := by
  simp only [splitSlash, if_true]
  by_cases hL : L = []
  · subst hL
    simp [joinSlash, splitSlash]
  · rw [splitSlash_joinSlash L hL hslash]
    simp only [List.filter_cons, ne_eq, not_true_eq_false, decide_False, Bool.false_eq_true,
      if_false]
    rw [List.filter_eq_self]
    intro c hc
    simpa using hne c hc

/-- The components of the path of an output whose template value is relative: those of the
build directory, then the kept pieces of the value after the substitution. -/
theorem pathComponents_relative_output (bd top v : List Char)
    (habs : bd.head? = some '/') (hclean : cleanPathChars bd = bd)
    (hdots : hasDotDot bd = false) :
    (splitSlash (cleanPathChars
      (if (replaceDotDotChars (bd ++ '/' :: v)).head? = some '/'
       then replaceDotDotChars (bd ++ '/' :: v)
       else top ++ '/' :: replaceDotDotChars (bd ++ '/' :: v)))).filter
        (fun c => decide (c ≠ []))
      = (splitSlash bd).filter (fun c => decide (c ≠ []))
          ++ keptPieces (splitSlash (replaceDotDotChars v)) := by
  rw [replaceDotDotChars_append_slash bd v hdots]
  have hhead : (bd ++ '/' :: replaceDotDotChars v).head? = some '/' := by
    cases bd with
    | nil => simp at habs
    | cons c cs => simpa using habs
  simp only [hhead, if_true]
  have hbdp : ['.', '.'] ∉ splitSlash bd := no_dotdot_piece_of_hasDotDot bd hdots
  have hwp : ['.', '.'] ∉ splitSlash (replaceDotDotChars v) :=
    no_dotdot_piece_of_hasDotDot _ (hasDotDot_replaceDotDotChars v)
  have hA : cleanPathChars bd = '/' :: joinSlash (keptPieces (splitSlash bd)) := by
    unfold cleanPathChars
    simp only [habs, decide_True, if_true]
    rw [foldl_cleanStep_of_no_dotdot _ _ _ hbdp]
    simp
  have hR : cleanPathChars (bd ++ '/' :: replaceDotDotChars v)
      = '/' :: joinSlash (keptPieces (splitSlash bd)
          ++ keptPieces (splitSlash (replaceDotDotChars v))) := by
    unfold cleanPathChars
    simp only [hhead, decide_True, if_true]
    rw [splitSlash_append, foldl_cleanStep_of_no_dotdot _ _ _
      (by simp [hbdp, hwp])]
    simp [keptPieces]
  have hbd : (splitSlash bd).filter (fun c => decide (c ≠ [])) = keptPieces (splitSlash bd) := by
    conv_lhs => rw [← hclean, hA]
    exact nonempty_pieces_slash_joinSlash _
      (fun c hc => splitSlash_no_slash bd c (mem_keptPieces _ _ hc).1)
      (fun c hc => (mem_keptPieces _ _ hc).2)
  rw [hR, hbd]
  apply nonempty_pieces_slash_joinSlash
  · intro c hc
    rcases List.mem_append.mp hc with h | h
    · exact splitSlash_no_slash bd c (mem_keptPieces _ _ h).1
    · exact splitSlash_no_slash _ c (mem_keptPieces _ _ h).1
  · intro c hc
    rcases List.mem_append.mp hc with h | h
    · exact (mem_keptPieces _ _ h).2
    · exact (mem_keptPieces _ _ h).2


theorem createOutputArtifactFromRuleArtifact_ok (host : ScriptHost) (product : ResolvedProduct)
    (rule : RuleConstPtr) (tp : Nat) (ra : RuleArtifact) (inputs : ArtifactSet)
    (seen seen' : List String) (s s' : State) (a : Nat) (v : String)
    (hv : host.evaluateFilePath ra inputs s = Except.ok v)
    (h : createOutputArtifactFromRuleArtifact host product rule tp (some ra) inputs seen s
      = (Except.ok (a, seen'), s')) :
    resolvePath product.buildDirectory v ∉ seen
    ∧ seen' = seen ++ [resolvePath product.buildDirectory v]
    ∧ createOutputArtifact host product rule tp (resolvePath product.buildDirectory v)
        ra.fileTags ra.alwaysUpdated inputs s = (Except.ok a, s') := by
  unfold createOutputArtifactFromRuleArtifact at h
  simp only [hv] at h
  split at h
  · simp at h
  · rename_i hseen
    split at h
    · simp at h
    · rename_i a' s1 hc
      simp only [Prod.mk.injEq, Except.ok.injEq] at h
      obtain ⟨⟨rfl, rfl⟩, rfl⟩ := h
      exact ⟨hseen, rfl, hc⟩

/-- C6 (as amended): for a product build directory that is absolute, clean and free of two
consecutive dots, a template value that is a relative path gives an artifact inside the product
build directory; its components are those of the build directory followed by the pieces of the
value after the substitution, so `../outside.o` ends up at `dotdot/outside.o` below the build
directory. -/
theorem createOutputArtifactFromRuleArtifact_inside_build_directory (host : ScriptHost)
    (product : ResolvedProduct) (rule : RuleConstPtr) (m_transformer : TransformerPtr)
    (ruleArtifact : RuleArtifact) (inputArtifacts : ArtifactSet)
    (outputFilePaths outputFilePaths' : List String) (s s' : State) (a : ArtifactPtr)
    (value : String)
    (habs : isAbsolute product.buildDirectory = true)
    (hclean : cleanPath product.buildDirectory = product.buildDirectory)
    (hdots : hasDotDot product.buildDirectory.data = false)
    (hvalue : host.evaluateFilePath ruleArtifact inputArtifacts s = Except.ok value)
    (hrel : isAbsolute value = false)
    (h : createOutputArtifactFromRuleArtifact host product rule m_transformer (some ruleArtifact)
      inputArtifacts outputFilePaths s = (Except.ok (a, outputFilePaths'), s')) :
    ∃ art, s'.graph.artifact a = some art
      ∧ isInsideDirectory product.buildDirectory art.filePath
      ∧ pathComponents art.filePath
          = pathComponents product.buildDirectory
              ++ keptPieces (splitSlash (replaceDotDot value).data)
      ∧ (value = "../outside.o" →
          pathComponents art.filePath
            = pathComponents product.buildDirectory ++ ["dotdot".data, "outside.o".data]) := by
  obtain ⟨-, -, hc⟩ := createOutputArtifactFromRuleArtifact_ok _ _ _ _ _ _ _ _ _ _ _ _ hvalue h
  obtain ⟨-, art', hg, -, hp, -⟩ := createOutputArtifact_result _ _ _ _ _ _ _ _ _ _ _ hc
  have habs' : product.buildDirectory.data.head? = some '/' := by
    simpa [isAbsolute] using habs
  have hclean' : cleanPathChars product.buildDirectory.data = product.buildDirectory.data :=
    congrArg String.data hclean
  have hcomp : pathComponents art'.filePath
      = pathComponents product.buildDirectory
          ++ keptPieces (splitSlash (replaceDotDot value).data) := by
    have := pathComponents_relative_output product.buildDirectory.data
      product.topLevelBuildDirectory.data value.data habs' hclean' hdots
    have hrel' : ¬ value.data.head? = some '/' := by
      simpa [isAbsolute] using hrel
    rw [hp]
    simp only [pathComponents, normalizedOutputPath, resolveOutPath, cleanPath, resolvePath_data,
      replaceDotDot, isAbsolute, decide_eq_true_eq, hrel', if_false]
    exact this
  refine ⟨art', hg, ?_, hcomp, ?_⟩
  · unfold isInsideDirectory
    rw [hcomp]
    exact List.prefix_append _ _
  · intro hv
    rw [hcomp, hv]
    rfl

/-- C6, witness: the template value `../outside.o` in the example product. -/
theorem createOutputArtifactFromRuleArtifact_inside_build_directory_witness :
    ∃ art, (createOutputArtifactFromRuleArtifact (demoHost []) (demoProduct false [] [])
        (demoRule 7 false false [demoRuleArtifact "../outside.o"]) 0
        (some (demoRuleArtifact "../outside.o")) [0] []
        (demoStateApplying (demoRule 7 false false [demoRuleArtifact "../outside.o"])
          [0])).2.graph.artifact 2 = some art
      ∧ isInsideDirectory "/build/app.1234abcd" art.filePath
      ∧ pathComponents art.filePath
          = pathComponents "/build/app.1234abcd" ++ ["dotdot".data, "outside.o".data] := by
  obtain ⟨art, hg, hin, -, hout⟩ :=
    createOutputArtifactFromRuleArtifact_inside_build_directory (demoHost [])
      (demoProduct false [] []) (demoRule 7 false false [demoRuleArtifact "../outside.o"]) 0
      (demoRuleArtifact "../outside.o") [0] [] _
      (demoStateApplying (demoRule 7 false false [demoRuleArtifact "../outside.o"]) [0]) _ 2
      "../outside.o" rfl rfl rfl rfl rfl rfl
  exact ⟨art, hg, hin, hout rfl⟩

/-- C6, counterexample: the absolute template value `/outside/x.o` gives an artifact at
`/outside/x.o`, which is not inside the product build directory `/build/app.1234abcd`. -/
theorem createOutputArtifactFromRuleArtifact_inside_build_directory_counterexample :
    ∃ s' art, createOutputArtifactFromRuleArtifact (demoHost []) (demoProduct false [] [])
        (demoRule 7 false false [demoRuleArtifact "/outside/x.o"]) 0
        (some (demoRuleArtifact "/outside/x.o")) [0] []
        (demoStateApplying (demoRule 7 false false [demoRuleArtifact "/outside/x.o"]) [0])
          = (Except.ok (2, ["/outside/x.o"]), s')
      ∧ s'.graph.artifact 2 = some art
      ∧ art.filePath = "/outside/x.o"
      ∧ ¬ isInsideDirectory (demoProduct false [] []).buildDirectory art.filePath := by
  refine ⟨_, _, rfl, rfl, rfl, ?_⟩
  unfold isInsideDirectory
  decide


theorem createOutputArtifactsFromRuleArtifacts_ok (host : ScriptHost) (product : ResolvedProduct)
    (rule : RuleConstPtr) (tp : Nat) (inputs : ArtifactSet) (path : RuleArtifact → String)
    (hpath : ∀ ra st, host.evaluateFilePath ra inputs st = Except.ok (path ra))
    (ras : List RuleArtifact) (seen : List String) (acc m : List (RuleArtifact × ArtifactPtr))
    (s s' : State)
    (h : createOutputArtifactsFromRuleArtifacts host product rule tp inputs ras seen acc s
      = (Except.ok m, s')) :
    (ras.map (fun ra => resolvePath product.buildDirectory (path ra))).Nodup
    ∧ (∀ ra ∈ ras, resolvePath product.buildDirectory (path ra) ∉ seen)
    ∧ m.map (·.1) = acc.map (·.1) ++ ras := by
  induction ras generalizing seen acc s with
  | nil =>
    simp only [createOutputArtifactsFromRuleArtifacts, Prod.mk.injEq, Except.ok.injEq] at h
    simp [h.1]
  | cons ra rest ih =>
    simp only [createOutputArtifactsFromRuleArtifacts] at h
    split at h
    · simp at h
    · rename_i a seen1 s1 hc
      obtain ⟨hnot, hseen, -⟩ :=
        createOutputArtifactFromRuleArtifact_ok _ _ _ _ _ _ _ _ _ _ _ _ (hpath ra s) hc
      obtain ⟨h1, h2, h3⟩ := ih _ _ _ h
      subst hseen
      refine ⟨?_, ?_, ?_⟩
      · simp only [List.map_cons, List.nodup_cons, List.mem_map, not_exists, not_and]
        refine ⟨fun x hx e => ?_, h1⟩
        exact h2 x hx (by simp [e])
      · intro x hx
        rcases List.mem_cons.mp hx with rfl | hx
        · exact hnot
        · exact fun hm => h2 x hx (List.mem_append_left _ hm)
      · simpa using h3

/-- The duplicate check as the static path makes it: in one application of a static rule whose
template values do not depend on the state, a template whose value, resolved against the product build directory, is already in
the set of paths seen fails with the "already created" error and leaves the state alone; hence
when the loop over the templates succeeds, these resolved paths are pairwise distinct (and every
template has its output). The paths compared are those before the substitution and cleaning,
and the outputs of a dynamic rule are not compared at all. -/
theorem createOutputArtifactsFromRuleArtifacts_distinct_paths (host : ScriptHost)
    (product : ResolvedProduct) (rule : RuleConstPtr) (m_transformer : TransformerPtr)
    (inputArtifacts : ArtifactSet) (path : RuleArtifact → String)
    (hpath : ∀ ra st, host.evaluateFilePath ra inputArtifacts st = Except.ok (path ra)) :
    (∀ ra outputFilePaths s,
      resolvePath product.buildDirectory (path ra) ∈ outputFilePaths →
      createOutputArtifactFromRuleArtifact host product rule m_transformer (some ra)
          inputArtifacts outputFilePaths s
        = (Except.error (Exception.error (ErrorInfo.mk1
            ("Rule " ++ rule.rule.toString ++ " already created '"
              ++ resolvePath product.buildDirectory (path ra) ++ "'.") none)), s)) ∧
    (∀ ruleArtifacts m s s',
      createOutputArtifactsFromRuleArtifacts host product rule m_transformer inputArtifacts
          ruleArtifacts [] [] s = (Except.ok m, s') →
      (ruleArtifacts.map (fun ra => resolvePath product.buildDirectory (path ra))).Nodup
      ∧ m.map (·.1) = ruleArtifacts) := by
  constructor
  · intro ra seen s hmem
    simp [createOutputArtifactFromRuleArtifact, hpath ra s, hmem]
  · intro ras m s s' h
    obtain ⟨h1, -, h3⟩ :=
      createOutputArtifactsFromRuleArtifacts_ok _ _ _ _ _ path hpath _ _ _ _ _ _ h
    exact ⟨h1, by simpa using h3⟩

/-- The duplicate check of the static path on an example: two templates with the value `x.o`
fail, two with `x.o` and `y.o` do not. -/
theorem createOutputArtifactsFromRuleArtifacts_distinct_paths_witness :
    createOutputArtifactFromRuleArtifact (demoHost []) (demoProduct false [] [])
        (demoRule 7 true false [demoRuleArtifact "x.o", demoRuleArtifact "x.o"]) 0
        (some (demoRuleArtifact "x.o")) [0, 1] ["/build/app.1234abcd/x.o"]
        (demoStateApplying (demoRule 7 true false []) [0, 1])
      = (Except.error (Exception.error (ErrorInfo.mk1
          ("Rule " ++ (demoRule 7 true false [demoRuleArtifact "x.o",
              demoRuleArtifact "x.o"]).rule.toString ++ " already created '"
            ++ resolvePath (demoProduct false [] []).buildDirectory "x.o" ++ "'.") none)),
          demoStateApplying (demoRule 7 true false []) [0, 1])
    ∧ ["/build/app.1234abcd/x.o", "/build/app.1234abcd/y.o"].Nodup := by
  have h := createOutputArtifactsFromRuleArtifacts_distinct_paths (demoHost [])
    (demoProduct false [] [])
    (demoRule 7 true false [demoRuleArtifact "x.o", demoRuleArtifact "x.o"]) 0 [0, 1]
    (fun ra => ra.filePath) (fun _ _ => rfl)
  refine ⟨h.1 (demoRuleArtifact "x.o") ["/build/app.1234abcd/x.o"] _ (by decide), ?_⟩
  exact (h.2 [demoRuleArtifact "x.o", demoRuleArtifact "y.o"] _
    (demoStateApplying (demoRule 7 true false []) [0, 1]) _ rfl).1

/-- C5, the code at the failing inputs: a dynamic rule whose script returns the path `x.h` twice
is applied without error (`runOutputArtifactsScript` has no check of the kind its static sibling
`createOutputArtifactFromRuleArtifact` makes), and so is a static rule with the templates `x.o`
and `./x.o` (the check of the static path compares the paths before they are cleaned); in both
cases the two outputs are one artifact, and no "already created" error is raised. -/
theorem doApply_duplicate_output_counterexample :
    (∃ s', applyRule (demoHost demoDuplicateObjects) (demoProduct false [] [])
        (demoRule 7 true true []) [0, 1] demoState = (Except.ok (), s'))
    ∧ (createOutputs (demoHost demoDuplicateObjects) (demoProduct false [] [])
        (demoRule 7 true true []) 0 [0, 1]
        (demoStateApplying (demoRule 7 true true []) [0, 1])).1 = Except.ok ([2, 2], [])
    ∧ (∃ s', applyRule (demoHost []) (demoProduct false [] [])
        (demoRule 7 true false [demoRuleArtifact "x.o", demoRuleArtifact "./x.o"]) [0, 1]
        demoState = (Except.ok (), s'))
    ∧ (createOutputs (demoHost []) (demoProduct false [] [])
        (demoRule 7 true false [demoRuleArtifact "x.o", demoRuleArtifact "./x.o"]) 0 [0, 1]
        (demoStateApplying
          (demoRule 7 true false [demoRuleArtifact "x.o", demoRuleArtifact "./x.o"])
          [0, 1])).1
        = Except.ok ([2, 2],
            [(demoRuleArtifact "x.o", 2), (demoRuleArtifact "./x.o", 2)]) :=
  ⟨⟨_, rfl⟩, rfl, ⟨_, rfl⟩, rfl⟩


/-! ## The rule instances through `doApply` -/

theorem connect_fold_inner (out : Nat) (deps : List Nat) (g : BuildGraph) :
    (deps.foldl (fun g dependency => connect out dependency g) g).transformers
      = g.transformers := by
  induction deps generalizing g with
  | nil => rfl
  | cons d rest ih => simp only [List.foldl_cons]; rw [ih]; rfl

theorem createOutputArtifactFromRuleArtifact_instances (host : ScriptHost)
    (product : ResolvedProduct) (rule : RuleConstPtr) (tp : Nat) (ra : Option RuleArtifact)
    (inputs : ArtifactSet) (seen : List String) (s s' : State)
    (r : Except Exception (ArtifactPtr × List String))
    (h : createOutputArtifactFromRuleArtifact host product rule tp ra inputs seen s = (r, s')) :
    ruleInstances s' = ruleInstances s := by
  unfold createOutputArtifactFromRuleArtifact at h
  simp only at h
  split at h
  · simp only [Prod.mk.injEq] at h; rw [← h.2]
  · split at h
    · simp only [Prod.mk.injEq] at h; rw [← h.2]
    · split at h
      · rename_i e s1 hc
        simp only [Prod.mk.injEq] at h
        rw [← h.2]
        exact (createOutputArtifact_frame _ _ _ _ _ _ _ _ _ _ _ hc).1
      · rename_i a s1 hc
        simp only [Prod.mk.injEq] at h
        rw [← h.2]
        exact (createOutputArtifact_frame _ _ _ _ _ _ _ _ _ _ _ hc).1

theorem createOutputArtifactsFromRuleArtifacts_instances (host : ScriptHost)
    (product : ResolvedProduct) (rule : RuleConstPtr) (tp : Nat) (inputs : ArtifactSet)
    (ras : List RuleArtifact) (seen : List String) (acc : List (RuleArtifact × ArtifactPtr))
    (s s' : State) (r : Except Exception (List (RuleArtifact × ArtifactPtr)))
    (h : createOutputArtifactsFromRuleArtifacts host product rule tp inputs ras seen acc s
      = (r, s')) :
    ruleInstances s' = ruleInstances s := by
  induction ras generalizing seen acc s with
  | nil =>
    simp only [createOutputArtifactsFromRuleArtifacts, Prod.mk.injEq] at h
    rw [← h.2]
  | cons ra rest ih =>
    simp only [createOutputArtifactsFromRuleArtifacts] at h
    split at h
    · rename_i e s1 hc
      simp only [Prod.mk.injEq] at h
      rw [← h.2]
      exact createOutputArtifactFromRuleArtifact_instances _ _ _ _ _ _ _ _ _ _ hc
    · rename_i a seen1 s1 hc
      rw [ih _ _ _ h]
      exact createOutputArtifactFromRuleArtifact_instances _ _ _ _ _ _ _ _ _ _ hc

theorem connect_dependencies_transformers (product : ResolvedProduct) (output : Nat)
    (tags : FileTags) (g : BuildGraph) :
    (tags.foldl (fun g tag =>
      (lookupArtifactsByFileTag product tag g).foldl
        (fun g dependency => connect output dependency g) g) g).transformers
      = g.transformers := by
  induction tags generalizing g with
  | nil => rfl
  | cons t rest ih =>
    simp only [List.foldl_cons]
    rw [ih, connect_fold_inner]

theorem createOutputArtifactFromScriptValue_instances (host : ScriptHost)
    (product : ResolvedProduct) (rule : RuleConstPtr) (tp : Nat) (obj : ScriptValue)
    (inputs : ArtifactSet) (s s' : State) (r : Except Exception ArtifactPtr)
    (h : createOutputArtifactFromScriptValue host product rule tp obj inputs s = (r, s')) :
    ruleInstances s' = ruleInstances s := by
  unfold createOutputArtifactFromScriptValue at h
  split at h
  · simp only [Prod.mk.injEq] at h; rw [← h.2]
  · simp only at h
    split at h
    · simp only [Prod.mk.injEq] at h; rw [← h.2]
    · split at h
      · rename_i e s1 hc
        simp only [Prod.mk.injEq] at h
        rw [← h.2]
        exact (createOutputArtifact_frame _ _ _ _ _ _ _ _ _ _ _ hc).1
      · rename_i a s1 hc
        have h1 := (createOutputArtifact_frame _ _ _ _ _ _ _ _ _ _ _ hc).1
        split at h
        · simp only [Prod.mk.injEq] at h
          rw [← h.2]
          exact h1
        · simp only [Prod.mk.injEq] at h
          rw [← h.2]
          simp only [ruleInstances, BuildGraph.modifyArtifact]
          rw [connect_dependencies_transformers]
          exact h1

theorem createOutputArtifactsFromScriptValues_instances (host : ScriptHost)
    (product : ResolvedProduct) (rule : RuleConstPtr) (tp : Nat) (inputs : ArtifactSet)
    (items : List ScriptValue) (i : Nat) (lst : List ArtifactPtr) (s s' : State)
    (r : Except Exception (List ArtifactPtr))
    (h : createOutputArtifactsFromScriptValues host product rule tp inputs items i lst s
      = (r, s')) :
    ruleInstances s' = ruleInstances s := by
  induction items generalizing i lst s with
  | nil =>
    simp only [createOutputArtifactsFromScriptValues, Prod.mk.injEq] at h
    rw [← h.2]
  | cons obj rest ih =>
    simp only [createOutputArtifactsFromScriptValues] at h
    split at h
    · rename_i a s1 hc
      rw [ih _ _ _ h]
      exact createOutputArtifactFromScriptValue_instances _ _ _ _ _ _ _ _ _ hc
    · rename_i e s1 hc
      simp only [Prod.mk.injEq] at h
      rw [← h.2]
      exact createOutputArtifactFromScriptValue_instances _ _ _ _ _ _ _ _ _ hc
    · rename_i e s1 _ hc
      simp only [Prod.mk.injEq] at h
      rw [← h.2]
      exact createOutputArtifactFromScriptValue_instances _ _ _ _ _ _ _ _ _ hc

theorem createOutputs_instances (host : ScriptHost) (product : ResolvedProduct)
    (rule : RuleConstPtr) (tp : Nat) (inputs : ArtifactSet) (s s' : State)
    (r : Except Exception (List ArtifactPtr × List (RuleArtifact × ArtifactPtr)))
    (h : createOutputs host product rule tp inputs s = (r, s')) :
    ruleInstances s' = ruleInstances s := by
  unfold createOutputs at h
  split at h
  · have hrun : ∀ r1 s1, runOutputArtifactsScript host product rule tp inputs s = (r1, s1) →
        ruleInstances s1 = ruleInstances s := by
      intro r1 s1 h1
      unfold runOutputArtifactsScript at h1
      split at h1
      · simp only [Prod.mk.injEq] at h1; rw [← h1.2]
      · simp only [Prod.mk.injEq] at h1; rw [← h1.2]
      · exact createOutputArtifactsFromScriptValues_instances _ _ _ _ _ _ _ _ _ _ _ h1
      · simp only [Prod.mk.injEq] at h1; rw [← h1.2]
    split at h
    · rename_i e s1 hc
      simp only [Prod.mk.injEq] at h
      rw [← h.2]; exact hrun _ _ hc
    · rename_i l s1 hc
      simp only [Prod.mk.injEq] at h
      rw [← h.2]; exact hrun _ _ hc
  · split at h
    · rename_i e s1 hc
      simp only [Prod.mk.injEq] at h
      rw [← h.2]
      exact createOutputArtifactsFromRuleArtifacts_instances _ _ _ _ _ _ _ _ _ _ _ hc
    · rename_i m s1 hc
      have h1 := createOutputArtifactsFromRuleArtifacts_instances _ _ _ _ _ _ _ _ _ _ _ hc
      split at h
      · split at h
        · rename_i e s2 hc2
          simp only [Prod.mk.injEq] at h
          rw [← h.2, createOutputArtifactFromRuleArtifact_instances _ _ _ _ _ _ _ _ _ _ hc2]
          exact h1
        · rename_i a x s2 hc2
          simp only [Prod.mk.injEq] at h
          rw [← h.2, createOutputArtifactFromRuleArtifact_instances _ _ _ _ _ _ _ _ _ _ hc2]
          exact h1
      · simp only [Prod.mk.injEq] at h
        rw [← h.2]; exact h1

theorem deleteRemovedArtifacts_transformers (inputs : ArtifactSet) (l : List ArtifactPtr)
    (g g' : BuildGraph) (r : Except Exception Unit)
    (h : deleteRemovedArtifacts inputs l g = (r, g')) : g'.transformers = g.transformers := by
  induction l generalizing g with
  | nil =>
    simp only [deleteRemovedArtifacts, Prod.mk.injEq] at h
    rw [← h.2]
  | cons a rest ih =>
    simp only [deleteRemovedArtifacts] at h
    split at h
    · simp only [Prod.mk.injEq] at h
      rw [← h.2]
    · exact (ih _ h).trans rfl

theorem evaluateArtifactBindings_transformers (host : ScriptHost)
    (pairs : List (RuleArtifact × ArtifactPtr)) (s s' : State) (r : Except Exception Unit)
    (h : evaluateArtifactBindings host pairs s = (r, s')) :
    s'.graph.transformers = s.graph.transformers := by
  induction pairs generalizing s with
  | nil =>
    simp only [evaluateArtifactBindings, Prod.mk.injEq] at h
    rw [← h.2]
  | cons p rest ih =>
    obtain ⟨ra, a⟩ := p
    simp only [evaluateArtifactBindings] at h
    split at h
    · exact ih _ h
    · split at h
      · simp only [Prod.mk.injEq] at h
        rw [← h.2]
      · rw [ih _ h]
        rfl

theorem invalidateOutputs_transformers (outputs : List ArtifactPtr) (s : State) :
    (invalidateOutputs outputs s).graph.transformers = s.graph.transformers := by
  unfold invalidateOutputs
  induction outputs generalizing s with
  | nil => rfl
  | cons a rest ih =>
    simp only [List.foldl_cons]
    rw [ih]
    rfl

theorem connect_outputs_transformers (outputs deps : List ArtifactPtr) (g : BuildGraph) :
    (outputs.foldl (fun g outputArtifact =>
      deps.foldl (fun g dependency => connect outputArtifact dependency g) g) g).transformers
      = g.transformers := by
  induction outputs generalizing g with
  | nil => rfl
  | cons a rest ih =>
    simp only [List.foldl_cons]
    rw [ih, connect_fold_inner]

theorem setEq_singleton_ne (a b : ArtifactPtr) (h : a ≠ b) : setEq [a] [b] = false := by
  simp [setEq, h]

/-- The error for two instances of a non-multiplex rule, at `createOutputArtifact`. -/
theorem createOutputArtifact_conflicting_instances_aux (host : ScriptHost)
    (product : ResolvedProduct) (rule : RuleConstPtr) (tp : Nat) (filePath : String)
    (fileTags : FileTags) (au : Bool) (s : State) (p : ArtifactPtr) (art : Artifact)
    (t : Transformer) (oldInput newInput : ArtifactPtr)
    (hmult : rule.rule.multiplex = false)
    (hl : lookupArtifact product (normalizedOutputPath product filePath) s.graph = some (p, art))
    (ht : art.transformer.bind s.graph.transformer = some t)
    (hrule : t.rule.address = rule.address)
    (hold : t.inputs = [oldInput]) (hne : oldInput ≠ newInput) :
    createOutputArtifact host product rule tp filePath fileTags au [newInput] s
      = (Except.error (Exception.error (conflictingInstancesError rule art
          (filePathOf s.graph oldInput) (filePathOf s.graph newInput))), s) := by
  simp [createOutputArtifact, lookupOrCreateOutput, hl, ht, hrule, hmult, hold,
    setEq_singleton_ne _ _ hne]

theorem getElem?_append_of_some {α : Type} (l : List α) (x : α) (k : Nat) (t : α)
    (h : l[k]? = some t) : (l ++ [x])[k]? = some t := by
  have hk : k < l.length := by
    by_contra hc
    rw [List.getElem?_eq_none (by omega)] at h
    cases h
  rw [List.getElem?_append_left hk]
  exact h

/-- The error for two instances of a non-multiplex rule, at `doApply`: when the artifact at
the output path of the first template belongs to an instance of the rule with another input. -/
theorem doApply_conflicting_instances_aux (host : ScriptHost) (product : ResolvedProduct)
    (rule : RuleConstPtr) (ra : RuleArtifact) (rest : List RuleArtifact) (value : String)
    (s : State) (p : ArtifactPtr) (art : Artifact) (t : Transformer)
    (oldInput newInput : ArtifactPtr)
    (hmult : rule.rule.multiplex = false) (hstatic : rule.rule.isDynamic = false)
    (harts : rule.rule.artifacts = ra :: rest)
    (hcancel : host.cancelRequested s = false)
    (hvalue : host.evaluateFilePath ra [newInput] (createTransformer product rule [newInput] s)
      = Except.ok value)
    (hl : lookupArtifact product
      (normalizedOutputPath product (resolvePath product.buildDirectory value)) s.graph
        = some (p, art))
    (ht : art.transformer.bind s.graph.transformer = some t)
    (hrule : t.rule.address = rule.address)
    (hold : t.inputs = [oldInput]) (hne : oldInput ≠ newInput) :
    doApply host product rule [newInput] s
      = (Except.error (Exception.error (conflictingInstancesError rule art
          (filePathOf s.graph oldInput) (filePathOf s.graph newInput))),
          createTransformer product rule [newInput] s) := by
  have hl' : lookupArtifact product
      (normalizedOutputPath product (resolvePath product.buildDirectory value))
      (createTransformer product rule [newInput] s).graph = some (p, art) := hl
  have ht' : art.transformer.bind (createTransformer product rule [newInput] s).graph.transformer
      = some t := by
    cases hk : art.transformer with
    | none => simp [hk] at ht
    | some k =>
      rw [hk] at ht
      simp only [Option.some_bind, BuildGraph.transformer] at ht ⊢
      exact getElem?_append_of_some _ _ _ _ ht
  have hc := createOutputArtifact_conflicting_instances_aux host product rule
    s.graph.transformers.length (resolvePath product.buildDirectory value) ra.fileTags
    ra.alwaysUpdated (createTransformer product rule [newInput] s) p art t oldInput newInput
    hmult hl' ht' hrule hold hne
  have hf : createOutputArtifactFromRuleArtifact host product rule s.graph.transformers.length
      (some ra) [newInput] [] (createTransformer product rule [newInput] s)
      = (Except.error (Exception.error (conflictingInstancesError rule art
          (filePathOf s.graph oldInput) (filePathOf s.graph newInput))),
          createTransformer product rule [newInput] s) := by
    simp only [createOutputArtifactFromRuleArtifact, hvalue, List.not_mem_nil, if_false, hc]
    rfl
  simp only [doApply, hcancel, Bool.false_eq_true, if_false, createOutputs, hstatic, harts,
    createOutputArtifactsFromRuleArtifacts, hf]


/-! ## Looking an artifact up after the graph has changed -/

theorem findArtifact_eq_some_iff (pa : Nat) (fp : String) (l : List (Option Artifact))
    (base p : Nat) (a : Artifact) :
    findArtifact pa fp l base = some (p, a) ↔
      base ≤ p ∧ heapGet l (p - base) = some a ∧ (a.product = pa ∧ a.filePath = fp)
        ∧ ∀ q, q < p - base → ∀ x, heapGet l q = some x → ¬(x.product = pa ∧ x.filePath = fp) := by
  induction l generalizing base with
  | nil => simp [findArtifact, heapGet]
  | cons x rest ih =>
    have hshift : ∀ (P : Nat → Prop), (∀ q, q < p - base → P q) ↔
        (0 < p - base → P 0) ∧ (∀ q, q < p - (base + 1) → P (q + 1)) := by
      intro P
      constructor
      · intro h
        exact ⟨fun h0 => h 0 h0, fun q hq => h (q + 1) (by omega)⟩
      · rintro ⟨h0, h1⟩ q hq
        cases q with
        | zero => exact h0 hq
        | succ q => exact h1 q (by omega)
    cases x with
    | none =>
      simp only [findArtifact, ih]
      constructor
      · rintro ⟨h1, h2, h3, h4⟩
        refine ⟨by omega, ?_, h3, ?_⟩
        · have : p - base = (p - (base + 1)) + 1 := by omega
          rw [this]; exact h2
        · rw [hshift]
          exact ⟨fun _ x hx => by simp [heapGet] at hx, fun q hq x hx => h4 q hq x hx⟩
      · rintro ⟨h1, h2, h3, h4⟩
        have hne : p - base ≠ 0 := by
          intro h0
          rw [h0] at h2
          simp [heapGet] at h2
        have hpb : p - base = (p - (base + 1)) + 1 := by omega
        rw [hpb] at h2
        refine ⟨by omega, h2, h3, ?_⟩
        rw [hshift] at h4
        exact fun q hq x hx => h4.2 q hq x hx
    | some b =>
      simp only [findArtifact]
      split
      · rename_i hb
        constructor
        · intro h
          simp only [Option.some.injEq, Prod.mk.injEq] at h
          obtain ⟨rfl, rfl⟩ := h
          simp [heapGet, hb]
        · rintro ⟨h1, h2, h3, h4⟩
          have h0 : p - base = 0 := by
            by_contra hne
            exact h4 0 (by omega) b rfl hb
          rw [h0] at h2
          simp only [heapGet, Option.some.injEq] at h2
          subst h2
          have : p = base := by omega
          rw [this]
      · rename_i hb
        rw [ih]
        constructor
        · rintro ⟨h1, h2, h3, h4⟩
          refine ⟨by omega, ?_, h3, ?_⟩
          · have : p - base = (p - (base + 1)) + 1 := by omega
            rw [this]; exact h2
          · rw [hshift]
            refine ⟨fun _ x hx => ?_, fun q hq x hx => h4 q hq x hx⟩
            simp only [heapGet, Option.some.injEq] at hx
            subst hx
            exact hb
        · rintro ⟨h1, h2, h3, h4⟩
          have hne : p - base ≠ 0 := by
            intro h0
            rw [h0] at h2
            simp only [heapGet, Option.some.injEq] at h2
            subst h2
            exact hb h3
          have hpb : p - base = (p - (base + 1)) + 1 := by omega
          rw [hpb] at h2
          refine ⟨by omega, h2, h3, ?_⟩
          rw [hshift] at h4
          exact fun q hq x hx => h4.2 q hq x hx

theorem findArtifact_eq_none_iff (pa : Nat) (fp : String) (l : List (Option Artifact))
    (base : Nat) :
    findArtifact pa fp l base = none ↔
      ∀ q x, heapGet l q = some x → ¬(x.product = pa ∧ x.filePath = fp) := by
  induction l generalizing base with
  | nil => simp [findArtifact, heapGet]
  | cons y rest ih =>
    have hsplit : (∀ q x, heapGet (y :: rest) q = some x → ¬(x.product = pa ∧ x.filePath = fp))
        ↔ (∀ x, y = some x → ¬(x.product = pa ∧ x.filePath = fp))
          ∧ (∀ q x, heapGet rest q = some x → ¬(x.product = pa ∧ x.filePath = fp)) := by
      constructor
      · intro h
        exact ⟨fun x hx => h 0 x hx, fun q x hx => h (q + 1) x hx⟩
      · rintro ⟨h0, h1⟩ q x hx
        cases q with
        | zero => exact h0 x hx
        | succ q => exact h1 q x hx
    rw [hsplit]
    cases y with
    | none => simp [findArtifact, ih]
    | some b =>
      simp only [findArtifact]
      split
      · rename_i hb
        simp only [false_iff, reduceCtorEq]
        intro h
        exact h.1 b rfl hb
      · rename_i hb
        rw [ih]
        constructor
        · intro h
          exact ⟨fun x hx => by cases hx; exact hb, h⟩
        · exact fun h => h.2

/-- An artifact is found at the same address when the graph has changed no artifact's product
and path. -/
theorem lookupArtifact_of_same_ident (product : ResolvedProduct) (fp : String)
    (g g' : BuildGraph) (p : ArtifactPtr) (art : Artifact)
    (hpt : ∀ q, (g'.artifact q).map Artifact.ident = (g.artifact q).map Artifact.ident)
    (hl : lookupArtifact product fp g = some (p, art)) :
    ∃ art', lookupArtifact product fp g' = some (p, art') ∧ g'.artifact p = some art' := by
  unfold lookupArtifact at hl ⊢
  rw [findArtifact_eq_some_iff] at hl
  obtain ⟨-, h2, h3, h4⟩ := hl
  simp only [Nat.sub_zero] at h2 h4
  have hp := hpt p
  simp only [BuildGraph.artifact, h2, Option.map_some'] at hp
  cases hg : heapGet g'.artifacts p with
  | none => simp [hg] at hp
  | some art' =>
    rw [hg] at hp
    simp only [Option.map_some', Option.some.injEq, Artifact.ident, Prod.mk.injEq] at hp
    refine ⟨art', ?_, hg⟩
    rw [findArtifact_eq_some_iff]
    refine ⟨Nat.zero_le _, by simpa using hg, ⟨hp.1.trans h3.1, hp.2.trans h3.2⟩, ?_⟩
    intro q hq x hx
    have hqq := hpt q
    simp only [BuildGraph.artifact, hx, Option.map_some'] at hqq
    cases hgq : heapGet g.artifacts q with
    | none => simp [hgq] at hqq
    | some y =>
      rw [hgq] at hqq
      simp only [Option.map_some', Option.some.injEq, Artifact.ident, Prod.mk.injEq] at hqq
      have := h4 q (by simpa using hq) y hgq
      rw [← hqq.1, ← hqq.2] at this
      exact this


theorem connect_parents (p c q : Nat) (g : BuildGraph) (art' : Artifact)
    (h : (connect p c g).artifact q = some art') :
    ∃ art, g.artifact q = some art ∧ ∀ x ∈ art'.parents, x ∈ art.parents ∨ x = p := by
  simp only [connect, BuildGraph.modifyArtifact, BuildGraph.artifact, heapGet_heapModify] at h ⊢
  by_cases hqc : q = c
  · subst hqc
    simp only [if_true] at h
    by_cases hqp : q = p
    · subst hqp
      simp only [if_true] at h
      cases hg : heapGet g.artifacts q with
      | none => simp [hg] at h
      | some a =>
        simp only [hg, Option.map_some', Option.some.injEq] at h
        subst h
        exact ⟨a, rfl, fun x hx => by simpa [mem_setInsert] using hx⟩
    · simp only [hqp, if_false] at h
      cases hg : heapGet g.artifacts q with
      | none => simp [hg] at h
      | some a =>
        simp only [hg, Option.map_some', Option.some.injEq] at h
        subst h
        exact ⟨a, rfl, fun x hx => by simpa [mem_setInsert] using hx⟩
  · simp only [hqc, if_false] at h
    by_cases hqp : q = p
    · subst hqp
      simp only [if_true] at h
      cases hg : heapGet g.artifacts q with
      | none => simp [hg] at h
      | some a =>
        simp only [hg, Option.map_some', Option.some.injEq] at h
        subst h
        exact ⟨a, rfl, fun x hx => Or.inl hx⟩
    · simp only [hqp, if_false] at h
      exact ⟨art', h, fun x hx => Or.inl hx⟩

theorem connectInputs_parents (out : Nat) (inputs : List Nat) (g g' : BuildGraph)
    (r : Except Exception Unit) (h : connectInputs out inputs g = (r, g')) (q : Nat)
    (art' : Artifact) (hq : g'.artifact q = some art') :
    ∃ art, g.artifact q = some art ∧ ∀ x ∈ art'.parents, x ∈ art.parents ∨ x = out := by
  induction inputs generalizing g with
  | nil =>
    simp only [connectInputs, Prod.mk.injEq] at h
    obtain ⟨-, rfl⟩ := h
    exact ⟨art', hq, fun x hx => Or.inl hx⟩
  | cons i rest ih =>
    simp only [connectInputs] at h
    split at h
    · simp only [Prod.mk.injEq] at h
      obtain ⟨-, rfl⟩ := h
      exact ⟨art', hq, fun x hx => Or.inl hx⟩
    · obtain ⟨a1, h1, h2⟩ := ih _ h
      obtain ⟨a0, h3, h4⟩ := connect_parents _ _ _ _ _ h1
      refine ⟨a0, h3, fun x hx => ?_⟩
      rcases h2 x hx with h | h
      · exact h4 x h
      · exact Or.inr h

theorem setOutputProperties_ident (host : ScriptHost) (product : ResolvedProduct)
    (fileTags : FileTags) (au : Bool) (a : Artifact) :
    (setOutputProperties host product fileTags au a).ident = a.ident := by
  unfold setOutputProperties
  simp only
  split <;> split <;> rfl

theorem setOutputProperties_parents (host : ScriptHost) (product : ResolvedProduct)
    (fileTags : FileTags) (au : Bool) (a : Artifact) :
    (setOutputProperties host product fileTags au a).parents = a.parents := by
  unfold setOutputProperties
  simp only
  split <;> split <;> rfl

theorem map_ident_of_withoutEdges (o o' : Option Artifact)
    (h : o'.map Artifact.withoutEdges = o.map Artifact.withoutEdges) :
    o'.map Artifact.ident = o.map Artifact.ident := by
  have := congrArg (Option.map Artifact.ident) h
  simpa [Option.map_map, Function.comp_def, Artifact.ident, Artifact.withoutEdges] using this

theorem map_key_of_withoutEdges (o o' : Option Artifact)
    (h : o'.map Artifact.withoutEdges = o.map Artifact.withoutEdges) :
    o'.map Artifact.key = o.map Artifact.key := by
  have := congrArg (Option.map Artifact.key) h
  simpa [Option.map_map, Function.comp_def, Artifact.key, Artifact.withoutEdges] using this

/-- After `createOutputArtifact` has returned an artifact, that artifact is the one found at the
output path, with the transformer of the rule instance; and every artifact there was has gained
at most the output as a parent. -/
theorem createOutputArtifact_ok_after (host : ScriptHost) (product : ResolvedProduct)
    (rule : RuleConstPtr) (tp : Nat) (filePath : String) (fileTags : FileTags) (au : Bool)
    (inputs : ArtifactSet) (s s' : State) (out : Nat)
    (h : createOutputArtifact host product rule tp filePath fileTags au inputs s
      = (Except.ok out, s')) :
    (∃ art', lookupArtifact product (normalizedOutputPath product filePath) s'.graph
        = some (out, art') ∧ art'.transformer = some tp) ∧
    ∀ q art, s.graph.artifact q = some art →
      ∃ art'', s'.graph.artifact q = some art''
        ∧ ∀ x ∈ art''.parents, x ∈ art.parents ∨ x = out := by
  obtain ⟨-, artR, hgR, -, -, -, -, htR, -⟩ := createOutputArtifact_result _ _ _ _ _ _ _ _ _ _ _ h
  unfold createOutputArtifact at h
  simp only at h
  cases hl : lookupOrCreateOutput product rule tp (normalizedOutputPath product filePath) inputs s
    with
  | mk r1 s1 =>
  rw [hl] at h
  rcases lookupOrCreateOutput_cases _ _ _ _ _ _ _ _ hl with ⟨rfl, e, rfl⟩ | ⟨out1, rfl, -, hcase⟩
  · simp at h
  · simp only at h
    cases hc : connectInputs out1 inputs
        (s1.graph.modifyArtifact out1 (setOutputProperties host product fileTags au)) with
    | mk rc g2 =>
    rw [hc] at h
    cases rc with
    | error e => simp at h
    | ok u =>
      simp only at h
      have hfinal : out = out1 ∧ s'.graph = (g2.modifyArtifact out1
          (fun a => { a with transformer := some tp })).modifyTransformer tp
          (fun t => { t with outputs := setInsert t.outputs out1 }) := by
        split at h
        · simp only [Prod.mk.injEq, Except.ok.injEq] at h
          obtain ⟨rfl, rfl⟩ := h
          exact ⟨rfl, rfl⟩
        · simp at h
      obtain ⟨rfl, hfin⟩ := hfinal
      obtain ⟨-, hA2⟩ := connectInputs_frame _ _ _ _ _ hc
      -- product and path of every artifact, from `s1` on
      have hident : ∀ q, (s'.graph.artifact q).map Artifact.ident
          = (s1.graph.artifact q).map Artifact.ident := by
        intro q
        rw [hfin]
        simp only [BuildGraph.modifyTransformer, BuildGraph.modifyArtifact, BuildGraph.artifact]
        rw [heapGet_heapModify_map Artifact.ident]
        · have := map_ident_of_withoutEdges _ _ (hA2 q)
          simp only [BuildGraph.modifyArtifact, BuildGraph.artifact] at this
          rw [this, heapGet_heapModify_map Artifact.ident _
            (fun a => setOutputProperties_ident host product fileTags au a)]
        · exact fun a => rfl
      -- parents of every artifact, from `s1` on
      have hpar : ∀ q art'', s'.graph.artifact q = some art'' →
          ∃ art1, s1.graph.artifact q = some art1
            ∧ ∀ x ∈ art''.parents, x ∈ art1.parents ∨ x = out := by
        intro q art'' hq
        rw [hfin] at hq
        simp only [BuildGraph.modifyTransformer, BuildGraph.modifyArtifact, BuildGraph.artifact,
          heapGet_heapModify] at hq
        have hq2 : ∃ a2, g2.artifact q = some a2 ∧ a2.parents = art''.parents := by
          split at hq
          · cases hg : heapGet g2.artifacts out with
            | none => simp [hg] at hq
            | some a2 =>
              simp only [hg, Option.map_some', Option.some.injEq] at hq
              subst hq
              rename_i hqo
              subst hqo
              exact ⟨a2, hg, rfl⟩
          · exact ⟨art'', hq, rfl⟩
        obtain ⟨a2, hg2, hp2⟩ := hq2
        obtain ⟨a1, hg1, hp1⟩ := connectInputs_parents _ _ _ _ _ hc q a2 hg2
        simp only [BuildGraph.modifyArtifact, BuildGraph.artifact, heapGet_heapModify] at hg1
        split at hg1
        · cases hg : heapGet s1.graph.artifacts out with
          | none => simp [hg] at hg1
          | some a0 =>
            simp only [hg, Option.map_some', Option.some.injEq] at hg1
            subst hg1
            rename_i hqo
            subst hqo
            refine ⟨a0, hg, fun x hx => ?_⟩
            rw [← hp2] at hx
            simpa [setOutputProperties_parents] using hp1 x hx
        · exact ⟨a1, hg1, fun x hx => hp1 x (hp2 ▸ hx)⟩
      constructor
      · -- the lookup
        have hlook1 : ∃ art1, lookupArtifact product (normalizedOutputPath product filePath)
            s1.graph = some (out, art1) := by
          rcases hcase with ⟨art, hlk, ha, -⟩ | ⟨hnone, ho, ha⟩
          · refine ⟨art, ?_⟩
            unfold lookupArtifact at hlk ⊢
            rw [ha]
            exact hlk
          · refine ⟨{ newGeneratedArtifact (normalizedOutputPath product filePath) with
                product := product.address }, ?_⟩
            unfold lookupArtifact at hnone ⊢
            rw [ha, findArtifact_eq_some_iff]
            rw [findArtifact_eq_none_iff] at hnone
            refine ⟨Nat.zero_le _, ?_, ⟨rfl, rfl⟩, ?_⟩
            · rw [ho]
              exact heapGet_append_length _ _
            · intro q hq x hx
              rw [ho] at hq
              rw [heapGet_append_of_lt _ _ _ (by simpa using hq)] at hx
              exact hnone q x hx
        obtain ⟨art1, hlk1⟩ := hlook1
        obtain ⟨art', hl', hg'⟩ := lookupArtifact_of_same_ident product _ s1.graph s'.graph
          out art1 hident hlk1
        refine ⟨art', hl', ?_⟩
        rw [hgR] at hg'
        cases hg'
        exact htR
      · intro q art hq
        have hs1 : s1.graph.artifact q = some art := by
          rcases hcase with ⟨_, _, ha, _⟩ | ⟨_, _, ha⟩
          · simpa [BuildGraph.artifact, ha] using hq
          · simp only [BuildGraph.artifact, ha]
            rw [heapGet_append_of_lt _ _ _ (heapGet_lt_length _ _ _ hq)]
            exact hq
        have hi := hident q
        rw [hs1] at hi
        cases hg : s'.graph.artifact q with
        | none => simp [hg] at hi
        | some art'' =>
          obtain ⟨a1, h1, h2⟩ := hpar q art'' hg
          rw [hs1] at h1
          cases h1
          exact ⟨art'', rfl, h2⟩


/-! ## The first of two inputs of a rule that is not a multiplex rule -/

theorem connect_key (p c q : Nat) (g : BuildGraph) :
    ((connect p c g).artifact q).map Artifact.key = (g.artifact q).map Artifact.key :=
  map_key_of_withoutEdges _ _ (connect_artifact p c q g)

theorem connect_fold_inner_key (out : Nat) (deps : List Nat) (g : BuildGraph) (q : Nat) :
    ((deps.foldl (fun g dependency => connect out dependency g) g).artifact q).map Artifact.key
      = (g.artifact q).map Artifact.key := by
  induction deps generalizing g with
  | nil => rfl
  | cons d rest ih => simp only [List.foldl_cons]; rw [ih, connect_key]

theorem connect_outputs_key (outputs deps : List ArtifactPtr) (g : BuildGraph) (q : Nat) :
    ((outputs.foldl (fun g outputArtifact =>
      deps.foldl (fun g dependency => connect outputArtifact dependency g) g) g).artifact q).map
        Artifact.key = (g.artifact q).map Artifact.key := by
  induction outputs generalizing g with
  | nil => rfl
  | cons a rest ih => simp only [List.foldl_cons]; rw [ih, connect_fold_inner_key]

theorem evaluateArtifactBindings_key (host : ScriptHost)
    (pairs : List (RuleArtifact × ArtifactPtr)) (s s' : State) (r : Except Exception Unit)
    (h : evaluateArtifactBindings host pairs s = (r, s')) (q : Nat) :
    (s'.graph.artifact q).map Artifact.key = (s.graph.artifact q).map Artifact.key := by
  induction pairs generalizing s with
  | nil =>
    simp only [evaluateArtifactBindings, Prod.mk.injEq] at h
    rw [← h.2]
  | cons p rest ih =>
    obtain ⟨ra, a⟩ := p
    simp only [evaluateArtifactBindings] at h
    split at h
    · exact ih _ h
    · split at h
      · simp only [Prod.mk.injEq] at h
        rw [← h.2]
      · rw [ih _ h]
        simp only [BuildGraph.modifyArtifact, BuildGraph.artifact]
        rw [heapGet_heapModify_map Artifact.key]
        exact fun a => rfl

theorem invalidateOutputs_key (outputs : List ArtifactPtr) (s : State) (q : Nat) :
    ((invalidateOutputs outputs s).graph.artifact q).map Artifact.key
      = (s.graph.artifact q).map Artifact.key := by
  unfold invalidateOutputs
  induction outputs generalizing s with
  | nil => rfl
  | cons a rest ih =>
    simp only [List.foldl_cons]
    rw [ih]
    simp only [BuildGraph.modifyArtifact, BuildGraph.artifact]
    rw [heapGet_heapModify_map Artifact.key]
    exact fun a => rfl

theorem collectOldOutputsOf_subset (rule : RuleConstPtr) (g : BuildGraph) (a : ArtifactPtr)
    (ps : List ArtifactPtr) (acc res : ArtifactSet)
    (h : collectOldOutputsOf rule g a ps acc = Except.ok res) :
    ∀ x ∈ res, x ∈ acc ∨ x ∈ ps := by
  induction ps generalizing acc with
  | nil =>
    simp only [collectOldOutputsOf, Except.ok.injEq] at h
    subst h
    exact fun x hx => Or.inl hx
  | cons p rest ih =>
    simp only [collectOldOutputsOf] at h
    split at h
    · cases h
    · split at h
      · intro x hx
        rcases ih _ h x hx with h1 | h1
        · rcases (mem_setInsert _ _ _).mp h1 with h2 | h2
          · exact Or.inl h2
          · exact Or.inr (h2 ▸ List.mem_cons_self _ _)
        · exact Or.inr (List.mem_cons_of_mem _ h1)
      · intro x hx
        rcases ih _ h x hx with h1 | h1
        · exact Or.inl h1
        · exact Or.inr (List.mem_cons_of_mem _ h1)

theorem collectOldOutputArtifacts_single (rule : RuleConstPtr) (g : BuildGraph)
    (a : ArtifactPtr) (res : ArtifactSet)
    (h : collectOldOutputArtifacts rule g [a] [] = Except.ok res) :
    ∀ x ∈ res, x ∈ ((g.artifact a).map (·.parents)).getD [] := by
  simp only [collectOldOutputArtifacts] at h
  split at h
  · cases h
  · rename_i res1 hc
    simp only [Except.ok.injEq] at h
    subst h
    intro x hx
    rcases collectOldOutputsOf_subset _ _ _ _ _ _ hc x hx with h1 | h1
    · cases h1
    · exact h1

theorem handleRemovedRuleOutputs_nil (host : ScriptHost) (inputs : ArtifactSet)
    (g : BuildGraph) : handleRemovedRuleOutputs host inputs [] g = (Except.ok (), g) := rfl

theorem createOutputs_single_static (host : ScriptHost) (product : ResolvedProduct)
    (rule : RuleConstPtr) (tp : Nat) (inputs : ArtifactSet) (ra : RuleArtifact)
    (value : String) (s : State)
    (hstatic : rule.rule.isDynamic = false) (harts : rule.rule.artifacts = [ra])
    (hvalue : host.evaluateFilePath ra inputs s = Except.ok value) :
    createOutputs host product rule tp inputs s =
      match createOutputArtifact host product rule tp
          (resolvePath product.buildDirectory value) ra.fileTags ra.alwaysUpdated inputs s with
      | (Except.error e, s') => (Except.error e, s')
      | (Except.ok out, s') => (Except.ok ([out], [(ra, out)]), s') := by
  simp only [createOutputs, hstatic, harts, Bool.false_eq_true, if_false,
    createOutputArtifactsFromRuleArtifacts, createOutputArtifactFromRuleArtifact, hvalue,
    List.not_mem_nil]
  cases createOutputArtifact host product rule tp (resolvePath product.buildDirectory value)
      ra.fileTags ra.alwaysUpdated inputs s with
  | mk r s' =>
    cases r <;> simp

/-- After a static rule that is not a multiplex rule, with one template, has been applied to an
input that had no parent, the artifact at the output path of the template is there, with a
transformer of the rule whose only input is that input. -/
theorem doApply_first_input (host : ScriptHost) (product : ResolvedProduct)
    (rule : RuleConstPtr) (ra : RuleArtifact) (value : String) (a : ArtifactPtr)
    (artA : Artifact) (s s1 : State)
    (hstatic : rule.rule.isDynamic = false) (harts : rule.rule.artifacts = [ra])
    (hvalue : ∀ st, host.evaluateFilePath ra [a] st = Except.ok value)
    (hA : s.graph.artifact a = some artA) (hparents : artA.parents = [])
    (h : doApply host product rule [a] s = (Except.ok (), s1)) :
    ∃ p art t, lookupArtifact product
        (normalizedOutputPath product (resolvePath product.buildDirectory value)) s1.graph
          = some (p, art)
      ∧ art.transformer.bind s1.graph.transformer = some t
      ∧ t.rule = rule ∧ t.inputs = [a] := by
  unfold doApply at h
  split at h
  · simp at h
  · simp only at h
    rw [createOutputs_single_static host product rule _ [a] ra value _ hstatic harts
      (hvalue _)] at h
    cases hc : createOutputArtifact host product rule s.graph.transformers.length
        (resolvePath product.buildDirectory value) ra.fileTags ra.alwaysUpdated [a]
        (createTransformer product rule [a] s) with
    | mk rc sB =>
    rw [hc] at h
    cases rc with
    | error e => simp at h
    | ok out =>
      simp only at h
      obtain ⟨⟨artB, hlB, htB⟩, hparB⟩ := createOutputArtifact_ok_after _ _ _ _ _ _ _ _ _ _ _ hc
      have hTB := (createOutputArtifact_frame _ _ _ _ _ _ _ _ _ _ _ hc).1
      -- the instance of the rule, in `sB`
      have htrB : ∃ t, sB.graph.transformers[s.graph.transformers.length]? = some t
          ∧ t.key = (rule, [a]) := by
        have h0 : (createTransformer product rule [a] s).graph.transformers[
            s.graph.transformers.length]? = some
              { rule := rule, inputs := [a], outputs := [],
                explicitlyDependsOn := collectExplicitlyDependsOn rule.rule product s.graph,
                commands := [], alwaysRun := rule.rule.alwaysRun,
                commandsNeedChangeTracking := false, changeTrackingData := 0 } := by
          simp [createTransformer]
        obtain ⟨t, h1, h2⟩ := transformer_of_map_key _ _ hTB _ _ h0
        exact ⟨t, h1, h2⟩
      obtain ⟨tB, htB1, htB2⟩ := htrB
      split at h
      · simp at h
      · rename_i old hold
        -- nothing is removed
        have hminus : setMinus old (setFromList [out]) = [] := by
          obtain ⟨artA', hA', hpA'⟩ := hparB a artA hA
          have := collectOldOutputArtifacts_single _ _ _ _ hold
          simp only [hA', Option.map_some', Option.getD_some] at this
          simp only [setMinus, List.filter_eq_nil_iff, decide_eq_true_eq, not_not]
          intro x hx
          rcases hpA' x (this x hx) with h1 | h1
          · rw [hparents] at h1
            cases h1
          · simp [setFromList, setInsert, h1]
        rw [hminus, handleRemovedRuleOutputs_nil] at h
        simp only [List.isEmpty_cons, Bool.false_eq_true, if_false] at h
        split at h
        · simp at h
        · rename_i u2 s2 hb
          have hk2 := evaluateArtifactBindings_key _ _ _ _ _ hb
          have ht2 := evaluateArtifactBindings_transformers _ _ _ _ _ hb
          split at h
          · simp at h
          · rename_i commands hcmd
            split at h
            · simp at h
            · simp only [Prod.mk.injEq, true_and] at h
              -- the artifacts and transformers of `s1` against those of `sB`
              have hkey : ∀ q, (s1.graph.artifact q).map Artifact.key
                  = (sB.graph.artifact q).map Artifact.key := by
                intro q
                rw [← h]
                simp only [BuildGraph.modifyTransformer]
                split
                · have := invalidateOutputs_key [out]
                    { s2 with
                      graph := s2.graph.modifyTransformer s.graph.transformers.length
                        (fun t => { t with commands := commands }) } q
                  simp only [BuildGraph.artifact, BuildGraph.modifyTransformer] at this ⊢
                  rw [this]
                  have := hk2 q
                  simp only [BuildGraph.artifact] at this
                  rw [this]
                  exact connect_outputs_key _ _ _ q
                · have := hk2 q
                  simp only [BuildGraph.artifact] at this ⊢
                  rw [this]
                  exact connect_outputs_key _ _ _ q
              have htrs : s1.graph.transformers.map Transformer.key
                  = sB.graph.transformers.map Transformer.key := by
                rw [← h]
                simp only [BuildGraph.modifyTransformer]
                rw [storeModify_map_key]
                · split
                  · rw [invalidateOutputs_transformers]
                    simp only []
                    rw [storeModify_map_key, ht2, connect_outputs_transformers]
                    exact fun t => rfl
                  · simp only []
                    rw [storeModify_map_key, ht2, connect_outputs_transformers]
                    exact fun t => rfl
                · exact fun t => rfl
              have hident : ∀ q, (s1.graph.artifact q).map Artifact.ident
                  = (sB.graph.artifact q).map Artifact.ident := by
                intro q
                have := congrArg (Option.map (fun k : Nat × String × Option TransformerPtr =>
                  (k.1, k.2.1))) (hkey q)
                simpa [Option.map_map, Function.comp_def, Artifact.key, Artifact.ident]
                  using this
              obtain ⟨art1, hl1, hg1⟩ := lookupArtifact_of_same_ident product _ sB.graph
                s1.graph out artB hident hlB
              have hgB := (lookupArtifact_some _ _ _ _ _ hlB).1
              have hk := hkey out
              rw [hg1, hgB] at hk
              simp only [Option.map_some', Option.some.injEq, Artifact.key, Prod.mk.injEq] at hk
              obtain ⟨t1, ht1, ht1k⟩ := transformer_of_map_key _ _ htrs _ _ htB1
              refine ⟨out, art1, t1, hl1, ?_, ?_, ?_⟩
              · rw [hk.2.2, htB]
                simpa [BuildGraph.transformer] using ht1
              · have := congrArg Prod.fst (ht1k.trans htB2)
                simpa [Transformer.key] using this
              · have := congrArg Prod.snd (ht1k.trans htB2)
                simpa [Transformer.key] using this


/-- C4: for a rule that is not a multiplex rule, `createOutputArtifact` called with the single
input `newInput` fails with the "Conflicting instances of rule" error, naming the output and the
two inputs, when the artifact at the output path has a transformer of the same rule whose only
input is another artifact; the state is the one it was called in. In particular, applying a
static rule with one template to two distinct inputs `a` and `b` for which the template gives
the same path fails: when the first `doApply` returns normally (`a` having had no parent before)
and no cancellation is requested, the second one raises that error. -/
theorem createOutputArtifact_conflicting_instances (host : ScriptHost)
    (product : ResolvedProduct) (rule : RuleConstPtr) (hmult : rule.rule.multiplex = false) :
    (∀ m_transformer filePath fileTags alwaysUpdated s p art t oldInput newInput,
      lookupArtifact product (normalizedOutputPath product filePath) s.graph = some (p, art) →
      art.transformer.bind s.graph.transformer = some t →
      t.rule.address = rule.address →
      t.inputs = [oldInput] → oldInput ≠ newInput →
      createOutputArtifact host product rule m_transformer filePath fileTags alwaysUpdated
          [newInput] s
        = (Except.error (Exception.error (conflictingInstancesError rule art
            (filePathOf s.graph oldInput) (filePathOf s.graph newInput))), s)) ∧
    (∀ ra value a b artA s0,
      rule.rule.isDynamic = false → rule.rule.artifacts = [ra] →
      (∀ inputs st, host.evaluateFilePath ra inputs st = Except.ok value) →
      a ≠ b → s0.graph.artifact a = some artA → artA.parents = [] →
      ∃ e s', applyRule host product rule [a, b] s0 = (Except.error e, s') ∧
        ∀ s1, doApply host product rule [a] (beginApplyRule rule [a, b] s0)
            = (Except.ok (), s1) →
          host.cancelRequested s1 = false →
          ∃ art, art.filePath
              = normalizedOutputPath product (resolvePath product.buildDirectory value)
            ∧ e = Exception.error (conflictingInstancesError rule art
                (filePathOf s1.graph a) (filePathOf s1.graph b))) := by
  constructor
  · intro tp filePath fileTags au s p art t oldInput newInput hl ht hrule hold hne
    exact createOutputArtifact_conflicting_instances_aux host product rule tp filePath fileTags au
      s p art t oldInput newInput hmult hl ht hrule hold hne
  · intro ra value a b artA s0 hstatic harts hvalue hab hA hparents
    have hsa : setInsert ([] : List ArtifactPtr) a = [a] := by simp [setInsert]
    have hsb : setInsert ([] : List ArtifactPtr) b = [b] := by simp [setInsert]
    simp only [applyRule, List.isEmpty_cons, Bool.false_and, Bool.false_eq_true, if_false, hmult,
      applyToEachInput, hsa, hsb]
    cases h1 : doApply host product rule [a] (beginApplyRule rule [a, b] s0) with
    | mk r1 s1 =>
    cases r1 with
    | error e => exact ⟨e, s1, rfl, fun s1' h => by cases h⟩
    | ok u =>
      simp only
      have hfirst := doApply_first_input host product rule ra value a artA
        (beginApplyRule rule [a, b] s0) s1 hstatic harts (hvalue [a]) hA hparents h1
      obtain ⟨p, art, t, hl, ht, htr, hti⟩ := hfirst
      cases hcancel : host.cancelRequested s1 with
      | true =>
        have hd : doApply host product rule [b] s1 = (Except.error Exception.cancel, s1) := by
          simp [doApply, hcancel]
        rw [hd]
        exact ⟨_, _, rfl, fun s1' h hc => by
          simp only [Prod.mk.injEq, Except.ok.injEq] at h
          rw [← h.2, hcancel] at hc
          cases hc⟩
      | false =>
        have hd := doApply_conflicting_instances_aux host product rule ra [] value s1 p art t a b
          hmult hstatic harts hcancel (hvalue [b] _) hl ht (by rw [htr]) hti hab
        rw [hd]
        refine ⟨_, _, rfl, fun s1' h _ => ?_⟩
        simp only [Prod.mk.injEq, Except.ok.injEq] at h
        obtain ⟨-, rfl⟩ := h
        exact ⟨art, (lookupArtifact_some _ _ _ _ _ hl).2.2, rfl⟩

/-- C4, witness: the template `same.o` for the inputs `a.cpp` and `b.cpp`. -/
theorem createOutputArtifact_conflicting_instances_witness :
    ∃ e s', applyRule (demoHost []) (demoProduct false [] [])
        (demoRule 7 false false [demoRuleArtifact "same.o"]) [0, 1] demoState
          = (Except.error e, s')
      ∧ e = Exception.error ⟨[
          ⟨"Conflicting instances of rule '[obj][cpp]':", some (demoLocation 70)⟩,
          ⟨"Output artifact '/build/app.1234abcd/same.o' is to be produced from input "
            ++ "artifacts '/src/a.cpp' and '/src/b.cpp', but the rule is not a multiplex rule.",
            none⟩]⟩ := by
  have h := (createOutputArtifact_conflicting_instances (demoHost []) (demoProduct false [] [])
    (demoRule 7 false false [demoRuleArtifact "same.o"]) rfl).2 (demoRuleArtifact "same.o")
    "same.o" 0 1 (demoSource "/src/a.cpp" "cpp") demoState rfl rfl (fun _ _ => rfl) (by decide)
    rfl rfl
  obtain ⟨e, s', h1, h2⟩ := h
  obtain ⟨art, hp, he⟩ := h2 _ rfl rfl
  refine ⟨e, s', h1, ?_⟩
  rw [he]
  simp only [conflictingInstancesError, hp]
  rfl


/-! ## Equality of rules -/

theorem setEq_iff {α : Type} [DecidableEq α] (a b : List α) :
    setEq a b = true ↔ ∀ x, x ∈ a ↔ x ∈ b := by
  simp only [setEq, Bool.and_eq_true, List.all_eq_true, decide_eq_true_eq]
  constructor
  · rintro ⟨h1, h2⟩ x
    exact ⟨h1 x, h2 x⟩
  · intro h
    exact ⟨fun x hx => (h x).1 hx, fun x hx => (h x).2 hx⟩

theorem scriptFunction_operatorEq_iff (a b : ScriptFunction) :
    a.operatorEq b = true ↔ a = b := by
  obtain ⟨s1, n1, l1, c1⟩ := a
  obtain ⟨s2, n2, l2, c2⟩ := b
  cases c1 <;> cases c2 <;>
    simp [ScriptFunction.operatorEq, equals, and_assoc, and_comm, and_left_comm]

theorem ruleArtifactsEq_iff (l1 l2 : List RuleArtifact) (hlen : l1.length = l2.length) :
    ruleArtifactsEq l1 l2 = true ↔
      List.Forall₂ (fun a1 a2 => a1.operatorEq a2 = true) l1 l2 := by
  induction l1 generalizing l2 with
  | nil =>
    cases l2 with
    | nil => simp [ruleArtifactsEq]
    | cons b l2 => simp at hlen
  | cons a l1 ih =>
    cases l2 with
    | nil => simp at hlen
    | cons b l2 =>
      have hlen' : l1.length = l2.length := by simpa using hlen
      simp only [ruleArtifactsEq, equals, List.forall₂_cons]
      by_cases h : a.operatorEq b = true
      · simp [h, ih l2 hlen']
      · simp [h]

/-- C18 (as stated, refuted): the example rule and its copy under the name `linker` are found
equal by `operator==`, although their `name` fields differ. -/
theorem Rule.operatorEq_all_fields_counterexample :
    Rule.operatorEq (demoRule 1 false false [demoRuleArtifact "a.o"]).rule demoRenamedRule = true
      ∧ Rule.equalInAllFields (demoRule 1 false false [demoRuleArtifact "a.o"]).rule
          demoRenamedRule = false := by
  constructor <;> decide

/-- What `operator==` on two rules compares. -/
theorem Rule.operatorEq_eq_true_iff (r1 r2 : Rule) :
    Rule.operatorEq r1 r2 = true ↔
      (r1.module.nameText = r2.module.nameText
        ∧ r1.prepareScript = r2.prepareScript
        ∧ r1.outputArtifactsScript = r2.outputArtifactsScript
        ∧ (∀ t, t ∈ r1.inputs ↔ t ∈ r2.inputs)
        ∧ (∀ t, t ∈ r1.outputFileTags ↔ t ∈ r2.outputFileTags)
        ∧ (∀ t, t ∈ r1.auxiliaryInputs ↔ t ∈ r2.auxiliaryInputs)
        ∧ (∀ t, t ∈ r1.excludedInputs ↔ t ∈ r2.excludedInputs)
        ∧ (∀ t, t ∈ r1.inputsFromDependencies ↔ t ∈ r2.inputsFromDependencies)
        ∧ (∀ t, t ∈ r1.explicitlyDependsOn ↔ t ∈ r2.explicitlyDependsOn)
        ∧ r1.multiplex = r2.multiplex
        ∧ r1.alwaysRun = r2.alwaysRun
        ∧ List.Forall₂
            (fun a1 a2 =>
              a1.filePath = a2.filePath
                ∧ (∀ t, t ∈ a1.fileTags ↔ t ∈ a2.fileTags)
                ∧ a1.alwaysUpdated = a2.alwaysUpdated
                ∧ (∀ b1 ∈ a1.bindings, ∃ b2 ∈ a2.bindings, b1.code = b2.code ∧ b1.name = b2.name)
                ∧ (∀ b2 ∈ a2.bindings, ∃ b1 ∈ a1.bindings, b2.code = b1.code ∧ b2.name = b1.name))
            r1.artifacts r2.artifacts) := by
  have hart : ∀ a1 a2 : RuleArtifact, a1.operatorEq a2 = true ↔
      (a1.filePath = a2.filePath
        ∧ (∀ t, t ∈ a1.fileTags ↔ t ∈ a2.fileTags)
        ∧ a1.alwaysUpdated = a2.alwaysUpdated
        ∧ (∀ b1 ∈ a1.bindings, ∃ b2 ∈ a2.bindings, b1.code = b2.code ∧ b1.name = b2.name)
        ∧ (∀ b2 ∈ a2.bindings, ∃ b1 ∈ a1.bindings, b2.code = b1.code ∧ b2.name = b1.name)) := by
    intro a1 a2
    simp only [RuleArtifact.operatorEq, bindingSetsEq, Binding.operatorEq, Bool.and_eq_true,
      beq_iff_eq, setEq_iff, List.all_eq_true, List.any_eq_true, and_assoc]
  have hfa : List.Forall₂ (fun a1 a2 : RuleArtifact => a1.operatorEq a2 = true) r1.artifacts
      r2.artifacts ↔ List.Forall₂
            (fun a1 a2 : RuleArtifact =>
              a1.filePath = a2.filePath
                ∧ (∀ t, t ∈ a1.fileTags ↔ t ∈ a2.fileTags)
                ∧ a1.alwaysUpdated = a2.alwaysUpdated
                ∧ (∀ b1 ∈ a1.bindings, ∃ b2 ∈ a2.bindings, b1.code = b2.code ∧ b1.name = b2.name)
                ∧ (∀ b2 ∈ a2.bindings, ∃ b1 ∈ a1.bindings, b2.code = b1.code ∧ b2.name = b1.name))
            r1.artifacts r2.artifacts := by
    constructor <;> intro h <;> exact h.imp (fun a1 a2 h => by first | exact (hart a1 a2).1 h | exact (hart a1 a2).2 h)
  rw [← hfa]
  unfold Rule.operatorEq
  by_cases hlen : r1.artifacts.length = r2.artifacts.length
  · rw [if_neg (by simpa using hlen)]
    cases hra : ruleArtifactsEq r1.artifacts r2.artifacts
    · have : ¬ List.Forall₂ (fun a1 a2 : RuleArtifact => a1.operatorEq a2 = true) r1.artifacts
          r2.artifacts := by
        rw [← ruleArtifactsEq_iff _ _ hlen, hra]; simp
      simp [this]
    · have : List.Forall₂ (fun a1 a2 : RuleArtifact => a1.operatorEq a2 = true) r1.artifacts
          r2.artifacts := by
        rw [← ruleArtifactsEq_iff _ _ hlen, hra]
      simp only [Bool.not_true, Bool.false_eq_true, if_false, equals, Bool.and_eq_true,
        beq_iff_eq, setEq_iff, scriptFunction_operatorEq_iff, and_assoc, this, and_true]
  · rw [if_pos (by simpa using hlen)]
    simp only [Bool.false_eq_true, false_iff, not_and]
    intro _ _ _ _ _ _ _ _ _ _ _ h
    exact hlen h.length_eq

/-- C18 (amended): `r1 == r2` holds exactly when the module names, the prepare script, the
`outputArtifacts` script, the tag sets `inputs`, `outputFileTags`, `auxiliaryInputs`,
`excludedAuxiliaryInputs`, `inputsFromDependencies` and `explicitlyDependsOn`, and the flags
`multiplex` and `alwaysRun` are equal and the template artifact lists are equal element by
element, two template artifacts being equal when their `filePath`, `fileTags` and
`alwaysUpdated` are equal and every binding of one has a binding of the other with the same
code and name. -/
theorem Rule.operatorEq_iff (r1 r2 : Rule) :
    Rule.operatorEq r1 r2 = true ↔
      (r1.module.nameText = r2.module.nameText
        ∧ r1.prepareScript = r2.prepareScript
        ∧ r1.outputArtifactsScript = r2.outputArtifactsScript
        ∧ (∀ t, t ∈ r1.inputs ↔ t ∈ r2.inputs)
        ∧ (∀ t, t ∈ r1.outputFileTags ↔ t ∈ r2.outputFileTags)
        ∧ (∀ t, t ∈ r1.auxiliaryInputs ↔ t ∈ r2.auxiliaryInputs)
        ∧ (∀ t, t ∈ r1.excludedInputs ↔ t ∈ r2.excludedInputs)
        ∧ (∀ t, t ∈ r1.inputsFromDependencies ↔ t ∈ r2.inputsFromDependencies)
        ∧ (∀ t, t ∈ r1.explicitlyDependsOn ↔ t ∈ r2.explicitlyDependsOn)
        ∧ r1.multiplex = r2.multiplex
        ∧ r1.alwaysRun = r2.alwaysRun
        ∧ List.Forall₂
            (fun a1 a2 =>
              a1.filePath = a2.filePath
                ∧ (∀ t, t ∈ a1.fileTags ↔ t ∈ a2.fileTags)
                ∧ a1.alwaysUpdated = a2.alwaysUpdated
                ∧ (∀ b1 ∈ a1.bindings, ∃ b2 ∈ a2.bindings, b1.code = b2.code ∧ b1.name = b2.name)
                ∧ (∀ b2 ∈ a2.bindings, ∃ b1 ∈ a1.bindings, b2.code = b1.code ∧ b2.name = b1.name))
            r1.artifacts r2.artifacts) :=
  Rule.operatorEq_eq_true_iff r1 r2


/-! ## The string of a rule -/

theorem codeLt_trans {a b c : UInt32} (h1 : a < b) (h2 : b < c) : a < c :=
  (Nat.lt_trans (show a.toNat < b.toNat from h1) (show b.toNat < c.toNat from h2) :
    a.toNat < c.toNat)

theorem codeLt_asymm {a b : UInt32} (h1 : a < b) : ¬ b < a := fun h2 =>
  Nat.lt_asymm (show a.toNat < b.toNat from h1) (show b.toNat < a.toNat from h2)

theorem code_eq_of_not_lt {a b : UInt32} (h1 : ¬ a < b) (h2 : ¬ b < a) : a = b := by
  have h1' : ¬ a.toNat < b.toNat := h1
  have h2' : ¬ b.toNat < a.toNat := h2
  exact UInt32.ext (by omega)

theorem charsLe_total (a b : List Char) : charsLe a b = true ∨ charsLe b a = true := by
  induction a generalizing b with
  | nil => left; simp [charsLe]
  | cons x xs ih =>
    cases b with
    | nil => right; simp [charsLe]
    | cons y ys =>
      simp only [charsLe]
      by_cases h1 : x.val < y.val
      · left; simp [h1]
      · by_cases h2 : y.val < x.val
        · right; simp [h2]
        · simp only [h1, h2, if_false]
          exact ih ys

theorem charsLe_antisymm (a b : List Char) (h1 : charsLe a b = true) (h2 : charsLe b a = true) :
    a = b := by
  induction a generalizing b with
  | nil =>
    cases b with
    | nil => rfl
    | cons y ys => simp [charsLe] at h2
  | cons x xs ih =>
    cases b with
    | nil => simp [charsLe] at h1
    | cons y ys =>
      simp only [charsLe] at h1 h2
      by_cases hxy : x.val < y.val
      · have hyx : ¬ y.val < x.val := codeLt_asymm hxy
        simp [hxy, hyx] at h2
      · by_cases hyx : y.val < x.val
        · simp [hxy, hyx] at h1
        · simp only [hxy, hyx, if_false] at h1 h2
          have hv : x.val = y.val := code_eq_of_not_lt hxy hyx
          have hc : x = y := Char.ext hv
          rw [hc, ih ys h1 h2]

theorem charsLe_trans (a b c : List Char) (h1 : charsLe a b = true) (h2 : charsLe b c = true) :
    charsLe a c = true := by
  induction a generalizing b c with
  | nil => simp [charsLe]
  | cons x xs ih =>
    cases b with
    | nil => simp [charsLe] at h1
    | cons y ys =>
      cases c with
      | nil => simp [charsLe] at h2
      | cons z zs =>
        simp only [charsLe] at h1 h2 ⊢
        by_cases hxy : x.val < y.val
        · by_cases hyz : y.val < z.val
          · simp [codeLt_trans hxy hyz]
          · by_cases hzy : z.val < y.val
            · simp [hyz, hzy] at h2
            · have hv : y.val = z.val := code_eq_of_not_lt hyz hzy
              simp [← hv, hxy]
        · by_cases hyx : y.val < x.val
          · simp [hxy, hyx] at h1
          · have hv : x.val = y.val := code_eq_of_not_lt hxy hyx
            simp only [hxy, hyx, if_false] at h1
            rw [hv]
            by_cases hyz : y.val < z.val
            · simp [hyz]
            · by_cases hzy : z.val < y.val
              · simp [hyz, hzy] at h2
              · simp only [hyz, hzy, if_false] at h2 ⊢
                exact ih ys zs h1 h2

instance tagLe_isTotal : IsTotal String tagLe := ⟨fun a b => charsLe_total a.data b.data⟩

instance tagLe_isTrans : IsTrans String tagLe :=
  ⟨fun a b c h1 h2 => charsLe_trans a.data b.data c.data h1 h2⟩

instance tagLe_isAntisymm : IsAntisymm String tagLe :=
  ⟨fun a b h1 h2 => String.ext (charsLe_antisymm a.data b.data h1 h2)⟩

theorem insertSorted_eq_orderedInsert (x : String) (l : List String) :
    insertSorted x l = List.orderedInsert tagLe x l := by
  induction l with
  | nil => rfl
  | cons y ys ih =>
    simp only [insertSorted, List.orderedInsert, tagLe, ih]

theorem sortStrings_eq_insertionSort (l : List String) :
    sortStrings l = List.insertionSort tagLe l := by
  induction l with
  | nil => rfl
  | cons x xs ih =>
    have h : sortStrings (x :: xs) = insertSorted x (sortStrings xs) := rfl
    rw [h, ih, insertSorted_eq_orderedInsert, List.insertionSort]

theorem sortStrings_sorted (l : List String) : List.Sorted tagLe (sortStrings l) := by
  rw [sortStrings_eq_insertionSort]
  exact List.sorted_insertionSort tagLe l

theorem sortStrings_perm (l : List String) : (sortStrings l).Perm l := by
  rw [sortStrings_eq_insertionSort]
  exact List.perm_insertionSort tagLe l

theorem sortStrings_eq_of_perm (l1 l2 : List String) (h : l1.Perm l2) :
    sortStrings l1 = sortStrings l2 :=
  List.eq_of_perm_of_sorted (((sortStrings_perm l1).trans h).trans (sortStrings_perm l2).symm)
    (sortStrings_sorted l1) (sortStrings_sorted l2)

theorem nodup_setInsert {α : Type} [DecidableEq α] (s : List α) (x : α) (h : s.Nodup) :
    (setInsert s x).Nodup := by
  unfold setInsert
  split
  · exact h
  · rename_i hx
    exact List.Nodup.append h (List.nodup_singleton x) (by simpa using hx)

theorem nodup_setUnite {α : Type} [DecidableEq α] (a b : List α) (h : a.Nodup) :
    (setUnite a b).Nodup := by
  unfold setUnite
  induction b generalizing a with
  | nil => exact h
  | cons x rest ih => exact ih _ (nodup_setInsert a x h)

theorem staticOutputFileTags_fold (artifacts : List RuleArtifact) (acc : FileTags)
    (hacc : acc.Nodup) :
    (artifacts.foldl (fun result artifact => setUnite result artifact.fileTags) acc).Nodup
      ∧ ∀ t, t ∈ artifacts.foldl (fun result artifact => setUnite result artifact.fileTags) acc
          ↔ (t ∈ acc ∨ ∃ a ∈ artifacts, t ∈ a.fileTags) := by
  induction artifacts generalizing acc with
  | nil => simp [hacc]
  | cons a rest ih =>
    obtain ⟨h1, h2⟩ := ih (setUnite acc a.fileTags) (nodup_setUnite _ _ hacc)
    refine ⟨h1, fun t => ?_⟩
    rw [List.foldl_cons, h2, mem_setUnite]
    simp only [List.mem_cons, exists_eq_or_imp, or_assoc]

theorem Rule.staticOutputFileTags_nodup (r : Rule) : r.staticOutputFileTags.Nodup :=
  (staticOutputFileTags_fold r.artifacts [] List.nodup_nil).1

theorem Rule.mem_staticOutputFileTags (r : Rule) (t : FileTag) :
    t ∈ r.staticOutputFileTags ↔ ∃ a ∈ r.artifacts, t ∈ a.fileTags := by
  have h := (staticOutputFileTags_fold r.artifacts [] List.nodup_nil).2 t
  simpa using h


/-- C17: the string of a rule is `[` + tags + `][` + tags + `]`, the first tags being the
collected output file tags (`outputFileTags` if that set is not empty, otherwise the union of
the file tags of the template artifacts) and the second the union of `inputs` and
`inputsFromDependencies`, each sorted, each tag once and joined by commas; so two rules whose
tag sets have the same members, in whatever order of tags and of template artifacts, have the
same string. -/
theorem Rule.toString_canonical (r1 r2 : Rule)
    (hinputs1 : r1.inputs.Nodup) (hinputs2 : r2.inputs.Nodup)
    (hout1 : r1.outputFileTags.Nodup) (hout2 : r2.outputFileTags.Nodup)
    (hin : ∀ t, t ∈ r1.inputs ↔ t ∈ r2.inputs)
    (hdep : ∀ t, t ∈ r1.inputsFromDependencies ↔ t ∈ r2.inputsFromDependencies)
    (hout : ∀ t, t ∈ r1.outputFileTags ↔ t ∈ r2.outputFileTags)
    (hart : ∀ t, (∃ a ∈ r1.artifacts, t ∈ a.fileTags) ↔ (∃ a ∈ r2.artifacts, t ∈ a.fileTags)) :
    (∃ outputTags inputTags : List String,
      r1.toString
          = "[" ++ joinStrings "," outputTags ++ "][" ++ joinStrings "," inputTags ++ "]"
        ∧ List.Sorted tagLe outputTags ∧ outputTags.Nodup
        ∧ (∀ t, t ∈ outputTags ↔
            if r1.outputFileTags = [] then ∃ a ∈ r1.artifacts, t ∈ a.fileTags
            else t ∈ r1.outputFileTags)
        ∧ List.Sorted tagLe inputTags ∧ inputTags.Nodup
        ∧ (∀ t, t ∈ inputTags ↔ (t ∈ r1.inputs ∨ t ∈ r1.inputsFromDependencies)))
      ∧ r1.toString = r2.toString := by
  have hcn : ∀ r : Rule, r.outputFileTags.Nodup → r.collectedOutputFileTags.Nodup := by
    intro r h
    unfold Rule.collectedOutputFileTags
    split
    · exact r.staticOutputFileTags_nodup
    · exact h
  have hcm : ∀ (r : Rule) (t : FileTag), t ∈ r.collectedOutputFileTags ↔
      if r.outputFileTags = [] then ∃ a ∈ r.artifacts, t ∈ a.fileTags
      else t ∈ r.outputFileTags := by
    intro r t
    unfold Rule.collectedOutputFileTags
    by_cases h : r.outputFileTags = []
    · simp [h, Rule.mem_staticOutputFileTags]
    · have h' : r.outputFileTags.isEmpty = false := by
        cases hr : r.outputFileTags with
        | nil => exact absurd hr h
        | cons _ _ => rfl
      simp [h, h']
  constructor
  · refine ⟨sortStrings r1.collectedOutputFileTags,
      sortStrings (setUnite r1.inputs r1.inputsFromDependencies), rfl,
      sortStrings_sorted _, (sortStrings_perm _).nodup_iff.mpr (hcn r1 hout1), ?_,
      sortStrings_sorted _,
      (sortStrings_perm _).nodup_iff.mpr (nodup_setUnite _ _ hinputs1), ?_⟩
    · intro t
      rw [(sortStrings_perm _).mem_iff]
      exact hcm r1 t
    · intro t
      rw [(sortStrings_perm _).mem_iff, mem_setUnite]
  · have ho : sortStrings r1.collectedOutputFileTags = sortStrings r2.collectedOutputFileTags := by
      apply sortStrings_eq_of_perm
      rw [List.perm_ext_iff_of_nodup (hcn r1 hout1) (hcn r2 hout2)]
      intro t
      rw [hcm r1 t, hcm r2 t]
      have he : r1.outputFileTags = [] ↔ r2.outputFileTags = [] := by
        constructor
        · intro h
          apply List.eq_nil_iff_forall_not_mem.mpr
          intro x hx
          have := (hout x).2 hx
          rw [h] at this
          exact absurd this (List.not_mem_nil x)
        · intro h
          apply List.eq_nil_iff_forall_not_mem.mpr
          intro x hx
          have := (hout x).1 hx
          rw [h] at this
          exact absurd this (List.not_mem_nil x)
      by_cases h : r1.outputFileTags = []
      · rw [if_pos h, if_pos (he.1 h)]
        exact hart t
      · rw [if_neg h, if_neg (fun h2 => h (he.2 h2))]
        exact hout t
    have hi : sortStrings (setUnite r1.inputs r1.inputsFromDependencies)
        = sortStrings (setUnite r2.inputs r2.inputsFromDependencies) := by
      apply sortStrings_eq_of_perm
      rw [List.perm_ext_iff_of_nodup (nodup_setUnite _ _ hinputs1) (nodup_setUnite _ _ hinputs2)]
      intro t
      rw [mem_setUnite, mem_setUnite, hin t, hdep t]
    unfold Rule.toString
    simp only [ho, hi]

/-- C17, on an example: the rule with inputs `cpp`, `c` and template artifacts tagged `obj` and
`lib` has the string of the rule with inputs `c`, `cpp` and the template artifacts in the
other order, `[lib,obj][c,cpp,h]`. -/
theorem Rule.toString_canonical_witness :
    (demoRuleWith ["cpp", "c"] ["h"]
        [demoTaggedArtifact "a.o" "obj", demoTaggedArtifact "a.a" "lib"]).toString
      = (demoRuleWith ["c", "cpp"] ["h"]
          [demoTaggedArtifact "a.a" "lib", demoTaggedArtifact "a.o" "obj"]).toString
      ∧ (demoRuleWith ["cpp", "c"] ["h"]
          [demoTaggedArtifact "a.o" "obj", demoTaggedArtifact "a.a" "lib"]).toString
        = "[lib,obj][c,cpp,h]" := by
  have h := Rule.toString_canonical
    (demoRuleWith ["cpp", "c"] ["h"]
      [demoTaggedArtifact "a.o" "obj", demoTaggedArtifact "a.a" "lib"])
    (demoRuleWith ["c", "cpp"] ["h"]
      [demoTaggedArtifact "a.a" "lib", demoTaggedArtifact "a.o" "obj"])
    (by decide) (by decide) (by decide) (by decide)
    (by intro t; simp [demoRuleWith, or_comm])
    (by intro t; simp [demoRuleWith])
    (by intro t; simp [demoRuleWith, demoRule])
    (by intro t; simp [demoRuleWith, demoRule, demoTaggedArtifact, or_comm])
  exact ⟨h.2, by decide⟩


/-! ## The setup script of a module -/

/-- C16 (as stated, refuted): in Run mode, the module with the build-environment script
`(function() {})` and an empty run-environment script has the run-environment script selected,
whose source code is empty, and yet is not skipped: the code `()` is evaluated. -/
theorem getProcessEnvironment_skip_counterexample :
    (selectSetupScript .RunEnv (demoModule "cpp" [] (some "(function() {})") (some ""))).map
        (fun script => script.sourceCode.isEmpty) = some true
      ∧ skipsModule .RunEnv (demoModule "cpp" [] (some "(function() {})") (some "")) = some false
      ∧ getProcessEnvironment demoEngine 2 .RunEnv
          [demoModule "cpp" [] (some "(function() {})") (some "")] ⟨[]⟩ []
        = some (.returned [("ran", "()")]) := by
  refine ⟨by decide, by decide, by decide⟩

/-- C16 (amended): for a module with a build-environment script: in Build mode that script is
selected and the module is skipped exactly when its source code is empty; in Run mode the
run-environment script is selected if there is one and otherwise the build-environment script, a
module with a run-environment script is skipped exactly when the source code of both scripts is
empty, and a module without one whose build-environment script is not empty is not skipped. A
module that is skipped has no script evaluated: the loop goes on with the same environment. -/
theorem getProcessEnvironment_script_selection (module : ResolvedModule)
    (build : ScriptFunction) (hbuild : module.setupBuildEnvironmentScript = some build) :
    (selectSetupScript .BuildEnv module = some build
      ∧ skipsModule .BuildEnv module = some build.sourceCode.isEmpty)
    ∧ (∀ run, module.setupRunEnvironmentScript = some run →
        selectSetupScript .RunEnv module = some run
          ∧ skipsModule .RunEnv module
              = some (build.sourceCode.isEmpty && run.sourceCode.isEmpty))
    ∧ (module.setupRunEnvironmentScript = none →
        selectSetupScript .RunEnv module = some build
          ∧ (build.sourceCode.isEmpty = false → skipsModule .RunEnv module = some false))
    ∧ (∀ (engine : EnvironmentEngine) (envType : EnvType) (allModules : List ResolvedModule)
        (moduleChildren : List (List ModulePtr)) (productConfiguration : PropertyMap)
        (m : ModulePtr) (rest : List ModulePtr) (procenv : ProcessEnvironment),
        allModules[m]? = some module → skipsModule envType module = some true →
        runSetupScripts engine envType allModules moduleChildren productConfiguration (m :: rest)
            procenv
          = runSetupScripts engine envType allModules moduleChildren productConfiguration rest
              procenv) := by
  refine ⟨⟨?_, ?_⟩, ?_, ?_, ?_⟩
  · simp [selectSetupScript, hbuild]
  · simp [skipsModule, hbuild]
  · intro run hrun
    constructor
    · simp [selectSetupScript, hrun]
    · simp only [skipsModule, hbuild, hrun]
      cases build.sourceCode.isEmpty <;> simp
  · intro hrun
    constructor
    · simp [selectSetupScript, hrun, hbuild]
    · intro hne
      simp [skipsModule, hbuild, hne]
  · intro engine envType allModules moduleChildren productConfiguration m rest procenv hm hskip
    simp only [runSetupScripts, hm, hskip]

/-- C16 (amended), on an example: the module with the build-environment script `(function() {})`
and no run-environment script has that script selected in both modes and is not skipped. -/
theorem getProcessEnvironment_script_selection_witness :
    selectSetupScript .RunEnv (demoModule "cpp" [] (some "(function() {})") none)
        = some (demoSetupScript "(function() {})")
      ∧ skipsModule .RunEnv (demoModule "cpp" [] (some "(function() {})") none) = some false
      ∧ skipsModule .BuildEnv (demoModule "cpp" [] (some "(function() {})") none)
          = some false := by
  have h := getProcessEnvironment_script_selection
    (demoModule "cpp" [] (some "(function() {})") none) (demoSetupScript "(function() {})") rfl
  exact ⟨(h.2.2.1 rfl).1, (h.2.2.1 rfl).2 (by decide), h.1.2⟩


/-! ## Storing and loading -/

theorem loadObject_store {α : Type} (store : α → List PoolValue)
    (load : List PoolValue → Option (α × List PoolValue)) (f : α → α)
    (h : ∀ x rest, load (store x ++ rest) = some (f x, rest)) (x : α) :
    loadObject load (storePointer store (some x)) = some (f x) := by
  have hx := h x []
  rw [List.append_nil] at hx
  simp [loadObject, storePointer, hx]

theorem loadPointer_store {α : Type} (store : α → List PoolValue)
    (load : List PoolValue → Option (α × List PoolValue)) (f : α → α)
    (h : ∀ x rest, load (store x ++ rest) = some (f x, rest)) (p : Option α) :
    loadPointer load (storePointer store p) = some (p.map f) := by
  cases p with
  | none => rfl
  | some x =>
    have hx := h x []
    rw [List.append_nil] at hx
    simp [loadPointer, storePointer, hx]

theorem loadList_store_of_mem {α : Type} (store : α → List PoolValue)
    (load : List PoolValue → Option (α × List PoolValue)) (f : α → α) (l : List α)
    (h : ∀ x ∈ l, ∀ rest, load (store x ++ rest) = some (f x, rest)) :
    loadList load (storeList store l) = some (l.map f) := by
  simp only [loadList, storeList]
  induction l with
  | nil => rfl
  | cons x rest ih =>
    have hx := h x (List.mem_cons_self _ _) []
    rw [List.append_nil] at hx
    have ih' := ih (fun y hy => h y (List.mem_cons_of_mem _ hy))
    simp [loadItems, loadObject, hx, ih']

theorem loadList_store {α : Type} (store : α → List PoolValue)
    (load : List PoolValue → Option (α × List PoolValue)) (f : α → α)
    (h : ∀ x rest, load (store x ++ rest) = some (f x, rest)) (l : List α) :
    loadList load (storeList store l) = some (l.map f) :=
  loadList_store_of_mem store load f l (fun x _ => h x)

theorem scriptFunction_load_store (x : ScriptFunction) (rest : List PoolValue) :
    ScriptFunction.load (x.store ++ rest) = some (x, rest) := rfl

theorem resolvedModule_load_store (x : ResolvedModule) (rest : List PoolValue) :
    ResolvedModule.load (x.store ++ rest) = some (x, rest) := by
  have h1 := loadPointer_store ScriptFunction.store ScriptFunction.load (fun y => y)
    scriptFunction_load_store x.setupBuildEnvironmentScript
  have h2 := loadPointer_store ScriptFunction.store ScriptFunction.load (fun y => y)
    scriptFunction_load_store x.setupRunEnvironmentScript
  simp only [Option.map_id_fun', id] at h1 h2
  simp [ResolvedModule.store, ResolvedModule.load, h1, h2]

theorem binding_load_store (x : Binding) (rest : List PoolValue) :
    Binding.load (x.store ++ rest) = some (x, rest) := rfl

theorem ruleArtifact_load_store (x : RuleArtifact) (rest : List PoolValue) :
    RuleArtifact.load (x.store ++ rest) = some (x, rest) := by
  have h1 := loadList_store Binding.store Binding.load (fun y => y) binding_load_store x.bindings
  simp only [List.map_id_fun', id] at h1
  simp [RuleArtifact.store, RuleArtifact.load, h1]

/-- What `Rule::load` makes of the object `self` when it reads what `r` stored. -/
theorem rule_load_store (self x : Rule) (rest : List PoolValue) :
    Rule.load self (x.store ++ rest)
      = some ({ x with
          explicitlyDependsOnFromDependencies := self.explicitlyDependsOnFromDependencies,
          requiresInputs := self.requiresInputs }, rest) := by
  have h1 := loadObject_store ScriptFunction.store ScriptFunction.load (fun y => y)
    scriptFunction_load_store x.prepareScript
  have h2 := loadObject_store ScriptFunction.store ScriptFunction.load (fun y => y)
    scriptFunction_load_store x.outputArtifactsScript
  have h3 := loadObject_store ResolvedModule.store ResolvedModule.load (fun y => y)
    resolvedModule_load_store x.module
  have h4 := loadList_store RuleArtifact.store RuleArtifact.load (fun y => y)
    ruleArtifact_load_store x.artifacts
  simp only [List.map_id_fun', id] at h4
  simp [Rule.store, Rule.load, h1, h2, h3, h4]

theorem sourceArtifactInternal_load_store (x : SourceArtifactInternal) (rest : List PoolValue) :
    SourceArtifactInternal.load (x.store ++ rest) = some (x, rest) := rfl

theorem sourceWildCards_load_store (x : SourceWildCards) (rest : List PoolValue) :
    SourceWildCards.load (x.store ++ rest) = some (x, rest) := by
  have h1 := loadList_store SourceArtifactInternal.store SourceArtifactInternal.load
    (fun y => y) sourceArtifactInternal_load_store x.files
  simp only [List.map_id_fun', id] at h1
  simp [SourceWildCards.store, SourceWildCards.load, h1]

theorem resolvedGroup_load_store (x : ResolvedGroup) (rest : List PoolValue) :
    ResolvedGroup.load (x.store ++ rest) = some (x, rest) := by
  have h1 := loadList_store SourceArtifactInternal.store SourceArtifactInternal.load
    (fun y => y) sourceArtifactInternal_load_store x.files
  have h2 := loadPointer_store SourceWildCards.store SourceWildCards.load (fun y => y)
    sourceWildCards_load_store x.wildcards
  simp only [List.map_id_fun', Option.map_id_fun', id] at h1 h2
  simp [ResolvedGroup.store, ResolvedGroup.load, h1, h2]

theorem FileTagger.setPatterns_of_nonempty (patterns : List String)
    (h : ∀ p ∈ patterns, p.isEmpty = false) : FileTagger.setPatterns patterns = some patterns := by
  induction patterns with
  | nil => rfl
  | cons p rest ih =>
    have hp : p.isEmpty = false := h p (List.mem_cons_self _ _)
    have hr := ih (fun q hq => h q (List.mem_cons_of_mem _ hq))
    simp [FileTagger.setPatterns, hp, hr]

theorem fileTagger_load_store (x : FileTagger) (rest : List PoolValue)
    (h : ∀ p ∈ x.patterns, p.isEmpty = false) :
    FileTagger.load (x.store ++ rest) = some (x, rest) := by
  simp [FileTagger.store, FileTagger.load, FileTagger.setPatterns_of_nonempty x.patterns h]

theorem resolvedScanner_load_store (x : ResolvedScanner) (rest : List PoolValue) :
    ResolvedScanner.load (x.store ++ rest) = some (x, rest) := by
  have h1 := loadObject_store ResolvedModule.store ResolvedModule.load (fun y => y)
    resolvedModule_load_store x.module
  have h2 := loadPointer_store ScriptFunction.store ScriptFunction.load (fun y => y)
    scriptFunction_load_store x.searchPathsScript
  have h3 := loadPointer_store ScriptFunction.store ScriptFunction.load (fun y => y)
    scriptFunction_load_store x.scanScript
  simp only [Option.map_id_fun', id] at h2 h3
  simp [ResolvedScanner.store, ResolvedScanner.load, h1, h2, h3]

theorem probe_load_store (x : Probe) (rest : List PoolValue) :
    Probe.load (x.store ++ rest) = some (x, rest) := rfl


theorem setEq_refl {α : Type} [DecidableEq α] (a : List α) : setEq a a = true :=
  (setEq_iff a a).2 (fun _ => Iff.rfl)

theorem equals_refl {α : Type} (operatorEq : α → α → Bool) (h : ∀ a, operatorEq a a = true)
    (p : Option α) : equals operatorEq p p = true := by
  cases p with
  | none => rfl
  | some a => exact h a

theorem scriptFunction_operatorEq_refl (x : ScriptFunction) : x.operatorEq x = true :=
  (scriptFunction_operatorEq_iff x x).2 rfl

theorem resolvedModule_operatorEq_refl (x : ResolvedModule) : x.operatorEq x = true := by
  simp [ResolvedModule.operatorEq, setEq_refl, equals_refl _ scriptFunction_operatorEq_refl]

theorem binding_operatorEq_refl (x : Binding) : x.operatorEq x = true := by
  simp [Binding.operatorEq]

theorem bindingSetsEq_refl (l : List Binding) : bindingSetsEq l l = true := by
  simp only [bindingSetsEq, Bool.and_self, List.all_eq_true, List.any_eq_true]
  exact fun b hb => ⟨b, hb, binding_operatorEq_refl b⟩

theorem ruleArtifact_operatorEq_refl (x : RuleArtifact) : x.operatorEq x = true := by
  simp [RuleArtifact.operatorEq, setEq_refl, bindingSetsEq_refl]

mutual
theorem qVariant_operatorEq_refl : ∀ v : QVariant, v.operatorEq v = true
  | .invalid => rfl
  | .bool _ => by simp [QVariant.operatorEq]
  | .int _ => by simp [QVariant.operatorEq]
  | .string _ => by simp [QVariant.operatorEq]
  | .list items => by
    simp only [QVariant.operatorEq]
    exact variantListEq_refl items
  | .map entries => by
    simp only [QVariant.operatorEq]
    exact variantMapEq_refl entries
theorem variantListEq_refl : ∀ l : List QVariant, variantListEq l l = true
  | [] => rfl
  | v :: rest => by
    simp only [variantListEq, Bool.and_eq_true]
    exact ⟨qVariant_operatorEq_refl v, variantListEq_refl rest⟩
theorem variantMapEq_refl : ∀ l : List (String × QVariant), variantMapEq l l = true
  | [] => rfl
  | (k, v) :: rest => by
    simp only [variantMapEq, Bool.and_eq_true, beq_self_eq_true, true_and]
    exact ⟨qVariant_operatorEq_refl v, variantMapEq_refl rest⟩
end

theorem sourceArtifactInternal_operatorEq_refl (x : SourceArtifactInternal) :
    x.operatorEq x = true := by
  simp [SourceArtifactInternal.operatorEq, setEq_refl, PropertyMap.operatorEq,
    variantMapEq_refl]

/-- A rule that differs from `x` in members that `operator==` does not read is equal to it. -/
theorem Rule.operatorEq_of_compared_members (y x : Rule)
    (hm : y.module = x.module) (hp : y.prepareScript = x.prepareScript)
    (ho : y.outputArtifactsScript = x.outputArtifactsScript) (hi : y.inputs = x.inputs)
    (hot : y.outputFileTags = x.outputFileTags) (ha : y.auxiliaryInputs = x.auxiliaryInputs)
    (he : y.excludedInputs = x.excludedInputs)
    (hd : y.inputsFromDependencies = x.inputsFromDependencies)
    (hx : y.explicitlyDependsOn = x.explicitlyDependsOn) (hmu : y.multiplex = x.multiplex)
    (hr : y.alwaysRun = x.alwaysRun) (hart : y.artifacts = x.artifacts) :
    y.operatorEq x = true := by
  rw [Rule.operatorEq_eq_true_iff, hm, hp, ho, hi, hot, ha, he, hd, hx, hmu, hr, hart]
  refine ⟨rfl, rfl, rfl, fun _ => Iff.rfl, fun _ => Iff.rfl, fun _ => Iff.rfl, fun _ => Iff.rfl,
    fun _ => Iff.rfl, fun _ => Iff.rfl, rfl, rfl, ?_⟩
  rw [List.forall₂_same]
  intro a _
  exact ⟨rfl, fun _ => Iff.rfl, rfl, fun b hb => ⟨b, hb, rfl, rfl⟩, fun b hb => ⟨b, hb, rfl, rfl⟩⟩

/-- C19: with the pool as the sequence of values written, loading from what an entity stored
(followed by whatever else the pool holds) reads exactly the values the entity wrote, in their
order, and gives an entity equal to it: under `operator==` for a script function, a module, a
binding, a template artifact, a rule (loaded into any object `self`) and a source artifact, and
member by member for wildcards, a group, a file tagger (whose patterns are not empty, as
`setPatterns` checks) and a scanner. -/
theorem store_load_round_trip :
    (∀ (x : ScriptFunction) (rest : List PoolValue),
      ∃ y, ScriptFunction.load (x.store ++ rest) = some (y, rest) ∧ y.operatorEq x = true)
    ∧ (∀ (x : ResolvedModule) (rest : List PoolValue),
      ∃ y, ResolvedModule.load (x.store ++ rest) = some (y, rest) ∧ y.operatorEq x = true)
    ∧ (∀ (x : Binding) (rest : List PoolValue),
      ∃ y, Binding.load (x.store ++ rest) = some (y, rest) ∧ y.operatorEq x = true)
    ∧ (∀ (x : RuleArtifact) (rest : List PoolValue),
      ∃ y, RuleArtifact.load (x.store ++ rest) = some (y, rest) ∧ y.operatorEq x = true)
    ∧ (∀ (self x : Rule) (rest : List PoolValue),
      ∃ y, Rule.load self (x.store ++ rest) = some (y, rest) ∧ y.operatorEq x = true)
    ∧ (∀ (x : SourceArtifactInternal) (rest : List PoolValue),
      ∃ y, SourceArtifactInternal.load (x.store ++ rest) = some (y, rest)
        ∧ y.operatorEq x = true)
    ∧ (∀ (x : SourceWildCards) (rest : List PoolValue),
      SourceWildCards.load (x.store ++ rest) = some (x, rest))
    ∧ (∀ (x : ResolvedGroup) (rest : List PoolValue),
      ResolvedGroup.load (x.store ++ rest) = some (x, rest))
    ∧ (∀ (x : FileTagger) (rest : List PoolValue), (∀ p ∈ x.patterns, p.isEmpty = false) →
      FileTagger.load (x.store ++ rest) = some (x, rest))
    ∧ (∀ (x : ResolvedScanner) (rest : List PoolValue),
      ResolvedScanner.load (x.store ++ rest) = some (x, rest)) := by
  refine ⟨?_, ?_, ?_, ?_, ?_, ?_, ?_, ?_, ?_, ?_⟩
  · exact fun x rest => ⟨x, scriptFunction_load_store x rest, scriptFunction_operatorEq_refl x⟩
  · exact fun x rest => ⟨x, resolvedModule_load_store x rest, resolvedModule_operatorEq_refl x⟩
  · exact fun x rest => ⟨x, binding_load_store x rest, binding_operatorEq_refl x⟩
  · exact fun x rest => ⟨x, ruleArtifact_load_store x rest, ruleArtifact_operatorEq_refl x⟩
  · intro self x rest
    exact ⟨_, rule_load_store self x rest,
      Rule.operatorEq_of_compared_members _ x rfl rfl rfl rfl rfl rfl rfl rfl rfl rfl rfl rfl⟩
  · exact fun x rest =>
      ⟨x, sourceArtifactInternal_load_store x rest, sourceArtifactInternal_operatorEq_refl x⟩
  · exact fun x rest => sourceWildCards_load_store x rest
  · exact fun x rest => resolvedGroup_load_store x rest
  · exact fun x rest h => fileTagger_load_store x rest h
  · exact fun x rest => resolvedScanner_load_store x rest

/-- C19, on an example: the file tagger for `*.cpp` is loaded back from what it stored, and the
values of the pool after it are left. -/
theorem store_load_round_trip_witness :
    FileTagger.load ((⟨["*.cpp"], ["cpp"]⟩ : FileTagger).store ++ [.bool true])
      = some (⟨["*.cpp"], ["cpp"]⟩, [.bool true]) :=
  store_load_round_trip.2.2.2.2.2.2.2.2.1 ⟨["*.cpp"], ["cpp"]⟩ [.bool true] (by decide)


/-- What `ResolvedProduct::load` makes of the object `self` when it reads what `p` stored. -/
theorem resolvedProduct_load_store (self p : ResolvedProduct) (freshRule : Rule)
    (rest : List PoolValue)
    (htaggers : ∀ t ∈ p.fileTaggers, ∀ q ∈ t.patterns, q.isEmpty = false) :
    ResolvedProduct.load self freshRule (p.store ++ rest)
      = some ({ p with
          address := self.address, buildDirectory := self.buildDirectory,
          topLevelBuildDirectory := self.topLevelBuildDirectory,
          buildEnvironment := self.buildEnvironment, runEnvironment := self.runEnvironment,
          rules := p.rules.map (fun r => { r with
            explicitlyDependsOnFromDependencies := freshRule.explicitlyDependsOnFromDependencies,
            requiresInputs := freshRule.requiresInputs }) }, rest) := by
  have h1 := loadList_store Rule.store (Rule.load freshRule) _ (rule_load_store freshRule) p.rules
  have h2 := loadList_store_of_mem FileTagger.store FileTagger.load (fun y => y) p.fileTaggers
    (fun t ht rest => fileTagger_load_store t rest (htaggers t ht))
  have h3 := loadList_store ResolvedModule.store ResolvedModule.load (fun y => y)
    resolvedModule_load_store p.modules
  have h4 := loadList_store ResolvedScanner.store ResolvedScanner.load (fun y => y)
    resolvedScanner_load_store p.scanners
  have h5 := loadList_store ResolvedGroup.store ResolvedGroup.load (fun y => y)
    resolvedGroup_load_store p.groups
  have h6 := loadList_store Probe.store Probe.load (fun y => y) probe_load_store p.probes
  simp only [List.map_id_fun', id] at h2 h3 h4 h5 h6
  simp [ResolvedProduct.store, ResolvedProduct.load, h1, h2, h3, h4, h5, h6]

/-- C20 (as stated, refuted): `Rule::store` does not write the fields of the example rule in
the order in which the data model lists them (it writes 13 values, the data model lists 15
fields), and `ResolvedProduct::store` does not begin with name, profile, enabled, file_tags,
dependencies, groups, rules, modules: its first value is `enabled`. -/
theorem store_order_counterexample :
    Rule.store (demoRule 1 false false [demoRuleArtifact "a.o"]).rule
        ≠ Rule.storeAsListed (demoRule 1 false false [demoRuleArtifact "a.o"]).rule
      ∧ (Rule.store (demoRule 1 false false [demoRuleArtifact "a.o"]).rule).length = 13
      ∧ (ResolvedProduct.store (demoProduct false [] [])).take 8
        ≠ ResolvedProduct.storeBeginningAsListed (demoProduct false [] [])
      ∧ (ResolvedProduct.store (demoProduct false [] [])).head? = some (.bool true) := by
  refine ⟨?_, rfl, ?_, rfl⟩
  · intro h
    have hl := congrArg List.length h
    simp [Rule.store, Rule.storeAsListed] at hl
  · intro h
    have hh := congrArg List.head? h
    simp [ResolvedProduct.store, ResolvedProduct.storeBeginningAsListed] at hh

/-- C20 (amended): `Rule::store` writes name, prepareScript, outputArtifactsScript, module,
inputs, outputFileTags, auxiliaryInputs, excludedAuxiliaryInputs, inputsFromDependencies,
explicitlyDependsOn, multiplex, alwaysRun, artifacts, in this order and nothing else;
`ResolvedProduct::store` begins with enabled, fileTags, name, profile, targetName;
`ResolvedGroup::store` writes name, enabled, location, prefix, files, wildcards, properties,
fileTags, overrideTags; and `load` reads the values in the order in which `store` writes them:
loading from what a rule or a product stored reads exactly those values. -/
theorem store_order :
    (∀ r : Rule, r.store =
      [.string (some r.name),
        storePointer ScriptFunction.store (some r.prepareScript),
        storePointer ScriptFunction.store (some r.outputArtifactsScript),
        storePointer ResolvedModule.store (some r.module),
        .stringList r.inputs,
        .stringList r.outputFileTags,
        .stringList r.auxiliaryInputs,
        .stringList r.excludedInputs,
        .stringList r.inputsFromDependencies,
        .stringList r.explicitlyDependsOn,
        .bool r.multiplex,
        .bool r.alwaysRun,
        storeList RuleArtifact.store r.artifacts])
    ∧ (∀ p : ResolvedProduct, p.store.take 5 =
      [.bool p.enabled, .stringList p.fileTags, .string (some p.name), .string (some p.profile),
        .string (some p.targetName)])
    ∧ (∀ g : ResolvedGroup, g.store =
      [.string (some g.name), .bool g.enabled, .location g.location, .string (some g.prefix_),
        storeList SourceArtifactInternal.store g.files,
        storePointer SourceWildCards.store g.wildcards, .variantMap g.properties.value,
        .stringList g.fileTags, .bool g.overrideTags])
    ∧ (∀ (self r : Rule) (rest : List PoolValue),
      ∃ loaded, Rule.load self (r.store ++ rest) = some (loaded, rest))
    ∧ (∀ (g : ResolvedGroup) (rest : List PoolValue),
      ResolvedGroup.load (g.store ++ rest) = some (g, rest))
    ∧ (∀ (self p : ResolvedProduct) (freshRule : Rule) (rest : List PoolValue),
      (∀ t ∈ p.fileTaggers, ∀ q ∈ t.patterns, q.isEmpty = false) →
      ∃ loaded, ResolvedProduct.load self freshRule (p.store ++ rest) = some (loaded, rest)) := by
  refine ⟨fun _ => rfl, fun _ => rfl, fun _ => rfl, ?_, ?_, ?_⟩
  · exact fun self r rest => ⟨_, rule_load_store self r rest⟩
  · exact fun g rest => resolvedGroup_load_store g rest
  · exact fun self p freshRule rest h => ⟨_, resolvedProduct_load_store self p freshRule rest h⟩

/-- C20 (amended), on an example: loading from what the example product stored reads exactly
the values it wrote. -/
theorem store_order_witness :
    ∃ loaded,
      ResolvedProduct.load (demoProduct false [] [])
          (demoRule 1 false false []).rule
          ((demoProduct true [⟨["*.y"], ["yacc"]⟩] []).store ++ [.null])
        = some (loaded, [.null]) :=
  store_order.2.2.2.2.2 (demoProduct false [] []) (demoProduct true [⟨["*.y"], ["yacc"]⟩] [])
    (demoRule 1 false false []).rule [.null] (by decide)


/-! ## The order of the modules -/

theorem emittedInOrder_congr (children : ModulePtr → List ModulePtr)
    (nameOf : ModulePtr → String) (sorted : List ModulePtr) :
    ∀ seen1 seen2 : List String, (∀ s, s ∈ seen1 ↔ s ∈ seen2) →
      EmittedInOrder children nameOf seen1 sorted → EmittedInOrder children nameOf seen2 sorted := by
  induction sorted with
  | nil => intro _ _ _ _; trivial
  | cons m rest ih =>
    intro seen1 seen2 h he
    obtain ⟨h1, h2, h3⟩ := he
    refine ⟨fun hm => h1 ((h _).2 hm), fun c hc => (h _).1 (h2 c hc), ?_⟩
    apply ih (seen1 ++ [nameOf m]) (seen2 ++ [nameOf m]) _ h3
    intro s
    simp only [List.mem_append, List.mem_singleton, h s]

theorem emittedInOrder_append (children : ModulePtr → List ModulePtr)
    (nameOf : ModulePtr → String) (a b : List ModulePtr) :
    ∀ seen : List String, EmittedInOrder children nameOf seen (a ++ b) ↔
      (EmittedInOrder children nameOf seen a
        ∧ EmittedInOrder children nameOf (seen ++ a.map nameOf) b) := by
  induction a with
  | nil => intro seen; simp [EmittedInOrder]
  | cons m rest ih =>
    intro seen
    have hl : seen ++ [nameOf m] ++ rest.map nameOf = seen ++ nameOf m :: rest.map nameOf := by
      simp
    show EmittedInOrder children nameOf seen (m :: (rest ++ b)) ↔ _
    simp only [EmittedInOrder, List.map_cons]
    rw [ih (seen ++ [nameOf m]), hl, and_assoc, and_assoc]

/-- The loop of `topSortModules`, given what the recursive calls do. -/
theorem topSortModulesLoop_sortedFrom
    (recurse : List ModulePtr → List String → Option (List ModulePtr × List String))
    (children : ModulePtr → List ModulePtr) (allModules : List ResolvedModule)
    (nameOf : ModulePtr → String) (n : Nat)
    (hname : ∀ i < n, moduleName allModules i = some (nameOf i))
    (hinj : ∀ i j, i < n → j < n → nameOf i = nameOf j → i = j)
    (modules : List ModulePtr) :
    ∀ seen : List String, (∀ m ∈ modules, m < n) →
      (∀ m ∈ modules, ∀ seen, ClosedNames children nameOf n seen →
        ∃ sorted seenAfter, recurse (children m) seen = some (sorted, seenAfter)
          ∧ SortedFrom children nameOf n seen (children m) sorted seenAfter) →
      ClosedNames children nameOf n seen →
      ∃ sorted seenAfter,
        topSortModulesLoop recurse children allModules modules seen = some (sorted, seenAfter)
          ∧ SortedFrom children nameOf n seen modules sorted seenAfter := by
  induction modules with
  | nil =>
    intro seen _ _ hclosed
    exact ⟨[], seen, rfl, by simp, trivial, by simp, by simp, hclosed⟩
  | cons m rest ih =>
    intro seen hlt hrec hclosed
    have hm : m < n := hlt m (List.mem_cons_self _ _)
    obtain ⟨sub, seen1, hsub, h1, h2, h3, h4, h5⟩ := hrec m (List.mem_cons_self _ _) seen hclosed
    have hclosed2 : ClosedNames children nameOf n (setInsert seen1 (nameOf m)) := by
      intro m' hm' hin c hc
      rw [mem_setInsert] at hin ⊢
      rcases hin with hin | hin
      · exact Or.inl (h5 m' hm' hin c hc)
      · have : m' = m := hinj m' m hm' hm hin
        subst this
        exact Or.inl (h4 c hc)
    obtain ⟨more, seen3, hmore, k1, k2, k3, k4, k5⟩ :=
      ih (setInsert seen1 (nameOf m)) (fun x hx => hlt x (List.mem_cons_of_mem _ hx))
        (fun x hx => hrec x (List.mem_cons_of_mem _ hx)) hclosed2
    refine ⟨sub ++ (if nameOf m ∈ seen1 then [] else [m]) ++ more, seen3, ?_, ?_, ?_, ?_, ?_, k5⟩
    · simp only [topSortModulesLoop, hname m hm, hsub, hmore]
    · intro s
      rw [k1 s, mem_setInsert, h1 s]
      by_cases hs : nameOf m ∈ seen1
      · simp only [hs, if_true, List.append_nil, List.map_append, List.mem_append]
        constructor
        · rintro ((h | h) | h)
          · exact h.elim Or.inl (fun h => Or.inr (Or.inl h))
          · subst h
            exact ((h1 _).1 hs).elim Or.inl (fun h => Or.inr (Or.inl h))
          · exact Or.inr (Or.inr h)
        · rintro (h | h | h)
          · exact Or.inl (Or.inl (Or.inl h))
          · exact Or.inl (Or.inl (Or.inr h))
          · exact Or.inr h
      · simp only [hs, if_false, List.map_append, List.mem_append, List.map_cons, List.map_nil,
          List.mem_singleton]
        constructor
        · rintro ((h | h) | h)
          · exact h.elim Or.inl (fun h => Or.inr (Or.inl (Or.inl h)))
          · exact Or.inr (Or.inl (Or.inr h))
          · exact Or.inr (Or.inr h)
        · rintro (h | (h | h) | h)
          · exact Or.inl (Or.inl (Or.inl h))
          · exact Or.inl (Or.inl (Or.inr h))
          · exact Or.inl (Or.inr h)
          · exact Or.inr h
    · rw [emittedInOrder_append, emittedInOrder_append]
      refine ⟨⟨h2, ?_⟩, ?_⟩
      · by_cases hs : nameOf m ∈ seen1
        · simp [hs, EmittedInOrder]
        · simp only [hs, if_false, EmittedInOrder, and_true]
          refine ⟨fun hin => hs ((h1 _).2 (List.mem_append.1 hin)), fun c hc => ?_⟩
          exact List.mem_append.2 ((h1 _).1 (h4 c hc))
      · apply emittedInOrder_congr children nameOf more _ _ _ k2
        intro s
        rw [mem_setInsert, h1 s]
        by_cases hs : nameOf m ∈ seen1
        · simp only [hs, if_true, List.append_nil, List.mem_append]
          constructor
          · rintro (h | h)
            · exact h
            · subst h
              exact (h1 _).1 hs
          · exact Or.inl
        · simp only [hs, if_false, List.map_append, List.mem_append, List.map_cons,
            List.map_nil, List.mem_singleton]
          constructor
          · rintro ((h | h) | h)
            · exact Or.inl h
            · exact Or.inr (Or.inl h)
            · exact Or.inr (Or.inr h)
          · rintro (h | h | h)
            · exact Or.inl (Or.inl h)
            · exact Or.inl (Or.inr h)
            · exact Or.inr h
    · intro i hi
      simp only [List.mem_append] at hi
      rcases hi with (hi | hi) | hi
      · exact h3 i hi
      · by_cases hs : nameOf m ∈ seen1
        · simp [hs] at hi
        · simp only [hs, if_false, List.mem_singleton] at hi
          exact hi ▸ hm
      · exact k3 i hi
    · intro x hx
      rcases List.mem_cons.1 hx with rfl | hx
      · exact (k1 _).2 (Or.inl ((mem_setInsert _ _ _).2 (Or.inr rfl)))
      · exact k4 x hx

/-- With enough fuel for the rank of its modules, `topSortModules` returns. -/
theorem topSortModules_sortedFrom (children : ModulePtr → List ModulePtr)
    (allModules : List ResolvedModule) (nameOf : ModulePtr → String) (n : Nat)
    (rank : ModulePtr → Nat)
    (hname : ∀ i < n, moduleName allModules i = some (nameOf i))
    (hinj : ∀ i j, i < n → j < n → nameOf i = nameOf j → i = j)
    (hvalid : ∀ m < n, ∀ c ∈ children m, c < n)
    (hrank : ∀ m < n, ∀ c ∈ children m, rank c < rank m) :
    ∀ (fuel : Nat) (modules : List ModulePtr) (seen : List String), 1 ≤ fuel →
      (∀ m ∈ modules, m < n ∧ rank m + 2 ≤ fuel) → ClosedNames children nameOf n seen →
      ∃ sorted seenAfter,
        topSortModules children allModules fuel modules seen = some (sorted, seenAfter)
          ∧ SortedFrom children nameOf n seen modules sorted seenAfter := by
  intro fuel
  induction fuel with
  | zero => intro _ _ h; omega
  | succ fuel ih =>
    intro modules seen _ hmod hclosed
    simp only [topSortModules]
    apply topSortModulesLoop_sortedFrom _ children allModules nameOf n hname hinj modules seen
      (fun m hm => (hmod m hm).1) _ hclosed
    intro m hm seen' hclosed'
    have hr := (hmod m hm).2
    exact ih (children m) seen' (by omega)
      (fun c hc => ⟨hvalid m (hmod m hm).1 c hc, by
        have := hrank m (hmod m hm).1 c hc
        omega⟩) hclosed'


theorem moduleMapValue_some (l : List ResolvedModule) :
    ∀ (first : Nat) (name : String) (j : Nat),
      moduleMapValue l first name = some j →
        first ≤ j ∧ ∃ m, l[j - first]? = some m ∧ m.nameText = name := by
  induction l with
  | nil => intro first name j h; simp [moduleMapValue] at h
  | cons module rest ih =>
    intro first name j h
    simp only [moduleMapValue] at h
    cases hr : moduleMapValue rest (first + 1) name with
    | some depmod =>
      rw [hr] at h
      simp only [Option.some.injEq] at h
      subst h
      obtain ⟨hle, m, hm, hn⟩ := ih (first + 1) name depmod hr
      refine ⟨by omega, m, ?_, hn⟩
      have : ∀ a b : Nat, b + 1 ≤ a → a - b = (a - (b + 1)) + 1 := fun a b h => by omega
      rw [this depmod first hle, List.getElem?_cons_succ]
      exact hm
    | none =>
      rw [hr] at h
      by_cases hn : module.nameText = name
      · simp only [hn, if_true, Option.some.injEq] at h
        subst h
        exact ⟨le_refl _, module, by simp, hn⟩
      · simp [hn] at h

theorem moduleMapValue_isSome (l : List ResolvedModule) :
    ∀ (first : Nat) (name : String), (∃ m ∈ l, m.nameText = name) →
      ∃ j, moduleMapValue l first name = some j := by
  induction l with
  | nil => intro first name h; simp at h
  | cons module rest ih =>
    intro first name h
    simp only [moduleMapValue]
    cases hr : moduleMapValue rest (first + 1) name with
    | some depmod => exact ⟨depmod, rfl⟩
    | none =>
      by_cases hn : module.nameText = name
      · exact ⟨first, by simp [hn]⟩
      · obtain ⟨m, hm, hmn⟩ := h
        rcases List.mem_cons.1 hm with rfl | hm
        · exact absurd hmn hn
        · obtain ⟨j, hj⟩ := ih (first + 1) name ⟨m, hm, hmn⟩
          rw [hr] at hj
          exact absurd hj (by simp)

theorem dependencyPointers_some (allModules : List ResolvedModule) (names : List String)
    (h : ∀ d ∈ names, ∃ m ∈ allModules, m.nameText = d) :
    ∃ children, dependencyPointers allModules names = some children
      ∧ ∀ c, c ∈ children ↔ ∃ d ∈ names, moduleMapValue allModules 0 d = some c := by
  induction names with
  | nil => exact ⟨[], rfl, by simp⟩
  | cons d rest ih =>
    obtain ⟨more, hmore, hmem⟩ := ih (fun x hx => h x (List.mem_cons_of_mem _ hx))
    obtain ⟨j, hj⟩ := moduleMapValue_isSome allModules 0 d (h d (List.mem_cons_self _ _))
    refine ⟨j :: more, by simp [dependencyPointers, hj, hmore], fun c => ?_⟩
    simp only [List.mem_cons, hmem, exists_eq_or_imp, hj, Option.some.injEq]
    constructor
    · rintro (h | h)
      · exact Or.inl h.symm
      · exact Or.inr h
    · rintro (h | h)
      · exact Or.inl h.symm
      · exact Or.inr h

theorem moduleChildrenOf_some (allModules : List ResolvedModule) (l : List ResolvedModule)
    (h : ∀ module ∈ l, ∀ d ∈ module.moduleDependencies, ∃ m ∈ allModules, m.nameText = d) :
    ∃ moduleChildren, moduleChildrenOf allModules l = some moduleChildren
      ∧ moduleChildren.length = l.length
      ∧ ∀ i module, l[i]? = some module →
          ∀ c, c ∈ childrenValue moduleChildren i ↔
            ∃ d ∈ module.moduleDependencies, moduleMapValue allModules 0 d = some c := by
  induction l with
  | nil => exact ⟨[], rfl, rfl, by simp⟩
  | cons module rest ih =>
    obtain ⟨more, hmore, hlen, hmem⟩ := ih (fun x hx => h x (List.mem_cons_of_mem _ hx))
    obtain ⟨children, hchildren, hc⟩ :=
      dependencyPointers_some allModules module.moduleDependencies
        (h module (List.mem_cons_self _ _))
    refine ⟨children :: more, by simp [moduleChildrenOf, hchildren, hmore], by simp [hlen], ?_⟩
    intro i m hi c
    cases i with
    | zero =>
      simp only [List.getElem?_cons_zero, Option.some.injEq] at hi
      subst hi
      simp only [childrenValue, List.getElem?_cons_zero, Option.getD_some]
      exact hc c
    | succ i =>
      simp only [List.getElem?_cons_succ] at hi
      have := hmem i m hi c
      simpa only [childrenValue, List.getElem?_cons_succ] using this

theorem mem_rootModulesOf (moduleChildren : List (List ModulePtr)) (m : ModulePtr) :
    m ∈ rootModulesOf moduleChildren ↔
      (m < moduleChildren.length ∧ ∀ p, m ∉ childrenValue moduleChildren p) := by
  simp only [rootModulesOf, List.mem_filter, List.mem_range, List.all_eq_true,
    decide_eq_true_eq]
  constructor
  · rintro ⟨h1, h2⟩
    refine ⟨h1, fun p hp => ?_⟩
    unfold childrenValue at hp
    cases hl : moduleChildren[p]? with
    | none => rw [hl] at hp; simp at hp
    | some l =>
      rw [hl] at hp
      exact h2 l (List.getElem?_mem hl) hp
  · rintro ⟨h1, h2⟩
    refine ⟨h1, fun l hl hm => ?_⟩
    obtain ⟨p, hp⟩ := List.mem_iff_getElem?.1 hl
    exact h2 p (by simp [childrenValue, hp, hm])

theorem emittedInOrder_names (children : ModulePtr → List ModulePtr)
    (nameOf : ModulePtr → String) (sorted : List ModulePtr) :
    ∀ seen : List String, EmittedInOrder children nameOf seen sorted →
      (sorted.map nameOf).Nodup ∧ ∀ i ∈ sorted, nameOf i ∉ seen := by
  induction sorted with
  | nil => intro _ _; simp
  | cons m rest ih =>
    intro seen ⟨h1, _, h3⟩
    obtain ⟨k1, k2⟩ := ih _ h3
    refine ⟨?_, ?_⟩
    · rw [List.map_cons, List.nodup_cons]
      refine ⟨fun hin => ?_, k1⟩
      obtain ⟨i, hi, he⟩ := List.mem_map.1 hin
      exact k2 i hi (by simp [he])
    · intro i hi
      rcases List.mem_cons.1 hi with rfl | hi
      · exact h1
      · exact fun hin => k2 i hi (List.mem_append_left _ hin)

theorem emittedInOrder_children_before (children : ModulePtr → List ModulePtr)
    (nameOf : ModulePtr → String) (seen : List String) (pre post : List ModulePtr)
    (x : ModulePtr) (h : EmittedInOrder children nameOf seen (pre ++ x :: post)) :
    ∀ c ∈ children x, nameOf c ∈ seen ∨ nameOf c ∈ pre.map nameOf := by
  rw [emittedInOrder_append] at h
  obtain ⟨_, _, h2, _⟩ := h
  intro c hc
  exact List.mem_append.1 (h2 c hc)


theorem moduleName_eq_nameTextOf (modules : List ResolvedModule)
    (hnull : ∀ m ∈ modules, m.name ≠ none) (i : Nat) (hi : i < modules.length) :
    moduleName modules i = some (nameTextOf modules i) := by
  have hm : modules[i]? = some modules[i] := List.getElem?_eq_getElem hi
  have hn := hnull modules[i] (List.getElem_mem hi)
  simp only [moduleName, nameTextOf, hm, ResolvedModule.nameText]
  cases hname : modules[i].name with
  | none => exact absurd hname hn
  | some s => rfl

theorem nameTextOf_injective (modules : List ResolvedModule)
    (hnull : ∀ m ∈ modules, m.name ≠ none)
    (hdistinct : (modules.map (fun m => m.name)).Nodup) (i j : Nat) (hi : i < modules.length)
    (hj : j < modules.length) (h : nameTextOf modules i = nameTextOf modules j) : i = j := by
  have h1 := moduleName_eq_nameTextOf modules hnull i hi
  have h2 := moduleName_eq_nameTextOf modules hnull j hj
  rw [h] at h1
  have hmi : modules[i]? = some modules[i] := List.getElem?_eq_getElem hi
  have hmj : modules[j]? = some modules[j] := List.getElem?_eq_getElem hj
  simp only [moduleName, hmi, hmj] at h1 h2
  have hi' : i < (modules.map (fun m => m.name)).length := by simpa using hi
  have hj' : j < (modules.map (fun m => m.name)).length := by simpa using hj
  have he : (modules.map (fun m => m.name))[i] = (modules.map (fun m => m.name))[j] := by
    simp [h1, h2]
  exact (List.Nodup.getElem_inj_iff hdistinct).1 he

theorem mem_childrenValue_iff_dependsOn (modules : List ResolvedModule)
    (hnull : ∀ m ∈ modules, m.name ≠ none)
    (hdistinct : (modules.map (fun m => m.name)).Nodup)
    (moduleChildren : List (List ModulePtr))
    (hlen : moduleChildren.length = modules.length)
    (hmem : ∀ i module, modules[i]? = some module →
      ∀ c, c ∈ childrenValue moduleChildren i ↔
        ∃ d ∈ module.moduleDependencies, moduleMapValue modules 0 d = some c)
    (x c : Nat) :
    c ∈ childrenValue moduleChildren x ↔ dependsOn modules x c := by
  constructor
  · intro hc
    cases hx : modules[x]? with
    | none =>
      have hge : modules.length ≤ x := by
        by_contra hlt
        rw [List.getElem?_eq_getElem (by omega)] at hx
        exact absurd hx (by simp)
      have : moduleChildren[x]? = none := List.getElem?_eq_none (by omega)
      simp [childrenValue, this] at hc
    | some module =>
      obtain ⟨d, hd, hv⟩ := (hmem x module hx c).1 hc
      obtain ⟨_, dep, hdep, hname⟩ := moduleMapValue_some modules 0 d c hv
      exact ⟨module, dep, hx, by simpa using hdep, by rw [hname]; exact hd⟩
  · rintro ⟨module, dep, hx, hdep, hd⟩
    rw [hmem x module hx c]
    refine ⟨dep.nameText, hd, ?_⟩
    obtain ⟨j, hj⟩ := moduleMapValue_isSome modules 0 dep.nameText
      ⟨dep, List.getElem?_mem hdep, rfl⟩
    obtain ⟨_, m, hm, hname⟩ := moduleMapValue_some modules 0 dep.nameText j hj
    have hm' : modules[j]? = some m := by simpa using hm
    have hjlt : j < modules.length := by
      by_contra hge
      rw [List.getElem?_eq_none (Nat.le_of_not_lt hge)] at hm'
      exact absurd hm' (by simp)
    have hclt : c < modules.length := by
      by_contra hge
      rw [List.getElem?_eq_none (by omega)] at hdep
      exact absurd hdep (by simp)
    have : j = c := nameTextOf_injective modules hnull hdistinct j c hjlt hclt
      (by simp [nameTextOf, hm', hdep, hname])
    rw [hj, this]

theorem dependsOn_lt (modules : List ResolvedModule) (m d : Nat) (h : dependsOn modules m d) :
    m < modules.length ∧ d < modules.length := by
  obtain ⟨module, dep, hm, hd, _⟩ := h
  constructor
  · by_contra hge
    rw [List.getElem?_eq_none (by omega)] at hm
    exact absurd hm (by simp)
  · by_contra hge
    rw [List.getElem?_eq_none (by omega)] at hd
    exact absurd hd (by simp)

/-- In a list of modules without a cycle of dependencies, the number of modules a module
reaches is a rank that falls along every dependency and stays below the number of modules. -/
theorem exists_rank_of_acyclic (modules : List ResolvedModule)
    (hacyclic : ∀ m, ¬ Relation.TransGen (dependsOn modules) m m) :
    ∃ rank : Nat → Nat, (∀ m d, dependsOn modules m d → rank d < rank m)
      ∧ ∀ m, m < modules.length → rank m + 1 ≤ modules.length := by
  classical
  refine ⟨fun m => ((Finset.range modules.length).filter
    (fun d => Relation.TransGen (dependsOn modules) m d)).card, ?_, ?_⟩
  · intro m d hd
    apply Finset.card_lt_card
    refine ⟨?_, ?_⟩
    · intro x hx
      simp only [Finset.mem_filter, Finset.mem_range] at hx ⊢
      exact ⟨hx.1, Relation.TransGen.head hd hx.2⟩
    · intro hsub
      have hdin : d ∈ (Finset.range modules.length).filter
          (fun x => Relation.TransGen (dependsOn modules) m x) := by
        simp only [Finset.mem_filter, Finset.mem_range]
        exact ⟨(dependsOn_lt modules m d hd).2, Relation.TransGen.single hd⟩
      have := hsub hdin
      simp only [Finset.mem_filter, Finset.mem_range] at this
      exact hacyclic d this.2
  · intro m hm
    have hsub : (Finset.range modules.length).filter
        (fun d => Relation.TransGen (dependsOn modules) m d)
          ⊆ (Finset.range modules.length).erase m := by
      intro x hx
      simp only [Finset.mem_filter, Finset.mem_range] at hx
      simp only [Finset.mem_erase, Finset.mem_range]
      refine ⟨fun h => ?_, hx.1⟩
      subst h
      exact hacyclic x hx.2
    have hcard := Finset.card_le_card hsub
    rw [Finset.card_erase_of_mem (by simpa using hm), Finset.card_range] at hcard
    exact Nat.add_le_of_le_sub (Nat.succ_le_of_lt (Nat.lt_of_le_of_lt (Nat.zero_le m) hm)) hcard


theorem acyclic_of_rank (modules : List ResolvedModule) (rank : Nat → Nat)
    (h : ∀ m d, dependsOn modules m d → rank d < rank m) :
    ∀ m, ¬ Relation.TransGen (dependsOn modules) m m := by
  have hlt : ∀ m d, Relation.TransGen (dependsOn modules) m d → rank d < rank m := by
    intro m d hmd
    induction hmd with
    | single hd => exact h _ _ hd
    | tail _ hd ih => exact Nat.lt_trans (h _ _ hd) ih
  exact fun m hm => Nat.lt_irrefl _ (hlt m m hm)

/-- C15: for a list of modules with distinct names none of which is null, whose dependencies
are all in the list and do not form a cycle, the sort of `getProcessEnvironment` (the call of
`topSortModules` on the root modules with no name seen, with fuel for one call more than there
are modules) returns an order that holds every module exactly once and in which every module
comes after all the modules it depends on, directly or through other modules. -/
theorem topSortModules_order (modules : List ResolvedModule) (fuel : Nat)
    (hnull : ∀ m ∈ modules, m.name ≠ none)
    (hdistinct : (modules.map (fun m => m.name)).Nodup)
    (hpresent : ∀ m ∈ modules, ∀ d ∈ m.moduleDependencies, ∃ m' ∈ modules, m'.name = some d)
    (hacyclic : ∀ m, ¬ Relation.TransGen (dependsOn modules) m m)
    (hfuel : modules.length + 1 ≤ fuel) :
    ∃ moduleChildren order seen,
      moduleChildrenOf modules modules = some moduleChildren
        ∧ topSortModules (childrenValue moduleChildren) modules fuel
            (rootModulesOf moduleChildren) [] = some (order, seen)
        ∧ order.Perm (List.range modules.length)
        ∧ ∀ pre m post, order = pre ++ m :: post →
            ∀ d, Relation.TransGen (dependsOn modules) m d → d ∈ pre := by
  have hpresent' : ∀ m ∈ modules, ∀ d ∈ m.moduleDependencies,
      ∃ m' ∈ modules, m'.nameText = d := by
    intro m hm d hd
    obtain ⟨m', hm', hn⟩ := hpresent m hm d hd
    exact ⟨m', hm', by simp [ResolvedModule.nameText, hn]⟩
  obtain ⟨mc, hmc, hlen, hmem⟩ := moduleChildrenOf_some modules modules hpresent'
  have hC := mem_childrenValue_iff_dependsOn modules hnull hdistinct mc hlen hmem
  have hname := moduleName_eq_nameTextOf modules hnull
  have hinj := nameTextOf_injective modules hnull hdistinct
  obtain ⟨rank, hrank, hbound⟩ := exists_rank_of_acyclic modules hacyclic
  have hvalid : ∀ m < modules.length, ∀ c ∈ childrenValue mc m, c < modules.length :=
    fun m _ c hc => (dependsOn_lt modules m c ((hC m c).1 hc)).2
  have hroot : ∀ m ∈ rootModulesOf mc, m < modules.length ∧ rank m + 2 ≤ fuel := by
    intro m hm
    have hlt : m < modules.length := by
      have := ((mem_rootModulesOf mc m).1 hm).1
      rwa [hlen] at this
    have := hbound m hlt
    exact ⟨hlt, by omega⟩
  obtain ⟨order, seen, hsort, h1, h2, h3, h4, h5⟩ :=
    topSortModules_sortedFrom (childrenValue mc) modules (nameTextOf modules) modules.length
      rank hname hinj hvalid (fun m _ c hc => hrank m c ((hC m c).1 hc)) fuel
      (rootModulesOf mc) [] (by omega) hroot (fun _ _ h => absurd h (List.not_mem_nil _))
  have hall : ∀ k m, m < modules.length → modules.length - rank m ≤ k →
      nameTextOf modules m ∈ seen := by
    intro k
    induction k with
    | zero =>
      intro m hm hk
      have := hbound m hm
      omega
    | succ k ih =>
      intro m hm hk
      by_cases hr : m ∈ rootModulesOf mc
      · exact h4 m hr
      · rw [mem_rootModulesOf, hlen] at hr
        have hex : ∃ p, m ∈ childrenValue mc p := by
          by_contra hno
          exact hr ⟨hm, fun p hp => hno ⟨p, hp⟩⟩
        obtain ⟨p, hp⟩ := hex
        have hdep := (hC p m).1 hp
        have hplt := (dependsOn_lt modules p m hdep).1
        have hrk := hrank p m hdep
        have hb := hbound p hplt
        exact h5 p hplt (ih p hplt (by omega)) m hp
  have hnodup : order.Nodup := (emittedInOrder_names _ _ order [] h2).1.of_map
  have hmemorder : ∀ m, m ∈ order ↔ m ∈ List.range modules.length := by
    intro m
    rw [List.mem_range]
    constructor
    · exact h3 m
    · intro hm
      have hs := (h1 _).1 (hall (modules.length - rank m) m hm (le_refl _))
      simp only [List.not_mem_nil, false_or, List.mem_map] at hs
      obtain ⟨i, hi, he⟩ := hs
      have : i = m := hinj i m (h3 i hi) hm he
      exact this ▸ hi
  have hdirect : ∀ pre m post, order = pre ++ m :: post →
      ∀ d, dependsOn modules m d → d ∈ pre := by
    intro pre m post ho d hd
    have hmlt : m < modules.length := (dependsOn_lt modules m d hd).1
    have hdlt : d < modules.length := (dependsOn_lt modules m d hd).2
    rw [ho] at h2
    have := emittedInOrder_children_before _ _ [] pre post m h2 d ((hC m d).2 hd)
    simp only [List.not_mem_nil, false_or, List.mem_map] at this
    obtain ⟨i, hi, he⟩ := this
    have hilt : i < modules.length := h3 i (by rw [ho]; exact List.mem_append_left _ hi)
    have : i = d := hinj i d hilt hdlt he
    exact this ▸ hi
  refine ⟨mc, order, seen, hmc, hsort,
    (List.perm_ext_iff_of_nodup hnodup (List.nodup_range _)).2 hmemorder, ?_⟩
  intro pre m post ho d hd
  induction hd generalizing pre post with
  | single hd => exact hdirect pre m post ho _ hd
  | @tail b c _ hd ih =>
    have hb := ih pre post ho
    obtain ⟨p1, p2, hp⟩ := List.append_of_mem hb
    have ho' : order = p1 ++ b :: (p2 ++ m :: post) := by
      rw [ho, hp]; simp
    have := hdirect p1 b _ ho' c hd
    rw [hp]
    exact List.mem_append_left _ this

/-- C15, on an example: of the modules `app`, `cpp` and `qbs` the sort returns every module
once and each after the modules it depends on. -/
theorem topSortModules_order_witness :
    ∃ moduleChildren order seen,
      moduleChildrenOf demoModules demoModules = some moduleChildren
        ∧ topSortModules (childrenValue moduleChildren) demoModules 4
            (rootModulesOf moduleChildren) [] = some (order, seen)
        ∧ order.Perm (List.range demoModules.length)
        ∧ ∀ pre m post, order = pre ++ m :: post →
            ∀ d, Relation.TransGen (dependsOn demoModules) m d → d ∈ pre := by
  refine topSortModules_order demoModules 4 (by decide) (by decide) (by decide) ?_ (by decide)
  apply acyclic_of_rank demoModules (fun m => 3 - m)
  rintro m d ⟨module, dep, hm, hd, hin⟩
  have hmlt : m < 3 := by
    by_contra hge
    have : demoModules[m]? = none := List.getElem?_eq_none (Nat.le_of_not_lt hge)
    rw [this] at hm
    exact absurd hm (by simp)
  have hdlt : d < 3 := by
    by_contra hge
    have : demoModules[d]? = none := List.getElem?_eq_none (Nat.le_of_not_lt hge)
    rw [this] at hd
    exact absurd hd (by simp)
  interval_cases m <;> interval_cases d <;>
    simp [demoModules, demoModule, ResolvedModule.nameText] at hm hd <;>
    subst hm <;> subst hd <;>
    first
      | (simp [ResolvedModule.nameText] at hin; done)
      | simp


/-! ## Additional inputs -/

/-- A loop that inserts the elements with a property into a set. -/
theorem foldl_insert_if {α : Type} [DecidableEq α] (step : List α → α → List α)
    (P : α → Prop)
    (hstep : ∀ acc x, (P x → step acc x = setInsert acc x) ∧ (¬ P x → step acc x = acc))
    (l : List α) :
    ∀ acc : List α, (acc.Nodup → (l.foldl step acc).Nodup)
      ∧ ∀ y, y ∈ l.foldl step acc ↔ (y ∈ acc ∨ (y ∈ l ∧ P y)) := by
  induction l with
  | nil => intro acc; simp
  | cons x rest ih =>
    intro acc
    obtain ⟨h1, h2⟩ := ih (step acc x)
    by_cases hx : P x
    · rw [(hstep acc x).1 hx] at h1 h2
      refine ⟨fun hn => by
        rw [List.foldl_cons, (hstep acc x).1 hx]
        exact h1 (nodup_setInsert _ _ hn), fun y => ?_⟩
      rw [List.foldl_cons, (hstep acc x).1 hx, h2, mem_setInsert, List.mem_cons]
      constructor
      · rintro ((h | h) | h)
        · exact Or.inl h
        · exact Or.inr ⟨Or.inl h, h ▸ hx⟩
        · exact Or.inr ⟨Or.inr h.1, h.2⟩
      · rintro (h | ⟨h | h, hp⟩)
        · exact Or.inl (Or.inl h)
        · exact Or.inl (Or.inr h)
        · exact Or.inr ⟨h, hp⟩
    · rw [(hstep acc x).2 hx] at h1 h2
      refine ⟨fun hn => by
        rw [List.foldl_cons, (hstep acc x).2 hx]
        exact h1 hn, fun y => ?_⟩
      rw [List.foldl_cons, (hstep acc x).2 hx, h2, List.mem_cons]
      constructor
      · rintro (h | h)
        · exact Or.inl h
        · exact Or.inr ⟨Or.inr h.1, h.2⟩
      · rintro (h | ⟨h | h, hp⟩)
        · exact Or.inl h
        · exact absurd (h ▸ hp) hx
        · exact Or.inr ⟨h, hp⟩

theorem setIntersects_eq_false {α : Type} [DecidableEq α] (a b : List α) :
    setIntersects a b = false ↔ ∀ x ∈ a, x ∉ b := by
  simp [setIntersects]

/-- The artifacts the loop over the index of the product adds. -/
theorem collectFromProduct_spec (rule : Rule) (inputsSources : InputsSources) (g : BuildGraph)
    (artifacts candidates : ArtifactSet) :
    (artifacts.Nodup → (collectFromProduct rule inputsSources g artifacts candidates).Nodup)
      ∧ ∀ y, y ∈ collectFromProduct rule inputsSources g artifacts candidates ↔
        (y ∈ artifacts ∨ (y ∈ candidates ∧ ∃ d, g.artifact y = some d
          ∧ setIntersects d.fileTags rule.excludedInputs = false
          ∧ ((inputsSources.currentProduct = true ∧ d.targetOfModule = false)
            ∨ (inputsSources.dependencies = true ∧ d.targetOfModule = true)))) := by
  unfold collectFromProduct
  apply foldl_insert_if
  intro acc x
  cases hx : g.artifact x with
  | none => simp
  | some d =>
    cases h1 : setIntersects d.fileTags rule.excludedInputs <;>
      cases h2 : inputsSources.currentProduct <;> cases h3 : inputsSources.dependencies <;>
      cases h4 : d.targetOfModule <;> simp [h1, h2, h3, h4]

/-- The artifacts the loop over the target artifacts of one dependency adds. -/
theorem collectFromDependency_spec (rule : Rule) (fileTag : FileTag) (g : BuildGraph)
    (artifacts : ArtifactSet) (depProduct : DependencyProduct) :
    (artifacts.Nodup → (collectFromDependency rule fileTag g artifacts depProduct).Nodup)
      ∧ ∀ y, y ∈ collectFromDependency rule fileTag g artifacts depProduct ↔
        (y ∈ artifacts ∨ (y ∈ depProduct.targetArtifacts g ∧ ∃ t, g.artifact y = some t
          ∧ fileTag ∈ t.fileTags ∧ setIntersects t.fileTags rule.excludedInputs = false)) := by
  unfold collectFromDependency
  apply foldl_insert_if
  intro acc x
  cases hx : g.artifact x with
  | none => simp
  | some t =>
    cases h1 : setIntersects t.fileTags rule.excludedInputs <;>
      by_cases h2 : fileTag ∈ t.fileTags <;> simp [h1, h2]

theorem collectFromDependencies_spec (rule : Rule) (fileTag : FileTag) (g : BuildGraph)
    (dependencies : List DependencyProduct) :
    ∀ artifacts : ArtifactSet,
      (artifacts.Nodup →
        (dependencies.foldl (collectFromDependency rule fileTag g) artifacts).Nodup)
      ∧ ∀ y, y ∈ dependencies.foldl (collectFromDependency rule fileTag g) artifacts ↔
        (y ∈ artifacts ∨ ∃ depProduct ∈ dependencies, y ∈ depProduct.targetArtifacts g
          ∧ ∃ t, g.artifact y = some t ∧ fileTag ∈ t.fileTags
            ∧ setIntersects t.fileTags rule.excludedInputs = false) := by
  induction dependencies with
  | nil => intro artifacts; simp
  | cons dep rest ih =>
    intro artifacts
    obtain ⟨h1, h2⟩ := ih (collectFromDependency rule fileTag g artifacts dep)
    obtain ⟨k1, k2⟩ := collectFromDependency_spec rule fileTag g artifacts dep
    refine ⟨fun hn => h1 (k1 hn), fun y => ?_⟩
    rw [List.foldl_cons, h2, k2]
    simp only [List.mem_cons, exists_eq_or_imp, or_assoc]


theorem mem_lookupArtifactsByFileTag (product : ResolvedProduct) (tag : FileTag)
    (g : BuildGraph) (y : ArtifactPtr) :
    y ∈ lookupArtifactsByFileTag product tag g ↔
      ∃ a, g.artifact y = some a ∧ a.product = product.address ∧ tag ∈ a.fileTags := by
  simp only [lookupArtifactsByFileTag, List.mem_filter, List.mem_range]
  constructor
  · rintro ⟨_, h⟩
    cases ha : g.artifact y with
    | none => simp [ha] at h
    | some a =>
      simp only [ha, Bool.and_eq_true, decide_eq_true_eq] at h
      exact ⟨a, rfl, h⟩
  · rintro ⟨a, ha, hp, ht⟩
    refine ⟨heapGet_lt_length _ _ _ ha, ?_⟩
    simp [ha, hp, ht]

/-- The artifacts the loop of `collectAdditionalInputs` over the tags adds. -/
theorem collectAdditionalInputs_fold (rule : Rule) (product : ResolvedProduct)
    (inputsSources : InputsSources) (g : BuildGraph) (tags : FileTags) :
    ∀ artifacts : ArtifactSet,
      (artifacts.Nodup →
        (tags.foldl (fun artifacts fileTag =>
          let artifacts := collectFromProduct rule inputsSources g artifacts
            (lookupArtifactsByFileTag product fileTag g)
          if inputsSources.dependencies then
            product.dependencies.foldl (collectFromDependency rule fileTag g) artifacts
          else artifacts) artifacts).Nodup)
      ∧ ∀ y, y ∈ tags.foldl (fun artifacts fileTag =>
          let artifacts := collectFromProduct rule inputsSources g artifacts
            (lookupArtifactsByFileTag product fileTag g)
          if inputsSources.dependencies then
            product.dependencies.foldl (collectFromDependency rule fileTag g) artifacts
          else artifacts) artifacts ↔
        (y ∈ artifacts
          ∨ (∃ tag ∈ tags, y ∈ lookupArtifactsByFileTag product tag g
              ∧ ∃ d, g.artifact y = some d
                ∧ setIntersects d.fileTags rule.excludedInputs = false
                ∧ ((inputsSources.currentProduct = true ∧ d.targetOfModule = false)
                  ∨ (inputsSources.dependencies = true ∧ d.targetOfModule = true)))
          ∨ (inputsSources.dependencies = true
              ∧ ∃ tag ∈ tags, ∃ depProduct ∈ product.dependencies,
                  y ∈ depProduct.targetArtifacts g ∧ ∃ t, g.artifact y = some t
                    ∧ tag ∈ t.fileTags
                    ∧ setIntersects t.fileTags rule.excludedInputs = false)) := by
  induction tags with
  | nil => intro artifacts; simp
  | cons tag rest ih =>
    intro artifacts
    obtain ⟨k1, k2⟩ := collectFromProduct_spec rule inputsSources g artifacts
      (lookupArtifactsByFileTag product tag g)
    obtain ⟨j1, j2⟩ := collectFromDependencies_spec rule tag g product.dependencies
      (collectFromProduct rule inputsSources g artifacts
        (lookupArtifactsByFileTag product tag g))
    rw [List.foldl_cons]
    cases hdep : inputsSources.dependencies
    · obtain ⟨h1, h2⟩ := ih (collectFromProduct rule inputsSources g artifacts
        (lookupArtifactsByFileTag product tag g))
      simp only [hdep, Bool.false_eq_true, if_false, false_and, or_false] at h1 h2 k2 ⊢
      refine ⟨fun hn => h1 (k1 hn), fun y => ?_⟩
      rw [h2, k2]
      simp only [List.mem_cons, exists_eq_or_imp, or_assoc]
    · obtain ⟨h1, h2⟩ := ih (product.dependencies.foldl (collectFromDependency rule tag g)
        (collectFromProduct rule inputsSources g artifacts
          (lookupArtifactsByFileTag product tag g)))
      simp only [hdep, if_true, true_and] at h1 h2 k2 ⊢
      refine ⟨fun hn => h1 (j1 (k1 hn)), fun y => ?_⟩
      rw [h2, j2, k2]
      simp only [List.mem_cons, exists_eq_or_imp]
      constructor
      · rintro (((h | h) | h) | h | h)
        · exact Or.inl h
        · exact Or.inr (Or.inl (Or.inl h))
        · exact Or.inr (Or.inr (Or.inl h))
        · exact Or.inr (Or.inl (Or.inr h))
        · exact Or.inr (Or.inr (Or.inr h))
      · rintro (h | (h | h) | (h | h))
        · exact Or.inl (Or.inl (Or.inl h))
        · exact Or.inl (Or.inl (Or.inr h))
        · exact Or.inr (Or.inl h)
        · exact Or.inl (Or.inr h)
        · exact Or.inr (Or.inr h)

/-- C12: `collectAdditionalInputs` returns, each once, exactly the artifacts of the index of
the product under one of the tags that carry no excluded tag and are wanted by the selection
(of the current product and not a module target, or of the dependencies and a module target),
and, when the selection holds the dependencies, the target artifacts of the dependency products
that carry one of the tags and no excluded tag. So no returned artifact carries an excluded
tag, and with the selection of the current product alone every returned artifact is an artifact
of the product itself that is not a module target. -/
theorem collectAdditionalInputs_exact (tags : FileTags) (rule : Rule)
    (product : ResolvedProduct) (inputsSources : InputsSources) (g : BuildGraph) :
    (collectAdditionalInputs tags rule product inputsSources g).Nodup
      ∧ (∀ y, y ∈ collectAdditionalInputs tags rule product inputsSources g ↔
          ((∃ tag ∈ tags, y ∈ lookupArtifactsByFileTag product tag g
              ∧ ∃ d, g.artifact y = some d
                ∧ (∀ t ∈ d.fileTags, t ∉ rule.excludedInputs)
                ∧ ((inputsSources.currentProduct = true ∧ d.targetOfModule = false)
                  ∨ (inputsSources.dependencies = true ∧ d.targetOfModule = true)))
            ∨ (inputsSources.dependencies = true
              ∧ ∃ tag ∈ tags, ∃ depProduct ∈ product.dependencies,
                  y ∈ depProduct.targetArtifacts g ∧ ∃ t, g.artifact y = some t
                    ∧ tag ∈ t.fileTags ∧ ∀ u ∈ t.fileTags, u ∉ rule.excludedInputs)))
      ∧ (∀ y ∈ collectAdditionalInputs tags rule product inputsSources g,
          ∃ a, g.artifact y = some a ∧ ∀ t ∈ a.fileTags, t ∉ rule.excludedInputs)
      ∧ (∀ y ∈ collectAdditionalInputs tags rule product ⟨true, false⟩ g,
          ∃ a, g.artifact y = some a ∧ a.product = product.address
            ∧ a.targetOfModule = false) := by
  have hmem : ∀ (sources : InputsSources) (y : ArtifactPtr),
      y ∈ collectAdditionalInputs tags rule product sources g ↔
          ((∃ tag ∈ tags, y ∈ lookupArtifactsByFileTag product tag g
              ∧ ∃ d, g.artifact y = some d
                ∧ (∀ t ∈ d.fileTags, t ∉ rule.excludedInputs)
                ∧ ((sources.currentProduct = true ∧ d.targetOfModule = false)
                  ∨ (sources.dependencies = true ∧ d.targetOfModule = true)))
            ∨ (sources.dependencies = true
              ∧ ∃ tag ∈ tags, ∃ depProduct ∈ product.dependencies,
                  y ∈ depProduct.targetArtifacts g ∧ ∃ t, g.artifact y = some t
                    ∧ tag ∈ t.fileTags ∧ ∀ u ∈ t.fileTags, u ∉ rule.excludedInputs)) := by
    intro sources y
    have h := (collectAdditionalInputs_fold rule product sources g tags []).2 y
    simp only [List.not_mem_nil, false_or, setIntersects_eq_false] at h
    exact h
  refine ⟨(collectAdditionalInputs_fold rule product inputsSources g tags []).1 List.nodup_nil,
    hmem inputsSources, ?_, ?_⟩
  · intro y hy
    rcases (hmem inputsSources y).1 hy with ⟨_, _, _, d, hd, hex, _⟩ | ⟨_, _, _, _, _, _, t, ht, _, hex⟩
    · exact ⟨d, hd, hex⟩
    · exact ⟨t, ht, hex⟩
  · intro y hy
    rcases (hmem ⟨true, false⟩ y).1 hy with ⟨tag, _, hl, d, hd, _, hc⟩ | ⟨hf, _⟩
    · obtain ⟨a, ha, hp, _⟩ := (mem_lookupArtifactsByFileTag product tag g y).1 hl
      rw [hd] at ha
      simp only [Option.some.injEq] at ha
      subst ha
      rcases hc with ⟨_, hc⟩ | ⟨hc, _⟩
      · exact ⟨d, hd, hp, hc⟩
      · exact absurd hc (by simp)
    · exact absurd hf (by simp)


/-! ## The steps of a `doApply` that returns -/

/-- A `doApply` that returns has gone through these steps: the transformer is created, the
outputs are created, the old outputs are collected and those that are no outputs any more are
removed; then, unless there is no output, the outputs are connected to the explicit
dependencies, the bindings are evaluated for the pairs in reverse, the commands are created and
are not empty, and the changes are tracked. -/
theorem doApply_ok_steps (host : ScriptHost) (product : ResolvedProduct) (rule : RuleConstPtr)
    (inputArtifacts : ArtifactSet) (s s' : State)
    (h : doApply host product rule inputArtifacts s = (.ok (), s')) :
    ∃ outputArtifacts ruleArtifactArtifactMap s1 oldOutputs g2,
      createOutputs host product rule s.graph.transformers.length inputArtifacts
          (createTransformer product rule inputArtifacts s)
        = (.ok (outputArtifacts, ruleArtifactArtifactMap), s1)
      ∧ collectOldOutputArtifacts rule s1.graph inputArtifacts [] = .ok oldOutputs
      ∧ handleRemovedRuleOutputs host s1.m_completeInputSet
          (setMinus oldOutputs (setFromList outputArtifacts)) s1.graph = (.ok (), g2)
      ∧ ((outputArtifacts = [] ∧ s' = { s1 with graph := g2 })
        ∨ (outputArtifacts ≠ [] ∧ ∃ s4 commands,
            evaluateArtifactBindings host ruleArtifactArtifactMap.reverse
                (connectExplicitlyDependsOn s.graph.transformers.length outputArtifacts
                  { s1 with graph := g2 }) = (.ok (), s4)
            ∧ host.createCommands s.graph.transformers.length s4 = .ok commands
            ∧ commands ≠ []
            ∧ s' = trackChanges host s.graph.transformers.length outputArtifacts
                (setCommands s.graph.transformers.length commands s4))) := by
  unfold doApply at h
  split at h
  · simp at h
  · simp only at h
    split at h
    · simp at h
    · rename_i outputArtifacts ruleArtifactArtifactMap s1 hcreate
      split at h
      · simp at h
      · rename_i oldOutputs hold
        split at h
        · simp at h
        · rename_i u g2 hremove
          refine ⟨outputArtifacts, ruleArtifactArtifactMap, s1, oldOutputs, g2, hcreate, hold,
            hremove, ?_⟩
          split at h
          · rename_i hempty
            left
            refine ⟨by simpa using hempty, ?_⟩
            simp only [Prod.mk.injEq, true_and] at h
            exact h.symm
          · rename_i hempty
            right
            refine ⟨by simpa using hempty, ?_⟩
            split at h
            · simp at h
            · rename_i u2 s4 hbind
              split at h
              · simp at h
              · rename_i commands hcommands
                split at h
                · simp at h
                · rename_i hne
                  simp only [Prod.mk.injEq, true_and] at h
                  exact ⟨s4, commands, hbind, hcommands, by simpa using hne, h.symm⟩


/-! ## The order in which bindings are evaluated -/

theorem createOutputArtifactsFromRuleArtifacts_templates (host : ScriptHost)
    (product : ResolvedProduct) (rule : RuleConstPtr) (tp : Nat) (inputs : ArtifactSet)
    (ras : List RuleArtifact) :
    ∀ (seen : List String) (acc m : List (RuleArtifact × ArtifactPtr)) (s s' : State),
      createOutputArtifactsFromRuleArtifacts host product rule tp inputs ras seen acc s
        = (Except.ok m, s') → m.map (·.1) = acc.map (·.1) ++ ras := by
  induction ras with
  | nil =>
    intro seen acc m s s' h
    simp only [createOutputArtifactsFromRuleArtifacts, Prod.mk.injEq, Except.ok.injEq] at h
    simp [h.1]
  | cons ra rest ih =>
    intro seen acc m s s' h
    simp only [createOutputArtifactsFromRuleArtifacts] at h
    split at h
    · simp at h
    · have := ih _ _ _ _ _ h
      simpa using this

theorem evaluateArtifactBindings_append (host : ScriptHost)
    (l1 l2 : List (RuleArtifact × ArtifactPtr)) :
    ∀ s : State, evaluateArtifactBindings host (l1 ++ l2) s =
      match evaluateArtifactBindings host l1 s with
      | (.error e, s1) => (.error e, s1)
      | (.ok _, s1) => evaluateArtifactBindings host l2 s1 := by
  induction l1 with
  | nil => intro s; rfl
  | cons p rest ih =>
    intro s
    obtain ⟨ra, a⟩ := p
    simp only [List.cons_append, evaluateArtifactBindings]
    split
    · exact ih s
    · split
      · rfl
      · exact ih _

theorem evaluateBindings_append (host : ScriptHost) (outputArtifact : ArtifactPtr) (s : State)
    (bs1 bs2 : List Binding) :
    ∀ cfg : QVariantMap, evaluateBindings host outputArtifact s (bs1 ++ bs2) cfg =
      match evaluateBindings host outputArtifact s bs1 cfg with
      | .error e => .error e
      | .ok cfg1 => evaluateBindings host outputArtifact s bs2 cfg1 := by
  induction bs1 with
  | nil => intro cfg; rfl
  | cons b rest ih =>
    intro cfg
    simp only [List.cons_append, evaluateBindings]
    split
    · rfl
    · exact ih _

/-- C14: in the application of a static rule, the pairs of template artifact and output are
registered in the order in which the rule declares the template artifacts, and `doApply`
evaluates the bindings over the reversed list of pairs: for every pair, the pairs registered
after it are gone through first (an error there ends the evaluation), then the pair itself in
the state they leave, then the pairs registered before it. A pair whose template artifact has
no bindings is passed over and leaves the state as it is; a pair with bindings has them
evaluated in their declared order, each value assigned before the next binding is evaluated,
and the first error ends the evaluation. -/
theorem evaluateArtifactBindings_reverse_order (host : ScriptHost) :
    (∀ (product : ResolvedProduct) (rule : RuleConstPtr) (tp : TransformerPtr)
        (inputArtifacts : ArtifactSet) (s s1 : State) (outputArtifacts : List ArtifactPtr)
        (ruleArtifactArtifactMap : List (RuleArtifact × ArtifactPtr)),
        rule.rule.isDynamic = false → rule.rule.artifacts ≠ [] →
        createOutputs host product rule tp inputArtifacts s
          = (.ok (outputArtifacts, ruleArtifactArtifactMap), s1) →
        ruleArtifactArtifactMap.map (·.1) = rule.rule.artifacts
          ∧ ruleArtifactArtifactMap.map (·.2) = outputArtifacts)
    ∧ (∀ (product : ResolvedProduct) (rule : RuleConstPtr) (inputArtifacts : ArtifactSet)
        (s s' : State), doApply host product rule inputArtifacts s = (.ok (), s') →
        ∃ outputArtifacts ruleArtifactArtifactMap s1,
          createOutputs host product rule s.graph.transformers.length inputArtifacts
              (createTransformer product rule inputArtifacts s)
            = (.ok (outputArtifacts, ruleArtifactArtifactMap), s1)
          ∧ (outputArtifacts ≠ [] → ∃ s3 s4,
              evaluateArtifactBindings host ruleArtifactArtifactMap.reverse s3 = (.ok (), s4)))
    ∧ (∀ (pre post : List (RuleArtifact × ArtifactPtr)) (ra : RuleArtifact) (a : ArtifactPtr)
        (s : State),
        evaluateArtifactBindings host (pre ++ (ra, a) :: post).reverse s =
          match evaluateArtifactBindings host post.reverse s with
          | (.error e, s1) => (.error e, s1)
          | (.ok _, s1) =>
            match evaluateArtifactBindings host [(ra, a)] s1 with
            | (.error e, s2) => (.error e, s2)
            | (.ok _, s2) => evaluateArtifactBindings host pre.reverse s2)
    ∧ (∀ (ra : RuleArtifact) (a : ArtifactPtr) (s : State), ra.bindings = [] →
        evaluateArtifactBindings host [(ra, a)] s = (.ok (), s))
    ∧ (∀ (ra : RuleArtifact) (a : ArtifactPtr) (s : State), ra.bindings ≠ [] →
        evaluateArtifactBindings host [(ra, a)] s =
          match evaluateBindings host a s ra.bindings
              (((s.graph.artifact a).map (·.properties.value)).getD []) with
          | .error e => (.error e, s)
          | .ok artifactModulesCfg =>
            (.ok (), { s with
              graph := s.graph.modifyArtifact a
                (fun art => { art with properties := ⟨artifactModulesCfg⟩ }) }))
    ∧ (∀ (a : ArtifactPtr) (s : State) (before after : List Binding) (binding : Binding)
        (cfg : QVariantMap),
        evaluateBindings host a s (before ++ binding :: after) cfg =
          match evaluateBindings host a s before cfg with
          | .error e => .error e
          | .ok cfg1 =>
            match host.evaluateBinding binding a s with
            | .error (message, location) =>
              .error (.error (ErrorInfo.mk1
                ("evaluating rule binding '" ++ joinStrings "." binding.name ++ "': " ++ message)
                (some location)))
            | .ok value =>
              evaluateBindings host a s after (setConfigProperty cfg1 binding.name value)) := by
  refine ⟨?_, ?_, ?_, ?_, ?_, ?_⟩
  · intro product rule tp inputArtifacts s s1 outputArtifacts ruleArtifactArtifactMap hstatic
      hne h
    have hne' : rule.rule.artifacts.isEmpty = false := by
      cases hr : rule.rule.artifacts with
      | nil => exact absurd hr hne
      | cons _ _ => rfl
    unfold createOutputs at h
    rw [if_neg (by simp [hstatic])] at h
    split at h
    · simp at h
    · rename_i m s2 hm
      simp only [hne', Bool.false_eq_true, if_false, Prod.mk.injEq, Except.ok.injEq] at h
      obtain ⟨⟨rfl, rfl⟩, -⟩ := h
      have := createOutputArtifactsFromRuleArtifacts_templates host product rule tp inputArtifacts
        _ _ _ _ _ _ hm
      exact ⟨by simpa using this, rfl⟩
  · intro product rule inputArtifacts s s' h
    obtain ⟨outs, m, s1, old, g2, hc, -, -, hcase⟩ :=
      doApply_ok_steps host product rule inputArtifacts s s' h
    refine ⟨outs, m, s1, hc, fun hne => ?_⟩
    rcases hcase with ⟨he, -⟩ | ⟨-, s4, commands, hb, -⟩
    · exact absurd he hne
    · exact ⟨_, s4, hb⟩
  · intro pre post ra a s
    have hrev : (pre ++ (ra, a) :: post).reverse = post.reverse ++ ([(ra, a)] ++ pre.reverse) := by
      simp
    rw [hrev, evaluateArtifactBindings_append]
    split
    · rfl
    · rw [evaluateArtifactBindings_append]
  · intro ra a s hb
    simp [evaluateArtifactBindings, hb]
  · intro ra a s hb
    have hb' : ra.bindings.isEmpty = false := by
      cases hr : ra.bindings with
      | nil => exact absurd hr hb
      | cons _ _ => rfl
    simp only [evaluateArtifactBindings, hb', Bool.false_eq_true, if_false]
  · intro a s before after binding cfg
    rw [evaluateBindings_append]
    split
    · rfl
    · simp only [evaluateBindings]

/-- C14, on an example: when the rule with the template artifacts `a.o` and `b.o` is applied,
the binding of `b.o`, declared last, is evaluated first (no artifact has the property `order`
yet) and that of `a.o` after it (one artifact has it); and a pair without bindings is passed
over. -/
theorem evaluateArtifactBindings_reverse_order_witness :
    demoOrderAfterApply 3 = "0" ∧ demoOrderAfterApply 2 = "1"
      ∧ evaluateArtifactBindings demoCountingHost [(demoRuleArtifact "a.o", 2)] demoState
        = (.ok (), demoState) :=
  ⟨by decide, by decide,
    (evaluateArtifactBindings_reverse_order demoCountingHost).2.2.2.1 (demoRuleArtifact "a.o") 2
      demoState rfl⟩


/-! ## What the creation of the outputs keeps -/

/-- A relation between states that every `createOutputArtifact` and the last step of
`createOutputArtifactFromScriptValue` respect, and a property that every created output has and
keeps along the relation, hold from the state before `createOutputs` to the state after it and
of all the outputs it returns. -/
theorem createOutputs_traverse (host : ScriptHost) (product : ResolvedProduct)
    (rule : RuleConstPtr) (tp : TransformerPtr) (inputs : ArtifactSet)
    (R : State → State → Prop) (Q : ArtifactPtr → State → Prop)
    (hrefl : ∀ s, R s s) (htrans : ∀ a b c, R a b → R b c → R a c)
    (hstable : ∀ a s s', R s s' → Q a s → Q a s')
    (hcreate : ∀ filePath fileTags alwaysUpdated s r s',
      createOutputArtifact host product rule tp filePath fileTags alwaysUpdated inputs s
        = (r, s') → R s s' ∧ ∀ a, r = .ok a → Q a s')
    (hscript : ∀ (output : ArtifactPtr) (obj : ScriptValue) (s : State),
      R s { s with
        graph := ((setFromList (obj.property "explicitlyDependsOn").toVariant.toStringList).foldl
          (fun g tag => (lookupArtifactsByFileTag product tag g).foldl
            (fun g dependency => connect output dependency g) g) s.graph).modifyArtifact output
              (applyArtifactBindings host obj) })
    (s s' : State) (r : Except Exception (List ArtifactPtr × List (RuleArtifact × ArtifactPtr)))
    (h : createOutputs host product rule tp inputs s = (r, s')) :
    R s s' ∧ ∀ outputArtifacts ruleArtifactArtifactMap,
      r = .ok (outputArtifacts, ruleArtifactArtifactMap) → ∀ o ∈ outputArtifacts, Q o s' := by
  have hone : ∀ ra seen s r s',
      createOutputArtifactFromRuleArtifact host product rule tp ra inputs seen s = (r, s') →
        R s s' ∧ ∀ a seen', r = .ok (a, seen') → Q a s' := by
    intro ra seen s r s' h
    unfold createOutputArtifactFromRuleArtifact at h
    simp only at h
    split at h
    · simp only [Prod.mk.injEq] at h
      obtain ⟨rfl, rfl⟩ := h
      exact ⟨hrefl _, fun a seen' he => by simp at he⟩
    · split at h
      · simp only [Prod.mk.injEq] at h
        obtain ⟨rfl, rfl⟩ := h
        exact ⟨hrefl _, fun a seen' he => by simp at he⟩
      · split at h
        · rename_i e s1 hc
          simp only [Prod.mk.injEq] at h
          obtain ⟨rfl, rfl⟩ := h
          exact ⟨(hcreate _ _ _ _ _ _ hc).1, fun a seen' he => by simp at he⟩
        · rename_i a s1 hc
          simp only [Prod.mk.injEq] at h
          obtain ⟨rfl, rfl⟩ := h
          refine ⟨(hcreate _ _ _ _ _ _ hc).1, fun a' seen' he => ?_⟩
          simp only [Except.ok.injEq, Prod.mk.injEq] at he
          rw [← he.1]
          exact (hcreate _ _ _ _ _ _ hc).2 a rfl
  have hstatic : ∀ (ras : List RuleArtifact) seen acc s r s',
      createOutputArtifactsFromRuleArtifacts host product rule tp inputs ras seen acc s
        = (r, s') → (∀ p ∈ acc, Q p.2 s) →
        R s s' ∧ ∀ m, r = .ok m → ∀ p ∈ m, Q p.2 s' := by
    intro ras
    induction ras with
    | nil =>
      intro seen acc s r s' h hacc
      simp only [createOutputArtifactsFromRuleArtifacts, Prod.mk.injEq] at h
      obtain ⟨rfl, rfl⟩ := h
      refine ⟨hrefl _, fun m hm p hp => ?_⟩
      simp only [Except.ok.injEq] at hm
      exact hacc p (hm ▸ hp)
    | cons ra rest ih =>
      intro seen acc s r s' h hacc
      simp only [createOutputArtifactsFromRuleArtifacts] at h
      split at h
      · rename_i e s1 hc
        simp only [Prod.mk.injEq] at h
        obtain ⟨rfl, rfl⟩ := h
        exact ⟨(hone _ _ _ _ _ hc).1, fun m hm => by simp at hm⟩
      · rename_i a seen1 s1 hc
        obtain ⟨h1, h2⟩ := hone _ _ _ _ _ hc
        have hacc' : ∀ p ∈ acc ++ [(ra, a)], Q p.2 s1 := by
          intro p hp
          rcases List.mem_append.1 hp with hp | hp
          · exact hstable _ _ _ h1 (hacc p hp)
          · simp only [List.mem_singleton] at hp
            subst hp
            exact h2 a seen1 rfl
        obtain ⟨k1, k2⟩ := ih _ _ _ _ _ h hacc'
        exact ⟨htrans _ _ _ h1 k1, k2⟩
  have hvalue : ∀ obj s r s',
      createOutputArtifactFromScriptValue host product rule tp obj inputs s = (r, s') →
        R s s' ∧ ∀ a, r = .ok a → Q a s' := by
    intro obj s r s' h
    unfold createOutputArtifactFromScriptValue at h
    split at h
    · simp only [Prod.mk.injEq] at h
      obtain ⟨rfl, rfl⟩ := h
      exact ⟨hrefl _, fun a he => by simp at he⟩
    · simp only at h
      split at h
      · simp only [Prod.mk.injEq] at h
        obtain ⟨rfl, rfl⟩ := h
        exact ⟨hrefl _, fun a he => by simp at he⟩
      · split at h
        · rename_i e s1 hc
          simp only [Prod.mk.injEq] at h
          obtain ⟨rfl, rfl⟩ := h
          exact ⟨(hcreate _ _ _ _ _ _ hc).1, fun a he => by simp at he⟩
        · rename_i a s1 hc
          obtain ⟨h1, h2⟩ := hcreate _ _ _ _ _ _ hc
          split at h
          · simp only [Prod.mk.injEq] at h
            obtain ⟨rfl, rfl⟩ := h
            exact ⟨h1, fun a he => by simp at he⟩
          · simp only [Prod.mk.injEq] at h
            obtain ⟨rfl, rfl⟩ := h
            have h3 := hscript a obj s1
            refine ⟨htrans _ _ _ h1 h3, fun a' he => ?_⟩
            simp only [Except.ok.injEq] at he
            subst he
            exact hstable _ _ _ h3 (h2 a rfl)
  have hdynamic : ∀ (items : List ScriptValue) i lst s r s',
      createOutputArtifactsFromScriptValues host product rule tp inputs items i lst s
        = (r, s') → (∀ o ∈ lst, Q o s) →
        R s s' ∧ ∀ l, r = .ok l → ∀ o ∈ l, Q o s' := by
    intro items
    induction items with
    | nil =>
      intro i lst s r s' h hacc
      simp only [createOutputArtifactsFromScriptValues, Prod.mk.injEq] at h
      obtain ⟨rfl, rfl⟩ := h
      refine ⟨hrefl _, fun l hl o ho => ?_⟩
      simp only [Except.ok.injEq] at hl
      exact hacc o (hl ▸ ho)
    | cons obj rest ih =>
      intro i lst s r s' h hacc
      simp only [createOutputArtifactsFromScriptValues] at h
      split at h
      · rename_i a s1 hc
        obtain ⟨h1, h2⟩ := hvalue _ _ _ _ hc
        have hacc' : ∀ o ∈ lst ++ [a], Q o s1 := by
          intro o ho
          rcases List.mem_append.1 ho with ho | ho
          · exact hstable _ _ _ h1 (hacc o ho)
          · simp only [List.mem_singleton] at ho
            subst ho
            exact h2 _ rfl
        obtain ⟨k1, k2⟩ := ih _ _ _ _ _ h hacc'
        exact ⟨htrans _ _ _ h1 k1, k2⟩
      · rename_i roae s1 hc
        simp only [Prod.mk.injEq] at h
        obtain ⟨rfl, rfl⟩ := h
        exact ⟨(hvalue _ _ _ _ hc).1, fun l hl => by simp at hl⟩
      · rename_i e s1 _ hc
        simp only [Prod.mk.injEq] at h
        obtain ⟨rfl, rfl⟩ := h
        exact ⟨(hvalue _ _ _ _ hc).1, fun l hl => by simp at hl⟩
  have hrun : ∀ s r s', runOutputArtifactsScript host product rule tp inputs s = (r, s') →
      R s s' ∧ ∀ l, r = .ok l → ∀ o ∈ l, Q o s' := by
    intro s r s' h
    unfold runOutputArtifactsScript at h
    split at h
    · simp only [Prod.mk.injEq] at h
      obtain ⟨rfl, rfl⟩ := h
      exact ⟨hrefl _, fun l hl => by simp at hl⟩
    · simp only [Prod.mk.injEq] at h
      obtain ⟨rfl, rfl⟩ := h
      exact ⟨hrefl _, fun l hl => by simp at hl⟩
    · exact hdynamic _ _ _ _ _ _ h (fun o ho => absurd ho (List.not_mem_nil _))
    · simp only [Prod.mk.injEq] at h
      obtain ⟨rfl, rfl⟩ := h
      exact ⟨hrefl _, fun l hl => by simp at hl⟩
  unfold createOutputs at h
  split at h
  · split at h
    · rename_i e s1 hc
      simp only [Prod.mk.injEq] at h
      obtain ⟨rfl, rfl⟩ := h
      exact ⟨(hrun _ _ _ hc).1, fun o m he => by simp at he⟩
    · rename_i l s1 hc
      simp only [Prod.mk.injEq] at h
      obtain ⟨rfl, rfl⟩ := h
      refine ⟨(hrun _ _ _ hc).1, fun outs m he o ho => ?_⟩
      simp only [Except.ok.injEq, Prod.mk.injEq] at he
      exact (hrun _ _ _ hc).2 l rfl o (he.1 ▸ ho)
  · split at h
    · rename_i e s1 hc
      simp only [Prod.mk.injEq] at h
      obtain ⟨rfl, rfl⟩ := h
      exact ⟨(hstatic _ _ _ _ _ _ hc (fun p hp => absurd hp (List.not_mem_nil _))).1,
        fun o m he => by simp at he⟩
    · rename_i m s1 hc
      obtain ⟨h1, h2⟩ := hstatic _ _ _ _ _ _ hc (fun p hp => absurd hp (List.not_mem_nil _))
      split at h
      · split at h
        · rename_i e s2 hc2
          simp only [Prod.mk.injEq] at h
          obtain ⟨rfl, rfl⟩ := h
          exact ⟨htrans _ _ _ h1 (hone _ _ _ _ _ hc2).1, fun o m he => by simp at he⟩
        · rename_i a x s2 hc2
          simp only [Prod.mk.injEq] at h
          obtain ⟨rfl, rfl⟩ := h
          refine ⟨htrans _ _ _ h1 (hone _ _ _ _ _ hc2).1, fun outs m' he o ho => ?_⟩
          simp only [Except.ok.injEq, Prod.mk.injEq] at he
          rw [← he.1] at ho
          simp only [List.mem_singleton] at ho
          subst ho
          exact (hone _ _ _ _ _ hc2).2 _ _ rfl
      · simp only [Prod.mk.injEq] at h
        obtain ⟨rfl, rfl⟩ := h
        refine ⟨h1, fun outs m' he o ho => ?_⟩
        simp only [Except.ok.injEq, Prod.mk.injEq] at he
        rw [← he.1] at ho
        obtain ⟨p, hp, rfl⟩ := List.mem_map.1 ho
        exact h2 m rfl p hp


/-! ## Change tracking -/

theorem lookupOrCreateOutput_invalidated (product : ResolvedProduct) (rule : RuleConstPtr)
    (tp : TransformerPtr) (outputPath : String) (inputs : ArtifactSet) (s s' : State)
    (r : Except Exception ArtifactPtr)
    (h : lookupOrCreateOutput product rule tp outputPath inputs s = (r, s')) :
    s'.m_invalidatedArtifacts = s.m_invalidatedArtifacts := by
  unfold lookupOrCreateOutput at h
  split at h
  · split at h
    · split at h
      · simp only [Prod.mk.injEq] at h; rw [← h.2]
      · split at h
        · split at h
          · simp only [Prod.mk.injEq] at h; rw [← h.2]
          · split at h
            · simp only [Prod.mk.injEq] at h; rw [← h.2]
            · simp only [Prod.mk.injEq] at h; rw [← h.2]
        · simp only [Prod.mk.injEq] at h; rw [← h.2]
    · simp only [Prod.mk.injEq] at h; rw [← h.2]
  · simp only [Prod.mk.injEq] at h; rw [← h.2]

theorem createOutputArtifact_invalidated (host : ScriptHost) (product : ResolvedProduct)
    (rule : RuleConstPtr) (tp : TransformerPtr) (filePath : String) (fileTags : FileTags)
    (alwaysUpdated : Bool) (inputs : ArtifactSet) (s s' : State)
    (r : Except Exception ArtifactPtr)
    (h : createOutputArtifact host product rule tp filePath fileTags alwaysUpdated inputs s
      = (r, s')) :
    s'.m_invalidatedArtifacts = s.m_invalidatedArtifacts := by
  unfold createOutputArtifact at h
  simp only at h
  split at h
  · rename_i e s1 hl
    simp only [Prod.mk.injEq] at h
    rw [← h.2]
    exact lookupOrCreateOutput_invalidated _ _ _ _ _ _ _ _ hl
  · rename_i a s1 hl
    have h1 := lookupOrCreateOutput_invalidated _ _ _ _ _ _ _ _ hl
    split at h
    · simp only [Prod.mk.injEq] at h; rw [← h.2]; exact h1
    · split at h
      · simp only [Prod.mk.injEq] at h; rw [← h.2]; exact h1
      · simp only [Prod.mk.injEq] at h; rw [← h.2]; exact h1

theorem createOutputs_invalidated (host : ScriptHost) (product : ResolvedProduct)
    (rule : RuleConstPtr) (tp : TransformerPtr) (inputs : ArtifactSet) (s s' : State)
    (r : Except Exception (List ArtifactPtr × List (RuleArtifact × ArtifactPtr)))
    (h : createOutputs host product rule tp inputs s = (r, s')) :
    s'.m_invalidatedArtifacts = s.m_invalidatedArtifacts :=
  (createOutputs_traverse host product rule tp inputs
    (fun s s' => s'.m_invalidatedArtifacts = s.m_invalidatedArtifacts) (fun _ _ => True)
    (fun _ => rfl) (fun _ _ _ h1 h2 => h2.trans h1) (fun _ _ _ _ _ => trivial)
    (fun _ _ _ _ _ _ hc => ⟨createOutputArtifact_invalidated _ _ _ _ _ _ _ _ _ _ _ hc,
      fun _ _ => trivial⟩)
    (fun _ _ _ => rfl) s s' r h).1

theorem evaluateArtifactBindings_members (host : ScriptHost)
    (pairs : List (RuleArtifact × ArtifactPtr)) (s s' : State) (r : Except Exception Unit)
    (h : evaluateArtifactBindings host pairs s = (r, s')) :
    s'.m_invalidatedArtifacts = s.m_invalidatedArtifacts
      ∧ s'.m_oldTransformer = s.m_oldTransformer
      ∧ s'.m_createdArtifacts = s.m_createdArtifacts := by
  induction pairs generalizing s with
  | nil =>
    simp only [evaluateArtifactBindings, Prod.mk.injEq] at h
    rw [← h.2]
    exact ⟨rfl, rfl, rfl⟩
  | cons p rest ih =>
    obtain ⟨ra, a⟩ := p
    simp only [evaluateArtifactBindings] at h
    split at h
    · exact ih _ h
    · split at h
      · simp only [Prod.mk.injEq] at h
        rw [← h.2]
        exact ⟨rfl, rfl, rfl⟩
      · have h2 := ih _ h
        exact ⟨h2.1, h2.2.1, h2.2.2⟩

theorem invalidateOutputs_spec (outputArtifacts : List ArtifactPtr) :
    ∀ s : State,
      (∀ x, x ∈ (invalidateOutputs outputArtifacts s).m_invalidatedArtifacts ↔
        (x ∈ s.m_invalidatedArtifacts ∨ x ∈ outputArtifacts))
      ∧ (∀ q art', (invalidateOutputs outputArtifacts s).graph.artifact q = some art' →
          (q ∈ outputArtifacts ∨ ∃ art, s.graph.artifact q = some art ∧ art.timestamp = none) →
          art'.timestamp = none)
      ∧ (invalidateOutputs outputArtifacts s).graph.transformers = s.graph.transformers := by
  induction outputArtifacts with
  | nil =>
    intro s
    refine ⟨by simp [invalidateOutputs], ?_, rfl⟩
    intro q art' hq h
    rcases h with h | ⟨art, ha, ht⟩
    · simp at h
    · simp only [invalidateOutputs, List.foldl_nil] at hq
      rw [ha] at hq
      simp only [Option.some.injEq] at hq
      exact hq ▸ ht
  | cons o rest ih =>
    intro s
    obtain ⟨h1, h2, h3⟩ := ih
      { s with
        graph := s.graph.modifyArtifact o (fun a => { a with timestamp := none }),
        m_invalidatedArtifacts := setInsert s.m_invalidatedArtifacts o }
    have hunfold : invalidateOutputs (o :: rest) s = invalidateOutputs rest
        { s with
          graph := s.graph.modifyArtifact o (fun a => { a with timestamp := none }),
          m_invalidatedArtifacts := setInsert s.m_invalidatedArtifacts o } := rfl
    rw [hunfold]
    refine ⟨fun x => ?_, ?_, ?_⟩
    · rw [h1 x, mem_setInsert, List.mem_cons]
      constructor
      · rintro ((h | h) | h)
        · exact Or.inl h
        · exact Or.inr (Or.inl h)
        · exact Or.inr (Or.inr h)
      · rintro (h | h | h)
        · exact Or.inl (Or.inl h)
        · exact Or.inl (Or.inr h)
        · exact Or.inr h
    · intro q art' hq h
      apply h2 q art' hq
      by_cases hmem : q ∈ rest
      · exact Or.inl hmem
      · right
        simp only [BuildGraph.artifact, BuildGraph.modifyArtifact, heapGet_heapModify]
        by_cases hqo : q = o
        · subst hqo
          simp only [if_true]
          cases hg : heapGet s.graph.artifacts q with
          | none =>
            have hx := (heapGet_heapModify_map (fun a => a.filePath)
              (fun a => { a with timestamp := none }) (fun _ => rfl) s.graph.artifacts q q)
            have hrest : ((invalidateOutputs rest
                { s with
                  graph := s.graph.modifyArtifact q (fun a => { a with timestamp := none }),
                  m_invalidatedArtifacts := setInsert s.m_invalidatedArtifacts q }).graph.artifact
                    q).map (fun a => a.filePath) = none := by
              have hk := invalidateOutputs_key rest
                { s with
                  graph := s.graph.modifyArtifact q (fun a => { a with timestamp := none }),
                  m_invalidatedArtifacts := setInsert s.m_invalidatedArtifacts q } q
              have hk2 : ((invalidateOutputs rest
                  { s with
                    graph := s.graph.modifyArtifact q (fun a => { a with timestamp := none }),
                    m_invalidatedArtifacts := setInsert s.m_invalidatedArtifacts q }).graph.artifact
                      q).map Artifact.key = none := by
                rw [hk]
                simp only [BuildGraph.artifact, BuildGraph.modifyArtifact, heapGet_heapModify,
                  if_true, hg, Option.map_none']
              cases hc : (invalidateOutputs rest
                  { s with
                    graph := s.graph.modifyArtifact q (fun a => { a with timestamp := none }),
                    m_invalidatedArtifacts := setInsert s.m_invalidatedArtifacts q }).graph.artifact
                      q with
              | none => rfl
              | some v => rw [hc] at hk2; simp at hk2
            rw [hq] at hrest
            simp at hrest
          | some art => exact ⟨_, rfl, rfl⟩
        · simp only [hqo, if_false]
          rcases h with h | h
          · rcases List.mem_cons.1 h with h | h
            · exact absurd h hqo
            · exact absurd h hmem
          · exact h
    · rw [h3]
      rfl


theorem outputsNeedInvalidation_iff (host : ScriptHost) (tp : TransformerPtr) (s : State)
    (t : Transformer) (ht : s.graph.transformer tp = some t) :
    outputsNeedInvalidation host tp s = true ↔ ChangeDetected host tp s := by
  unfold outputsNeedInvalidation ChangeDetected
  cases hold : s.m_oldTransformer.bind s.graph.transformer with
  | none => simp
  | some old =>
    simp only [ht, Bool.or_eq_true, Bool.not_eq_true', decide_eq_true_eq, reduceCtorEq,
      false_or, Option.some.injEq, exists_and_left, exists_eq_left', ← setEq_iff,
      Bool.not_eq_true, or_assoc]

/-- The transformer that `doApply` creates is there in every later state of the application
whose transformers have the rules and inputs of those after the creation. -/
theorem transformer_of_instances (s sT : State) (rule : RuleConstPtr) (inputs : ArtifactSet)
    (h : ruleInstances sT = ruleInstances s ++ [(rule, inputs)]) :
    ∃ t, sT.graph.transformer s.graph.transformers.length = some t := by
  have hlen : sT.graph.transformers.length = s.graph.transformers.length + 1 := by
    have := congrArg List.length h
    simpa [ruleInstances] using this
  cases hg : sT.graph.transformers[s.graph.transformers.length]? with
  | none =>
    have := List.getElem?_eq_none_iff.1 hg
    omega
  | some t => exact ⟨t, hg⟩

theorem storeModify_getElem? (l : List Transformer) (p : Nat) (f : Transformer → Transformer) :
    (storeModify l p f)[p]? = (l[p]?).map f := by
  induction l generalizing p with
  | nil => cases p <;> rfl
  | cons t rest ih =>
    cases p with
    | zero => simp [storeModify]
    | succ p => simp [storeModify, ih]

theorem storeModify_length (f : Transformer → Transformer) :
    ∀ (l : List Transformer) (p : Nat), (storeModify l p f).length = l.length := by
  intro l
  induction l with
  | nil => intro p; cases p <;> rfl
  | cons t rest ih =>
    intro p
    cases p with
    | zero => rfl
    | succ p => simp [storeModify, ih]

theorem removal_fold_transformers_length (host : ScriptHost)
    (hremove : RemovalKeepsTransformers host) (toRemove : ArtifactSet) :
    ∀ (acc : ArtifactSet) (g : BuildGraph),
      g.transformers.length ≤ (toRemove.foldl (fun (acc : ArtifactSet × BuildGraph)
        removedArtifact => host.removeArtifactAndExclusiveDependents removedArtifact acc.1 acc.2)
        (acc, g)).2.transformers.length := by
  induction toRemove with
  | nil => intro acc g; exact Nat.le_refl _
  | cons a rest ih =>
    intro acc g
    simp only [List.foldl_cons]
    exact Nat.le_trans (hremove a acc g) (ih _ _)

theorem handleRemovedRuleOutputs_transformers_length (host : ScriptHost)
    (hremove : RemovalKeepsTransformers host) (inputs toRemove : ArtifactSet)
    (g g' : BuildGraph) (r : Except Exception Unit)
    (h : handleRemovedRuleOutputs host inputs toRemove g = (r, g')) :
    g.transformers.length ≤ g'.transformers.length := by
  unfold handleRemovedRuleOutputs at h
  simp only at h
  rw [deleteRemovedArtifacts_transformers _ _ _ _ _ h]
  exact removal_fold_transformers_length host hremove _ _ _

theorem invalidateOutputs_artifact_other (outputArtifacts : List ArtifactPtr) (x : ArtifactPtr)
    (hx : x ∉ outputArtifacts) :
    ∀ s : State, (invalidateOutputs outputArtifacts s).graph.artifact x = s.graph.artifact x := by
  induction outputArtifacts with
  | nil => intro s; rfl
  | cons o rest ih =>
    intro s
    have e : invalidateOutputs (o :: rest) s = invalidateOutputs rest
        { s with
          graph := s.graph.modifyArtifact o (fun a => { a with timestamp := none }),
          m_invalidatedArtifacts := setInsert s.m_invalidatedArtifacts o } := rfl
    rw [e, ih (fun hr => hx (List.mem_cons_of_mem _ hr))]
    have hne : x ≠ o := fun hxo => hx (hxo ▸ List.mem_cons_self _ _)
    simp only [BuildGraph.artifact, BuildGraph.modifyArtifact, heapGet_heapModify, if_neg hne]

/-- C13: a `doApply` that returns normally has created the outputs `outputArtifacts` and removed
the old outputs; without outputs it ends there. With outputs it reaches the change tracking in
the state `sT`, which is the state after the bindings were evaluated (`s4`) with the commands
that `createCommands` made put into the new transformer, and the final state is the result of
the change tracking on `sT`. In `sT` the prior transformer is the one recorded when the outputs
were created and the invalidated set is still that before the call. If, in `sT`, no prior
transformer was found, or the outputs, inputs, explicit dependencies or commands of the prior
transformer differ from those of the new transformer, or `commandsNeedRerun` returns true, then
every output is in the invalidated set afterwards and has its timestamp cleared, the
invalidated set has grown by the outputs and nothing else, and no other artifact is touched;
otherwise the invalidated set is the one before the call and no artifact is touched. In both
cases the new transformer is the one of `sT` with `commandsNeedChangeTracking` false. The
removal helper is assumed to destroy no transformer. -/
theorem doApply_change_tracking (host : ScriptHost) (hremove : RemovalKeepsTransformers host)
    (product : ResolvedProduct) (rule : RuleConstPtr) (inputArtifacts : ArtifactSet)
    (s s' : State) (h : doApply host product rule inputArtifacts s = (.ok (), s')) :
    ∃ outputArtifacts ruleArtifactArtifactMap s1 oldOutputs g2,
      createOutputs host product rule s.graph.transformers.length inputArtifacts
          (createTransformer product rule inputArtifacts s)
        = (.ok (outputArtifacts, ruleArtifactArtifactMap), s1)
      ∧ collectOldOutputArtifacts rule s1.graph inputArtifacts [] = .ok oldOutputs
      ∧ handleRemovedRuleOutputs host s1.m_completeInputSet
          (setMinus oldOutputs (setFromList outputArtifacts)) s1.graph = (.ok (), g2)
      ∧ (outputArtifacts = [] → s' = { s1 with graph := g2 })
      ∧ (outputArtifacts ≠ [] → ∃ s4 commands sT,
          evaluateArtifactBindings host ruleArtifactArtifactMap.reverse
              (connectExplicitlyDependsOn s.graph.transformers.length outputArtifacts
                { s1 with graph := g2 }) = (.ok (), s4)
          ∧ host.createCommands s.graph.transformers.length s4 = .ok commands
          ∧ sT = setCommands s.graph.transformers.length commands s4
          ∧ s' = trackChanges host s.graph.transformers.length outputArtifacts sT
          ∧ sT.m_oldTransformer = s1.m_oldTransformer
          ∧ sT.m_invalidatedArtifacts = s.m_invalidatedArtifacts
          ∧ (ChangeDetected host s.graph.transformers.length sT →
              (∀ o ∈ outputArtifacts, o ∈ s'.m_invalidatedArtifacts
                ∧ ∀ art, s'.graph.artifact o = some art → art.timestamp = none)
              ∧ (∀ x, x ∈ s'.m_invalidatedArtifacts ↔
                  (x ∈ s.m_invalidatedArtifacts ∨ x ∈ outputArtifacts))
              ∧ ∀ x, x ∉ outputArtifacts → s'.graph.artifact x = sT.graph.artifact x)
          ∧ (¬ ChangeDetected host s.graph.transformers.length sT →
              s'.m_invalidatedArtifacts = s.m_invalidatedArtifacts
                ∧ s'.graph.artifacts = sT.graph.artifacts)
          ∧ ∃ t, sT.graph.transformer s.graph.transformers.length = some t
              ∧ t.commands = commands
              ∧ s'.graph.transformer s.graph.transformers.length
                  = some { t with commandsNeedChangeTracking := false }) := by
  obtain ⟨outs, m, s1, old, g2, hc, hold, hrem, hcase⟩ :=
    doApply_ok_steps host product rule inputArtifacts s s' h
  refine ⟨outs, m, s1, old, g2, hc, hold, hrem, fun he => ?_, fun hne => ?_⟩
  · rcases hcase with ⟨-, hs⟩ | ⟨hne, -⟩
    · exact hs
    · exact absurd he hne
  rcases hcase with ⟨he, -⟩ | ⟨-, s4, commands, hb, hcmd, -, hs'⟩
  · exact absurd he hne
  refine ⟨s4, commands, setCommands s.graph.transformers.length commands s4, hb, hcmd, rfl, hs',
    ?_⟩
  obtain ⟨b1, b2, -⟩ := evaluateArtifactBindings_members host _ _ _ _ hb
  have hinv : s4.m_invalidatedArtifacts = s.m_invalidatedArtifacts := by
    have e := createOutputs_invalidated host product rule _ _ _ _ _ hc
    exact b1.trans e
  have hlen4 : s.graph.transformers.length < s4.graph.transformers.length := by
    have e1 : ruleInstances s1 = ruleInstances (createTransformer product rule inputArtifacts s) :=
      createOutputs_instances host product rule _ _ _ _ _ hc
    have l1 : s1.graph.transformers.length = s.graph.transformers.length + 1 := by
      have := congrArg List.length e1
      simpa [ruleInstances, createTransformer] using this
    have l2 := handleRemovedRuleOutputs_transformers_length host hremove _ _ _ _ _ hrem
    have e3 := evaluateArtifactBindings_transformers host _ _ _ _ hb
    have l3 : s4.graph.transformers.length = g2.transformers.length := by
      rw [e3]
      simp only [connectExplicitlyDependsOn]
      rw [connect_outputs_transformers]
    omega
  obtain ⟨t4, ht4⟩ : ∃ t4, s4.graph.transformers[s.graph.transformers.length]? = some t4 := by
    cases hg : s4.graph.transformers[s.graph.transformers.length]? with
    | none =>
      have := List.getElem?_eq_none_iff.1 hg
      omega
    | some t => exact ⟨t, rfl⟩
  have ht : (setCommands s.graph.transformers.length commands s4).graph.transformer
      s.graph.transformers.length = some { t4 with commands := commands } := by
    simp only [setCommands, BuildGraph.transformer, BuildGraph.modifyTransformer,
      storeModify_getElem?, ht4, Option.map_some']
  have hiff := outputsNeedInvalidation_iff host s.graph.transformers.length _ _ ht
  refine ⟨b2, hinv, ?_, ?_, ?_⟩
  · intro hcd
    have hneed := hiff.2 hcd
    obtain ⟨i1, i2, -⟩ := invalidateOutputs_spec outs
      (setCommands s.graph.transformers.length commands s4)
    rw [hs']
    simp only [trackChanges, hneed, if_true]
    refine ⟨fun o ho => ⟨(i1 o).2 (Or.inr ho), fun art hart => ?_⟩, fun x => ?_, fun x hx => ?_⟩
    · exact i2 o art hart (Or.inl ho)
    · rw [i1 x]
      exact or_congr_left (by rw [← hinv]; rfl)
    · exact invalidateOutputs_artifact_other outs x hx _
  · intro hcd
    have hneed : outputsNeedInvalidation host s.graph.transformers.length
        (setCommands s.graph.transformers.length commands s4) = false := by
      cases hn : outputsNeedInvalidation host s.graph.transformers.length
        (setCommands s.graph.transformers.length commands s4) with
      | false => rfl
      | true => exact absurd (hiff.1 hn) hcd
    rw [hs']
    simp only [trackChanges, hneed, Bool.false_eq_true, if_false]
    exact ⟨hinv, rfl⟩
  · refine ⟨_, ht, rfl, ?_⟩
    rw [hs']
    have hlen : ∀ sx : State, sx.graph.transformers =
        (setCommands s.graph.transformers.length commands s4).graph.transformers →
        (sx.graph.modifyTransformer s.graph.transformers.length
          (fun t => { t with commandsNeedChangeTracking := false })).transformer
            s.graph.transformers.length
          = some { ({ t4 with commands := commands } : Transformer) with
              commandsNeedChangeTracking := false } := by
      intro sx hsx
      have ht' : (setCommands s.graph.transformers.length commands s4).graph.transformers[
          s.graph.transformers.length]? = some { t4 with commands := commands } := ht
      simp only [BuildGraph.transformer, BuildGraph.modifyTransformer, storeModify_getElem?,
        hsx, ht', Option.map_some']
    simp only [trackChanges]
    split
    · exact hlen _ (invalidateOutputs_spec outs _).2.2
    · exact hlen _ rfl

/-- C13, on two examples. The example rule applied to `a.cpp` creates `a.o` (at address 2) with
no prior transformer, so `a.o` is invalidated. Applied a second time, the rule finds the prior
transformer of `a.o` (at address 0), which has the outputs, inputs, explicit dependencies and
commands of the new one (at address 1): nothing is invalidated. -/
theorem doApply_change_tracking_witness :
    (∃ outputArtifacts ruleArtifactArtifactMap s1 oldOutputs g2,
      createOutputs (demoHost []) (demoProduct false [] [])
          (demoRule 1 true false [demoRuleArtifact "a.o"]) demoStateBegun.graph.transformers.length
          [0]
          (createTransformer (demoProduct false [] [])
            (demoRule 1 true false [demoRuleArtifact "a.o"]) [0] demoStateBegun)
        = (.ok (outputArtifacts, ruleArtifactArtifactMap), s1)
      ∧ collectOldOutputArtifacts (demoRule 1 true false [demoRuleArtifact "a.o"]) s1.graph [0] []
          = .ok oldOutputs
      ∧ handleRemovedRuleOutputs (demoHost []) s1.m_completeInputSet
          (setMinus oldOutputs (setFromList outputArtifacts)) s1.graph = (.ok (), g2)
      ∧ (outputArtifacts = [] → demoApplied.2 = { s1 with graph := g2 })
      ∧ (outputArtifacts ≠ [] → ∃ s4 commands sT,
          evaluateArtifactBindings (demoHost []) ruleArtifactArtifactMap.reverse
              (connectExplicitlyDependsOn demoStateBegun.graph.transformers.length
                outputArtifacts { s1 with graph := g2 }) = (.ok (), s4)
          ∧ (demoHost []).createCommands demoStateBegun.graph.transformers.length s4
              = .ok commands
          ∧ sT = setCommands demoStateBegun.graph.transformers.length commands s4
          ∧ demoApplied.2 = trackChanges (demoHost []) demoStateBegun.graph.transformers.length
              outputArtifacts sT
          ∧ sT.m_oldTransformer = s1.m_oldTransformer
          ∧ sT.m_invalidatedArtifacts = demoStateBegun.m_invalidatedArtifacts
          ∧ (ChangeDetected (demoHost []) demoStateBegun.graph.transformers.length sT →
              (∀ o ∈ outputArtifacts, o ∈ demoApplied.2.m_invalidatedArtifacts
                ∧ ∀ art, demoApplied.2.graph.artifact o = some art → art.timestamp = none)
              ∧ (∀ x, x ∈ demoApplied.2.m_invalidatedArtifacts ↔
                  (x ∈ demoStateBegun.m_invalidatedArtifacts ∨ x ∈ outputArtifacts))
              ∧ ∀ x, x ∉ outputArtifacts →
                  demoApplied.2.graph.artifact x = sT.graph.artifact x)
          ∧ (¬ ChangeDetected (demoHost []) demoStateBegun.graph.transformers.length sT →
              demoApplied.2.m_invalidatedArtifacts = demoStateBegun.m_invalidatedArtifacts
                ∧ demoApplied.2.graph.artifacts = sT.graph.artifacts)
          ∧ ∃ t, sT.graph.transformer demoStateBegun.graph.transformers.length = some t
              ∧ t.commands = commands
              ∧ demoApplied.2.graph.transformer demoStateBegun.graph.transformers.length
                  = some { t with commandsNeedChangeTracking := false }))
      ∧ demoApplied.2.m_invalidatedArtifacts = [2]
      ∧ demoApplied.2.m_oldTransformer = none
      ∧ demoReapplied.2.m_invalidatedArtifacts = []
      ∧ demoReapplied.2.m_oldTransformer = some 0
      ∧ (demoReapplied.2.graph.transformers.map
          (fun t => (t.inputs, t.outputs, t.explicitlyDependsOn, t.commands,
            t.commandsNeedChangeTracking)))
        = [([0], [2], [], ["command"], false), ([0], [2], [], ["command"], false)] := by
  have h : doApply (demoHost []) (demoProduct false [] [])
      (demoRule 1 true false [demoRuleArtifact "a.o"]) [0] demoStateBegun
        = (.ok (), demoApplied.2) := by
    show demoApplied = (.ok (), demoApplied.2)
    exact Prod.ext rfl rfl
  exact ⟨doApply_change_tracking (demoHost []) (fun _ _ _ => Nat.le_refl _)
    (demoProduct false [] []) (demoRule 1 true false [demoRuleArtifact "a.o"]) [0]
    demoStateBegun demoApplied.2 h, by decide, by decide, by decide, by decide, by decide⟩


/-! ## Graphs that grow -/

theorem graphGrows_refl (tp : TransformerPtr) (g : BuildGraph) : GraphGrows tp g g :=
  ⟨fun _ art h => ⟨art, h, fun _ hc => hc, fun ht => ht⟩,
    fun t h => ⟨t, h, fun _ ho => ho, rfl, rfl⟩, fun t2 h => ⟨t2, h⟩⟩

theorem graphGrows_trans (tp : TransformerPtr) (g1 g2 g3 : BuildGraph)
    (h12 : GraphGrows tp g1 g2) (h23 : GraphGrows tp g2 g3) : GraphGrows tp g1 g3 := by
  refine ⟨fun x art h => ?_, fun t h => ?_, fun t3 h => ?_⟩
  · obtain ⟨art2, h2, c2, t2⟩ := h12.1 x art h
    obtain ⟨art3, h3, c3, t3⟩ := h23.1 x art2 h2
    exact ⟨art3, h3, fun c hc => c3 c (c2 c hc), fun ht => t3 (t2 ht)⟩
  · obtain ⟨t2, h2, o2, i2, e2⟩ := h12.2.1 t h
    obtain ⟨t3, h3, o3, i3, e3⟩ := h23.2.1 t2 h2
    exact ⟨t3, h3, fun o ho => o3 o (o2 o ho), i3.trans i2, e3.trans e2⟩
  · obtain ⟨t2, h2⟩ := h23.2.2 t3 h
    exact h12.2.2 t2 h2

theorem graphGrows_modifyArtifact (tp : TransformerPtr) (g : BuildGraph) (p : ArtifactPtr)
    (f : Artifact → Artifact)
    (hf : ∀ a, (∀ c ∈ a.children, c ∈ (f a).children)
      ∧ (a.transformer = some tp → (f a).transformer = some tp)) :
    GraphGrows tp g (g.modifyArtifact p f) := by
  refine ⟨fun x art h => ?_, fun t h => ⟨t, h, fun _ ho => ho, rfl, rfl⟩,
    fun t2 h => ⟨t2, h⟩⟩
  simp only [BuildGraph.artifact, BuildGraph.modifyArtifact, heapGet_heapModify]
  by_cases hx : x = p
  · subst hx
    have h' : heapGet g.artifacts x = some art := h
    simp only [if_true, h', Option.map_some']
    exact ⟨f art, rfl, (hf art).1, (hf art).2⟩
  · simp only [hx, if_false]
    exact ⟨art, h, fun _ hc => hc, fun ht => ht⟩

theorem storeModify_getElem?_ne (f : Transformer → Transformer) :
    ∀ (l : List Transformer) (a b : Nat), a ≠ b → (storeModify l b f)[a]? = l[a]? := by
  intro l
  induction l with
  | nil => intro a b _; cases b <;> rfl
  | cons t rest ih =>
    intro a b hab
    cases b with
    | zero =>
      cases a with
      | zero => exact absurd rfl hab
      | succ a => simp [storeModify]
    | succ b =>
      cases a with
      | zero => simp [storeModify]
      | succ a => simp [storeModify, ih a b (by omega)]

theorem graphGrows_modifyTransformer (tp : TransformerPtr) (g : BuildGraph) (p : TransformerPtr)
    (f : Transformer → Transformer)
    (hf : ∀ t, (∀ o ∈ t.outputs, o ∈ (f t).outputs) ∧ (f t).inputs = t.inputs
      ∧ (f t).explicitlyDependsOn = t.explicitlyDependsOn) :
    GraphGrows tp g (g.modifyTransformer p f) := by
  refine ⟨fun x art h => ⟨art, h, fun _ hc => hc, fun ht => ht⟩, fun t h => ?_, fun t2 h => ?_⟩
  · by_cases hp : tp = p
    · subst hp
      have h' : g.transformers[tp]? = some t := h
      refine ⟨f t, ?_, (hf t).1, (hf t).2.1, (hf t).2.2⟩
      simp only [BuildGraph.transformer, BuildGraph.modifyTransformer, storeModify_getElem?, h',
        Option.map_some']
    · refine ⟨t, ?_, fun _ ho => ho, rfl, rfl⟩
      simp only [BuildGraph.transformer, BuildGraph.modifyTransformer,
        storeModify_getElem?_ne f _ tp p hp]
      exact h
  · by_cases hp : tp = p
    · subst hp
      simp only [BuildGraph.transformer, BuildGraph.modifyTransformer,
        storeModify_getElem?] at h
      cases hg : g.transformers[tp]? with
      | none => simp [hg] at h
      | some t => exact ⟨t, hg⟩
    · simp only [BuildGraph.transformer, BuildGraph.modifyTransformer,
        storeModify_getElem?_ne f _ tp p hp] at h
      exact ⟨t2, h⟩

theorem graphGrows_connect (tp : TransformerPtr) (p c : ArtifactPtr) (g : BuildGraph) :
    GraphGrows tp g (connect p c g) := by
  unfold connect
  exact graphGrows_trans tp _ _ _
    (graphGrows_modifyArtifact tp g p (fun a => { a with children := setInsert a.children c })
      (fun a => ⟨fun x hx => (mem_setInsert _ _ _).2 (Or.inl hx), fun ht => ht⟩))
    (graphGrows_modifyArtifact tp _ c (fun a => { a with parents := setInsert a.parents p })
      (fun a => ⟨fun x hx => hx, fun ht => ht⟩))

theorem graphGrows_connect_fold (tp : TransformerPtr) (p : ArtifactPtr)
    (deps : List ArtifactPtr) :
    ∀ g : BuildGraph,
      GraphGrows tp g (deps.foldl (fun g dependency => connect p dependency g) g) := by
  induction deps with
  | nil => intro g; exact graphGrows_refl tp g
  | cons d rest ih =>
    intro g
    exact graphGrows_trans tp _ _ _ (graphGrows_connect tp p d g) (ih _)

/-- After `connect(p, c)`, `c` is a child of `p` if `p` is there. -/
theorem connect_child (p c : ArtifactPtr) (g : BuildGraph) (art : Artifact)
    (h : g.artifact p = some art) :
    ∃ art2, (connect p c g).artifact p = some art2 ∧ c ∈ art2.children := by
  have h' : heapGet g.artifacts p = some art := h
  simp only [connect, BuildGraph.artifact, BuildGraph.modifyArtifact, heapGet_heapModify]
  by_cases hpc : p = c
  · subst hpc
    simp only [if_true, h', Option.map_some']
    exact ⟨_, rfl, (mem_setInsert _ _ _).2 (Or.inr rfl)⟩
  · simp only [hpc, if_false, if_true, h', Option.map_some']
    exact ⟨_, rfl, (mem_setInsert _ _ _).2 (Or.inr rfl)⟩

theorem connect_fold_children (tp : TransformerPtr) (p : ArtifactPtr)
    (deps : List ArtifactPtr) :
    ∀ (g : BuildGraph) (art : Artifact), g.artifact p = some art →
      ∃ art2, (deps.foldl (fun g dependency => connect p dependency g) g).artifact p = some art2
        ∧ ∀ d ∈ deps, d ∈ art2.children := by
  induction deps with
  | nil => intro g art h; exact ⟨art, h, by simp⟩
  | cons d rest ih =>
    intro g art h
    obtain ⟨art1, h1, hd⟩ := connect_child p d g art h
    obtain ⟨art2, h2, hrest⟩ := ih (connect p d g) art1 h1
    refine ⟨art2, h2, fun x hx => ?_⟩
    rcases List.mem_cons.1 hx with rfl | hx
    · obtain ⟨art3, h3, hc, -⟩ := (graphGrows_connect_fold tp p rest (connect p x g)).1 p art1 h1
      rw [h2] at h3
      simp only [Option.some.injEq] at h3
      exact h3 ▸ hc x hd
    · exact hrest x hx

theorem connectInputs_grows (tp : TransformerPtr) (out : ArtifactPtr)
    (inputs : List ArtifactPtr) :
    ∀ (g g2 : BuildGraph) (r : Except Exception Unit),
      connectInputs out inputs g = (r, g2) →
        GraphGrows tp g g2 ∧ (r = .ok () → ∀ art, g.artifact out = some art →
          ∃ art2, g2.artifact out = some art2 ∧ ∀ i ∈ inputs, i ∈ art2.children) := by
  induction inputs with
  | nil =>
    intro g g2 r h
    simp only [connectInputs, Prod.mk.injEq] at h
    obtain ⟨rfl, rfl⟩ := h
    exact ⟨graphGrows_refl tp g, fun _ art ha => ⟨art, ha, by simp⟩⟩
  | cons i rest ih =>
    intro g g2 r h
    simp only [connectInputs] at h
    split at h
    · simp only [Prod.mk.injEq] at h
      obtain ⟨rfl, rfl⟩ := h
      exact ⟨graphGrows_refl tp g, fun he => by simp at he⟩
    · obtain ⟨k1, k2⟩ := ih _ _ _ h
      refine ⟨graphGrows_trans tp _ _ _ (graphGrows_connect tp out i g) k1, fun hr art ha => ?_⟩
      obtain ⟨art1, h1, hi⟩ := connect_child out i g art ha
      obtain ⟨art2, h2, hrest⟩ := k2 hr art1 h1
      refine ⟨art2, h2, fun x hx => ?_⟩
      rcases List.mem_cons.1 hx with rfl | hx
      · obtain ⟨art3, h3, hc, -⟩ := k1.1 out art1 h1
        rw [h2] at h3
        simp only [Option.some.injEq] at h3
        exact h3 ▸ hc x hi
      · exact hrest x hx


theorem graphGrows_insertArtifact (tp : TransformerPtr) (product : ResolvedProduct)
    (a : Artifact) (g : BuildGraph) : GraphGrows tp g (insertArtifact product a g).2 := by
  refine ⟨fun x art h => ⟨art, ?_, fun _ hc => hc, fun ht => ht⟩,
    fun t h => ⟨t, h, fun _ ho => ho, rfl, rfl⟩, fun t2 h => ⟨t2, h⟩⟩
  have hlt := heapGet_lt_length _ _ _ h
  simp only [insertArtifact, BuildGraph.artifact]
  rw [heapGet_append_of_lt _ _ _ hlt]
  exact h

theorem setOutputProperties_children (host : ScriptHost) (product : ResolvedProduct)
    (fileTags : FileTags) (au : Bool) (a : Artifact) :
    (setOutputProperties host product fileTags au a).children = a.children
      ∧ (setOutputProperties host product fileTags au a).transformer = a.transformer := by
  unfold setOutputProperties
  simp only
  split <;> split <;> exact ⟨rfl, rfl⟩

theorem lookupOrCreateOutput_grows (product : ResolvedProduct) (rule : RuleConstPtr)
    (tp : TransformerPtr) (outputPath : String) (inputs : ArtifactSet) (s s1 : State)
    (r : Except Exception ArtifactPtr)
    (h : lookupOrCreateOutput product rule tp outputPath inputs s = (r, s1)) :
    GraphGrows tp s.graph s1.graph := by
  unfold lookupOrCreateOutput at h
  split at h
  · split at h
    · split at h
      · simp only [Prod.mk.injEq] at h; rw [← h.2]; exact graphGrows_refl tp _
      · split at h
        · split at h
          · simp only [Prod.mk.injEq] at h; rw [← h.2]; exact graphGrows_refl tp _
          · split at h
            · simp only [Prod.mk.injEq] at h; rw [← h.2]; exact graphGrows_refl tp _
            · simp only [Prod.mk.injEq] at h; rw [← h.2]; exact graphGrows_refl tp _
        · rename_i transformer _ _ _
          simp only [Prod.mk.injEq] at h
          rw [← h.2]
          exact graphGrows_modifyTransformer tp s.graph tp
            (fun t => rescueChangeTrackingData t (some transformer))
            (fun t => ⟨fun _ ho => ho, rfl, rfl⟩)
    · simp only [Prod.mk.injEq] at h; rw [← h.2]; exact graphGrows_refl tp _
  · simp only [Prod.mk.injEq] at h
    rw [← h.2]
    exact graphGrows_insertArtifact tp product _ s.graph

/-- What `createOutputArtifact` does to the graph: it grows, and the artifact returned is an
output of the transformer with the inputs among its children. -/
theorem createOutputArtifact_wired (host : ScriptHost) (product : ResolvedProduct)
    (rule : RuleConstPtr) (tp : TransformerPtr) (filePath : String) (fileTags : FileTags)
    (au : Bool) (inputs : ArtifactSet) (s s' : State) (r : Except Exception ArtifactPtr)
    (h : createOutputArtifact host product rule tp filePath fileTags au inputs s = (r, s')) :
    GraphGrows tp s.graph s'.graph ∧ ∀ a, r = .ok a → OutputWired tp inputs a s'.graph := by
  unfold createOutputArtifact at h
  simp only at h
  split at h
  · rename_i e s1 hl
    simp only [Prod.mk.injEq] at h
    obtain ⟨rfl, rfl⟩ := h
    exact ⟨lookupOrCreateOutput_grows _ _ _ _ _ _ _ _ hl, fun a he => by simp at he⟩
  · rename_i out s1 hl
    have g0 := lookupOrCreateOutput_grows _ _ tp _ _ _ _ _ hl
    obtain ⟨art1, ha1, -⟩ := lookupOrCreateOutput_ok _ _ _ _ _ _ _ _ hl
    have g1 : GraphGrows tp s1.graph
        (s1.graph.modifyArtifact out (setOutputProperties host product fileTags au)) :=
      graphGrows_modifyArtifact tp _ _ (setOutputProperties host product fileTags au)
        (fun a => ⟨fun c hc => by
          rw [(setOutputProperties_children host product fileTags au a).1]; exact hc,
          fun ht => by
          rw [(setOutputProperties_children host product fileTags au a).2]; exact ht⟩)
    have ha2 : (s1.graph.modifyArtifact out
        (setOutputProperties host product fileTags au)).artifact out
          = some (setOutputProperties host product fileTags au art1) := by
      have ha1' : heapGet s1.graph.artifacts out = some art1 := ha1
      simp [BuildGraph.artifact, BuildGraph.modifyArtifact, heapGet_heapModify, ha1']
    split at h
    · rename_i e g2 hconn
      simp only [Prod.mk.injEq] at h
      obtain ⟨rfl, rfl⟩ := h
      exact ⟨graphGrows_trans tp _ _ _ g0 (graphGrows_trans tp _ _ _ g1
        (connectInputs_grows tp _ _ _ _ _ hconn).1), fun a he => by simp at he⟩
    · rename_i u g2 hconn
      obtain ⟨k1, k2⟩ := connectInputs_grows tp _ _ _ _ _ hconn
      obtain ⟨art3, ha3, hch⟩ := k2 rfl _ ha2
      have g3 : GraphGrows tp g2
          (g2.modifyArtifact out (fun a => { a with transformer := some tp })) :=
        graphGrows_modifyArtifact tp _ _ (fun a => { a with transformer := some tp })
          (fun a => ⟨fun c hc => hc, fun _ => rfl⟩)
      have g4 : GraphGrows tp
          (g2.modifyArtifact out (fun a => { a with transformer := some tp }))
          ((g2.modifyArtifact out (fun a => { a with transformer := some tp })).modifyTransformer
            tp (fun t => { t with outputs := setInsert t.outputs out })) :=
        graphGrows_modifyTransformer tp _ tp
          (fun t => { t with outputs := setInsert t.outputs out })
          (fun t => ⟨fun o ho => (mem_setInsert _ _ _).2 (Or.inl ho), rfl, rfl⟩)
      have hgrow := graphGrows_trans tp _ _ _ g0 (graphGrows_trans tp _ _ _ g1
        (graphGrows_trans tp _ _ _ k1 (graphGrows_trans tp _ _ _ g3 g4)))
      have hwired : OutputWired tp inputs out
          ((g2.modifyArtifact out (fun a => { a with transformer := some tp })).modifyTransformer
            tp (fun t => { t with outputs := setInsert t.outputs out })) := by
        refine ⟨{ art3 with transformer := some tp }, ?_, rfl, hch, ?_⟩
        · have ha3' : heapGet g2.artifacts out = some art3 := ha3
          simp [BuildGraph.artifact, BuildGraph.modifyArtifact, BuildGraph.modifyTransformer,
            heapGet_heapModify, ha3']
        · intro t ht
          simp only [BuildGraph.transformer, BuildGraph.modifyTransformer,
            storeModify_getElem?] at ht
          cases hg : g2.transformers[tp]? with
          | none => simp [BuildGraph.modifyArtifact, hg] at ht
          | some t0 =>
            simp only [BuildGraph.modifyArtifact, hg, Option.map_some', Option.some.injEq] at ht
            rw [← ht]
            exact (mem_setInsert _ _ _).2 (Or.inr rfl)
      split at h
      · simp only [Prod.mk.injEq] at h
        obtain ⟨rfl, rfl⟩ := h
        refine ⟨hgrow, fun a he => ?_⟩
        simp only [Except.ok.injEq] at he
        subst he
        exact hwired
      · simp only [Prod.mk.injEq] at h
        obtain ⟨rfl, rfl⟩ := h
        exact ⟨hgrow, fun a he => by simp at he⟩

theorem outputWired_of_grows (tp : TransformerPtr) (inputs : ArtifactSet) (o : ArtifactPtr)
    (g g2 : BuildGraph) (hg : GraphGrows tp g g2) (h : OutputWired tp inputs o g) :
    OutputWired tp inputs o g2 := by
  obtain ⟨art, ha, ht, hc, ho⟩ := h
  obtain ⟨art2, ha2, hc2, ht2⟩ := hg.1 o art ha
  refine ⟨art2, ha2, ht2 ht, fun i hi => hc2 i (hc i hi), fun t3 ht3 => ?_⟩
  obtain ⟨t, htp⟩ := hg.2.2 t3 ht3
  obtain ⟨t2, htp2, ho2, -, -⟩ := hg.2.1 t htp
  rw [htp2] at ht3
  simp only [Option.some.injEq] at ht3
  exact ht3 ▸ ho2 o (ho t htp)


/-! ## The outputs of a rule application are wired to its transformer -/

theorem lookupOrCreateOutput_completeInputSet (product : ResolvedProduct) (rule : RuleConstPtr)
    (tp : TransformerPtr) (outputPath : String) (inputs : ArtifactSet) (s s' : State)
    (r : Except Exception ArtifactPtr)
    (h : lookupOrCreateOutput product rule tp outputPath inputs s = (r, s')) :
    s'.m_completeInputSet = s.m_completeInputSet := by
  unfold lookupOrCreateOutput at h
  split at h
  · split at h
    · split at h
      · simp only [Prod.mk.injEq] at h; rw [← h.2]
      · split at h
        · split at h
          · simp only [Prod.mk.injEq] at h; rw [← h.2]
          · split at h
            · simp only [Prod.mk.injEq] at h; rw [← h.2]
            · simp only [Prod.mk.injEq] at h; rw [← h.2]
        · simp only [Prod.mk.injEq] at h; rw [← h.2]
    · simp only [Prod.mk.injEq] at h; rw [← h.2]
  · simp only [Prod.mk.injEq] at h; rw [← h.2]

theorem createOutputArtifact_completeInputSet (host : ScriptHost) (product : ResolvedProduct)
    (rule : RuleConstPtr) (tp : TransformerPtr) (filePath : String) (fileTags : FileTags)
    (alwaysUpdated : Bool) (inputs : ArtifactSet) (s s' : State)
    (r : Except Exception ArtifactPtr)
    (h : createOutputArtifact host product rule tp filePath fileTags alwaysUpdated inputs s
      = (r, s')) :
    s'.m_completeInputSet = s.m_completeInputSet := by
  unfold createOutputArtifact at h
  simp only at h
  split at h
  · rename_i e s1 hl
    simp only [Prod.mk.injEq] at h
    rw [← h.2]
    exact lookupOrCreateOutput_completeInputSet _ _ _ _ _ _ _ _ hl
  · rename_i a s1 hl
    have h1 := lookupOrCreateOutput_completeInputSet _ _ _ _ _ _ _ _ hl
    split at h
    · simp only [Prod.mk.injEq] at h; rw [← h.2]; exact h1
    · split at h
      · simp only [Prod.mk.injEq] at h; rw [← h.2]; exact h1
      · simp only [Prod.mk.injEq] at h; rw [← h.2]; exact h1

theorem applyArtifactBindings_children (host : ScriptHost) (obj : ScriptValue) (a : Artifact) :
    (applyArtifactBindings host obj a).children = a.children
      ∧ (applyArtifactBindings host obj a).transformer = a.transformer := by
  unfold applyArtifactBindings
  simp only
  split <;> exact ⟨rfl, rfl⟩

theorem graphGrows_connect_tags (tp : TransformerPtr) (product : ResolvedProduct)
    (output : ArtifactPtr) (tags : List String) :
    ∀ g : BuildGraph,
      GraphGrows tp g (tags.foldl (fun g tag => (lookupArtifactsByFileTag product tag g).foldl
        (fun g dependency => connect output dependency g) g) g) := by
  induction tags with
  | nil => intro g; exact graphGrows_refl tp g
  | cons t rest ih =>
    intro g
    exact graphGrows_trans tp _ _ _ (graphGrows_connect_fold tp output _ g) (ih _)

/-- The outputs that `createOutputs` returns are wired to the transformer, the graph has grown,
and the complete input set is the one before. -/
theorem createOutputs_wired (host : ScriptHost) (product : ResolvedProduct)
    (rule : RuleConstPtr) (tp : TransformerPtr) (inputs : ArtifactSet) (s s' : State)
    (r : Except Exception (List ArtifactPtr × List (RuleArtifact × ArtifactPtr)))
    (h : createOutputs host product rule tp inputs s = (r, s')) :
    (GraphGrows tp s.graph s'.graph ∧ s'.m_completeInputSet = s.m_completeInputSet)
      ∧ ∀ outputArtifacts ruleArtifactArtifactMap,
        r = .ok (outputArtifacts, ruleArtifactArtifactMap) →
          ∀ o ∈ outputArtifacts, OutputWired tp inputs o s'.graph :=
  createOutputs_traverse host product rule tp inputs
    (fun s s' => GraphGrows tp s.graph s'.graph ∧ s'.m_completeInputSet = s.m_completeInputSet)
    (fun o s => OutputWired tp inputs o s.graph)
    (fun s => ⟨graphGrows_refl tp _, rfl⟩)
    (fun _ _ _ h1 h2 => ⟨graphGrows_trans tp _ _ _ h1.1 h2.1, h2.2.trans h1.2⟩)
    (fun a _ _ hr hq => outputWired_of_grows tp inputs a _ _ hr.1 hq)
    (fun _ _ _ _ _ _ hc =>
      ⟨⟨(createOutputArtifact_wired _ _ _ _ _ _ _ _ _ _ _ hc).1,
        createOutputArtifact_completeInputSet _ _ _ _ _ _ _ _ _ _ _ hc⟩,
        (createOutputArtifact_wired _ _ _ _ _ _ _ _ _ _ _ hc).2⟩)
    (fun output obj s =>
      ⟨graphGrows_trans tp _ _ _ (graphGrows_connect_tags tp product output _ s.graph)
        (graphGrows_modifyArtifact tp _ output (applyArtifactBindings host obj)
          (fun a => ⟨fun c hc => by
            rw [(applyArtifactBindings_children host obj a).1]; exact hc,
            fun ht => by rw [(applyArtifactBindings_children host obj a).2]; exact ht⟩)), rfl⟩)
    s s' r h


/-! ## The removal of old outputs spares the new ones -/

theorem heapGet_heapFree_ne (l : List (Option Artifact)) (p q : Nat) (h : q ≠ p) :
    heapGet (heapFree l p) q = heapGet l q := by
  induction l generalizing p q with
  | nil => cases p <;> cases q <;> simp [heapFree, heapGet]
  | cons a rest ih =>
    cases p with
    | zero =>
      cases q with
      | zero => exact absurd rfl h
      | succ q => simp [heapFree, heapGet]
    | succ p =>
      cases q with
      | zero => simp [heapFree, heapGet]
      | succ q => simp only [heapFree, heapGet]; exact ih p q (by omega)

theorem deleteRemovedArtifacts_ok (inputArtifacts : ArtifactSet) (removed : List ArtifactPtr) :
    ∀ g g2 : BuildGraph, deleteRemovedArtifacts inputArtifacts removed g = (.ok (), g2) →
      (∀ x ∈ removed, x ∉ inputArtifacts) ∧ g2.transformers = g.transformers
        ∧ ∀ x, x ∉ removed → g2.artifact x = g.artifact x := by
  induction removed with
  | nil =>
    intro g g2 h
    simp only [deleteRemovedArtifacts, Prod.mk.injEq, true_and] at h
    subst h
    exact ⟨by simp, rfl, fun _ _ => rfl⟩
  | cons a rest ih =>
    intro g g2 h
    simp only [deleteRemovedArtifacts] at h
    split at h
    · simp at h
    · rename_i hin
      obtain ⟨k1, k2, k3⟩ := ih _ _ h
      refine ⟨fun x hx => ?_, k2, fun x hx => ?_⟩
      · rcases List.mem_cons.1 hx with rfl | hx
        · exact hin
        · exact k1 x hx
      · rw [k3 x (fun hc => hx (List.mem_cons_of_mem _ hc))]
        exact heapGet_heapFree_ne _ _ _ (fun hc => hx (hc ▸ List.mem_cons_self _ _))

theorem removal_fold_mono (host : ScriptHost) (hspares : RemovalSparesOthers host)
    (l : List ArtifactPtr) :
    ∀ (acc : ArtifactSet × BuildGraph), ∀ x ∈ acc.1,
      x ∈ (l.foldl (fun (acc : ArtifactSet × BuildGraph) removedArtifact =>
        host.removeArtifactAndExclusiveDependents removedArtifact acc.1 acc.2) acc).1 := by
  induction l with
  | nil => intro acc x hx; exact hx
  | cons a rest ih =>
    intro acc x hx
    exact ih _ x ((hspares a acc.1 acc.2).1 x hx)

theorem removal_fold_wired (host : ScriptHost) (hspares : RemovalSparesOthers host)
    (tp : TransformerPtr) (inputs deps : ArtifactSet) (outputs : List ArtifactPtr)
    (hne : inputs ≠ []) (l : List ArtifactPtr) :
    ∀ (acc : ArtifactSet × BuildGraph), (∀ a ∈ l, a ∉ outputs) →
      OutputsWired tp inputs deps outputs acc.2 → (∀ o ∈ outputs, o ∉ acc.1) →
      (∀ i ∈ inputs, i ∉ (l.foldl (fun (acc : ArtifactSet × BuildGraph) removedArtifact =>
        host.removeArtifactAndExclusiveDependents removedArtifact acc.1 acc.2) acc).1) →
      OutputsWired tp inputs deps outputs
          (l.foldl (fun (acc : ArtifactSet × BuildGraph) removedArtifact =>
            host.removeArtifactAndExclusiveDependents removedArtifact acc.1 acc.2) acc).2
        ∧ ∀ o ∈ outputs, o ∉ (l.foldl (fun (acc : ArtifactSet × BuildGraph) removedArtifact =>
            host.removeArtifactAndExclusiveDependents removedArtifact acc.1 acc.2) acc).1 := by
  induction l with
  | nil => intro acc _ hw ho _; exact ⟨hw, ho⟩
  | cons a rest ih =>
    intro acc hl hw ho hin
    simp only [List.foldl_cons] at hin ⊢
    obtain ⟨c1, c2, c3, c4⟩ := hspares a acc.1 acc.2
    have hin1 : ∀ i ∈ inputs,
        i ∉ (host.removeArtifactAndExclusiveDependents a acc.1 acc.2).1 :=
      fun i hi hc => hin i hi (removal_fold_mono host hspares rest _ i hc)
    obtain ⟨i0, hi0⟩ := List.exists_mem_of_ne_nil inputs hne
    obtain ⟨⟨t, ht, hti, hit, hdeps, houts⟩, harts⟩ := hw
    have ho1 : ∀ o ∈ outputs,
        o ∉ (host.removeArtifactAndExclusiveDependents a acc.1 acc.2).1 := by
      intro o hoo hc
      obtain ⟨art, hart, htr, hch⟩ := harts o hoo
      rcases c2 o hc with h | h | ⟨art', hart', h | ⟨tp', t', htp', ht', h⟩⟩
      · exact ho o hoo h
      · exact hl a (List.mem_cons_self _ _) (h ▸ hoo)
      · rw [hart] at hart'
        simp only [Option.some.injEq] at hart'
        subst hart'
        exact hin1 i0 hi0 (h i0 (hch i0 hi0))
      · rw [hart] at hart'
        simp only [Option.some.injEq] at hart'
        subst hart'
        rw [htr] at htp'
        simp only [Option.some.injEq] at htp'
        subst htp'
        rw [ht] at ht'
        simp only [Option.some.injEq] at ht'
        subst ht'
        exact hin1 i0 hi0 (h i0 (hit i0 hi0))
    refine ih _ (fun x hx => hl x (List.mem_cons_of_mem _ hx)) ⟨?_, ?_⟩ ho1 hin
    · obtain ⟨t2, ht2, k1, k2, k3, k4⟩ := c3 tp t ht
      exact ⟨t2, ht2, fun i hi => hti i (k2 i hi), fun i hi => k3 i (hit i hi) (hin1 i hi),
        k4.trans hdeps, fun o hoo => k1 o (houts o hoo) (ho1 o hoo)⟩
    · intro o hoo
      obtain ⟨art, hart, htr, hch⟩ := harts o hoo
      obtain ⟨art2, hart2, htr2, hch2⟩ := c4 o art hart (ho1 o hoo)
      exact ⟨art2, hart2, htr2.trans htr, fun i hi => hch2 i (hch i hi) (hin1 i hi)⟩

theorem collectOldOutputArtifacts_nil (rule : RuleConstPtr) (g : BuildGraph)
    (result : ArtifactSet) : collectOldOutputArtifacts rule g [] result = .ok result := rfl

/-- The removal of the old outputs leaves the new outputs wired, when no input of the rule
application is outside the set the removal is checked against. -/
theorem handleRemovedRuleOutputs_wired (host : ScriptHost) (hspares : RemovalSparesOthers host)
    (tp : TransformerPtr) (inputs deps complete : ArtifactSet) (outputs : List ArtifactPtr)
    (toRemove : ArtifactSet) (g g2 : BuildGraph)
    (hcomplete : ∀ i ∈ inputs, i ∈ complete)
    (hempty : inputs = [] → toRemove = [])
    (hl : ∀ a ∈ toRemove, a ∉ outputs)
    (hw : OutputsWired tp inputs deps outputs g)
    (h : handleRemovedRuleOutputs host complete toRemove g = (.ok (), g2)) :
    OutputsWired tp inputs deps outputs g2 := by
  unfold handleRemovedRuleOutputs at h
  simp only at h
  by_cases hne : inputs = []
  · rw [hempty hne] at h
    simp only [List.foldl_nil, deleteRemovedArtifacts, Prod.mk.injEq, true_and] at h
    exact h ▸ hw
  · obtain ⟨k1, k2, k3⟩ := deleteRemovedArtifacts_ok _ _ _ _ h
    obtain ⟨⟨⟨t, ht, hti, hit, hdeps, houts⟩, harts⟩, hnot⟩ :=
      removal_fold_wired host hspares tp inputs deps outputs hne toRemove ([], g) hl hw
        (fun _ _ hc => by simp at hc) (fun i hi hc => k1 i hc (hcomplete i hi))
    refine ⟨⟨t, ?_, hti, hit, hdeps, houts⟩, fun o hoo => ?_⟩
    · simp only [BuildGraph.transformer, k2]
      exact ht
    · obtain ⟨art, hart, htr, hch⟩ := harts o hoo
      exact ⟨art, (k3 o (hnot o hoo)).trans hart, htr, hch⟩


theorem connectOutputs_children (tp : TransformerPtr) (deps : List ArtifactPtr)
    (outputs : List ArtifactPtr) :
    ∀ g : BuildGraph, (∀ o ∈ outputs, ∃ art, g.artifact o = some art) →
      GraphGrows tp g (outputs.foldl (fun g outputArtifact =>
          deps.foldl (fun g dependency => connect outputArtifact dependency g) g) g)
        ∧ ∀ o ∈ outputs, ∃ art, (outputs.foldl (fun g outputArtifact =>
            deps.foldl (fun g dependency => connect outputArtifact dependency g) g) g).artifact o
              = some art ∧ ∀ d ∈ deps, d ∈ art.children := by
  induction outputs with
  | nil => intro g _; exact ⟨graphGrows_refl tp g, by simp⟩
  | cons o rest ih =>
    intro g hg
    simp only [List.foldl_cons]
    have g1 := graphGrows_connect_fold tp o deps g
    have hrest : ∀ x ∈ rest, ∃ art,
        (deps.foldl (fun g dependency => connect o dependency g) g).artifact x = some art := by
      intro x hx
      obtain ⟨art, ha⟩ := hg x (List.mem_cons_of_mem _ hx)
      obtain ⟨art2, ha2, -⟩ := g1.1 x art ha
      exact ⟨art2, ha2⟩
    obtain ⟨k1, k2⟩ := ih _ hrest
    refine ⟨graphGrows_trans tp _ _ _ g1 k1, fun x hx => ?_⟩
    rcases List.mem_cons.1 hx with rfl | hx
    · obtain ⟨art, ha⟩ := hg x (List.mem_cons_self _ _)
      obtain ⟨art2, ha2, hd⟩ := connect_fold_children tp x deps g art ha
      obtain ⟨art3, ha3, hc, -⟩ := k1.1 x art2 ha2
      exact ⟨art3, ha3, fun d hdd => hc d (hd d hdd)⟩
    · exact k2 x hx

theorem evaluateArtifactBindings_grows (host : ScriptHost) (tp : TransformerPtr)
    (pairs : List (RuleArtifact × ArtifactPtr)) :
    ∀ (s s' : State) (r : Except Exception Unit),
      evaluateArtifactBindings host pairs s = (r, s') → GraphGrows tp s.graph s'.graph := by
  induction pairs with
  | nil =>
    intro s s' r h
    simp only [evaluateArtifactBindings, Prod.mk.injEq] at h
    rw [← h.2]
    exact graphGrows_refl tp _
  | cons p rest ih =>
    intro s s' r h
    obtain ⟨ra, a⟩ := p
    simp only [evaluateArtifactBindings] at h
    split at h
    · exact ih _ _ _ h
    · split at h
      · simp only [Prod.mk.injEq] at h
        rw [← h.2]
        exact graphGrows_refl tp _
      · rename_i cfg _
        exact graphGrows_trans tp _ _ _
          (graphGrows_modifyArtifact tp s.graph a (fun a => { a with properties := ⟨cfg⟩ })
            (fun _ => ⟨fun _ hc => hc, fun ht => ht⟩)) (ih _ _ _ h)

theorem invalidateOutputs_grows (tp : TransformerPtr) (outputArtifacts : List ArtifactPtr) :
    ∀ s : State, GraphGrows tp s.graph (invalidateOutputs outputArtifacts s).graph := by
  induction outputArtifacts with
  | nil => intro s; exact graphGrows_refl tp _
  | cons o rest ih =>
    intro s
    have e : invalidateOutputs (o :: rest) s = invalidateOutputs rest
        { s with
          graph := s.graph.modifyArtifact o (fun a => { a with timestamp := none }),
          m_invalidatedArtifacts := setInsert s.m_invalidatedArtifacts o } := rfl
    rw [e]
    exact graphGrows_trans tp _ _ _
      (graphGrows_modifyArtifact tp s.graph o (fun a => { a with timestamp := none })
        (fun _ => ⟨fun _ hc => hc, fun ht => ht⟩))
      (ih { s with
        graph := s.graph.modifyArtifact o (fun a => { a with timestamp := none }),
        m_invalidatedArtifacts := setInsert s.m_invalidatedArtifacts o })

theorem trackChanges_grows (host : ScriptHost) (tp : TransformerPtr)
    (outputArtifacts : List ArtifactPtr) (s : State) :
    GraphGrows tp s.graph (trackChanges host tp outputArtifacts s).graph := by
  unfold trackChanges
  simp only
  refine graphGrows_trans tp _ _ _ ?_
    (graphGrows_modifyTransformer tp _ tp (fun t => { t with commandsNeedChangeTracking := false })
      (fun _ => ⟨fun _ ho => ho, rfl, rfl⟩))
  split
  · exact invalidateOutputs_grows tp outputArtifacts s
  · exact graphGrows_refl tp _

theorem setCommands_grows (tp : TransformerPtr) (commands : List String) (s : State) :
    GraphGrows tp s.graph (setCommands tp commands s).graph :=
  graphGrows_modifyTransformer tp _ tp (fun t => { t with commands := commands })
    (fun _ => ⟨fun _ ho => ho, rfl, rfl⟩)

theorem not_mem_of_mem_setMinus_setFromList (old : ArtifactSet) (outputs : List ArtifactPtr)
    (a : ArtifactPtr) (h : a ∈ setMinus old (setFromList outputs)) : a ∉ outputs := by
  intro hc
  simp only [setMinus, List.mem_filter, decide_eq_true_eq] at h
  exact h.2 ((mem_setUnite [] outputs a).2 (Or.inr hc))


/-- C11: after a `doApply` that returns normally, every output artifact `o` that `createOutputs`
returned points to the transformer that this `doApply` created (the one at the address
`s.graph.transformers.length`, which was free before), is among the outputs of that transformer,
and has every artifact of the transformer's inputs and of its explicit dependencies among its
children. The removal of old outputs, a function outside this file, is taken to spare what it
does not remove, and the inputs are taken from the complete input set, as `applyRule` has
it. -/
theorem doApply_outputs_wired (host : ScriptHost) (hspares : RemovalSparesOthers host)
    (product : ResolvedProduct) (rule : RuleConstPtr) (inputArtifacts : ArtifactSet)
    (s s' : State) (hcomplete : ∀ i ∈ inputArtifacts, i ∈ s.m_completeInputSet)
    (h : doApply host product rule inputArtifacts s = (.ok (), s')) :
    s.graph.transformer s.graph.transformers.length = none
    ∧ ∃ outputArtifacts ruleArtifactArtifactMap s1 t,
      createOutputs host product rule s.graph.transformers.length inputArtifacts
          (createTransformer product rule inputArtifacts s)
        = (.ok (outputArtifacts, ruleArtifactArtifactMap), s1)
      ∧ s'.graph.transformer s.graph.transformers.length = some t
      ∧ ∀ o ∈ outputArtifacts, ∃ art, s'.graph.artifact o = some art
          ∧ art.transformer = some s.graph.transformers.length
          ∧ o ∈ t.outputs
          ∧ (∀ i ∈ t.inputs, i ∈ art.children)
          ∧ (∀ d ∈ t.explicitlyDependsOn, d ∈ art.children) := by
  refine ⟨by simp [BuildGraph.transformer], ?_⟩
  obtain ⟨outs, map, s1, old, g2, hcreate, hold, hremove, hcases⟩ :=
    doApply_ok_steps host product rule inputArtifacts s s' h
  obtain ⟨⟨hgrow, hcs⟩, hwired⟩ := createOutputs_wired host product rule
    s.graph.transformers.length inputArtifacts _ _ _ hcreate
  have ht0 : ∃ t0, (createTransformer product rule inputArtifacts s).graph.transformer
      s.graph.transformers.length = some t0 ∧ t0.inputs = inputArtifacts := by
    simp only [createTransformer, BuildGraph.transformer]
    exact ⟨_, List.getElem?_concat_length _ _, rfl⟩
  obtain ⟨t0, ht0, hin0⟩ := ht0
  obtain ⟨t1, ht1, -, hin1, -⟩ := hgrow.2.1 t0 ht0
  have hw1 : OutputsWired s.graph.transformers.length inputArtifacts t1.explicitlyDependsOn outs
      s1.graph := by
    refine ⟨⟨t1, ht1, ?_, ?_, rfl, fun o ho => ?_⟩, fun o ho => ?_⟩
    · intro i hi; rw [hin1, hin0] at hi; exact hi
    · intro i hi; rw [hin1, hin0]; exact hi
    · obtain ⟨_, _, _, _, hout⟩ := hwired _ _ rfl o ho
      exact hout t1 ht1
    · obtain ⟨art, ha, htr, hch, _⟩ := hwired _ _ rfl o ho
      exact ⟨art, ha, htr, hch⟩
  have hw2 : OutputsWired s.graph.transformers.length inputArtifacts t1.explicitlyDependsOn outs
      g2 := by
    refine handleRemovedRuleOutputs_wired host hspares _ inputArtifacts _ s1.m_completeInputSet
      outs (setMinus old (setFromList outs)) s1.graph g2 ?_ ?_
      (fun a ha => not_mem_of_mem_setMinus_setFromList old outs a ha) hw1 hremove
    · intro i hi
      rw [hcs]
      exact hcomplete i hi
    · intro he
      rw [he, collectOldOutputArtifacts_nil] at hold
      simp only [Except.ok.injEq] at hold
      rw [← hold]
      rfl
  obtain ⟨⟨t2, ht2, hti2, hit2, hdeps2, houts2⟩, harts2⟩ := hw2
  rcases hcases with ⟨hempty, hs'⟩ | ⟨-, s4, commands, hbind, -, -, hs'⟩
  · refine ⟨outs, map, s1, t2, hcreate, ?_, ?_⟩
    · rw [hs']; exact ht2
    · rw [hempty]; intro o ho; simp at ho
  · have hconn := connectOutputs_children s.graph.transformers.length
      (((g2.transformer s.graph.transformers.length).map (·.explicitlyDependsOn)).getD []) outs g2
      (fun o ho => by obtain ⟨art, ha, _⟩ := harts2 o ho; exact ⟨art, ha⟩)
    have hdeps : ((g2.transformer s.graph.transformers.length).map
        (·.explicitlyDependsOn)).getD [] = t2.explicitlyDependsOn := by
      rw [ht2]; rfl
    rw [hdeps] at hconn
    obtain ⟨hg3, hch3⟩ := hconn
    have hg3' : GraphGrows s.graph.transformers.length g2
        (connectExplicitlyDependsOn s.graph.transformers.length outs
          { s1 with graph := g2 }).graph := by
      simp only [connectExplicitlyDependsOn]
      rw [hdeps]
      exact hg3
    have hg4 := evaluateArtifactBindings_grows host s.graph.transformers.length _ _ _ _ hbind
    have hg5 := setCommands_grows s.graph.transformers.length commands s4
    have hg6 := trackChanges_grows host s.graph.transformers.length outs
      (setCommands s.graph.transformers.length commands s4)
    rw [← hs'] at hg6
    have hg36 := graphGrows_trans _ _ _ _ hg4 (graphGrows_trans _ _ _ _ hg5 hg6)
    have hgall := graphGrows_trans _ _ _ _ hg3' hg36
    obtain ⟨t', ht', hout', hin', hdep'⟩ := hgall.2.1 t2 ht2
    refine ⟨outs, map, s1, t', hcreate, ht', fun o ho => ?_⟩
    obtain ⟨art2, ha2, htr2, hch2⟩ := harts2 o ho
    obtain ⟨art3, ha3, hc3, htr3⟩ := hg3.1 o art2 ha2
    obtain ⟨art3', ha3', hd3⟩ := hch3 o ho
    rw [ha3] at ha3'
    simp only [Option.some.injEq] at ha3'
    subst ha3'
    have ha3s : (connectExplicitlyDependsOn s.graph.transformers.length outs
        { s1 with graph := g2 }).graph.artifact o = some art3 := by
      simp only [connectExplicitlyDependsOn]
      rw [hdeps]
      exact ha3
    obtain ⟨art', ha', hc', htr'⟩ := hg36.1 o art3 ha3s
    refine ⟨art', ha', htr' (htr3 htr2), hout' o (houts2 o ho), ?_, ?_⟩
    · intro i hi
      rw [hin'] at hi
      exact hc' i (hc3 i (hch2 i (hti2 i hi)))
    · intro d hd
      rw [hdep'] at hd
      exact hc' d (hd3 d hd)

/-- C11, on an example: the example rule applied to `a.cpp` (at address 0) creates `a.o` (at
address 2), which points to the new transformer (at address 0), is its only output, and has
`a.cpp` as its only child. -/
theorem doApply_outputs_wired_witness :
    (demoStateBegun.graph.transformer demoStateBegun.graph.transformers.length = none
    ∧ ∃ outputArtifacts ruleArtifactArtifactMap s1 t,
      createOutputs (demoHost []) (demoProduct false [] [])
          (demoRule 1 true false [demoRuleArtifact "a.o"]) demoStateBegun.graph.transformers.length
          [0]
          (createTransformer (demoProduct false [] [])
            (demoRule 1 true false [demoRuleArtifact "a.o"]) [0] demoStateBegun)
        = (.ok (outputArtifacts, ruleArtifactArtifactMap), s1)
      ∧ demoApplied.2.graph.transformer demoStateBegun.graph.transformers.length = some t
      ∧ ∀ o ∈ outputArtifacts, ∃ art, demoApplied.2.graph.artifact o = some art
          ∧ art.transformer = some demoStateBegun.graph.transformers.length
          ∧ o ∈ t.outputs
          ∧ (∀ i ∈ t.inputs, i ∈ art.children)
          ∧ (∀ d ∈ t.explicitlyDependsOn, d ∈ art.children))
    ∧ (demoApplied.2.graph.transformer 0).map (·.outputs) = some [2]
    ∧ (demoApplied.2.graph.transformer 0).map (·.inputs) = some [0]
    ∧ (demoApplied.2.graph.artifact 2).map (·.transformer) = some (some 0)
    ∧ (demoApplied.2.graph.artifact 2).map (·.children) = some [0] := by
  have h : doApply (demoHost []) (demoProduct false [] [])
      (demoRule 1 true false [demoRuleArtifact "a.o"]) [0] demoStateBegun
        = (.ok (), demoApplied.2) := by
    show demoApplied = (.ok (), demoApplied.2)
    exact Prod.ext rfl rfl
  have hspares : RemovalSparesOthers (demoHost []) := by
    intro a removed g
    refine ⟨fun x hx => (mem_setInsert _ _ _).2 (Or.inl hx), fun x hx => ?_,
      fun tp t ht => ⟨t, ht, fun _ ho _ => ho, fun _ hi => hi, fun _ hi _ => hi, rfl⟩,
      fun x art ha _ => ⟨art, ha, rfl, fun _ hc _ => hc⟩⟩
    rcases (mem_setInsert _ _ _).1 hx with hx | hx
    · exact Or.inl hx
    · exact Or.inr (Or.inl hx)
  exact ⟨doApply_outputs_wired (demoHost []) hspares (demoProduct false [] [])
    (demoRule 1 true false [demoRuleArtifact "a.o"]) [0] demoStateBegun demoApplied.2
    (by decide) h, by decide, by decide, by decide, by decide⟩


/-! ## The dotdot substitution -/

theorem replaceDotDotChars_of_no_dotdot :
    ∀ l : List Char, hasDotDot l = false → replaceDotDotChars l = l
  | [], _ => rfl
  | [_], _ => rfl
  | c :: d :: rest, h => by
    simp only [hasDotDot, Bool.or_eq_false_iff, Bool.and_eq_false_imp, decide_eq_true_eq,
      decide_eq_false_iff_not] at h
    have ih := replaceDotDotChars_of_no_dotdot (d :: rest) h.2
    have hcd : ¬(c = '.' ∧ d = '.') := fun hh => h.1 hh.1 hh.2
    rw [replaceDotDotChars]
    simp only [hcd, if_false, ih]

theorem replaceDotDotChars_first_occurrence :
    ∀ (before after : List Char), hasDotDot before = false → before.getLast? ≠ some '.' →
      replaceDotDotChars (before ++ '.' :: '.' :: after)
        = before ++ 'd' :: 'o' :: 't' :: 'd' :: 'o' :: 't' :: replaceDotDotChars after
  | [], after, _, _ => by simp [replaceDotDotChars]
  | [c], after, _, hlast => by
    have hc : c ≠ '.' := fun e => hlast (by simp [e])
    have hcd : ¬(c = '.' ∧ '.' = '.') := fun hh => hc hh.1
    simp [replaceDotDotChars, hc]
  | c :: d :: rest, after, h, hlast => by
    simp only [hasDotDot, Bool.or_eq_false_iff, Bool.and_eq_false_imp, decide_eq_true_eq,
      decide_eq_false_iff_not] at h
    have hlast' : (d :: rest).getLast? ≠ some '.' := by
      simpa [List.getLast?_cons_cons] using hlast
    have ih := replaceDotDotChars_first_occurrence (d :: rest) after h.2 hlast'
    have hcd : ¬(c = '.' ∧ d = '.') := fun hh => h.1 hh.1 hh.2
    simp only [List.cons_append] at ih ⊢
    rw [replaceDotDotChars]
    simp only [hcd, if_false, ih]

/-- C26 (as stated, refuted): no component of the path `a..b.o` is `..`, and the substitution
of `createOutputArtifact` changes the path all the same, to `adotdotb.o`; the artifact of the
example product is looked up at `/build/adotdotb.o`. -/
theorem replaceDotDot_components_counterexample :
    (∀ c ∈ pathComponents "a..b.o", c ≠ ['.', '.'])
      ∧ replaceDotDot "a..b.o" = "adotdotb.o"
      ∧ replaceDotDot "a..b.o" ≠ "a..b.o"
      ∧ normalizedOutputPath (demoProduct false [] []) "a..b.o" = "/build/adotdotb.o" := by
  decide

/-- C26 (amended): the dotdot substitution of `createOutputArtifact` acts on the characters of
the path: a path that nowhere has two consecutive dots is left unchanged; in any other path the
first two consecutive dots become `dotdot` and the substitution goes on behind them, whether
they are a component of the path or part of a file name; and the result nowhere has two
consecutive dots. -/
theorem replaceDotDot_characters (path : String) :
    (hasDotDot path.data = false → replaceDotDot path = path)
      ∧ (∀ before after : List Char, hasDotDot before = false →
          before.getLast? ≠ some '.' → path.data = before ++ '.' :: '.' :: after →
          (replaceDotDot path).data
            = before ++ "dotdot".data ++ (replaceDotDot (String.mk after)).data)
      ∧ hasDotDot (replaceDotDot path).data = false := by
  refine ⟨fun h => ?_, fun before after h hlast hp => ?_, ?_⟩
  · simp only [replaceDotDot, replaceDotDotChars_of_no_dotdot _ h]
  · simp only [replaceDotDot, hp, replaceDotDotChars_first_occurrence before after h hlast]
    simp
  · exact hasDotDot_replaceDotDotChars _

/-- C26 (amended), on examples: `a.b.o` stays as it is, and in `x/../a..b.o` both the component
`..` and the two dots of the file name are replaced. -/
theorem replaceDotDot_characters_witness :
    replaceDotDot "a.b.o" = "a.b.o"
      ∧ (replaceDotDot "x/../a..b.o").data
          = "x/".data ++ "dotdot".data ++ (replaceDotDot (String.mk "/a..b.o".data)).data
      ∧ replaceDotDot "x/../a..b.o" = "x/dotdot/adotdotb.o" :=
  ⟨(replaceDotDot_characters "a.b.o").1 (by decide),
    (replaceDotDot_characters "x/../a..b.o").2.1 "x/".data "/a..b.o".data (by decide)
      (by decide) (by decide), by decide⟩


/-! ## The unique name of a product -/

theorem eq_of_append_cons_last {α : Type} (x : α) (a b c d : List α) (hb : x ∉ b) (hd : x ∉ d)
    (h : a ++ x :: b = c ++ x :: d) : a = c ∧ b = d := by
  rcases List.append_eq_append_iff.1 h with ⟨a', hc, hx⟩ | ⟨c', ha, hx⟩
  · cases a' with
    | nil =>
      simp only [List.nil_append, List.cons.injEq, true_and] at hx
      simp only [List.append_nil] at hc
      exact ⟨hc.symm, hx⟩
    | cons y a'' =>
      simp only [List.cons_append, List.cons.injEq] at hx
      exact absurd (hx.2 ▸ (by simp : x ∈ a'' ++ x :: d)) hb
  · cases c' with
    | nil =>
      simp only [List.nil_append, List.cons.injEq, true_and] at hx
      simp only [List.append_nil] at ha
      exact ⟨ha, hx.symm⟩
    | cons y c'' =>
      simp only [List.cons_append, List.cons.injEq] at hx
      exact absurd (hx.2 ▸ (by simp : x ∈ c'' ++ x :: b)) hd

theorem eq_of_append_cons_first {α : Type} (x : α) (a b c d : List α) (ha : x ∉ a)
    (hc : x ∉ c) (h : a ++ x :: b = c ++ x :: d) : a = c ∧ b = d := by
  rcases List.append_eq_append_iff.1 h with ⟨a', hc', hx⟩ | ⟨c', ha', hx⟩
  · cases a' with
    | nil =>
      simp only [List.nil_append, List.cons.injEq, true_and] at hx
      simp only [List.append_nil] at hc'
      exact ⟨hc'.symm, hx⟩
    | cons y a'' =>
      simp only [List.cons_append, List.cons.injEq] at hx
      exact absurd (hc' ▸ hx.1 ▸ (by simp : y ∈ a ++ y :: a'')) hc
  · cases c' with
    | nil =>
      simp only [List.nil_append, List.cons.injEq, true_and] at hx
      simp only [List.append_nil] at ha'
      exact ⟨ha', hx.symm⟩
    | cons y c'' =>
      simp only [List.cons_append, List.cons.injEq] at hx
      exact absurd (ha' ▸ hx.1 ▸ (by simp : y ∈ c ++ y :: c'')) ha

theorem uniqueName_ok (name profile : String) (h : profile ≠ "") :
    uniqueName name profile = .ok (name ++ "." ++ profile) := by
  have he : profile.isEmpty = false := by
    cases hp : profile.isEmpty with
    | false => rfl
    | true => exact absurd ((String.isEmpty_iff profile).1 hp) h
  simp [uniqueName, he]

theorem uniqueName_data (name profile : String) :
    (name ++ "." ++ profile).data = name.data ++ '.' :: profile.data := by
  simp [String.data_append]

/-- C23 (as stated, refuted): the name `a.b` with the profile `c` and the name `a` with the
profile `b.c` have the same unique name `a.b.c`, and so the same build directory name, whatever
the hash and the identifier function are. -/
theorem uniqueName_injective_counterexample :
    ("c" : String) ≠ "" ∧ ("b.c" : String) ≠ "" ∧ ("a.b" : String) ≠ "a"
      ∧ uniqueName "a.b" "c" = .ok "a.b.c"
      ∧ uniqueName "a" "b.c" = .ok "a.b.c"
      ∧ ∀ (host : ScriptHost) (rfc1034Identifier : String → String),
          deriveBuildDirectoryName host rfc1034Identifier "a.b" "c"
            = deriveBuildDirectoryName host rfc1034Identifier "a" "b.c" :=
  ⟨by decide, by decide, by decide, rfl, rfl, fun _ _ => rfl⟩

/-- C23 (amended): `uniqueName(name, profile)` is `name + "." + profile` for a non-empty
profile (an empty one fails the check), and for non-empty profiles it is injective on pairs
whose profiles both contain no dot, and on pairs whose names both contain no dot: there equal
unique names come from equal names and equal profiles. -/
theorem uniqueName_injective (n1 n2 p1 p2 : String) (hp1 : p1 ≠ "") (hp2 : p2 ≠ "")
    (hdots : ('.' ∉ p1.data ∧ '.' ∉ p2.data) ∨ ('.' ∉ n1.data ∧ '.' ∉ n2.data))
    (h : uniqueName n1 p1 = uniqueName n2 p2) :
    uniqueName n1 p1 = .ok (n1 ++ "." ++ p1)
      ∧ uniqueName n1 "" = .error (.assertion "!profile.isEmpty()")
      ∧ n1 = n2 ∧ p1 = p2 := by
  refine ⟨uniqueName_ok n1 p1 hp1, rfl, ?_⟩
  rw [uniqueName_ok n1 p1 hp1, uniqueName_ok n2 p2 hp2] at h
  simp only [Except.ok.injEq] at h
  have hd := congrArg String.data h
  rw [uniqueName_data, uniqueName_data] at hd
  rcases hdots with ⟨h1, h2⟩ | ⟨h1, h2⟩
  · obtain ⟨e1, e2⟩ := eq_of_append_cons_last '.' _ _ _ _ h1 h2 hd
    exact ⟨String.ext e1, String.ext e2⟩
  · obtain ⟨e1, e2⟩ := eq_of_append_cons_first '.' _ _ _ _ h1 h2 hd
    exact ⟨String.ext e1, String.ext e2⟩

/-- C23 (amended), on an example: the unique name `app.gcc` of the example product. -/
theorem uniqueName_injective_witness :
    uniqueName "app" "gcc" = .ok ("app" ++ "." ++ "gcc")
      ∧ uniqueName "app" "" = .error (.assertion "!profile.isEmpty()")
      ∧ ("app" : String) = "app" ∧ ("gcc" : String) = "gcc" :=
  uniqueName_injective "app" "app" "gcc" "gcc" (by decide) (by decide)
    (Or.inl ⟨by decide, by decide⟩) rfl


/-! ## The cached environments of a product -/

/-- C24 (as stated, refuted): the setup script of the example module appends to the variables
that are set. The first `setupBuildEnvironment`, called with an empty environment, returns and
leaves `buildEnvironment` empty; the second one, called with `PATH=/bin`, evaluates the script
again and leaves `PATH=/bin:/opt/bin`, which is not the result of the first call. The same
happens with `setupRunEnvironment`. -/
theorem setupBuildEnvironment_memoized_counterexample :
    environmentAfter (fun p => p.buildEnvironment)
        (demoProductWithModule.setupBuildEnvironment demoPathEngine 2 []) = some []
      ∧ environmentAfter (fun p => p.buildEnvironment)
          ((productAfter demoProductWithModule
            (demoProductWithModule.setupBuildEnvironment demoPathEngine 2 [])).setupBuildEnvironment
              demoPathEngine 2 [("PATH", "/bin")]) = some [("PATH", "/bin:/opt/bin")]
      ∧ environmentAfter (fun p => p.runEnvironment)
          (demoProductWithModule.setupRunEnvironment demoPathEngine 2 []) = some []
      ∧ environmentAfter (fun p => p.runEnvironment)
          ((productAfter demoProductWithModule
            (demoProductWithModule.setupRunEnvironment demoPathEngine 2 [])).setupRunEnvironment
              demoPathEngine 2 [("PATH", "/bin")]) = some [("PATH", "/bin:/opt/bin")] := by
  decide

/-- C24 (amended): a non-empty environment is cached on the product. When
`setupBuildEnvironment` has returned and left a `buildEnvironment` that is not empty, a later
`setupBuildEnvironment` returns with the product as it is, whatever the script engine, the
initial environment and the bound of the module sort are: it evaluates no module script and
`buildEnvironment` stays the result of the first call. The same holds for `setupRunEnvironment`
and `runEnvironment`. -/
theorem setupEnvironment_memoized (p p1 : ResolvedProduct) (engine1 engine2 : EnvironmentEngine)
    (fuel1 fuel2 : Nat) (env1 env2 : ProcessEnvironment) :
    (p.setupBuildEnvironment engine1 fuel1 env1 = some (.returned p1) →
      p1.buildEnvironment ≠ [] →
      p1.setupBuildEnvironment engine2 fuel2 env2 = some (.returned p1))
    ∧ (p.setupRunEnvironment engine1 fuel1 env1 = some (.returned p1) →
      p1.runEnvironment ≠ [] →
      p1.setupRunEnvironment engine2 fuel2 env2 = some (.returned p1)) := by
  constructor
  · intro _ hne
    have he : p1.buildEnvironment.isEmpty = false := by
      cases hb : p1.buildEnvironment with
      | nil => exact absurd hb hne
      | cons _ _ => rfl
    simp [ResolvedProduct.setupBuildEnvironment, he]
  · intro _ hne
    have he : p1.runEnvironment.isEmpty = false := by
      cases hb : p1.runEnvironment with
      | nil => exact absurd hb hne
      | cons _ _ => rfl
    simp [ResolvedProduct.setupRunEnvironment, he]

/-- C24 (amended), on an example: after a first call with `PATH=/bin` the build environment of
the example product is `PATH=/bin:/opt/bin`, and a second call with another environment, and
with no fuel for sorting the modules, returns with the product unchanged. -/
theorem setupEnvironment_memoized_witness :
    demoProductWithModule.setupBuildEnvironment demoPathEngine 2 [("PATH", "/bin")]
        = some (.returned { demoProductWithModule with
            buildEnvironment := [("PATH", "/bin:/opt/bin")] })
      ∧ ({ demoProductWithModule with
            buildEnvironment := [("PATH", "/bin:/opt/bin")] } : ResolvedProduct).setupBuildEnvironment
          demoPathEngine 0 [("HOME", "/root")]
        = some (.returned { demoProductWithModule with
            buildEnvironment := [("PATH", "/bin:/opt/bin")] }) :=
  ⟨rfl, (setupEnvironment_memoized demoProductWithModule
    { demoProductWithModule with buildEnvironment := [("PATH", "/bin:/opt/bin")] }
    demoPathEngine demoPathEngine 2 0 [("PATH", "/bin")] [("HOME", "/root")]).1 rfl
    (by decide)⟩


/-! ## The keyed comparison of lists -/

theorem listToMap_fold_of_nodup {T : Type} (keyFromElem : T → String) :
    ∀ (l : List T) (acc : List (String × T)),
      (∀ x ∈ l, ∀ e ∈ acc, e.1 ≠ keyFromElem x) → (l.map keyFromElem).Nodup →
      l.foldl (fun map elem => elemMapInsert map (keyFromElem elem) elem) acc
        = acc ++ l.map (fun x => (keyFromElem x, x)) := by
  intro l
  induction l with
  | nil => intro acc _ _; simp
  | cons x rest ih =>
    intro acc hacc hnd
    simp only [List.map_cons, List.nodup_cons] at hnd
    have hany : acc.any (fun e => decide (e.1 = keyFromElem x)) = false := by
      rw [List.any_eq_false]
      intro e he
      simpa using hacc x (List.mem_cons_self _ _) e he
    have hstep : elemMapInsert acc (keyFromElem x) x = acc ++ [(keyFromElem x, x)] := by
      simp only [elemMapInsert, hany, Bool.false_eq_true, if_false]
    rw [List.foldl_cons, hstep, ih (acc ++ [(keyFromElem x, x)]) ?_ hnd.2]
    · simp
    · intro y hy e he
      rcases List.mem_append.1 he with he | he
      · exact hacc y (List.mem_cons_of_mem _ hy) e he
      · simp only [List.mem_singleton] at he
        subst he
        intro hk
        have hk' : keyFromElem x = keyFromElem y := hk
        exact hnd.1 (hk' ▸ List.mem_map_of_mem keyFromElem hy)

theorem listToMap_of_nodup {T : Type} (keyFromElem : T → String) (l : List T)
    (h : (l.map keyFromElem).Nodup) :
    listToMap keyFromElem l = l.map (fun x => (keyFromElem x, x)) := by
  simpa [listToMap] using listToMap_fold_of_nodup keyFromElem l [] (by simp) h

theorem elemMapValue_map {T : Type} (keyFromElem : T → String) (l : List T) (k : String) :
    elemMapValue (l.map (fun x => (keyFromElem x, x))) k
      = l.find? (fun x => decide (keyFromElem x = k)) := by
  induction l with
  | nil => rfl
  | cons a rest ih =>
    simp only [elemMapValue, List.map_cons, List.find?_cons] at ih ⊢
    by_cases hk : keyFromElem a = k
    · simp [hk]
    · simp only [hk, decide_False]
      exact ih

theorem find?_key_of_nodup {T : Type} (keyFromElem : T → String) :
    ∀ (l : List T) (x : T), (l.map keyFromElem).Nodup → x ∈ l →
      l.find? (fun z => decide (keyFromElem z = keyFromElem x)) = some x := by
  intro l
  induction l with
  | nil => intro x _ hx; simp at hx
  | cons a rest ih =>
    intro x hnd hx
    simp only [List.map_cons, List.nodup_cons] at hnd
    simp only [List.find?_cons]
    by_cases hk : keyFromElem a = keyFromElem x
    · simp only [hk, decide_True]
      rcases List.mem_cons.1 hx with rfl | hx
      · rfl
      · exact absurd (hk ▸ List.mem_map_of_mem keyFromElem hx) hnd.1
    · simp only [hk, decide_False]
      rcases List.mem_cons.1 hx with rfl | hx
      · exact absurd rfl hk
      · exact ih x hnd.2 hx

/-- What `listsAreEqual` compares when no list holds two elements with one key. -/
theorem listsAreEqual_iff_of_nodup {T : Type} (keyFromElem : T → String)
    (operatorEq : T → T → Bool) (l1 l2 : List T)
    (h1 : (l1.map keyFromElem).Nodup) (h2 : (l2.map keyFromElem).Nodup) :
    listsAreEqual keyFromElem operatorEq l1 l2 = true ↔
      l1.length = l2.length
        ∧ ∀ x ∈ l1, ∃ y ∈ l2, keyFromElem y = keyFromElem x ∧ operatorEq x y = true := by
  unfold listsAreEqual
  by_cases hlen : l1.length = l2.length
  · simp only [hlen, ne_eq, not_true_eq_false, if_false, true_and,
      listToMap_of_nodup keyFromElem l1 h1, listToMap_of_nodup keyFromElem l2 h2,
      List.all_eq_true, List.mem_map, elemMapValue_map]
    constructor
    · intro h x hx
      have hk := h (keyFromElem x) ⟨(keyFromElem x, x), ⟨x, hx, rfl⟩, rfl⟩
      rw [find?_key_of_nodup keyFromElem l1 x h1 hx] at hk
      cases hf : l2.find? (fun z => decide (keyFromElem z = keyFromElem x)) with
      | none => simp [hf] at hk
      | some y =>
        simp only [hf, equals] at hk
        refine ⟨y, List.mem_of_find?_eq_some hf, ?_, hk⟩
        simpa using List.find?_some hf
    · rintro h k ⟨e, ⟨x, hx, rfl⟩, rfl⟩
      obtain ⟨y, hy, hky, he⟩ := h x hx
      have hf := find?_key_of_nodup keyFromElem l2 y h2 hy
      rw [hky] at hf
      simp only [hf, find?_key_of_nodup keyFromElem l1 x h1 hx, equals]
      exact he
  · simp [hlen]

theorem listsAreEqual_true_symm {T : Type} (keyFromElem : T → String)
    (operatorEq : T → T → Bool) (hsym : ∀ a b, operatorEq a b = true → operatorEq b a = true)
    (l1 l2 : List T) (h1 : (l1.map keyFromElem).Nodup) (h2 : (l2.map keyFromElem).Nodup)
    (h : listsAreEqual keyFromElem operatorEq l1 l2 = true) :
    listsAreEqual keyFromElem operatorEq l2 l1 = true := by
  rw [listsAreEqual_iff_of_nodup keyFromElem operatorEq l1 l2 h1 h2] at h
  rw [listsAreEqual_iff_of_nodup keyFromElem operatorEq l2 l1 h2 h1]
  obtain ⟨hlen, hall⟩ := h
  refine ⟨hlen.symm, fun y hy => ?_⟩
  have hsub : l1.map keyFromElem ⊆ l2.map keyFromElem := by
    intro k hk
    obtain ⟨x, hx, rfl⟩ := List.mem_map.1 hk
    obtain ⟨y', hy', hky, -⟩ := hall x hx
    exact hky ▸ List.mem_map_of_mem keyFromElem hy'
  have hperm : (l1.map keyFromElem).Perm (l2.map keyFromElem) :=
    (List.subperm_of_subset h1 hsub).perm_of_length_le (by simp [hlen])
  have hk : keyFromElem y ∈ l1.map keyFromElem :=
    hperm.symm.subset (List.mem_map_of_mem keyFromElem hy)
  obtain ⟨x, hx, hkx⟩ := List.mem_map.1 hk
  obtain ⟨y', hy', hky, he⟩ := hall x hx
  have hyy : y' = y := List.inj_on_of_nodup_map h2 hy' hy (hky.trans hkx)
  subst hyy
  exact ⟨x, hx, hkx, hsym x y' he⟩

theorem listsAreEqual_symm {T : Type} (keyFromElem : T → String)
    (operatorEq : T → T → Bool) (hsym : ∀ a b, operatorEq a b = true → operatorEq b a = true)
    (l1 l2 : List T) (h1 : (l1.map keyFromElem).Nodup) (h2 : (l2.map keyFromElem).Nodup) :
    listsAreEqual keyFromElem operatorEq l1 l2 = listsAreEqual keyFromElem operatorEq l2 l1 := by
  rw [Bool.eq_iff_iff]
  exact ⟨listsAreEqual_true_symm keyFromElem operatorEq hsym l1 l2 h1 h2,
    listsAreEqual_true_symm keyFromElem operatorEq hsym l2 l1 h2 h1⟩


mutual
theorem qVariant_operatorEq_comm : ∀ a b : QVariant, a.operatorEq b = b.operatorEq a
  | .invalid, b => by cases b <;> rfl
  | .bool x, b => by cases b <;> simp [QVariant.operatorEq, BEq.comm]
  | .int x, b => by cases b <;> simp [QVariant.operatorEq, BEq.comm]
  | .string x, b => by cases b <;> simp [QVariant.operatorEq, BEq.comm]
  | .list items, b => by
    cases b with
    | list others =>
      simp only [QVariant.operatorEq]
      exact variantListEq_comm items others
    | _ => rfl
  | .map entries, b => by
    cases b with
    | map others =>
      simp only [QVariant.operatorEq]
      exact variantMapEq_comm entries others
    | _ => rfl
theorem variantListEq_comm : ∀ a b : List QVariant, variantListEq a b = variantListEq b a
  | [], b => by cases b <;> rfl
  | v :: rest, b => by
    cases b with
    | nil => rfl
    | cons w others =>
      simp only [variantListEq]
      rw [qVariant_operatorEq_comm v w, variantListEq_comm rest others]
theorem variantMapEq_comm :
    ∀ a b : List (String × QVariant), variantMapEq a b = variantMapEq b a
  | [], b => by cases b <;> rfl
  | (k, v) :: rest, b => by
    cases b with
    | nil => rfl
    | cons e others =>
      obtain ⟨l, w⟩ := e
      simp only [variantMapEq]
      rw [qVariant_operatorEq_comm v w, variantMapEq_comm rest others, BEq.comm]
end

theorem setEq_comm {α : Type} [DecidableEq α] (a b : List α) : setEq a b = setEq b a := by
  simp only [setEq, Bool.and_comm]

theorem sourceArtifactInternal_operatorEq_comm (a b : SourceArtifactInternal) :
    a.operatorEq b = b.operatorEq a := by
  simp only [SourceArtifactInternal.operatorEq, PropertyMap.operatorEq]
  rw [setEq_comm a.fileTags, variantMapEq_comm a.properties.value,
    BEq.comm (a := a.absoluteFilePath), BEq.comm (a := a.overrideFileTags)]

theorem rule_operatorEq_symm (r1 r2 : Rule) (h : r1.operatorEq r2 = true) :
    r2.operatorEq r1 = true := by
  rw [Rule.operatorEq_eq_true_iff] at h ⊢
  obtain ⟨h1, h2, h3, h4, h5, h6, h7, h8, h9, h10, h11, h12⟩ := h
  refine ⟨h1.symm, h2.symm, h3.symm, fun t => (h4 t).symm, fun t => (h5 t).symm,
    fun t => (h6 t).symm, fun t => (h7 t).symm, fun t => (h8 t).symm, fun t => (h9 t).symm,
    h10.symm, h11.symm, ?_⟩
  apply List.Forall₂.flip
  exact h12.imp (fun a1 a2 ha =>
    ⟨ha.1.symm, fun t => (ha.2.1 t).symm, ha.2.2.1.symm, ha.2.2.2.2, ha.2.2.2.1⟩)

/-- C30 (as stated, refuted): a list that holds the source artifact `/a` twice compares equal
to the list of `/a` and `/b` (the map of the first list has the one key `/a`), and the list of
`/a` and `/b` does not compare equal to it (the key `/b` is missing in the other map). -/
theorem sourceArtifactSetsAreEqual_symmetric_counterexample :
    sourceArtifactSetsAreEqual [demoSourceArtifact "/a", demoSourceArtifact "/a"]
        [demoSourceArtifact "/a", demoSourceArtifact "/b"] = true
      ∧ sourceArtifactSetsAreEqual [demoSourceArtifact "/a", demoSourceArtifact "/b"]
        [demoSourceArtifact "/a", demoSourceArtifact "/a"] = false := by
  decide

/-- C30 (amended): the keyed list comparison is symmetric on lists in which no two elements
have the same key: for all such lists `l1` and `l2` of non-null elements of a class whose
`operator==` is symmetric, `listsAreEqual(l1, l2) = listsAreEqual(l2, l1)`; so it is for source
artifacts (`sourceArtifactSetsAreEqual`) and for rules (`ruleListsAreEqual`). -/
theorem listsAreEqual_symmetric :
    (∀ (T : Type) (keyFromElem : T → String) (operatorEq : T → T → Bool),
      (∀ a b, operatorEq a b = true → operatorEq b a = true) →
      ∀ l1 l2 : List T, (l1.map keyFromElem).Nodup → (l2.map keyFromElem).Nodup →
        listsAreEqual keyFromElem operatorEq l1 l2 = listsAreEqual keyFromElem operatorEq l2 l1)
    ∧ (∀ l1 l2 : List SourceArtifactInternal,
        (l1.map SourceArtifactInternal.keyFromElem).Nodup →
        (l2.map SourceArtifactInternal.keyFromElem).Nodup →
        sourceArtifactSetsAreEqual l1 l2 = sourceArtifactSetsAreEqual l2 l1)
    ∧ (∀ l1 l2 : List Rule,
        (l1.map Rule.keyFromElem).Nodup → (l2.map Rule.keyFromElem).Nodup →
        ruleListsAreEqual l1 l2 = ruleListsAreEqual l2 l1) :=
  ⟨fun _ keyFromElem operatorEq hsym l1 l2 h1 h2 =>
      listsAreEqual_symm keyFromElem operatorEq hsym l1 l2 h1 h2,
    fun l1 l2 h1 h2 => listsAreEqual_symm _ _
      (fun a b h => (sourceArtifactInternal_operatorEq_comm b a).trans h) l1 l2 h1 h2,
    fun l1 l2 h1 h2 => listsAreEqual_symm _ _ rule_operatorEq_symm l1 l2 h1 h2⟩

/-- C30 (amended), on an example: the lists of `/a`, `/b` and of `/b`, `/a` compare equal in
both orders. -/
theorem listsAreEqual_symmetric_witness :
    sourceArtifactSetsAreEqual [demoSourceArtifact "/a", demoSourceArtifact "/b"]
        [demoSourceArtifact "/b", demoSourceArtifact "/a"]
      = sourceArtifactSetsAreEqual [demoSourceArtifact "/b", demoSourceArtifact "/a"]
        [demoSourceArtifact "/a", demoSourceArtifact "/b"]
    ∧ sourceArtifactSetsAreEqual [demoSourceArtifact "/a", demoSourceArtifact "/b"]
        [demoSourceArtifact "/b", demoSourceArtifact "/a"] = true :=
  ⟨listsAreEqual_symmetric.2.1 [demoSourceArtifact "/a", demoSourceArtifact "/b"]
    [demoSourceArtifact "/b", demoSourceArtifact "/a"] (by decide) (by decide), by decide⟩


/-! ## The properties that an output object binds -/

theorem joinStrings_append_singleton (sep name : String) :
    ∀ path : List String, path ≠ [] →
      joinStrings sep (path ++ [name]) = joinStrings sep path ++ sep ++ name
  | [], h => absurd rfl h
  | [x], _ => by simp [joinStrings]
  | x :: y :: rest, _ => by
    have ih := joinStrings_append_singleton sep name (y :: rest) (by simp)
    simp only [List.cons_append] at ih ⊢
    simp only [joinStrings, ih, String.append_assoc]

theorem append_dot_ne_empty (a b : String) : a ++ "." ++ b ≠ "" := by
  intro h
  have := congrArg String.length h
  simp only [String.length_append, String.length_empty] at this
  have hdot : (".".length : Nat) = 1 := rfl
  omega

mutual
theorem extractPropertyValue_eq_entries (names : List String) :
    ∀ (value : ScriptValue) (enclosing : List String) (name : String),
      enclosing ≠ [] → joinStrings "." enclosing ≠ "" →
      extractPropertyValue names (joinStrings "." enclosing) name value
        = entriesOfProperty names enclosing name value
  | .object props, enclosing, name, hne, hj => by
    simp only [extractPropertyValue, entriesOfProperty, hj, if_false]
    have h := extractPropertyValues_eq_entries names props (enclosing ++ [name]) (by simp)
      (by rw [joinStrings_append_singleton "." name enclosing hne]
          exact append_dot_ne_empty _ _)
    rw [joinStrings_append_singleton "." name enclosing hne] at h
    exact h
  | .invalid, _, _, _, _ => by simp [extractPropertyValue, entriesOfProperty, ScriptValue.toVariant]
  | .undefined, _, _, _, _ => by
    simp [extractPropertyValue, entriesOfProperty, ScriptValue.toVariant]
  | .bool _, _, _, _, _ => by simp [extractPropertyValue, entriesOfProperty, ScriptValue.toVariant]
  | .number _, _, _, _, _ => by
    simp [extractPropertyValue, entriesOfProperty, ScriptValue.toVariant]
  | .string _, _, _, _, _ => by
    simp [extractPropertyValue, entriesOfProperty, ScriptValue.toVariant]
  | .array _, _, _, _, _ => by simp [extractPropertyValue, entriesOfProperty, ScriptValue.toVariant]
  | .error _, _, _, _, _ => by simp [extractPropertyValue, entriesOfProperty, ScriptValue.toVariant]
  | .regExp _, _, _, _, _ => by
    simp [extractPropertyValue, entriesOfProperty, ScriptValue.toVariant]
theorem extractPropertyValues_eq_entries (names : List String) :
    ∀ (props : List (String × ScriptValue)) (enclosing : List String),
      enclosing ≠ [] → joinStrings "." enclosing ≠ "" →
      extractPropertyValues names (joinStrings "." enclosing) props
        = entriesOfProperties names enclosing props
  | [], _, _, _ => by simp [extractPropertyValues, entriesOfProperties]
  | (name, value) :: rest, enclosing, hne, hj => by
    simp only [extractPropertyValues, entriesOfProperties, hj, hne, false_and, if_false]
    rw [extractPropertyValue_eq_entries names value enclosing name hne hj,
      extractPropertyValues_eq_entries names rest enclosing hne hj]
end

theorem extractPropertyValue_top_eq_entries (names : List String) (name : String)
    (value : ScriptValue) (h : value.isPlainObject = true → name ≠ "") :
    extractPropertyValue names "" name value = entriesOfProperty names [] name value := by
  cases value with
  | object props =>
    have hn : name ≠ "" := h rfl
    have hj : joinStrings "." [name] ≠ "" := by simpa [joinStrings] using hn
    have := extractPropertyValues_eq_entries names props [name] (by simp) hj
    simp only [joinStrings] at this
    simp only [extractPropertyValue, entriesOfProperty, if_true, List.nil_append]
    exact this
  | _ => simp [extractPropertyValue, entriesOfProperty, ScriptValue.toVariant, joinStrings]

theorem extractPropertyValues_top_eq_entries (names : List String) :
    ∀ props : List (String × ScriptValue),
      (∀ name value, (name, value) ∈ props → value.isPlainObject = true → name ∉ names →
        name ≠ "") →
      extractPropertyValues names "" props = entriesOfProperties names [] props
  | [], _ => by simp [extractPropertyValues, entriesOfProperties]
  | (name, value) :: rest, h => by
    have ih := extractPropertyValues_top_eq_entries names rest
      (fun n v hm => h n v (List.mem_cons_of_mem _ hm))
    simp only [extractPropertyValues, entriesOfProperties, true_and, ih]
    by_cases hin : name ∈ names
    · simp [hin]
    · simp only [hin, if_false]
      rw [extractPropertyValue_top_eq_entries names name value
        (fun hp => h name value (List.mem_cons_self _ _) hp hin)]

/-- C27 (as stated, refuted): in the example object the top-level property with the empty name
holds an object; the properties of that object are extracted with the empty module name, as if
they were at top level: its `filePath` is skipped though it is nested, and the value below its
`cpp` gets the module `cpp` where the keys of the enclosing objects joined by a dot are
`.cpp`. -/
theorem extractPropertyValues_nested_counterexample :
    (extractPropertyValues (getArtifactItemPropertyNames (demoHost [])) ""
        demoEmptyNameObject).map Entry.key = [("cpp", "defines")]
      ∧ (entriesOfProperties (getArtifactItemPropertyNames (demoHost [])) []
        demoEmptyNameObject).map Entry.key = [("", "filePath"), (".cpp", "defines")] := by
  decide

/-- C27 (amended): for every script object in which no top-level property that is extracted and
holds a plain object has the empty name, `extractPropertyValues` collects exactly the entries
the specification words: one entry (module, name, value) per property whose value is not a plain
object, reached through nested plain objects, the module being the keys of the enclosing objects
joined by a dot (empty at top level) and the name the own key of the property, the top-level
properties named in the Artifact item declaration or `explicitlyDependsOn` being skipped with
all they hold, and no nested one. -/
theorem extractPropertyValues_entries (names : List String)
    (props : List (String × ScriptValue))
    (h : ∀ name value, (name, value) ∈ props → value.isPlainObject = true → name ∉ names →
      name ≠ "") :
    extractPropertyValues names "" props = entriesOfProperties names [] props :=
  extractPropertyValues_top_eq_entries names props h

/-- C27 (amended), on an example: the object with `filePath`, a module `cpp` with `defines` and
a nested `filePath`, and a top-level number gives three entries. -/
theorem extractPropertyValues_entries_witness :
    extractPropertyValues (getArtifactItemPropertyNames (demoHost [])) ""
        [("filePath", .string "x.o"),
          ("cpp", .object [("defines", .string "A"), ("filePath", .string "y"),
            ("sub", .object [("flag", .bool true)])]),
          ("level", .number 2)]
      = entriesOfProperties (getArtifactItemPropertyNames (demoHost [])) []
        [("filePath", .string "x.o"),
          ("cpp", .object [("defines", .string "A"), ("filePath", .string "y"),
            ("sub", .object [("flag", .bool true)])]),
          ("level", .number 2)]
    ∧ (entriesOfProperties (getArtifactItemPropertyNames (demoHost [])) []
        [("filePath", .string "x.o"),
          ("cpp", .object [("defines", .string "A"), ("filePath", .string "y"),
            ("sub", .object [("flag", .bool true)])]),
          ("level", .number 2)]).map Entry.key
      = [("cpp", "defines"), ("cpp", "filePath"), ("cpp.sub", "flag"), ("", "level")] :=
  ⟨extractPropertyValues_entries _ _ (by
    intro name value hm hp _
    simp only [List.mem_cons, Prod.mk.injEq, List.mem_singleton, List.not_mem_nil,
      or_false] at hm
    rcases hm with ⟨rfl, rfl⟩ | ⟨rfl, rfl⟩ | ⟨rfl, rfl⟩
    · simp [ScriptValue.isPlainObject] at hp
    · decide
    · simp [ScriptValue.isPlainObject] at hp), by decide⟩


/-! ## Termination of the module sort -/

theorem topSortModulesLoop_some
    (recurse : List ModulePtr → List String → Option (List ModulePtr × List String))
    (children : ModulePtr → List ModulePtr) (allModules : List ResolvedModule) :
    ∀ (modules : List ModulePtr) (seen : List String),
      (∀ m ∈ modules, ∀ seen, ∃ result, recurse (children m) seen = some result) →
      ∃ result, topSortModulesLoop recurse children allModules modules seen = some result := by
  intro modules
  induction modules with
  | nil => intro seen _; exact ⟨_, rfl⟩
  | cons m rest ih =>
    intro seen h
    have hrest : ∀ seen, ∃ result,
        topSortModulesLoop recurse children allModules rest seen = some result :=
      fun seen => ih seen (fun x hx => h x (List.mem_cons_of_mem _ hx))
    simp only [topSortModulesLoop]
    cases hn : moduleName allModules m with
    | none => exact hrest seen
    | some name =>
      obtain ⟨⟨sorted, seen1⟩, h1⟩ := h m (List.mem_cons_self _ _) seen
      obtain ⟨⟨more, seen2⟩, h2⟩ := hrest (setInsert seen1 name)
      simp only [h1, h2]
      exact ⟨_, rfl⟩

theorem topSortModules_some_of_rank (children : ModulePtr → List ModulePtr)
    (allModules : List ResolvedModule) (rank : ModulePtr → Nat)
    (hrank : ∀ m c, c ∈ children m → rank c < rank m) :
    ∀ (fuel : Nat) (modules : List ModulePtr) (seen : List String), 1 ≤ fuel →
      (∀ m ∈ modules, rank m + 2 ≤ fuel) →
      ∃ result, topSortModules children allModules fuel modules seen = some result := by
  intro fuel
  induction fuel with
  | zero => intro _ _ h; omega
  | succ fuel ih =>
    intro modules seen _ hm
    simp only [topSortModules]
    apply topSortModulesLoop_some
    intro m hmem seen'
    have h1 := hm m hmem
    apply ih (children m) seen' (by omega)
    intro c hc
    have := hrank m c hc
    omega

theorem exists_rank_of_acyclic_children (moduleChildren : List (List ModulePtr))
    (hacyclic : ∀ m, ¬ Relation.TransGen (fun m d => d ∈ childrenValue moduleChildren m) m m) :
    ∃ rank : ModulePtr → Nat,
      (∀ m c, c ∈ childrenValue moduleChildren m → rank c < rank m)
        ∧ ∀ m, rank m ≤ moduleChildren.flatten.length := by
  classical
  refine ⟨fun m => (moduleChildren.flatten.toFinset.filter
    (fun d => Relation.TransGen (fun m d => d ∈ childrenValue moduleChildren m) m d)).card,
    ?_, ?_⟩
  · intro m c hc
    have hcU : c ∈ moduleChildren.flatten := by
      simp only [childrenValue] at hc
      cases hg : moduleChildren[m]? with
      | none => simp [hg] at hc
      | some l =>
        simp only [hg, Option.getD_some] at hc
        exact List.mem_flatten.2 ⟨l, List.getElem?_mem hg, hc⟩
    apply Finset.card_lt_card
    refine ⟨?_, ?_⟩
    · intro x hx
      simp only [Finset.mem_filter, List.mem_toFinset] at hx ⊢
      exact ⟨hx.1, Relation.TransGen.head hc hx.2⟩
    · intro hsub
      have hcin : c ∈ moduleChildren.flatten.toFinset.filter
          (fun d => Relation.TransGen (fun m d => d ∈ childrenValue moduleChildren m) m d) := by
        simp only [Finset.mem_filter, List.mem_toFinset]
        exact ⟨hcU, Relation.TransGen.single hc⟩
      have := hsub hcin
      simp only [Finset.mem_filter, List.mem_toFinset] at this
      exact hacyclic c this.2
  · intro m
    exact (Finset.card_le_card (Finset.filter_subset _ _)).trans (List.toFinset_card_le _)

theorem topSortModulesLoop_none
    (recurse : List ModulePtr → List String → Option (List ModulePtr × List String))
    (children : ModulePtr → List ModulePtr) (allModules : List ResolvedModule) (x : ModulePtr)
    (hname : moduleName allModules x ≠ none)
    (hrec : ∀ seen, recurse (children x) seen = none) :
    ∀ (modules : List ModulePtr) (seen : List String), x ∈ modules →
      topSortModulesLoop recurse children allModules modules seen = none := by
  intro modules
  induction modules with
  | nil => intro _ hx; simp at hx
  | cons m rest ih =>
    intro seen hx
    simp only [topSortModulesLoop]
    cases hn : moduleName allModules m with
    | none =>
      rcases List.mem_cons.1 hx with rfl | hx
      · exact absurd hn hname
      · exact ih seen hx
    | some name =>
      simp only
      cases hr : recurse (children m) seen with
      | none => rfl
      | some r =>
        obtain ⟨sorted, seen1⟩ := r
        simp only
        rcases List.mem_cons.1 hx with rfl | hx
        · rw [hrec] at hr
          simp at hr
        · rw [ih _ hx]

theorem topSortModules_none_of_cycle (children : ModulePtr → List ModulePtr)
    (allModules : List ResolvedModule) :
    ∀ (fuel : Nat) (m : ModulePtr),
      Relation.TransGen (fun m d => d ∈ children m ∧ moduleName allModules m ≠ none) m m →
      ∀ (modules : List ModulePtr) (seen : List String), m ∈ modules →
        topSortModules children allModules fuel modules seen = none := by
  intro fuel
  induction fuel with
  | zero => intro _ _ _ _ _; rfl
  | succ fuel ih =>
    intro m hcycle modules seen hm
    obtain ⟨y, ⟨hy, hname⟩, hym⟩ := Relation.TransGen.head'_iff.1 hcycle
    have hyy : Relation.TransGen
        (fun m d => d ∈ children m ∧ moduleName allModules m ≠ none) y y :=
      Relation.TransGen.tail' hym ⟨hy, hname⟩
    simp only [topSortModules]
    exact topSortModulesLoop_none _ children allModules m hname
      (fun seen' => ih y hyy (children m) seen' hy) modules seen hm

/-- C29: `topSortModules` returns for every list of modules and every set of seen names when
the relation of `moduleChildren` has no cycle: a recursion depth that depends on
`moduleChildren` alone is enough. The seen names do not bound the recursion: a module with a
name that lies on a cycle of modules with names keeps `topSortModules` from returning, within
any depth and whatever names are seen, because the children are sorted before the name is
looked up. -/
theorem topSortModules_total (moduleChildren : List (List ModulePtr))
    (allModules : List ResolvedModule) :
    ((∀ m, ¬ Relation.TransGen (fun m d => d ∈ childrenValue moduleChildren m) m m) →
      ∃ depth, ∀ fuel, depth ≤ fuel → ∀ (modules : List ModulePtr) (seen : List String),
        ∃ result, topSortModules (childrenValue moduleChildren) allModules fuel modules seen
          = some result)
    ∧ (∀ m, Relation.TransGen
          (fun m d => d ∈ childrenValue moduleChildren m ∧ moduleName allModules m ≠ none) m m →
        ∀ (fuel : Nat) (modules : List ModulePtr) (seen : List String), m ∈ modules →
          topSortModules (childrenValue moduleChildren) allModules fuel modules seen = none) := by
  constructor
  · intro hacyclic
    obtain ⟨rank, hrank, hbound⟩ := exists_rank_of_acyclic_children moduleChildren hacyclic
    refine ⟨moduleChildren.flatten.length + 2, fun fuel hfuel modules seen => ?_⟩
    apply topSortModules_some_of_rank (childrenValue moduleChildren) allModules rank hrank fuel
      modules seen (by omega)
    intro m _
    have := hbound m
    omega
  · intro m hcycle fuel modules seen hm
    exact topSortModules_none_of_cycle (childrenValue moduleChildren) allModules fuel m hcycle
      modules seen hm


theorem acyclic_of_rank_children (children : ModulePtr → List ModulePtr) (rank : Nat → Nat)
    (h : ∀ m d, d ∈ children m → rank d < rank m) :
    ∀ m, ¬ Relation.TransGen (fun m d => d ∈ children m) m m := by
  have hlt : ∀ m d, Relation.TransGen (fun m d => d ∈ children m) m d → rank d < rank m := by
    intro m d hmd
    induction hmd with
    | single hd => exact h _ _ hd
    | tail _ hd ih => exact Nat.lt_trans (h _ _ hd) ih
  exact fun m hm => Nat.lt_irrefl _ (hlt m m hm)

/-- C29, on examples: with the children of the example modules (`app` has `cpp` and `qbs`,
`cpp` has `qbs`) every call returns within some depth, and the call on `app` within depth 4
gives `qbs`, `cpp`, `app`; with a module `a` that is its own child no call on `a` returns, not
even when the name `a` is already seen. -/
theorem topSortModules_total_witness :
    (∃ depth, ∀ fuel, depth ≤ fuel → ∀ (modules : List ModulePtr) (seen : List String),
        ∃ result, topSortModules (childrenValue [[1, 2], [2], []]) demoModules fuel modules seen
          = some result)
    ∧ topSortModules (childrenValue [[1, 2], [2], []]) demoModules 4 [0] []
        = some ([2, 1, 0], ["qbs", "cpp", "app"])
    ∧ (∀ (fuel : Nat) (modules : List ModulePtr) (seen : List String), 0 ∈ modules →
        topSortModules (childrenValue [[0]]) [demoModule "a" ["a"] none none] fuel modules seen
          = none)
    ∧ topSortModules (childrenValue [[0]]) [demoModule "a" ["a"] none none] 100 [0] ["a"]
        = none := by
  have hacyclic : ∀ m, ¬ Relation.TransGen
      (fun m d => d ∈ childrenValue [[1, 2], [2], []] m) m m := by
    apply acyclic_of_rank_children (childrenValue [[1, 2], [2], []]) (fun m => 3 - m)
    intro m d hd
    match m, hd with
    | 0, hd =>
      simp [childrenValue] at hd
      rcases hd with rfl | rfl <;> decide
    | 1, hd =>
      simp [childrenValue] at hd
      subst hd
      decide
    | 2, hd => simp [childrenValue] at hd
    | n + 3, hd => simp [childrenValue] at hd
  have hcycle : Relation.TransGen
      (fun m d => d ∈ childrenValue [[0]] m
        ∧ moduleName [demoModule "a" ["a"] none none] m ≠ none) 0 0 :=
    Relation.TransGen.single ⟨by decide, by decide⟩
  exact ⟨(topSortModules_total [[1, 2], [2], []] demoModules).1 hacyclic, by decide,
    fun fuel modules seen hm =>
      (topSortModules_total [[0]] [demoModule "a" ["a"] none none]).2 0 hcycle fuel modules seen
        hm,
    by decide⟩


/-! ## The outputs handed to the removal -/

theorem collectOldOutputsOf_mem (rule : RuleConstPtr) (g : BuildGraph) (a : ArtifactPtr)
    (ps : List ArtifactPtr) :
    ∀ (acc res : ArtifactSet), collectOldOutputsOf rule g a ps acc = .ok res →
      ∀ x, x ∈ res ↔ (x ∈ acc ∨ (x ∈ ps ∧ ProducedByRuleFrom rule g a x)) := by
  induction ps with
  | nil =>
    intro acc res h x
    simp only [collectOldOutputsOf, Except.ok.injEq] at h
    subst h
    simp
  | cons p rest ih =>
    intro acc res h x
    simp only [collectOldOutputsOf] at h
    split at h
    · cases h
    · rename_i t ht
      have hP : ProducedByRuleFrom rule g a p ↔ (t.rule.address = rule.address ∧ a ∈ t.inputs) := by
        constructor
        · rintro ⟨art, tp, t', h1, h2, h3, h4, h5⟩
          simp [h1, h2, h3] at ht
          subst ht
          exact ⟨h4, h5⟩
        · rintro ⟨h4, h5⟩
          cases h1 : g.artifact p with
          | none => simp [h1] at ht
          | some art =>
            cases h2 : art.transformer with
            | none => simp [h1, h2] at ht
            | some tp =>
              simp [h1, h2] at ht
              exact ⟨art, tp, t, h1, h2, ht, h4, h5⟩
      split at h
      · rename_i hc
        rw [ih _ _ h x, mem_setInsert]
        constructor
        · rintro ((h1 | rfl) | ⟨h1, h2⟩)
          · exact Or.inl h1
          · exact Or.inr ⟨List.mem_cons_self _ _, hP.2 hc⟩
          · exact Or.inr ⟨List.mem_cons_of_mem _ h1, h2⟩
        · rintro (h1 | ⟨h1, h2⟩)
          · exact Or.inl (Or.inl h1)
          · rcases List.mem_cons.1 h1 with rfl | h1
            · exact Or.inl (Or.inr rfl)
            · exact Or.inr ⟨h1, h2⟩
      · rename_i hc
        rw [ih _ _ h x]
        constructor
        · rintro (h1 | ⟨h1, h2⟩)
          · exact Or.inl h1
          · exact Or.inr ⟨List.mem_cons_of_mem _ h1, h2⟩
        · rintro (h1 | ⟨h1, h2⟩)
          · exact Or.inl h1
          · rcases List.mem_cons.1 h1 with rfl | h1
            · exact absurd (hP.1 h2) hc
            · exact Or.inr ⟨h1, h2⟩

theorem collectOldOutputArtifacts_mem (rule : RuleConstPtr) (g : BuildGraph)
    (inputs : List ArtifactPtr) :
    ∀ (acc res : ArtifactSet), collectOldOutputArtifacts rule g inputs acc = .ok res →
      ∀ x, x ∈ res ↔ (x ∈ acc ∨ ∃ a ∈ inputs, ∃ inputArtifact,
        g.artifact a = some inputArtifact ∧ x ∈ inputArtifact.parents
          ∧ ProducedByRuleFrom rule g a x) := by
  induction inputs with
  | nil =>
    intro acc res h x
    simp only [collectOldOutputArtifacts, Except.ok.injEq] at h
    subst h
    simp
  | cons a rest ih =>
    intro acc res h x
    simp only [collectOldOutputArtifacts] at h
    split at h
    · cases h
    · rename_i res1 h1
      rw [ih _ _ h x, collectOldOutputsOf_mem rule g a _ _ _ h1 x]
      constructor
      · rintro ((h2 | ⟨h2, h3⟩) | ⟨b, hb, art, h2, h3, h4⟩)
        · exact Or.inl h2
        · cases hg : g.artifact a with
          | none => simp [hg] at h2
          | some art =>
            simp only [hg, Option.map_some', Option.getD_some] at h2
            exact Or.inr ⟨a, List.mem_cons_self _ _, art, hg, h2, h3⟩
        · exact Or.inr ⟨b, List.mem_cons_of_mem _ hb, art, h2, h3, h4⟩
      · rintro (h2 | ⟨b, hb, art, h2, h3, h4⟩)
        · exact Or.inl (Or.inl h2)
        · rcases List.mem_cons.1 hb with rfl | hb
          · exact Or.inl (Or.inr ⟨by simp [h2, h3], h4⟩)
          · exact Or.inr ⟨b, hb, art, h2, h3, h4⟩

theorem doApply_eq_afterRemoval (host : ScriptHost) (product : ResolvedProduct)
    (rule : RuleConstPtr) (inputArtifacts : ArtifactSet) (s s1 : State)
    (outputArtifacts : List ArtifactPtr)
    (ruleArtifactArtifactMap : List (RuleArtifact × ArtifactPtr)) (oldOutputs : ArtifactSet)
    (hcancel : host.cancelRequested s = false)
    (hcreate : createOutputs host product rule s.graph.transformers.length inputArtifacts
        (createTransformer product rule inputArtifacts s)
      = (.ok (outputArtifacts, ruleArtifactArtifactMap), s1))
    (hold : collectOldOutputArtifacts rule s1.graph inputArtifacts [] = .ok oldOutputs) :
    doApply host product rule inputArtifacts s
      = doApplyAfterRemoval host rule s.graph.transformers.length outputArtifacts
          ruleArtifactArtifactMap s1
          (handleRemovedRuleOutputs host s1.m_completeInputSet
            (setMinus oldOutputs (setFromList outputArtifacts)) s1.graph) := by
  unfold doApply
  simp only [hcancel, Bool.false_eq_true, if_false, hcreate, hold]
  cases handleRemovedRuleOutputs host s1.m_completeInputSet
      (setMinus oldOutputs (setFromList outputArtifacts)) s1.graph with
  | mk r g =>
    cases r with
    | error e => rfl
    | ok u =>
      simp only [doApplyAfterRemoval]
      split
      · rfl
      · simp only [connectExplicitlyDependsOn]
        split
        · rfl
        · split
          · rfl
          · simp only [setCommands, trackChanges]


/-- C25 (as stated, refuted): the example rule was applied to `a.cpp` and gave `old.o` (at
address 2), which also depends on `b.cpp` (at address 1); the rule is now applied to `b.cpp`
and creates `a.o` (at address 3). `old.o` is a parent of the input `b.cpp`, its transformer's
rule is the rule being applied, and it is no new output; but `b.cpp` is not an input of its
transformer, and the set handed to `handleRemovedRuleOutputs` is empty. -/
theorem doApply_removed_outputs_counterexample :
    ∃ ruleArtifactArtifactMap s1,
      demoOldOutputCreated = (.ok ([3], ruleArtifactArtifactMap), s1)
      ∧ doApply (demoHost []) (demoProduct false [] [])
            (demoRule 1 false false [demoRuleArtifact "a.o"]) [1] demoStateOldOutput
          = doApplyAfterRemoval (demoHost []) (demoRule 1 false false [demoRuleArtifact "a.o"])
              demoStateOldOutput.graph.transformers.length [3] ruleArtifactArtifactMap s1
              (handleRemovedRuleOutputs (demoHost []) s1.m_completeInputSet [] s1.graph)
      ∧ (∃ inputArtifact, s1.graph.artifact 1 = some inputArtifact
          ∧ 2 ∈ inputArtifact.parents)
      ∧ ProducedByRule (demoRule 1 false false [demoRuleArtifact "a.o"]) s1.graph 2
      ∧ 2 ∉ ([3] : List ArtifactPtr) := by
  have hcreate : demoOldOutputCreated
      = (.ok ([3], [(demoRuleArtifact "a.o", 3)]), demoOldOutputCreated.2) :=
    Prod.ext rfl rfl
  have hold : collectOldOutputArtifacts (demoRule 1 false false [demoRuleArtifact "a.o"])
      demoOldOutputCreated.2.graph [1] [] = .ok [3] := rfl
  refine ⟨_, _, hcreate, ?_, ⟨_, rfl, by decide⟩, ⟨_, _, _, rfl, rfl, rfl, rfl⟩, by decide⟩
  exact doApply_eq_afterRemoval (demoHost []) (demoProduct false [] [])
    (demoRule 1 false false [demoRuleArtifact "a.o"]) [1] demoStateOldOutput
    demoOldOutputCreated.2 [3] [(demoRuleArtifact "a.o", 3)] [3] rfl hcreate hold

/-- C25 (amended): in every `doApply` that gets as far as `handleRemovedRuleOutputs` (it is not
cancelled, `createOutputs` succeeds and `collectOldOutputArtifacts` finds a transformer at every
parent of an input), the set handed to `handleRemovedRuleOutputs` is the old outputs minus the
new outputs, where an old output is a parent artifact of an input artifact `a` whose
transformer's rule is the rule being applied and whose transformer's inputs contain `a`. -/
theorem doApply_removed_outputs (host : ScriptHost) (product : ResolvedProduct)
    (rule : RuleConstPtr) (inputArtifacts : ArtifactSet) (s s1 : State)
    (outputArtifacts : List ArtifactPtr)
    (ruleArtifactArtifactMap : List (RuleArtifact × ArtifactPtr)) (oldOutputs : ArtifactSet)
    (hcancel : host.cancelRequested s = false)
    (hcreate : createOutputs host product rule s.graph.transformers.length inputArtifacts
        (createTransformer product rule inputArtifacts s)
      = (.ok (outputArtifacts, ruleArtifactArtifactMap), s1))
    (hold : collectOldOutputArtifacts rule s1.graph inputArtifacts [] = .ok oldOutputs) :
    doApply host product rule inputArtifacts s
        = doApplyAfterRemoval host rule s.graph.transformers.length outputArtifacts
            ruleArtifactArtifactMap s1
            (handleRemovedRuleOutputs host s1.m_completeInputSet
              (setMinus oldOutputs (setFromList outputArtifacts)) s1.graph)
      ∧ ∀ x, x ∈ setMinus oldOutputs (setFromList outputArtifacts) ↔
          (x ∉ outputArtifacts ∧ ∃ a ∈ inputArtifacts, ∃ inputArtifact,
            s1.graph.artifact a = some inputArtifact ∧ x ∈ inputArtifact.parents
              ∧ ProducedByRuleFrom rule s1.graph a x) := by
  refine ⟨doApply_eq_afterRemoval host product rule inputArtifacts s s1 outputArtifacts
    ruleArtifactArtifactMap oldOutputs hcancel hcreate hold, fun x => ?_⟩
  have hmem := collectOldOutputArtifacts_mem rule s1.graph inputArtifacts [] oldOutputs hold x
  simp only [List.not_mem_nil, false_or] at hmem
  have hnew : x ∈ setFromList outputArtifacts ↔ x ∈ outputArtifacts := by
    have := mem_setUnite [] outputArtifacts x
    simpa [setFromList, setUnite] using this
  simp only [setMinus, List.mem_filter, decide_eq_true_eq, hnew, hmem]
  exact and_comm

/-- C25 (amended), on the example: the rule with the template `a.o` applied to `b.cpp` finds
the old output set `{a.o}` (the new output itself, whose transformer has the input `b.cpp`), and
hands the empty set to `handleRemovedRuleOutputs`. -/
theorem doApply_removed_outputs_witness :
    (doApply (demoHost []) (demoProduct false [] [])
          (demoRule 1 false false [demoRuleArtifact "a.o"]) [1] demoStateOldOutput
        = doApplyAfterRemoval (demoHost []) (demoRule 1 false false [demoRuleArtifact "a.o"])
            demoStateOldOutput.graph.transformers.length [3] [(demoRuleArtifact "a.o", 3)]
            demoOldOutputCreated.2
            (handleRemovedRuleOutputs (demoHost []) demoOldOutputCreated.2.m_completeInputSet
              (setMinus [3] (setFromList [3])) demoOldOutputCreated.2.graph)
      ∧ ∀ x, x ∈ setMinus [3] (setFromList [3]) ↔
          (x ∉ ([3] : List ArtifactPtr) ∧ ∃ a ∈ ([1] : List ArtifactPtr), ∃ inputArtifact,
            demoOldOutputCreated.2.graph.artifact a = some inputArtifact
              ∧ x ∈ inputArtifact.parents
              ∧ ProducedByRuleFrom (demoRule 1 false false [demoRuleArtifact "a.o"])
                  demoOldOutputCreated.2.graph a x))
    ∧ setMinus [3] (setFromList [3]) = ([] : ArtifactSet) :=
  ⟨doApply_removed_outputs (demoHost []) (demoProduct false [] [])
    (demoRule 1 false false [demoRuleArtifact "a.o"]) [1] demoStateOldOutput
    demoOldOutputCreated.2 [3] [(demoRuleArtifact "a.o", 3)] [3] rfl (Prod.ext rfl rfl) rfl,
    by decide⟩


/-! ## Parent links restored on load -/

theorem linksGrow_refl (g : BuildGraph) : LinksGrow g g :=
  ⟨fun _ xn h => ⟨xn, h, rfl, fun _ hy => hy⟩, fun _ xn h => ⟨xn, h⟩,
    fun _ cn h _ hx => Or.inl ⟨cn, h, hx⟩⟩

theorem linksGrow_trans (g1 g2 g3 : BuildGraph) (h12 : LinksGrow g1 g2)
    (h23 : LinksGrow g2 g3) : LinksGrow g1 g3 := by
  refine ⟨fun x xn h => ?_, fun x xn3 h => ?_, fun c cn3 h x hx => ?_⟩
  · obtain ⟨xn2, h2, c2, p2⟩ := h12.1 x xn h
    obtain ⟨xn3, h3, c3, p3⟩ := h23.1 x xn2 h2
    exact ⟨xn3, h3, c3.trans c2, fun y hy => p3 y (p2 y hy)⟩
  · obtain ⟨xn2, h2⟩ := h23.2.1 x xn3 h
    exact h12.2.1 x xn2 h2
  · rcases h23.2.2 c cn3 h x hx with ⟨cn2, h2, hx2⟩ | ⟨xn2, h2, hc2⟩
    · exact h12.2.2 c cn2 h2 x hx2
    · obtain ⟨xn, h1⟩ := h12.2.1 x xn2 h2
      obtain ⟨xn2', h2', c2, -⟩ := h12.1 x xn h1
      rw [h2] at h2'
      simp only [Option.some.injEq] at h2'
      subst h2'
      exact Or.inr ⟨xn, h1, c2 ▸ hc2⟩

/-- A write to a node that keeps its children and its parents. -/
theorem linksGrow_modifyArtifact (g : BuildGraph) (p : ArtifactPtr) (f : Artifact → Artifact)
    (hc : ∀ a, (f a).children = a.children) (hp : ∀ a, (f a).parents = a.parents) :
    LinksGrow g (g.modifyArtifact p f) := by
  have hget : ∀ x, (g.modifyArtifact p f).artifact x
      = if x = p then (g.artifact p).map f else g.artifact x := by
    intro x
    simp only [BuildGraph.artifact, BuildGraph.modifyArtifact, heapGet_heapModify]
  refine ⟨fun x xn h => ?_, fun x xn2 h => ?_, fun c cn2 h x hx => ?_⟩
  · rw [hget]
    by_cases hx : x = p
    · subst hx
      simp only [if_true, h, Option.map_some']
      exact ⟨f xn, rfl, hc xn, fun y hy => by rw [hp]; exact hy⟩
    · simp only [hx, if_false]
      exact ⟨xn, h, rfl, fun _ hy => hy⟩
  · rw [hget] at h
    by_cases hx : x = p
    · subst hx
      cases hg : g.artifact x with
      | none => simp [hg] at h
      | some xn => exact ⟨xn, rfl⟩
    · simp only [hx, if_false] at h
      exact ⟨xn2, h⟩
  · rw [hget] at h
    by_cases hcp : c = p
    · subst hcp
      cases hg : g.artifact c with
      | none => simp [hg] at h
      | some cn =>
        simp only [if_true, hg, Option.map_some', Option.some.injEq] at h
        subst h
        rw [hp] at hx
        exact Or.inl ⟨cn, rfl, hx⟩
    · simp only [hcp, if_false] at h
      exact Or.inl ⟨cn2, h, hx⟩

theorem insertParent_artifact (node child x : ArtifactPtr) (g : BuildGraph) :
    (insertParent node child g).artifact x
      = if x = child
        then (g.artifact child).map (fun c => { c with parents := setInsert c.parents node })
        else g.artifact x := by
  simp only [insertParent, BuildGraph.artifact, BuildGraph.modifyArtifact, heapGet_heapModify]

/-- The statement `child->parents.insert(node)` for a child of the node. -/
theorem linksGrow_insertParent (node child : ArtifactPtr) (g : BuildGraph) (nn : Artifact)
    (hn : g.artifact node = some nn) (hchild : child ∈ nn.children) :
    LinksGrow g (insertParent node child g) := by
  refine ⟨fun x xn h => ?_, fun x xn2 h => ?_, fun c cn2 h x hx => ?_⟩
  · rw [insertParent_artifact]
    by_cases hx : x = child
    · subst hx
      simp only [if_true, h, Option.map_some']
      exact ⟨_, rfl, rfl, fun y hy => (mem_setInsert _ _ _).2 (Or.inl hy)⟩
    · simp only [hx, if_false]
      exact ⟨xn, h, rfl, fun _ hy => hy⟩
  · rw [insertParent_artifact] at h
    by_cases hx : x = child
    · subst hx
      cases hg : g.artifact x with
      | none => simp [hg] at h
      | some xn => exact ⟨xn, rfl⟩
    · simp only [hx, if_false] at h
      exact ⟨xn2, h⟩
  · rw [insertParent_artifact] at h
    by_cases hcp : c = child
    · subst hcp
      cases hg : g.artifact c with
      | none => simp [hg] at h
      | some cn =>
        simp only [if_true, hg, Option.map_some', Option.some.injEq] at h
        subst h
        rcases (mem_setInsert _ _ _).1 hx with hx | rfl
        · exact Or.inl ⟨cn, rfl, hx⟩
        · exact Or.inr ⟨nn, hn, hchild⟩
    · simp only [hcp, if_false] at h
      exact Or.inl ⟨cn2, h, hx⟩

/-- The loop over the children of a node: the graph grows, and every child that is there has
the node as a parent afterwards. -/
theorem insertParent_fold (node : ArtifactPtr) (children : List ArtifactPtr) :
    ∀ (g : BuildGraph) (nn : Artifact), g.artifact node = some nn →
      (∀ c ∈ children, c ∈ nn.children) →
      LinksGrow g (children.foldl (fun g child => insertParent node child g) g)
        ∧ ∀ c ∈ children, ∀ cn, g.artifact c = some cn →
            ∃ cn2, (children.foldl (fun g child => insertParent node child g) g).artifact c
                = some cn2 ∧ node ∈ cn2.parents := by
  induction children with
  | nil => intro g nn _ _; exact ⟨linksGrow_refl g, by simp⟩
  | cons c0 rest ih =>
    intro g nn hn hsub
    have g1 := linksGrow_insertParent node c0 g nn hn (hsub c0 (List.mem_cons_self _ _))
    obtain ⟨nn1, hn1, hc1, -⟩ := g1.1 node nn hn
    obtain ⟨k1, k2⟩ := ih (insertParent node c0 g) nn1 hn1
      (fun c hc => hc1 ▸ hsub c (List.mem_cons_of_mem _ hc))
    simp only [List.foldl_cons]
    refine ⟨linksGrow_trans _ _ _ g1 k1, fun c hc cn hcn => ?_⟩
    rcases List.mem_cons.1 hc with rfl | hc
    · have h0 : (insertParent node c g).artifact c
          = some { cn with parents := setInsert cn.parents node } := by
        rw [insertParent_artifact]
        simp [hcn]
      obtain ⟨cn2, h2, -, hp2⟩ := k1.1 c _ h0
      exact ⟨cn2, h2, hp2 node ((mem_setInsert _ _ _).2 (Or.inr rfl))⟩
    · obtain ⟨cn1, hcn1, -, -⟩ := g1.1 c cn hcn
      exact k2 c hc cn1 hcn1

/-- The body of the loop over the nodes of a product, for one node. -/
theorem restoreParentLinksOfNode_links (product : Nat) (node : ArtifactPtr) (g : BuildGraph) :
    LinksGrow g (restoreParentLinksOfNode product node g)
      ∧ ∀ nn, g.artifact node = some nn → ∀ c ∈ nn.children, ∀ cn, g.artifact c = some cn →
          ∃ cn2, (restoreParentLinksOfNode product node g).artifact c = some cn2
            ∧ node ∈ cn2.parents := by
  have g0 : LinksGrow g (g.modifyArtifact node (fun n => { n with product := product })) :=
    linksGrow_modifyArtifact g node (fun n => { n with product := product }) (fun _ => rfl)
      (fun _ => rfl)
  cases hn : g.artifact node with
  | none =>
    refine ⟨?_, fun nn h => by simp at h⟩
    simp only [restoreParentLinksOfNode, hn, Option.map_none', Option.getD_none, List.foldl_nil]
    exact g0
  | some nn =>
    obtain ⟨nn1, hn1, hc1, -⟩ := g0.1 node nn hn
    obtain ⟨k1, k2⟩ := insertParent_fold node nn.children _ nn1 hn1 (fun c hc => hc1 ▸ hc)
    simp only [restoreParentLinksOfNode, hn, Option.map_some', Option.getD_some]
    refine ⟨linksGrow_trans _ _ _ g0 k1, fun nn' hnn c hc cn hcn => ?_⟩
    simp only [Option.some.injEq] at hnn
    subst hnn
    obtain ⟨cn1, hcn1, -, -⟩ := g0.1 c cn hcn
    exact k2 c hc cn1 hcn1


theorem restoreParentLinks_nodes_links (product : Nat) (nodes : List ArtifactPtr) :
    ∀ g : BuildGraph,
      LinksGrow g (nodes.foldl (fun g node => restoreParentLinksOfNode product node g) g)
        ∧ ∀ n ∈ nodes, ∀ nn, g.artifact n = some nn → ∀ c ∈ nn.children, ∀ cn,
            g.artifact c = some cn →
            ∃ cn2, (nodes.foldl (fun g node => restoreParentLinksOfNode product node g)
                g).artifact c = some cn2 ∧ n ∈ cn2.parents := by
  induction nodes with
  | nil => intro g; exact ⟨linksGrow_refl g, by simp⟩
  | cons m rest ih =>
    intro g
    obtain ⟨g1, l1⟩ := restoreParentLinksOfNode_links product m g
    obtain ⟨k1, k2⟩ := ih (restoreParentLinksOfNode product m g)
    simp only [List.foldl_cons]
    refine ⟨linksGrow_trans _ _ _ g1 k1, fun n hn nn hnn c hc cn hcn => ?_⟩
    rcases List.mem_cons.1 hn with rfl | hn
    · obtain ⟨cn1, hcn1, hp1⟩ := l1 nn hnn c hc cn hcn
      obtain ⟨cn2, hcn2, -, hp2⟩ := k1.1 c cn1 hcn1
      exact ⟨cn2, hcn2, hp2 n hp1⟩
    · obtain ⟨nn1, hnn1, hch1, -⟩ := g1.1 n nn hnn
      obtain ⟨cn1, hcn1, -, -⟩ := g1.1 c cn hcn
      exact k2 n hn nn1 hnn1 c (hch1 ▸ hc) cn1 hcn1

theorem restoreParentLinks_links (p : ResolvedProduct) (g : BuildGraph) :
    LinksGrow g (restoreParentLinks p g)
      ∧ ∀ buildData, p.buildData = some buildData → ∀ n ∈ buildData.nodes, ∀ nn,
          g.artifact n = some nn → ∀ c ∈ nn.children, ∀ cn, g.artifact c = some cn →
          ∃ cn2, (restoreParentLinks p g).artifact c = some cn2 ∧ n ∈ cn2.parents := by
  unfold restoreParentLinks
  cases hb : p.buildData with
  | none => exact ⟨linksGrow_refl g, fun _ h => by simp at h⟩
  | some buildData =>
    obtain ⟨k1, k2⟩ := restoreParentLinks_nodes_links p.address buildData.nodes g
    refine ⟨k1, fun bd hbd => ?_⟩
    simp only [Option.some.injEq] at hbd
    subst hbd
    exact k2

theorem restoreParentLinks_fold_links (products : List ResolvedProduct) :
    ∀ g : BuildGraph,
      LinksGrow g (products.foldl (fun g p => restoreParentLinks p g) g)
        ∧ ∀ p ∈ products, ∀ buildData, p.buildData = some buildData →
            ∀ n ∈ buildData.nodes, ∀ nn, g.artifact n = some nn → ∀ c ∈ nn.children, ∀ cn,
              g.artifact c = some cn →
              ∃ cn2, (products.foldl (fun g p => restoreParentLinks p g) g).artifact c
                  = some cn2 ∧ n ∈ cn2.parents := by
  induction products with
  | nil => intro g; exact ⟨linksGrow_refl g, by simp⟩
  | cons q rest ih =>
    intro g
    obtain ⟨g1, l1⟩ := restoreParentLinks_links q g
    obtain ⟨k1, k2⟩ := ih (restoreParentLinks q g)
    simp only [List.foldl_cons]
    refine ⟨linksGrow_trans _ _ _ g1 k1, fun p hp bd hbd n hn nn hnn c hc cn hcn => ?_⟩
    rcases List.mem_cons.1 hp with rfl | hp
    · obtain ⟨cn1, hcn1, hp1⟩ := l1 bd hbd n hn nn hnn c hc cn hcn
      obtain ⟨cn2, hcn2, -, hp2⟩ := k1.1 c cn1 hcn1
      exact ⟨cn2, hcn2, hp2 n hp1⟩
    · obtain ⟨nn1, hnn1, hch1, -⟩ := g1.1 n nn hnn
      obtain ⟨cn1, hcn1, -, -⟩ := g1.1 c cn hcn
      exact k2 p hp bd hbd n hn nn1 hnn1 c (hch1 ▸ hc) cn1 hcn1

/-! ### The product of a node -/

theorem insertParent_fold_product (node : ArtifactPtr) (children : List ArtifactPtr)
    (x : ArtifactPtr) :
    ∀ g : BuildGraph,
      ((children.foldl (fun g child => insertParent node child g) g).artifact x).map
          (·.product) = (g.artifact x).map (·.product) := by
  induction children with
  | nil => intro g; rfl
  | cons c rest ih =>
    intro g
    simp only [List.foldl_cons]
    rw [ih]
    simp only [insertParent, BuildGraph.artifact, BuildGraph.modifyArtifact]
    exact heapGet_heapModify_map (·.product)
      (fun c => { c with parents := setInsert c.parents node }) (fun _ => rfl) _ _ _

theorem restoreParentLinksOfNode_product (product : Nat) (node x : ArtifactPtr)
    (g : BuildGraph) :
    ((restoreParentLinksOfNode product node g).artifact x).map (·.product)
      = if x = node then (g.artifact node).map (fun _ => product)
        else (g.artifact x).map (·.product) := by
  simp only [restoreParentLinksOfNode]
  rw [insertParent_fold_product]
  simp only [BuildGraph.artifact, BuildGraph.modifyArtifact, heapGet_heapModify]
  by_cases hx : x = node
  · subst hx
    simp only [if_true, Option.map_map]
    rfl
  · simp only [hx, if_false]

theorem restoreParentLinks_nodes_product (a : Nat) (n : ArtifactPtr) (nodes : List ArtifactPtr) :
    ∀ (g : BuildGraph) (nn : Artifact), g.artifact n = some nn →
      ∃ nn2, (nodes.foldl (fun g node => restoreParentLinksOfNode a node g) g).artifact n
          = some nn2
        ∧ (n ∈ nodes ∨ nn.product = a → nn2.product = a)
        ∧ (n ∉ nodes → nn2.product = nn.product) := by
  induction nodes with
  | nil =>
    intro g nn hn
    exact ⟨nn, hn, fun h => by simpa using h, fun _ => rfl⟩
  | cons m rest ih =>
    intro g nn hn
    have hp := restoreParentLinksOfNode_product a m n g
    by_cases hnm : n = m
    · subst hnm
      simp only [if_true, hn, Option.map_some'] at hp
      cases h1 : (restoreParentLinksOfNode a n g).artifact n with
      | none => simp [h1] at hp
      | some nn1 =>
        simp only [h1, Option.map_some', Option.some.injEq] at hp
        obtain ⟨nn2, h2, ha, -⟩ := ih (restoreParentLinksOfNode a n g) nn1 h1
        simp only [List.foldl_cons]
        exact ⟨nn2, h2, fun _ => ha (Or.inr hp),
          fun h => absurd (List.mem_cons_self _ _) h⟩
    · simp only [hnm, if_false, hn, Option.map_some'] at hp
      cases h1 : (restoreParentLinksOfNode a m g).artifact n with
      | none => simp [h1] at hp
      | some nn1 =>
        simp only [h1, Option.map_some', Option.some.injEq] at hp
        obtain ⟨nn2, h2, ha, hb⟩ := ih (restoreParentLinksOfNode a m g) nn1 h1
        simp only [List.foldl_cons]
        refine ⟨nn2, h2, fun h => ?_, fun h => ?_⟩
        · rcases h with h | h
          · rcases List.mem_cons.1 h with h | h
            · exact absurd h hnm
            · exact ha (Or.inl h)
          · exact ha (Or.inr (hp.trans h))
        · exact (hb (fun e => h (List.mem_cons_of_mem _ e))).trans hp


theorem restoreParentLinks_product (p : ResolvedProduct) (n : ArtifactPtr) (g : BuildGraph)
    (nn : Artifact) (hn : g.artifact n = some nn) :
    ∃ nn2, (restoreParentLinks p g).artifact n = some nn2
      ∧ ((∃ buildData, p.buildData = some buildData ∧ n ∈ buildData.nodes)
          ∨ nn.product = p.address → nn2.product = p.address)
      ∧ (¬ (∃ buildData, p.buildData = some buildData ∧ n ∈ buildData.nodes) →
          nn2.product = nn.product) := by
  unfold restoreParentLinks
  cases hb : p.buildData with
  | none =>
    refine ⟨nn, hn, fun h => ?_, fun _ => rfl⟩
    rcases h with ⟨bd, h, -⟩ | h
    · simp at h
    · exact h
  | some buildData =>
    obtain ⟨nn2, h2, ha, hb2⟩ := restoreParentLinks_nodes_product p.address n buildData.nodes g
      nn hn
    refine ⟨nn2, h2, fun h => ?_, fun h => ?_⟩
    · rcases h with ⟨bd, h, hin⟩ | h
      · simp only [Option.some.injEq] at h
        subst h
        exact ha (Or.inl hin)
      · exact ha (Or.inr h)
    · exact hb2 (fun hin => h ⟨buildData, rfl, hin⟩)

theorem restoreParentLinks_fold_product (a : Nat) (n : ArtifactPtr)
    (products : List ResolvedProduct) :
    ∀ (g : BuildGraph) (nn : Artifact),
      (∀ q ∈ products, ∀ buildData, q.buildData = some buildData → n ∈ buildData.nodes →
        q.address = a) →
      g.artifact n = some nn →
      ((∃ p ∈ products, ∃ buildData, p.buildData = some buildData ∧ n ∈ buildData.nodes)
        ∨ nn.product = a) →
      ∃ nn2, (products.foldl (fun g p => restoreParentLinks p g) g).artifact n = some nn2
        ∧ nn2.product = a := by
  induction products with
  | nil =>
    intro g nn _ hn h
    rcases h with ⟨p, hp, -⟩ | h
    · simp at hp
    · exact ⟨nn, hn, h⟩
  | cons q rest ih =>
    intro g nn hdis hn h
    obtain ⟨nn1, h1, ha, hb⟩ := restoreParentLinks_product q n g nn hn
    simp only [List.foldl_cons]
    apply ih (restoreParentLinks q g) nn1 (fun r hr => hdis r (List.mem_cons_of_mem _ hr)) h1
    by_cases hq : ∃ buildData, q.buildData = some buildData ∧ n ∈ buildData.nodes
    · obtain ⟨bd, hbd, hin⟩ := hq
      have haddr := hdis q (List.mem_cons_self _ _) bd hbd hin
      exact Or.inr (haddr ▸ ha (Or.inl ⟨bd, hbd, hin⟩))
    · rcases h with ⟨p, hp, bd, hbd, hin⟩ | h
      · rcases List.mem_cons.1 hp with rfl | hp
        · exact absurd ⟨bd, hbd, hin⟩ hq
        · exact Or.inl ⟨p, hp, bd, hbd, hin⟩
      · exact Or.inr ((hb hq).trans h)

/-- The build graph after `ResolvedProject::load`: the parent links of all products of the
project and of its sub-projects restored, product after product. -/
theorem load_graph_of_size (freshProduct : ResolvedProduct) (freshRule : Rule) :
    ∀ k : Nat,
      (∀ (values : List PoolValue) (next : Nat) (g : BuildGraph) (project : ResolvedProject)
          (next2 : Nat) (g2 : BuildGraph) (rest : List PoolValue), sizeOf values ≤ k →
        ResolvedProject.load freshProduct freshRule values next g
            = some (project, next2, g2, rest) →
          g2 = project.allProducts.foldl (fun g p => restoreParentLinks p g) g)
      ∧ (∀ (value : PoolValue) (next : Nat) (g : BuildGraph)
          (projects : List ResolvedProject) (next2 : Nat) (g2 : BuildGraph),
          sizeOf value ≤ k →
        loadSubProjects freshProduct freshRule value next g = some (projects, next2, g2) →
          g2 = (allProductsOf projects).foldl (fun g p => restoreParentLinks p g) g)
      ∧ (∀ (items : List PoolValue) (next : Nat) (g : BuildGraph)
          (projects : List ResolvedProject) (next2 : Nat) (g2 : BuildGraph),
          sizeOf items ≤ k →
        loadSubProjectItems freshProduct freshRule items next g = some (projects, next2, g2) →
          g2 = (allProductsOf projects).foldl (fun g p => restoreParentLinks p g) g)
      ∧ (∀ (value : PoolValue) (next : Nat) (g : BuildGraph) (project : ResolvedProject)
          (next2 : Nat) (g2 : BuildGraph), sizeOf value ≤ k →
        loadSubProject freshProduct freshRule value next g = some (project, next2, g2) →
          g2 = project.allProducts.foldl (fun g p => restoreParentLinks p g) g) := by
  intro k
  induction k with
  | zero =>
    refine ⟨?_, ?_, ?_, ?_⟩
    · intro values _ _ _ _ _ _ hs _
      cases values <;> simp at hs
    · intro value _ _ _ _ _ hs _
      cases value <;> simp at hs
    · intro items _ _ _ _ _ hs _
      cases items <;> simp at hs
    · intro value _ _ _ _ _ hs _
      cases value <;> simp at hs
  | succ k ih =>
    obtain ⟨ihA, ihB, ihC, ihD⟩ := ih
    refine ⟨?_, ?_, ?_, ?_⟩
    · intro values next g project next2 g2 rest hs h
      unfold ResolvedProject.load at h
      split at h
      · rename_i name location enabled products subProjects props rest1
        split at h
        · simp at h
        · rename_i loaded next1 hl
          split at h
          · simp at h
          · rename_i subs next3 g3 hsub
            simp only [Option.some.injEq, Prod.mk.injEq] at h
            obtain ⟨rfl, -, rfl, -⟩ := h
            have hlt : sizeOf subProjects ≤ k := by
              simp at hs
              omega
            rw [ihB subProjects _ _ _ _ _ hlt hsub]
            simp only [ResolvedProject.allProducts, List.foldl_append]
      · simp at h
    · intro value next g projects next2 g2 hs h
      unfold loadSubProjects at h
      split at h
      · rename_i items
        have hlt : sizeOf items ≤ k := by
          simp at hs
          omega
        exact ihC items _ _ _ _ _ hlt h
      · simp at h
    · intro items next g projects next2 g2 hs h
      unfold loadSubProjectItems at h
      split at h
      · simp only [Option.some.injEq, Prod.mk.injEq] at h
        obtain ⟨rfl, -, rfl⟩ := h
        rfl
      · rename_i item more
        split at h
        · simp at h
        · rename_i project next1 g1 hp
          split at h
          · simp at h
          · rename_i projects1 next3 g3 hmore
            simp only [Option.some.injEq, Prod.mk.injEq] at h
            obtain ⟨rfl, -, rfl⟩ := h
            have h1 : sizeOf item ≤ k := by
              simp at hs
              omega
            have h2 : sizeOf more ≤ k := by
              simp at hs
              omega
            rw [ihC more _ _ _ _ _ h2 hmore, ihD item _ _ _ _ _ h1 hp]
            simp only [allProductsOf, List.foldl_append]
    · intro value next g project next2 g2 hs h
      unfold loadSubProject at h
      split at h
      · rename_i fields
        split at h
        · rename_i project1 next1 g1 hp
          simp only [Option.some.injEq, Prod.mk.injEq] at h
          obtain ⟨rfl, -, rfl⟩ := h
          have hlt : sizeOf fields ≤ k := by
            simp at hs
            omega
          exact ihA fields _ _ _ _ _ _ hlt hp
        · simp at h
      · simp at h

theorem load_graph (freshProduct : ResolvedProduct) (freshRule : Rule)
    (values : List PoolValue) (next : Nat) (g : BuildGraph) (project : ResolvedProject)
    (next2 : Nat) (g2 : BuildGraph) (rest : List PoolValue)
    (h : ResolvedProject.load freshProduct freshRule values next g
      = some (project, next2, g2, rest)) :
    g2 = project.allProducts.foldl (fun g p => restoreParentLinks p g) g :=
  (load_graph_of_size freshProduct freshRule (sizeOf values)).1 values next g project next2 g2
    rest (Nat.le_refl _) h


theorem products_subset_allProducts (project : ResolvedProject) :
    ∀ p ∈ project.products, p ∈ project.allProducts := by
  intro p hp
  cases project with
  | mk name location enabled products subProjects props =>
    simp only [ResolvedProject.products] at hp
    simp only [ResolvedProject.allProducts, List.mem_append]
    exact Or.inl hp

/-- C21: after `ResolvedProject::load`, for every product of the project (and of its
sub-projects) that has build data, every node `n` of that product's nodes and every child `c` in
`n.children`, both being objects of the build graph: `n` is a member of `c.parents`, the
children of `n` are as they were loaded, and `n.product` is that product when `n` is a node of
no other product; if all parent sets were empty before the load, then conversely every member
`x` of `c.parents` has `c` among its children. -/
theorem load_restores_parent_links (freshProduct : ResolvedProduct) (freshRule : Rule)
    (values : List PoolValue) (next : Nat) (g : BuildGraph) (project : ResolvedProject)
    (next2 : Nat) (g2 : BuildGraph) (rest : List PoolValue)
    (hload : ResolvedProject.load freshProduct freshRule values next g
      = some (project, next2, g2, rest))
    (p : ResolvedProduct) (hp : p ∈ project.allProducts) (buildData : ProductBuildData)
    (hbd : p.buildData = some buildData) (n : ArtifactPtr) (hn : n ∈ buildData.nodes)
    (node : Artifact) (hnode : g.artifact n = some node) (c : ArtifactPtr)
    (hc : c ∈ node.children) (cn : Artifact) (hcn : g.artifact c = some cn) :
    (∀ q ∈ project.products, q ∈ project.allProducts)
    ∧ ∃ node2 cn2, g2.artifact n = some node2 ∧ g2.artifact c = some cn2
      ∧ node2.children = node.children
      ∧ n ∈ cn2.parents
      ∧ ((∀ q ∈ project.allProducts, ∀ bd, q.buildData = some bd → n ∈ bd.nodes →
            q.address = p.address) → node2.product = p.address)
      ∧ ((∀ x xn, g.artifact x = some xn → xn.parents = []) →
          ∀ x ∈ cn2.parents, ∃ xn2, g2.artifact x = some xn2 ∧ c ∈ xn2.children) := by
  refine ⟨products_subset_allProducts project, ?_⟩
  have hg := load_graph freshProduct freshRule values next g project next2 g2 rest hload
  obtain ⟨hgrow, hlinks⟩ := restoreParentLinks_fold_links project.allProducts g
  rw [← hg] at hgrow hlinks
  obtain ⟨node2, hnode2, hch2, -⟩ := hgrow.1 n node hnode
  obtain ⟨cn2, hcn2, hpar⟩ := hlinks p hp buildData hbd n hn node hnode c hc cn hcn
  refine ⟨node2, cn2, hnode2, hcn2, hch2, hpar, fun hdis => ?_, fun hempty x hx => ?_⟩
  · obtain ⟨node3, h3, hprod⟩ := restoreParentLinks_fold_product p.address n
      project.allProducts g node hdis hnode (Or.inl ⟨p, hp, buildData, hbd, hn⟩)
    rw [← hg, hnode2] at h3
    simp only [Option.some.injEq] at h3
    exact h3 ▸ hprod
  · rcases hgrow.2.2 c cn2 hcn2 x hx with ⟨cn', hcn', hx'⟩ | ⟨xn, hxn, hcx⟩
    · rw [hempty c cn' hcn'] at hx'
      simp at hx'
    · obtain ⟨xn2, hxn2, hch, -⟩ := hgrow.1 x xn hxn
      exact ⟨xn2, hxn2, hch ▸ hcx⟩

/-- C21, on the example: the stored project is loaded into the build graph that holds `a.o` with
the children `a.cpp` and `b.cpp` and no parent links; afterwards `a.o` is a parent of `b.cpp`,
and the nodes have the product at address 7. -/
theorem load_restores_parent_links_witness :
    ResolvedProject.load (demoProduct false [] []) (demoRule 1 false false []).rule
        demoStoredProject 7 demoLoadedGraph
      = some (.mk "top" (demoLocation 1) true [demoLoadedProduct] [] [], 8, demoRestoredGraph, [])
    ∧ ((∀ q ∈ (ResolvedProject.mk "top" (demoLocation 1) true [demoLoadedProduct] []
          []).products,
        q ∈ (ResolvedProject.mk "top" (demoLocation 1) true [demoLoadedProduct] []
          []).allProducts)
      ∧ ∃ node2 cn2, demoRestoredGraph.artifact 2 = some node2
        ∧ demoRestoredGraph.artifact 1 = some cn2
        ∧ node2.children = [0, 1]
        ∧ 2 ∈ cn2.parents
        ∧ ((∀ q ∈ (ResolvedProject.mk "top" (demoLocation 1) true [demoLoadedProduct] []
              []).allProducts,
            ∀ bd, q.buildData = some bd → 2 ∈ bd.nodes → q.address = demoLoadedProduct.address) →
            node2.product = demoLoadedProduct.address)
        ∧ ((∀ x xn, demoLoadedGraph.artifact x = some xn → xn.parents = []) →
            ∀ x ∈ cn2.parents, ∃ xn2, demoRestoredGraph.artifact x = some xn2
              ∧ 1 ∈ xn2.children))
    ∧ (demoRestoredGraph.artifact 1).map (·.parents) = some [2]
    ∧ (demoRestoredGraph.artifact 2).map (·.product) = some 7 :=
  ⟨rfl,
    load_restores_parent_links (demoProduct false [] []) (demoRule 1 false false []).rule
      demoStoredProject 7 demoLoadedGraph
      (.mk "top" (demoLocation 1) true [demoLoadedProduct] [] []) 8 demoRestoredGraph [] rfl
      demoLoadedProduct (by simp [ResolvedProject.allProducts, allProductsOf]) ⟨[0, 1, 2]⟩ rfl 2
      (by decide) { newGeneratedArtifact "/build/a.o" with children := [0, 1] } rfl 1 (by decide)
      { demoSource "/src/b.cpp" "cpp" with product := 0 } rfl,
    rfl, rfl⟩


/-! ## No artifact gains a timestamp -/

theorem noTimestampGained_refl (g : BuildGraph) : NoTimestampGained g g :=
  ⟨fun _ art h ht => ⟨art, h, ht⟩, Nat.le_refl _⟩

theorem noTimestampGained_trans (g1 g2 g3 : BuildGraph) (h12 : NoTimestampGained g1 g2)
    (h23 : NoTimestampGained g2 g3) : NoTimestampGained g1 g3 := by
  refine ⟨fun x art3 h ht => ?_, Nat.le_trans h12.2 h23.2⟩
  obtain ⟨art2, h2, ht2⟩ := h23.1 x art3 h ht
  exact h12.1 x art2 h2 ht2

theorem heapModify_length (l : List (Option Artifact)) (p : Nat) (f : Artifact → Artifact) :
    (heapModify l p f).length = l.length := by
  induction l generalizing p with
  | nil => cases p <;> rfl
  | cons a rest ih =>
    cases p with
    | zero => rfl
    | succ p => simp [heapModify, ih]

theorem heapFree_length (l : List (Option Artifact)) (p : Nat) :
    (heapFree l p).length = l.length := by
  induction l generalizing p with
  | nil => cases p <;> rfl
  | cons a rest ih =>
    cases p with
    | zero => rfl
    | succ p => simp [heapFree, ih]

theorem heapGet_heapFree_self (l : List (Option Artifact)) (p : Nat) :
    heapGet (heapFree l p) p = none := by
  induction l generalizing p with
  | nil => cases p <;> rfl
  | cons a rest ih =>
    cases p with
    | zero => rfl
    | succ p => simp only [heapFree, heapGet]; exact ih p

theorem noTimestampGained_modifyArtifact (g : BuildGraph) (p : ArtifactPtr)
    (f : Artifact → Artifact)
    (hf : ∀ a, (f a).timestamp = a.timestamp ∨ (f a).timestamp = none) :
    NoTimestampGained g (g.modifyArtifact p f) := by
  refine ⟨fun x art2 h ht => ?_, by simp [BuildGraph.modifyArtifact, heapModify_length]⟩
  simp only [BuildGraph.artifact, BuildGraph.modifyArtifact, heapGet_heapModify] at h
  by_cases hx : x = p
  · subst hx
    cases hg : heapGet g.artifacts x with
    | none => simp [hg] at h
    | some art =>
      simp only [if_true, hg, Option.map_some', Option.some.injEq] at h
      subst h
      refine ⟨art, hg, ?_⟩
      rcases hf art with h1 | h1
      · rw [← h1]; exact ht
      · exact absurd h1 ht
  · simp only [hx, if_false] at h
    exact ⟨art2, h, ht⟩

theorem noTimestampGained_modifyTransformer (g : BuildGraph) (p : TransformerPtr)
    (f : Transformer → Transformer) : NoTimestampGained g (g.modifyTransformer p f) :=
  ⟨fun _ art h ht => ⟨art, h, ht⟩, Nat.le_refl _⟩

theorem noTimestampGained_connect (p c : ArtifactPtr) (g : BuildGraph) :
    NoTimestampGained g (connect p c g) := by
  unfold connect
  exact noTimestampGained_trans _ _ _
    (noTimestampGained_modifyArtifact g p (fun a => { a with children := setInsert a.children c })
      (fun _ => Or.inl rfl))
    (noTimestampGained_modifyArtifact _ c (fun a => { a with parents := setInsert a.parents p })
      (fun _ => Or.inl rfl))

theorem noTimestampGained_connect_fold (p : ArtifactPtr) (deps : List ArtifactPtr) :
    ∀ g : BuildGraph,
      NoTimestampGained g (deps.foldl (fun g dependency => connect p dependency g) g) := by
  induction deps with
  | nil => intro g; exact noTimestampGained_refl g
  | cons d rest ih =>
    intro g
    exact noTimestampGained_trans _ _ _ (noTimestampGained_connect p d g) (ih _)

theorem noTimestampGained_connect_tags (product : ResolvedProduct) (output : ArtifactPtr)
    (tags : List String) :
    ∀ g : BuildGraph,
      NoTimestampGained g (tags.foldl (fun g tag => (lookupArtifactsByFileTag product tag g).foldl
        (fun g dependency => connect output dependency g) g) g) := by
  induction tags with
  | nil => intro g; exact noTimestampGained_refl g
  | cons t rest ih =>
    intro g
    exact noTimestampGained_trans _ _ _ (noTimestampGained_connect_fold output _ g) (ih _)

theorem noTimestampGained_connect_outputs (deps outputs : List ArtifactPtr) :
    ∀ g : BuildGraph,
      NoTimestampGained g (outputs.foldl (fun g outputArtifact =>
        deps.foldl (fun g dependency => connect outputArtifact dependency g) g) g) := by
  induction outputs with
  | nil => intro g; exact noTimestampGained_refl g
  | cons o rest ih =>
    intro g
    exact noTimestampGained_trans _ _ _ (noTimestampGained_connect_fold o deps g) (ih _)

theorem noTimestampGained_connectInputs (out : ArtifactPtr) (inputs : List ArtifactPtr) :
    ∀ (g g2 : BuildGraph) (r : Except Exception Unit),
      connectInputs out inputs g = (r, g2) → NoTimestampGained g g2 := by
  induction inputs with
  | nil =>
    intro g g2 r h
    simp only [connectInputs, Prod.mk.injEq] at h
    rw [← h.2]
    exact noTimestampGained_refl g
  | cons i rest ih =>
    intro g g2 r h
    simp only [connectInputs] at h
    split at h
    · simp only [Prod.mk.injEq] at h
      rw [← h.2]
      exact noTimestampGained_refl g
    · exact noTimestampGained_trans _ _ _ (noTimestampGained_connect out i g) (ih _ _ _ h)

theorem noTimestampGained_insertArtifact (product : ResolvedProduct) (a : Artifact)
    (ha : a.timestamp = none) (g : BuildGraph) :
    NoTimestampGained g (insertArtifact product a g).2 := by
  refine ⟨fun x art2 h ht => ?_, by simp [insertArtifact]⟩
  simp only [insertArtifact, BuildGraph.artifact] at h
  have hlt := heapGet_lt_length _ _ _ h
  simp only [List.length_append, List.length_singleton] at hlt
  by_cases hx : x < g.artifacts.length
  · rw [heapGet_append_of_lt _ _ _ hx] at h
    exact ⟨art2, h, ht⟩
  · have hxe : x = g.artifacts.length :=
      Nat.le_antisymm (Nat.lt_succ_iff.1 hlt) (Nat.le_of_not_lt hx)
    subst hxe
    rw [heapGet_append_length] at h
    simp only [Option.some.injEq] at h
    subst h
    exact absurd ha ht

theorem noTimestampGained_free (g : BuildGraph) (p : ArtifactPtr) :
    NoTimestampGained g { g with artifacts := heapFree g.artifacts p } := by
  refine ⟨fun x art2 h ht => ?_, by simp [heapFree_length]⟩
  simp only [BuildGraph.artifact] at h
  by_cases hx : x = p
  · subst hx
    rw [heapGet_heapFree_self] at h
    simp at h
  · rw [heapGet_heapFree_ne _ _ _ hx] at h
    exact ⟨art2, h, ht⟩


theorem createdKept_refl (s : State) : CreatedKept s s :=
  ⟨noTimestampGained_refl _, fun _ ha => Or.inl ha⟩

theorem createdKept_trans (s1 s2 s3 : State) (h12 : CreatedKept s1 s2)
    (h23 : CreatedKept s2 s3) : CreatedKept s1 s3 := by
  refine ⟨noTimestampGained_trans _ _ _ h12.1 h23.1, fun a ha => ?_⟩
  rcases h23.2 a ha with h | h
  · exact h12.2 a h
  · exact Or.inr (Nat.le_trans h12.1.2 h)

theorem createdKept_of_graph (s s2 : State) (hg : NoTimestampGained s.graph s2.graph)
    (hc : s2.m_createdArtifacts = s.m_createdArtifacts) : CreatedKept s s2 :=
  ⟨hg, fun _ ha => Or.inl (hc ▸ ha)⟩

theorem createdFresh_of_kept (s s2 : State) (h : CreatedKept s s2) (hf : CreatedFresh s) :
    CreatedFresh s2 := by
  intro a ha art hart
  by_cases ht : art.timestamp = none
  · exact ht
  · obtain ⟨art0, h0, ht0⟩ := h.1.1 a art hart ht
    rcases h.2 a ha with hin | hlen
    · exact absurd (hf a hin art0 h0) ht0
    · exact absurd (heapGet_lt_length _ _ _ h0) (Nat.not_lt.2 hlen)

theorem setOutputProperties_timestamp (host : ScriptHost) (product : ResolvedProduct)
    (fileTags : FileTags) (au : Bool) (a : Artifact) :
    (setOutputProperties host product fileTags au a).timestamp = a.timestamp := by
  unfold setOutputProperties
  simp only
  split <;> split <;> rfl

theorem applyArtifactBindings_timestamp (host : ScriptHost) (obj : ScriptValue) (a : Artifact) :
    (applyArtifactBindings host obj a).timestamp = a.timestamp := by
  unfold applyArtifactBindings
  simp only
  split <;> rfl

theorem lookupOrCreateOutput_createdKept (product : ResolvedProduct) (rule : RuleConstPtr)
    (tp : TransformerPtr) (outputPath : String) (inputs : ArtifactSet) (s s1 : State)
    (r : Except Exception ArtifactPtr)
    (h : lookupOrCreateOutput product rule tp outputPath inputs s = (r, s1)) :
    CreatedKept s s1 := by
  unfold lookupOrCreateOutput at h
  split at h
  · split at h
    · split at h
      · simp only [Prod.mk.injEq] at h; rw [← h.2]; exact createdKept_refl _
      · split at h
        · split at h
          · simp only [Prod.mk.injEq] at h; rw [← h.2]; exact createdKept_refl _
          · split at h
            · simp only [Prod.mk.injEq] at h; rw [← h.2]; exact createdKept_refl _
            · simp only [Prod.mk.injEq] at h; rw [← h.2]; exact createdKept_refl _
        · simp only [Prod.mk.injEq] at h
          rw [← h.2]
          exact createdKept_of_graph _ _ (noTimestampGained_modifyTransformer _ _ _) rfl
    · simp only [Prod.mk.injEq] at h
      rw [← h.2]
      exact createdKept_of_graph _ _ (noTimestampGained_refl _) rfl
  · simp only [Prod.mk.injEq] at h
    rw [← h.2]
    refine ⟨noTimestampGained_insertArtifact product _ rfl s.graph, fun a ha => ?_⟩
    rcases (mem_setInsert _ _ _).1 ha with ha | ha
    · exact Or.inl ha
    · exact Or.inr (by rw [ha]; exact Nat.le_refl _)

theorem createOutputArtifact_createdKept (host : ScriptHost) (product : ResolvedProduct)
    (rule : RuleConstPtr) (tp : TransformerPtr) (filePath : String) (fileTags : FileTags)
    (au : Bool) (inputs : ArtifactSet) (s s' : State) (r : Except Exception ArtifactPtr)
    (h : createOutputArtifact host product rule tp filePath fileTags au inputs s = (r, s')) :
    CreatedKept s s' := by
  unfold createOutputArtifact at h
  simp only at h
  split at h
  · rename_i e s1 hl
    simp only [Prod.mk.injEq] at h
    rw [← h.2]
    exact lookupOrCreateOutput_createdKept _ _ _ _ _ _ _ _ hl
  · rename_i out s1 hl
    have k0 := lookupOrCreateOutput_createdKept _ _ _ _ _ _ _ _ hl
    have g1 : NoTimestampGained s1.graph
        (s1.graph.modifyArtifact out (setOutputProperties host product fileTags au)) :=
      noTimestampGained_modifyArtifact _ _ (setOutputProperties host product fileTags au)
        (fun a => Or.inl (setOutputProperties_timestamp host product fileTags au a))
    split at h
    · rename_i e g2 hconn
      simp only [Prod.mk.injEq] at h
      rw [← h.2]
      exact createdKept_trans _ _ _ k0 (createdKept_of_graph _ _
        (noTimestampGained_trans _ _ _ g1 (noTimestampGained_connectInputs _ _ _ _ _ hconn)) rfl)
    · rename_i u g2 hconn
      have g2' := noTimestampGained_trans _ _ _ g1
        (noTimestampGained_connectInputs _ _ _ _ _ hconn)
      have g3 : NoTimestampGained s1.graph
          ((g2.modifyArtifact out (fun a => { a with transformer := some tp })).modifyTransformer
            tp (fun t => { t with outputs := setInsert t.outputs out })) :=
        noTimestampGained_trans _ _ _ g2' (noTimestampGained_trans _ _ _
          (noTimestampGained_modifyArtifact g2 out (fun a => { a with transformer := some tp })
            (fun _ => Or.inl rfl))
          (noTimestampGained_modifyTransformer _ _ _))
      split at h
      · simp only [Prod.mk.injEq] at h
        rw [← h.2]
        exact createdKept_trans _ _ _ k0 (createdKept_of_graph _ _ g3 rfl)
      · simp only [Prod.mk.injEq] at h
        rw [← h.2]
        exact createdKept_trans _ _ _ k0 (createdKept_of_graph _ _ g3 rfl)

theorem createOutputs_createdKept (host : ScriptHost) (product : ResolvedProduct)
    (rule : RuleConstPtr) (tp : TransformerPtr) (inputs : ArtifactSet) (s s' : State)
    (r : Except Exception (List ArtifactPtr × List (RuleArtifact × ArtifactPtr)))
    (h : createOutputs host product rule tp inputs s = (r, s')) : CreatedKept s s' :=
  (createOutputs_traverse host product rule tp inputs CreatedKept (fun _ _ => True)
    createdKept_refl createdKept_trans (fun _ _ _ _ _ => trivial)
    (fun _ _ _ _ _ _ hc => ⟨createOutputArtifact_createdKept _ _ _ _ _ _ _ _ _ _ _ hc,
      fun _ _ => trivial⟩)
    (fun output obj s => createdKept_of_graph _ _
      (noTimestampGained_trans _ _ _ (noTimestampGained_connect_tags product output _ s.graph)
        (noTimestampGained_modifyArtifact _ output (applyArtifactBindings host obj)
          (fun a => Or.inl (applyArtifactBindings_timestamp host obj a)))) rfl)
    s s' r h).1

theorem deleteRemovedArtifacts_noTimestampGained (inputArtifacts : ArtifactSet)
    (removed : List ArtifactPtr) :
    ∀ (g g2 : BuildGraph) (r : Except Exception Unit),
      deleteRemovedArtifacts inputArtifacts removed g = (r, g2) → NoTimestampGained g g2 := by
  induction removed with
  | nil =>
    intro g g2 r h
    simp only [deleteRemovedArtifacts, Prod.mk.injEq] at h
    rw [← h.2]
    exact noTimestampGained_refl g
  | cons a rest ih =>
    intro g g2 r h
    simp only [deleteRemovedArtifacts] at h
    split at h
    · simp only [Prod.mk.injEq] at h
      rw [← h.2]
      exact noTimestampGained_refl g
    · exact noTimestampGained_trans _ _ _ (noTimestampGained_free g a) (ih _ _ _ h)

theorem handleRemovedRuleOutputs_noTimestampGained (host : ScriptHost)
    (hremoval : RemovalSetsNoTimestamp host) (inputArtifacts toRemove : ArtifactSet)
    (g g2 : BuildGraph) (r : Except Exception Unit)
    (h : handleRemovedRuleOutputs host inputArtifacts toRemove g = (r, g2)) :
    NoTimestampGained g g2 := by
  unfold handleRemovedRuleOutputs at h
  simp only at h
  have hfold : ∀ (l : List ArtifactPtr) (acc : ArtifactSet × BuildGraph),
      NoTimestampGained acc.2 (l.foldl (fun (acc : ArtifactSet × BuildGraph) removedArtifact =>
        host.removeArtifactAndExclusiveDependents removedArtifact acc.1 acc.2) acc).2 := by
    intro l
    induction l with
    | nil => intro acc; exact noTimestampGained_refl _
    | cons a rest ih =>
      intro acc
      exact noTimestampGained_trans _ _ _ (hremoval a acc.1 acc.2) (ih _)
  exact noTimestampGained_trans _ _ _ (hfold toRemove ([], g))
    (deleteRemovedArtifacts_noTimestampGained _ _ _ _ _ h)

theorem evaluateArtifactBindings_noTimestampGained (host : ScriptHost)
    (pairs : List (RuleArtifact × ArtifactPtr)) :
    ∀ (s s' : State) (r : Except Exception Unit),
      evaluateArtifactBindings host pairs s = (r, s') →
        NoTimestampGained s.graph s'.graph := by
  induction pairs with
  | nil =>
    intro s s' r h
    simp only [evaluateArtifactBindings, Prod.mk.injEq] at h
    rw [← h.2]
    exact noTimestampGained_refl _
  | cons p rest ih =>
    intro s s' r h
    obtain ⟨ra, a⟩ := p
    simp only [evaluateArtifactBindings] at h
    split at h
    · exact ih _ _ _ h
    · split at h
      · simp only [Prod.mk.injEq] at h
        rw [← h.2]
        exact noTimestampGained_refl _
      · rename_i cfg _
        exact noTimestampGained_trans _ _ _
          (noTimestampGained_modifyArtifact s.graph a (fun a => { a with properties := ⟨cfg⟩ })
            (fun _ => Or.inl rfl)) (ih _ _ _ h)

theorem invalidateOutputs_createdKept (outputArtifacts : List ArtifactPtr) :
    ∀ s : State, NoTimestampGained s.graph (invalidateOutputs outputArtifacts s).graph
      ∧ (invalidateOutputs outputArtifacts s).m_createdArtifacts = s.m_createdArtifacts := by
  induction outputArtifacts with
  | nil => intro s; exact ⟨noTimestampGained_refl _, rfl⟩
  | cons o rest ih =>
    intro s
    have e : invalidateOutputs (o :: rest) s = invalidateOutputs rest
        { s with
          graph := s.graph.modifyArtifact o (fun a => { a with timestamp := none }),
          m_invalidatedArtifacts := setInsert s.m_invalidatedArtifacts o } := rfl
    rw [e]
    obtain ⟨k1, k2⟩ := ih { s with
      graph := s.graph.modifyArtifact o (fun a => { a with timestamp := none }),
      m_invalidatedArtifacts := setInsert s.m_invalidatedArtifacts o }
    exact ⟨noTimestampGained_trans _ _ _
      (noTimestampGained_modifyArtifact s.graph o (fun a => { a with timestamp := none })
        (fun _ => Or.inr rfl)) k1, k2⟩

theorem trackChanges_createdKept (host : ScriptHost) (tp : TransformerPtr)
    (outputArtifacts : List ArtifactPtr) (s : State) :
    CreatedKept s (trackChanges host tp outputArtifacts s) := by
  unfold trackChanges
  simp only
  split
  · exact createdKept_of_graph _ _
      (noTimestampGained_trans _ _ _ (invalidateOutputs_createdKept outputArtifacts s).1
        (noTimestampGained_modifyTransformer _ _ _))
      (invalidateOutputs_createdKept outputArtifacts s).2
  · exact createdKept_of_graph _ _ (noTimestampGained_modifyTransformer _ _ _) rfl


theorem lookupOrCreateOutput_created_ok (product : ResolvedProduct) (rule : RuleConstPtr)
    (tp : TransformerPtr) (outputPath : String) (inputs : ArtifactSet) (s s1 : State)
    (o : ArtifactPtr)
    (h : lookupOrCreateOutput product rule tp outputPath inputs s = (.ok o, s1)) :
    ∀ a ∈ s1.m_createdArtifacts, a ∈ s.m_createdArtifacts ∨ a = o := by
  unfold lookupOrCreateOutput at h
  split at h
  · split at h
    · split at h
      · simp at h
      · split at h
        · split at h
          · simp at h
          · split at h
            · simp at h
            · simp at h
        · simp only [Prod.mk.injEq] at h
          rw [← h.2]
          exact fun a ha => Or.inl ha
    · simp only [Prod.mk.injEq] at h
      rw [← h.2]
      exact fun a ha => Or.inl ha
  · simp only [Prod.mk.injEq, Except.ok.injEq] at h
    rw [← h.2, ← h.1]
    exact fun a ha => (mem_setInsert _ _ _).1 ha

theorem createOutputArtifact_created_ok (host : ScriptHost) (product : ResolvedProduct)
    (rule : RuleConstPtr) (tp : TransformerPtr) (filePath : String) (fileTags : FileTags)
    (au : Bool) (inputs : ArtifactSet) (s s' : State) (o : ArtifactPtr)
    (h : createOutputArtifact host product rule tp filePath fileTags au inputs s
      = (.ok o, s')) :
    ∀ a ∈ s'.m_createdArtifacts, a ∈ s.m_createdArtifacts ∨ a = o := by
  unfold createOutputArtifact at h
  simp only at h
  split at h
  · simp at h
  · rename_i out s1 hl
    have k0 := lookupOrCreateOutput_created_ok _ _ _ _ _ _ _ _ hl
    split at h
    · simp at h
    · split at h
      · simp only [Prod.mk.injEq, Except.ok.injEq] at h
        rw [← h.2, ← h.1]
        exact k0
      · simp at h

/-- The artifacts that `createOutputs` records as created are among the outputs it returns. -/
theorem createOutputs_created_subset (host : ScriptHost) (product : ResolvedProduct)
    (rule : RuleConstPtr) (tp : TransformerPtr) (inputs : ArtifactSet) (s s' : State)
    (outputArtifacts : List ArtifactPtr) (map : List (RuleArtifact × ArtifactPtr))
    (h : createOutputs host product rule tp inputs s = (.ok (outputArtifacts, map), s')) :
    ∀ a ∈ s'.m_createdArtifacts, a ∈ s.m_createdArtifacts ∨ a ∈ outputArtifacts := by
  have hone : ∀ ra seen s s' o seen',
      createOutputArtifactFromRuleArtifact host product rule tp ra inputs seen s
        = (.ok (o, seen'), s') →
        ∀ a ∈ s'.m_createdArtifacts, a ∈ s.m_createdArtifacts ∨ a = o := by
    intro ra seen s s' o seen' h
    unfold createOutputArtifactFromRuleArtifact at h
    simp only at h
    split at h
    · simp at h
    · split at h
      · simp at h
      · split at h
        · simp at h
        · rename_i a s1 hc
          simp only [Prod.mk.injEq, Except.ok.injEq] at h
          rw [← h.2, ← h.1.1]
          exact createOutputArtifact_created_ok _ _ _ _ _ _ _ _ _ _ _ hc
  have hstatic : ∀ (ras : List RuleArtifact) seen acc s s' m (base : List ArtifactPtr),
      createOutputArtifactsFromRuleArtifacts host product rule tp inputs ras seen acc s
        = (.ok m, s') →
        (∀ a ∈ s.m_createdArtifacts, a ∈ base ∨ a ∈ acc.map (·.2)) →
        ∀ a ∈ s'.m_createdArtifacts, a ∈ base ∨ a ∈ m.map (·.2) := by
    intro ras
    induction ras with
    | nil =>
      intro seen acc s s' m base h hacc
      simp only [createOutputArtifactsFromRuleArtifacts, Prod.mk.injEq, Except.ok.injEq] at h
      rw [← h.2, ← h.1]
      exact hacc
    | cons ra rest ih =>
      intro seen acc s s' m base h hacc
      simp only [createOutputArtifactsFromRuleArtifacts] at h
      split at h
      · simp at h
      · rename_i o seen1 s1 hc
        refine ih _ _ _ _ _ base h (fun a ha => ?_)
        rcases hone _ _ _ _ _ _ hc a ha with k | k
        · rcases hacc a k with k | k
          · exact Or.inl k
          · exact Or.inr (by simp only [List.map_append, List.mem_append]; exact Or.inl k)
        · exact Or.inr (by simp [k])
  have hvalue : ∀ obj s s' o,
      createOutputArtifactFromScriptValue host product rule tp obj inputs s = (.ok o, s') →
        ∀ a ∈ s'.m_createdArtifacts, a ∈ s.m_createdArtifacts ∨ a = o := by
    intro obj s s' o h
    unfold createOutputArtifactFromScriptValue at h
    split at h
    · simp at h
    · simp only at h
      split at h
      · simp at h
      · split at h
        · simp at h
        · rename_i a s1 hc
          split at h
          · simp at h
          · simp only [Prod.mk.injEq, Except.ok.injEq] at h
            rw [← h.2, ← h.1]
            exact fun x hx => createOutputArtifact_created_ok _ _ _ _ _ _ _ _ _ _ _ hc x hx
  have hdynamic : ∀ (items : List ScriptValue) i lst s s' l (base : List ArtifactPtr),
      createOutputArtifactsFromScriptValues host product rule tp inputs items i lst s
        = (.ok l, s') →
        (∀ a ∈ s.m_createdArtifacts, a ∈ base ∨ a ∈ lst) →
        ∀ a ∈ s'.m_createdArtifacts, a ∈ base ∨ a ∈ l := by
    intro items
    induction items with
    | nil =>
      intro i lst s s' l base h hacc
      simp only [createOutputArtifactsFromScriptValues, Prod.mk.injEq, Except.ok.injEq] at h
      rw [← h.2, ← h.1]
      exact hacc
    | cons obj rest ih =>
      intro i lst s s' l base h hacc
      simp only [createOutputArtifactsFromScriptValues] at h
      split at h
      · rename_i o s1 hc
        refine ih _ _ _ _ _ base h (fun a ha => ?_)
        rcases hvalue _ _ _ _ hc a ha with k | k
        · rcases hacc a k with k | k
          · exact Or.inl k
          · exact Or.inr (List.mem_append.2 (Or.inl k))
        · exact Or.inr (by simp [k])
      · simp at h
      · simp at h
  have hrun : ∀ s s' l, runOutputArtifactsScript host product rule tp inputs s = (.ok l, s') →
      ∀ a ∈ s'.m_createdArtifacts, a ∈ s.m_createdArtifacts ∨ a ∈ l := by
    intro s s' l h
    unfold runOutputArtifactsScript at h
    split at h
    · simp at h
    · simp at h
    · exact hdynamic _ _ _ _ _ _ _ h (fun a ha => Or.inl ha)
    · simp at h
  unfold createOutputs at h
  split at h
  · split at h
    · simp at h
    · rename_i l s1 hc
      simp only [Prod.mk.injEq, Except.ok.injEq] at h
      rw [← h.2, ← h.1.1]
      exact hrun _ _ _ hc
  · split at h
    · simp at h
    · rename_i m s1 hc
      have k1 := hstatic _ _ _ _ _ _ s.m_createdArtifacts hc (fun a ha => Or.inl ha)
      split at h
      · rename_i hempty
        split at h
        · simp at h
        · rename_i o x s2 hc2
          simp only [Prod.mk.injEq, Except.ok.injEq] at h
          rw [← h.2, ← h.1.1]
          intro a ha
          rcases hone _ _ _ _ _ _ hc2 a ha with k | k
          · rcases k1 a k with k | k
            · exact Or.inl k
            · have hnil : rule.rule.artifacts = [] := by simpa using hempty
              rw [hnil] at hc
              simp only [createOutputArtifactsFromRuleArtifacts, Prod.mk.injEq,
                Except.ok.injEq] at hc
              rw [← hc.1] at k
              simp at k
          · exact Or.inr (by simp [k])
      · simp only [Prod.mk.injEq, Except.ok.injEq] at h
        rw [← h.2, ← h.1.1]
        exact k1

theorem invalidateOutputs_oldTransformer (outputArtifacts : List ArtifactPtr) :
    ∀ s : State, (invalidateOutputs outputArtifacts s).m_oldTransformer = s.m_oldTransformer := by
  induction outputArtifacts with
  | nil => intro s; rfl
  | cons o rest ih =>
    intro s
    have e : invalidateOutputs (o :: rest) s = invalidateOutputs rest
        { s with
          graph := s.graph.modifyArtifact o (fun a => { a with timestamp := none }),
          m_invalidatedArtifacts := setInsert s.m_invalidatedArtifacts o } := rfl
    rw [e, ih]

theorem doApply_createdKept (host : ScriptHost) (hremoval : RemovalSetsNoTimestamp host)
    (product : ResolvedProduct) (rule : RuleConstPtr) (inputArtifacts : ArtifactSet)
    (s s' : State) (h : doApply host product rule inputArtifacts s = (.ok (), s')) :
    CreatedKept s s' := by
  obtain ⟨outputArtifacts, map, s1, oldOutputs, g2, hcreate, _, hremove, hrest⟩ :=
    doApply_ok_steps host product rule inputArtifacts s s' h
  have k0 : CreatedKept s (createTransformer product rule inputArtifacts s) :=
    createdKept_of_graph _ _ ⟨fun x art2 hx ht => ⟨art2, hx, ht⟩, Nat.le_refl _⟩ rfl
  have k1 := createOutputs_createdKept _ _ _ _ _ _ _ _ hcreate
  have k2 : CreatedKept s1 { s1 with graph := g2 } :=
    createdKept_of_graph _ _
      (handleRemovedRuleOutputs_noTimestampGained host hremoval _ _ _ _ _ hremove) rfl
  have k012 := createdKept_trans _ _ _ (createdKept_trans _ _ _ k0 k1) k2
  rcases hrest with ⟨_, hs'⟩ | ⟨_, s4, commands, heval, _, _, hs'⟩
  · rw [hs']; exact k012
  · rw [hs']
    have k3 : CreatedKept { s1 with graph := g2 }
        (connectExplicitlyDependsOn s.graph.transformers.length outputArtifacts
          { s1 with graph := g2 }) :=
      createdKept_of_graph _ _ (noTimestampGained_connect_outputs _ _ _) rfl
    have k4 : CreatedKept (connectExplicitlyDependsOn s.graph.transformers.length
        outputArtifacts { s1 with graph := g2 }) s4 :=
      createdKept_of_graph _ _ (evaluateArtifactBindings_noTimestampGained _ _ _ _ _ heval)
        (evaluateArtifactBindings_members _ _ _ _ _ heval).2.2
    have k5 : CreatedKept s4 (setCommands s.graph.transformers.length commands s4) :=
      createdKept_of_graph _ _ (noTimestampGained_modifyTransformer _ _ _) rfl
    exact createdKept_trans _ _ _ k012 (createdKept_trans _ _ _ k3
      (createdKept_trans _ _ _ k4 (createdKept_trans _ _ _ k5
        (trackChanges_createdKept _ _ _ _))))

theorem applyToEachInput_createdKept (host : ScriptHost) (hremoval : RemovalSetsNoTimestamp host)
    (product : ResolvedProduct) (rule : RuleConstPtr) (inputs : List ArtifactPtr) :
    ∀ (s s' : State), applyToEachInput host product rule inputs s = (.ok (), s') →
      CreatedKept s s' := by
  induction inputs with
  | nil =>
    intro s s' h
    simp only [applyToEachInput, Prod.mk.injEq, true_and] at h
    rw [← h]
    exact createdKept_refl s
  | cons i rest ih =>
    intro s s' h
    simp only [applyToEachInput] at h
    split at h
    · simp at h
    · rename_i u s1 hd
      exact createdKept_trans _ _ _ (doApply_createdKept host hremoval _ _ _ _ _ hd) (ih _ _ h)

theorem applyRule_createdFresh (host : ScriptHost) (hremoval : RemovalSetsNoTimestamp host)
    (product : ResolvedProduct) (rule : RuleConstPtr) (inputArtifacts : ArtifactSet)
    (s s' : State) (h : applyRule host product rule inputArtifacts s = (.ok (), s'))
    (hnow : returnsAtOnce rule inputArtifacts = false) : CreatedFresh s' := by
  unfold applyRule at h
  unfold returnsAtOnce at hnow
  rw [if_neg (by simp [hnow])] at h
  simp only at h
  have hb : CreatedFresh (beginApplyRule rule inputArtifacts s) :=
    fun a ha => absurd ha (List.not_mem_nil _)
  split at h
  · exact createdFresh_of_kept _ _ (doApply_createdKept host hremoval _ _ _ _ _ h) hb
  · exact createdFresh_of_kept _ _ (applyToEachInput_createdKept host hremoval _ _ _ _ _ h) hb

theorem doApply_created_invalidated_of_new (host : ScriptHost) (product : ResolvedProduct)
    (rule : RuleConstPtr) (inputArtifacts : ArtifactSet) (s s' : State)
    (h : doApply host product rule inputArtifacts s = (.ok (), s'))
    (hold : s'.m_oldTransformer = none) :
    (∀ a ∈ s'.m_createdArtifacts, a ∈ s.m_createdArtifacts ∨ a ∈ s'.m_invalidatedArtifacts)
      ∧ ∀ a ∈ s.m_invalidatedArtifacts, a ∈ s'.m_invalidatedArtifacts := by
  obtain ⟨outputArtifacts, map, s1, oldOutputs, g2, hcreate, _, hremove, hrest⟩ :=
    doApply_ok_steps host product rule inputArtifacts s s' h
  have hsub := createOutputs_created_subset _ _ _ _ _ _ _ _ _ hcreate
  have hinv := createOutputs_invalidated _ _ _ _ _ _ _ _ hcreate
  have hinv0 : s1.m_invalidatedArtifacts = s.m_invalidatedArtifacts := hinv
  have hsub0 : ∀ a ∈ s1.m_createdArtifacts, a ∈ s.m_createdArtifacts ∨ a ∈ outputArtifacts :=
    hsub
  rcases hrest with ⟨hnil, hs'⟩ | ⟨_, s4, commands, heval, _, _, hs'⟩
  · subst hs'
    refine ⟨fun a ha => ?_, fun a ha => ?_⟩
    · rcases hsub0 a ha with k | k
      · exact Or.inl k
      · rw [hnil] at k; exact absurd k (List.not_mem_nil _)
    · show a ∈ s1.m_invalidatedArtifacts
      rw [hinv0]; exact ha
  · obtain ⟨m1, m2, m3⟩ := evaluateArtifactBindings_members _ _ _ _ _ heval
    have m1' : s4.m_invalidatedArtifacts = s1.m_invalidatedArtifacts := m1
    have m2' : s4.m_oldTransformer = s1.m_oldTransformer := m2
    have m3' : s4.m_createdArtifacts = s1.m_createdArtifacts := m3
    set sc := setCommands s.graph.transformers.length commands s4 with hsc
    have hneed : outputsNeedInvalidation host s.graph.transformers.length sc = true := by
      by_contra hn
      have hs2 : s'.m_oldTransformer = sc.m_oldTransformer := by
        rw [hs']; unfold trackChanges; simp only [hn]; rfl
      have hnone : sc.m_oldTransformer = none := by rw [← hs2]; exact hold
      apply hn
      unfold outputsNeedInvalidation
      rw [hnone]
      rfl
    have hcr : s'.m_createdArtifacts = s1.m_createdArtifacts := by
      rw [hs']; unfold trackChanges; simp only [hneed, if_true]
      exact ((invalidateOutputs_createdKept outputArtifacts sc).2).trans m3'
    have hiv : ∀ x, x ∈ s'.m_invalidatedArtifacts ↔
        (x ∈ s.m_invalidatedArtifacts ∨ x ∈ outputArtifacts) := by
      intro x
      have k := (invalidateOutputs_spec outputArtifacts sc).1 x
      have e : s'.m_invalidatedArtifacts
          = (invalidateOutputs outputArtifacts sc).m_invalidatedArtifacts := by
        rw [hs']; unfold trackChanges; simp only [hneed, if_true]
      have e2 : sc.m_invalidatedArtifacts = s.m_invalidatedArtifacts := m1'.trans hinv0
      rw [e, k, e2]
    refine ⟨fun a ha => ?_, fun a ha => (hiv a).2 (Or.inl ha)⟩
    rw [hcr] at ha
    rcases hsub0 a ha with k | k
    · exact Or.inl k
    · exact Or.inr ((hiv a).2 (Or.inr k))


theorem removalSetsNoTimestamp_demoHost (scriptResult : List ScriptValue) :
    RemovalSetsNoTimestamp (demoHost scriptResult) :=
  fun _ _ g => noTimestampGained_refl g

theorem applyRule_returnsAtOnce (host : ScriptHost) (product : ResolvedProduct)
    (rule : RuleConstPtr) (inputArtifacts : ArtifactSet) (s : State)
    (hnow : returnsAtOnce rule inputArtifacts = true) :
    applyRule host product rule inputArtifacts s = (.ok (), s) := by
  unfold applyRule
  unfold returnsAtOnce at hnow
  rw [if_pos hnow]

theorem applyRule_multiplex (host : ScriptHost) (product : ResolvedProduct)
    (rule : RuleConstPtr) (inputArtifacts : ArtifactSet) (s : State)
    (hnow : returnsAtOnce rule inputArtifacts = false) (hm : rule.rule.multiplex = true) :
    applyRule host product rule inputArtifacts s
      = doApply host product rule inputArtifacts (beginApplyRule rule inputArtifacts s) := by
  unfold applyRule
  unfold returnsAtOnce at hnow
  rw [if_neg (by simp [hnow])]
  simp only [hm, if_true]

/-- C28, the code at the failing input: the example dynamic rule, whose script names the path
`x.h` twice (which no check refuses), is applied to `a.cpp`. The call returns normally; the artifact `x.h` (at address 2) is recorded
as created and is not recorded as invalidated. The second lookup of the path finds the artifact
the first one created, whose transformer is the new one, so `m_oldTransformer` is the new
transformer and the change tracking finds nothing changed. -/
theorem applyRule_created_invalidated_counterexample :
    demoAppliedTwice
        = (.ok (), demoAppliedTwice.2)
      ∧ demoAppliedTwice.2.m_createdArtifacts = [2]
      ∧ demoAppliedTwice.2.m_invalidatedArtifacts = []
      ∧ demoAppliedTwice.2.m_oldTransformer = some 0
      ∧ demoAppliedTwice.2.m_transformer = some 0 :=
  ⟨Prod.ext rfl rfl, rfl, rfl, rfl, rfl⟩

/-- What holds of the created artifacts whatever the outputs are: an `applyRule` call that
returns normally leaves the state as it is when the rule needs inputs and has none; otherwise no artifact recorded as created has a timestamp
afterwards (given that the removal of old outputs gives no artifact a timestamp), and for a
multiplex rule every artifact recorded as created is recorded as invalidated if no old
transformer was found (`m_oldTransformer` is null at the end). For each `doApply` that returns
normally with `m_oldTransformer` null, every artifact recorded as created was recorded before
the call or is recorded as invalidated, and what was recorded as invalidated stays. -/
theorem applyRule_created_artifacts (host : ScriptHost) (hremoval : RemovalSetsNoTimestamp host)
    (product : ResolvedProduct) (rule : RuleConstPtr) (inputArtifacts : ArtifactSet)
    (s s' : State) (h : applyRule host product rule inputArtifacts s = (.ok (), s')) :
    (returnsAtOnce rule inputArtifacts = true → s' = s)
      ∧ (returnsAtOnce rule inputArtifacts = false →
          (∀ a ∈ s'.m_createdArtifacts, ∀ art, s'.graph.artifact a = some art →
            art.timestamp = none)
          ∧ (rule.rule.multiplex = true → s'.m_oldTransformer = none →
              ∀ a ∈ s'.m_createdArtifacts, a ∈ s'.m_invalidatedArtifacts))
      ∧ ∀ inputs t t', doApply host product rule inputs t = (.ok (), t') →
          t'.m_oldTransformer = none →
          (∀ a ∈ t'.m_createdArtifacts,
            a ∈ t.m_createdArtifacts ∨ a ∈ t'.m_invalidatedArtifacts)
          ∧ ∀ a ∈ t.m_invalidatedArtifacts, a ∈ t'.m_invalidatedArtifacts := by
  refine ⟨fun hnow => ?_, fun hnow => ⟨?_, fun hm hold a ha => ?_⟩, fun inputs t t' ht hold =>
    doApply_created_invalidated_of_new host product rule inputs t t' ht hold⟩
  · rw [applyRule_returnsAtOnce host product rule inputArtifacts s hnow] at h
    simp only [Prod.mk.injEq, true_and] at h
    exact h.symm
  · exact applyRule_createdFresh host hremoval product rule inputArtifacts s s' h hnow
  · rw [applyRule_multiplex host product rule inputArtifacts s hnow hm] at h
    rcases (doApply_created_invalidated_of_new host product rule inputArtifacts _ s' h hold).1
      a ha with k | k
    · exact absurd k (List.not_mem_nil _)
    · exact k

/-- The created artifacts on an example: the multiplex rule with the template `a.o` applied to
`a.cpp`
creates `a.o` at address 2, finds no old transformer, and records the artifact as invalidated;
the artifact has no timestamp. -/
theorem applyRule_created_artifacts_witness :
    ((returnsAtOnce (demoRule 1 true false [demoRuleArtifact "a.o"]) [0] = true →
        demoAppliedOnce.2 = demoState)
      ∧ (returnsAtOnce (demoRule 1 true false [demoRuleArtifact "a.o"]) [0] = false →
          (∀ a ∈ demoAppliedOnce.2.m_createdArtifacts, ∀ art,
            demoAppliedOnce.2.graph.artifact a = some art → art.timestamp = none)
          ∧ ((demoRule 1 true false [demoRuleArtifact "a.o"]).rule.multiplex = true →
              demoAppliedOnce.2.m_oldTransformer = none →
              ∀ a ∈ demoAppliedOnce.2.m_createdArtifacts,
                a ∈ demoAppliedOnce.2.m_invalidatedArtifacts))
      ∧ ∀ inputs t t', doApply (demoHost []) (demoProduct false [] [])
            (demoRule 1 true false [demoRuleArtifact "a.o"]) inputs t = (.ok (), t') →
          t'.m_oldTransformer = none →
          (∀ a ∈ t'.m_createdArtifacts,
            a ∈ t.m_createdArtifacts ∨ a ∈ t'.m_invalidatedArtifacts)
          ∧ ∀ a ∈ t.m_invalidatedArtifacts, a ∈ t'.m_invalidatedArtifacts)
    ∧ returnsAtOnce (demoRule 1 true false [demoRuleArtifact "a.o"]) [0] = false
    ∧ demoAppliedOnce.2.m_createdArtifacts = [2]
    ∧ demoAppliedOnce.2.m_invalidatedArtifacts = [2]
    ∧ demoAppliedOnce.2.m_oldTransformer = none
    ∧ (demoAppliedOnce.2.graph.artifact 2).map (·.timestamp) = some none := by
  have h : applyRule (demoHost []) (demoProduct false [] [])
      (demoRule 1 true false [demoRuleArtifact "a.o"]) [0] demoState
        = (.ok (), demoAppliedOnce.2) := by
    show demoAppliedOnce = (.ok (), demoAppliedOnce.2)
    exact Prod.ext rfl rfl
  exact ⟨applyRule_created_artifacts (demoHost []) (removalSetsNoTimestamp_demoHost [])
    (demoProduct false [] []) (demoRule 1 true false [demoRuleArtifact "a.o"]) [0] demoState
    demoAppliedOnce.2 h, rfl, rfl, rfl, rfl, rfl⟩


/-! ## Wildcard expansion and the build directory -/

theorem startsWith_iff (s t : String) : startsWith s t = true ↔ t.data <+: s.data := by
  unfold startsWith
  exact List.isPrefixOf_iff_prefix

theorem isPrefix_of_slash_append (b d n : List Char) (hn : '/' ∉ n)
    (h : (b ++ ['/']) <+: (d ++ n)) : b <+: d := by
  obtain ⟨t, ht⟩ := h
  rw [List.append_assoc] at ht
  rcases List.append_eq_append_iff.1 ht with ⟨a, hd, -⟩ | ⟨c, hb, hc⟩
  · exact ⟨a, hd.symm⟩
  · exfalso
    apply hn
    rw [hc]
    simp

theorem isPrefix_of_slash_append_slash (b d n : List Char) (hn : '/' ∉ n)
    (h : (b ++ ['/']) <+: (d ++ '/' :: n)) : b <+: d := by
  obtain ⟨t, ht⟩ := h
  rw [List.append_assoc] at ht
  rcases List.append_eq_append_iff.1 ht with ⟨a, hd, -⟩ | ⟨c, hb, hc⟩
  · exact ⟨a, hd.symm⟩
  · cases c with
    | nil => rw [hb, List.append_nil]
    | cons x c =>
      exfalso
      apply hn
      simp only [List.singleton_append, List.cons_append, List.cons.injEq] at hc
      rw [hc.2]
      simp

/-- A plain entry whose directory path does not start with the build directory has a path that
does not start with the build directory followed by `/`. -/
theorem isPlain_not_startsWith (entry : DirEntry) (buildDir : String)
    (hplain : entry.isPlain) (hdir : startsWith entry.dirPath buildDir = false) :
    startsWith (cleanPath entry.filePath) (String.mk (buildDir.data ++ ['/'])) = false := by
  obtain ⟨hclean, name, hname, hpath⟩ := hplain
  rw [hclean]
  cases hs : startsWith entry.filePath (String.mk (buildDir.data ++ ['/'])) with
  | false => rfl
  | true =>
    exfalso
    have hp := (startsWith_iff _ _).1 hs
    have hd : buildDir.data <+: entry.dirPath.data := by
      rcases hpath with hpath | hpath
      · rw [hpath] at hp
        exact isPrefix_of_slash_append_slash _ _ _ hname hp
      · rw [hpath] at hp
        exact isPrefix_of_slash_append _ _ _ hname hp
    rw [(startsWith_iff _ _).2 hd] at hdir
    exact Bool.noConfusion hdir

theorem expandEntries_reported (fs : FileSystem) (buildDir : String) (isDir : Bool)
    (descend : String → Expansion → Option Expansion)
    (baseDir filePattern : String) (itFilters : DirFilters) (recursive : Bool)
    (hbase : startsWith baseDir buildDir = false)
    (hdescend : ∀ filePath st st', descend filePath st = some st' →
      (∀ p ∈ st.result, ReportedOutside fs buildDir p) →
      ∀ p ∈ st'.result, ReportedOutside fs buildDir p) :
    ∀ (entries : List DirEntry) (st st' : Expansion),
      (∀ e ∈ entries, e ∈ fs.iterate baseDir filePattern itFilters recursive) →
      expandEntries buildDir isDir descend entries st = some st' →
      (∀ p ∈ st.result, ReportedOutside fs buildDir p) →
      ∀ p ∈ st'.result, ReportedOutside fs buildDir p := by
  intro entries
  induction entries with
  | nil =>
    intro st st' _ h hst
    simp only [expandEntries, Option.some.injEq] at h
    rw [← h]
    exact hst
  | cons entry rest ih =>
    intro st st' hsub h hst
    have hrest : ∀ e ∈ rest, e ∈ fs.iterate baseDir filePattern itFilters recursive :=
      fun e he => hsub e (List.mem_cons_of_mem _ he)
    simp only [expandEntries] at h
    split at h
    · exact ih _ _ hrest h hst
    · rename_i hdir
      split at h
      · exact ih _ _ hrest h hst
      · rename_i hreal
        split at h
        · split at h
          · exact Option.noConfusion h
          · rename_i st1 hd
            exact ih _ _ hrest h (hdescend _ _ _ hd hst)
        · rename_i hfile
          refine ih _ _ hrest h (fun p hp => ?_)
          rcases (mem_setInsert _ _ _).1 hp with hp | hp
          · exact hst p hp
          · refine ⟨baseDir, filePattern, itFilters, recursive, entry,
              hsub entry (List.mem_cons_self _ _), hbase, by simpa using hdir, ?_, hp⟩
            intro hisDir
            cases hsym : entry.isSymLink with
            | true => rfl
            | false =>
              exfalso
              apply hreal
              simp [hisDir, hsym, hfile]

theorem expandPatternsParts_reported (fs : FileSystem) (buildDir : String) :
    ∀ (parts : List String) (recursive : Bool) (baseDir : String) (st st' : Expansion),
      startsWith baseDir buildDir = false →
      expandPatternsParts fs buildDir parts recursive baseDir st = some st' →
      (∀ p ∈ st.result, ReportedOutside fs buildDir p) →
      ∀ p ∈ st'.result, ReportedOutside fs buildDir p := by
  intro parts
  induction parts with
  | nil =>
    intro recursive baseDir st st' _ h
    simp only [expandPatternsParts] at h
    exact Option.noConfusion h
  | cons part changed_parts ih =>
    intro recursive baseDir st st' hbase h hst
    simp only [expandPatternsParts] at h
    split at h
    · split at h
      · refine expandEntries_reported fs buildDir false _ baseDir "*" _ true hbase ?_ _ _ _
          (fun _ he => he) h hst
        intro filePath s1 s2 hd hs1
        simp only [Option.some.injEq] at hd
        rw [← hd]
        exact hs1
      · exact ih _ _ _ _ hbase h hst
    · refine expandEntries_reported fs buildDir _ _ baseDir part _ recursive hbase ?_ _ _ _
        (fun _ he => he) h hst
      intro filePath s1 s2 hd hs1
      split at hd
      · simp only [Option.some.injEq] at hd
        rw [← hd]
        exact hs1
      · rename_i hfp
        exact ih _ _ _ _ (by simpa using hfp) hd hs1

theorem expandPatternsInto_reported (fs : FileSystem) (parts : List String)
    (baseDir buildDir : String) (st st' : Expansion)
    (h : expandPatternsInto fs parts baseDir buildDir st = some st')
    (hst : ∀ p ∈ st.result, ReportedOutside fs buildDir p) :
    ∀ p ∈ st'.result, ReportedOutside fs buildDir p := by
  unfold expandPatternsInto at h
  split at h
  · simp only [Option.some.injEq] at h
    rw [← h]
    exact hst
  · rename_i hbase
    exact expandPatternsParts_reported fs buildDir _ _ _ _ _ (by simpa using hbase) h hst

theorem expandPattern_reported (fs : FileSystem) (expandedPrefix_ baseDir buildDir : String)
    (pattern : String) (st st' : Expansion)
    (h : expandPattern fs expandedPrefix_ baseDir buildDir pattern st = some st')
    (hst : ∀ p ∈ st.result, ReportedOutside fs buildDir p) :
    ∀ p ∈ st'.result, ReportedOutside fs buildDir p := by
  unfold expandPattern at h
  simp only at h
  split at h
  · split at h
    · split at h
      · exact Option.noConfusion h
      · exact expandPatternsInto_reported fs _ _ _ _ _ h hst
    · exact expandPatternsInto_reported fs _ _ _ _ _ h hst
  · exact expandPatternsInto_reported fs _ _ _ _ _ h hst

theorem expandPatternsLoop_reported (fs : FileSystem) (expandedPrefix_ baseDir buildDir : String) :
    ∀ (patterns : List String) (st st' : Expansion),
      expandPatternsLoop fs expandedPrefix_ baseDir buildDir patterns st = some st' →
      (∀ p ∈ st.result, ReportedOutside fs buildDir p) →
      ∀ p ∈ st'.result, ReportedOutside fs buildDir p := by
  intro patterns
  induction patterns with
  | nil =>
    intro st st' h hst
    simp only [expandPatternsLoop, Option.some.injEq] at h
    rw [← h]
    exact hst
  | cons pattern rest ih =>
    intro st st' h hst
    simp only [expandPatternsLoop] at h
    split at h
    · exact Option.noConfusion h
    · rename_i s1 hp
      exact ih _ _ h (expandPattern_reported fs _ _ _ _ _ _ hp hst)

theorem expandPatternList_reported (w w' : SourceWildCards) (fs : FileSystem)
    (patterns : List String) (baseDir buildDir : String) (files : List String)
    (h : w.expandPatternList fs patterns baseDir buildDir = some (files, w')) :
    ∀ p ∈ files, ReportedOutside fs buildDir p := by
  unfold SourceWildCards.expandPatternList at h
  split at h
  · exact Option.noConfusion h
  · rename_i st hl
    simp only [Option.some.injEq, Prod.mk.injEq] at h
    rw [← h.1]
    exact expandPatternsLoop_reported fs _ _ _ _ _ _ hl
      (fun p hp => absurd hp (List.not_mem_nil _))

/-- The set that `expandPatterns(group, baseDir, buildDir)` returns is the expansion of the
patterns without the expansion of the exclude patterns. -/
theorem expandPatterns_eq (w w' : SourceWildCards) (fs : FileSystem)
    (baseDir buildDir : String) (files : List String)
    (h : w.expandPatterns fs baseDir buildDir = some (files, w')) :
    ∃ included w1 excluded,
      w.expandPatternList fs w.patterns baseDir buildDir = some (included, w1)
        ∧ w1.expandPatternList fs w1.excludePatterns baseDir buildDir = some (excluded, w')
        ∧ files = setMinus included excluded := by
  unfold SourceWildCards.expandPatterns at h
  split at h
  · exact Option.noConfusion h
  · rename_i included w1 h1
    split at h
    · exact Option.noConfusion h
    · rename_i excluded w2 h2
      simp only [Option.some.injEq, Prod.mk.injEq] at h
      exact ⟨included, w1, excluded, h1, h.2 ▸ h2, h.1.symm⟩


theorem expandEntries_isSome (buildDir : String) (isDir : Bool)
    (descend : String → Expansion → Option Expansion)
    (hdescend : isDir = true → ∀ filePath st, (descend filePath st).isSome = true) :
    ∀ (entries : List DirEntry) (st : Expansion),
      (expandEntries buildDir isDir descend entries st).isSome = true := by
  intro entries
  induction entries with
  | nil => intro st; rfl
  | cons entry rest ih =>
    intro st
    simp only [expandEntries]
    split
    · exact ih _
    · split
      · exact ih _
      · split
        · rename_i hd
          have k := hdescend hd entry.filePath st
          split
          · rename_i hnone
            rw [hnone] at k
            exact Bool.noConfusion k
          · exact ih _
        · exact ih _

/-- The recursive `expandPatterns` returns for every list of parts that is not empty. -/
theorem expandPatternsParts_isSome (fs : FileSystem) (buildDir : String) :
    ∀ (parts : List String), parts ≠ [] → ∀ (recursive : Bool) (baseDir : String)
      (st : Expansion),
      (expandPatternsParts fs buildDir parts recursive baseDir st).isSome = true := by
  intro parts
  induction parts with
  | nil => intro h; exact absurd rfl h
  | cons part changed_parts ih =>
    intro _ recursive baseDir st
    simp only [expandPatternsParts]
    split
    · split
      · exact expandEntries_isSome buildDir false _ (fun h => Bool.noConfusion h) _ _
      · rename_i hne
        exact ih (by intro hnil; apply hne; rw [hnil]; rfl) _ _ _
    · refine expandEntries_isSome buildDir _ _ (fun hd filePath s1 => ?_) _ _
      split
      · rfl
      · exact ih (by intro hnil; rw [hnil] at hd; exact Bool.noConfusion hd) _ _ _

theorem expandPatternsInto_isSome (fs : FileSystem) (parts : List String) (hparts : parts ≠ [])
    (baseDir buildDir : String) (st : Expansion) :
    (expandPatternsInto fs parts baseDir buildDir st).isSome = true := by
  unfold expandPatternsInto
  split
  · rfl
  · exact expandPatternsParts_isSome fs buildDir parts hparts _ _ _

/-- C22, the code at the failing inputs: in the example tree the build directory `/p/build` of
the project directory `/p` holds the generated file `x.cpp`. The patterns `src/../build/x.cpp` and
`./build/x.cpp` both give the set with the path `/p/build/x.cpp`, which lies under the build
directory: the directories visited are `/p/src/..` and `/p/src/../build` (`/p/.` and
`/p/./build`), whose paths do not start with `/p/build`, and the path of the file is cleaned
when it is put into the result. The pattern `build/x.cpp`, which names the same file, is
refused by the guard. -/
theorem expandPatterns_build_directory_counterexample :
    ((demoWildCards ["src/../build/x.cpp"] []).expandPatterns demoFileSystem "/p"
        "/p/build").map (·.1) = some ["/p/build/x.cpp"]
      ∧ ((demoWildCards ["./build/x.cpp"] []).expandPatterns demoFileSystem "/p"
        "/p/build").map (·.1) = some ["/p/build/x.cpp"]
      ∧ startsWith "/p/build/x.cpp" "/p/build/" = true
      ∧ isInsideDirectory "/p/build" "/p/build/x.cpp"
      ∧ ((demoWildCards ["build/x.cpp"] []).expandPatterns demoFileSystem "/p"
        "/p/build").map (·.1) = some [] := by
  refine ⟨rfl, rfl, rfl, ?_, rfl⟩
  unfold isInsideDirectory
  decide

/-- What the two guards do ensure: the set that `expandPatterns(group, baseDir, buildDir)`
returns is the
expansion of the patterns minus the expansion of the exclude patterns, and every path in it is
the clean path of an entry that the directory iteration reported for a directory whose path, as
it was composed and not cleaned, does not start with the build directory path, the path of the
directory of the entry not starting with it either. So a returned path whose entry is plain (its
path is clean and is the path of its directory followed by a name) does not start with the build
directory path followed by `/`. The recursive function returns for every list of parts that is
not empty. -/
theorem expandPatterns_outside_build_directory (w w' : SourceWildCards) (fs : FileSystem)
    (baseDir buildDir : String) (files : List String)
    (h : w.expandPatterns fs baseDir buildDir = some (files, w')) :
    (∃ included w1 excluded,
        w.expandPatternList fs w.patterns baseDir buildDir = some (included, w1)
          ∧ w1.expandPatternList fs w1.excludePatterns baseDir buildDir = some (excluded, w')
          ∧ files = setMinus included excluded)
      ∧ (∀ path ∈ files, ∃ dir filePattern itFilters recursive entry,
          entry ∈ fs.iterate dir filePattern itFilters recursive
            ∧ startsWith dir buildDir = false
            ∧ startsWith entry.dirPath buildDir = false
            ∧ (entry.isDir = true → entry.isSymLink = true)
            ∧ path = cleanPath entry.filePath
            ∧ (entry.isPlain →
                startsWith path (String.mk (buildDir.data ++ ['/'])) = false))
      ∧ ∀ parts dir st, parts ≠ [] →
          (expandPatternsInto fs parts dir buildDir st).isSome = true := by
  obtain ⟨included, w1, excluded, h1, h2, hfiles⟩ := expandPatterns_eq w w' fs _ _ _ h
  refine ⟨⟨included, w1, excluded, h1, h2, hfiles⟩, fun path hpath => ?_,
    fun parts dir st hparts => expandPatternsInto_isSome fs parts hparts dir buildDir st⟩
  have hin : path ∈ included := by
    rw [hfiles] at hpath
    exact (List.mem_filter.1 hpath).1
  obtain ⟨dir, filePattern, itFilters, recursive, entry, he, hdir, hentry, hsym, hp⟩ :=
    expandPatternList_reported w w1 fs _ _ _ _ h1 path hin
  exact ⟨dir, filePattern, itFilters, recursive, entry, he, hdir, hentry, hsym, hp,
    fun hplain => hp ▸ isPlain_not_startsWith entry buildDir hplain hentry⟩

/-- The guards on an example: the patterns `src/*.cpp` and `**/*.cpp` with the exclude
pattern `build/x.cpp` give the one file `/p/src/a.cpp` in the example tree. -/
theorem expandPatterns_outside_build_directory_witness :
    ((∃ included w1 excluded,
        (demoWildCards ["src/*.cpp", "**/*.cpp"] ["build/x.cpp"]).expandPatternList
            demoFileSystem
            (demoWildCards ["src/*.cpp", "**/*.cpp"] ["build/x.cpp"]).patterns "/p" "/p/build"
          = some (included, w1)
          ∧ w1.expandPatternList demoFileSystem w1.excludePatterns "/p" "/p/build"
            = some (excluded,
                { demoWildCards ["src/*.cpp", "**/*.cpp"] ["build/x.cpp"] with
                  dirTimeStamps := [("/p", 7), ("/p/src", 7), ("/p", 7), ("/p", 7)] })
          ∧ ["/p/src/a.cpp"] = setMinus included excluded)
      ∧ (∀ path ∈ ["/p/src/a.cpp"], ∃ dir filePattern itFilters recursive entry,
          entry ∈ demoFileSystem.iterate dir filePattern itFilters recursive
            ∧ startsWith dir "/p/build" = false
            ∧ startsWith entry.dirPath "/p/build" = false
            ∧ (entry.isDir = true → entry.isSymLink = true)
            ∧ path = cleanPath entry.filePath
            ∧ (entry.isPlain →
                startsWith path (String.mk ("/p/build".data ++ ['/'])) = false))
      ∧ ∀ parts dir st, parts ≠ [] →
          (expandPatternsInto demoFileSystem parts dir "/p/build" st).isSome = true)
    ∧ startsWith "/p/src/a.cpp" "/p/build/" = false :=
  ⟨expandPatterns_outside_build_directory
    (demoWildCards ["src/*.cpp", "**/*.cpp"] ["build/x.cpp"])
    { demoWildCards ["src/*.cpp", "**/*.cpp"] ["build/x.cpp"] with
      dirTimeStamps := [("/p", 7), ("/p/src", 7), ("/p", 7), ("/p", 7)] }
    demoFileSystem "/p" "/p/build" ["/p/src/a.cpp"] rfl, rfl⟩

end Qbs
